import Mathlib

/-!
# libbfio path functions

A shallow embedding of `libbfio/libbfio_path.c`:
`libbfio_path_get_current_working_directory` and the two variants of
`libbfio_path_get_full_path` (the one compiled with WINAPI and the POSIX one).

Conventions of the embedding.

* A C string is the list of its characters before the terminator, so a list that
  stands for a C string holds no NUL. `path_length` is the length of that list.
* `size_t` is 64 bits wide; additions and subtractions on it are taken modulo
  `SIZE_MODULUS`.
* A pointer argument is an `Option`: `none` is NULL. An output slot such as
  `char **full_path` is an `Option (Option _)`: `none` is a NULL pointer,
  `some none` a pointer to a NULL slot.
* The operating system, the C library and the allocator are a `System` value.
* The buffer handed back in `*full_path` is the list of the bytes the function
  stored into it, in index order, and `*full_path_size` is the size it was allocated
  with; `FullPathResult.string` reads the string back.
* Failures of the split string functions and of the copy functions, which the callers
  test for, are not part of the embedding.
* The working directory of the process after a call is a field of the result; the calls
  that change it during a call are listed, by the name passed, by
  `windows_directory_changes`.
-/

namespace Libbfio

/-- Number of values of `size_t`. -/
def SIZE_MODULUS : Nat := 18446744073709551616

/-- The largest `ssize_t`. -/
def SSIZE_MAX : Nat := 9223372036854775807

/-- The string terminator. -/
def NUL : Char := Char.ofNat 0

/-- Addition on `size_t`. -/
def size_add (a b : Nat) : Nat := (a + b) % SIZE_MODULUS

/-- Subtraction on `size_t`. -/
def size_sub (a b : Nat) : Nat := (a % SIZE_MODULUS + SIZE_MODULUS - b % SIZE_MODULUS) % SIZE_MODULUS

/-- The string a `char *` points to: the bytes before the first NUL. -/
def c_string (bytes : List Char) : List Char := bytes.takeWhile (fun c => c != NUL)

/-- The error domains passed to `liberror_error_set` in this file. -/
inductive ErrorDomain where
  | ARGUMENTS
  | MEMORY
  | RUNTIME
  deriving DecidableEq, Repr

/-- The error codes passed to `liberror_error_set` in this file. -/
inductive ErrorCode where
  | INVALID_VALUE
  | VALUE_ZERO_OR_LESS
  | VALUE_EXCEEDS_MAXIMUM
  | UNSUPPORTED_VALUE
  | VALUE_ALREADY_SET
  | VALUE_MISSING
  | VALUE_OUT_OF_BOUNDS
  | GET_FAILED
  | SET_FAILED
  | INITIALIZE_FAILED
  | INSUFFICIENT
  deriving DecidableEq, Repr

/-- One call of `liberror_error_set`: its domain and code arguments. -/
structure ErrorEntry where
  domain : ErrorDomain
  code : ErrorCode
  deriving DecidableEq, Repr

/-- The three ways `libbfio_path_get_current_working_directory` is compiled:
without WINAPI, with WINAPI, with WINAPI and USE_CRT_FUNCTIONS. -/
inductive Build where
  | POSIX
  | WINAPI
  | WINAPI_CRT
  deriving DecidableEq, Repr

/-- What the functions of this file see of the process, the operating system and the
allocator. -/
structure System where
  /-- The value of `PATH_MAX` (of `_MAX_PATH` in the WINAPI_CRT build). -/
  PATH_MAX : Nat
  /-- The current working directory of the process. -/
  working_directory : List Char
  /-- Whether the call that reports the working directory fails while the process is in
  the given directory. -/
  lookup_fails : List Char → Bool
  /-- The directory the process is in after a successful change of directory to the
  given name, `none` when the change fails. -/
  change_directory : List Char → Option (List Char)
  /-- Whether `libcstring_narrow_string_allocate` of the given size returns memory. -/
  allocate : Nat → Bool
  /-- The byte found at the given index of the newly allocated working-directory
  buffer before anything is stored in it. -/
  fresh : Nat → Char

/-- A string buffer as the caller of `libbfio_path_get_current_working_directory` sees
it: the string stored at its start and the size reported for it. -/
structure Buffer where
  text : List Char
  size : Nat
  deriving DecidableEq, Repr

/-- The byte `buffer[ index ]`: a character of the string, its terminator, or whatever
the allocation held. -/
def Buffer.byte (sys : System) (buffer : Buffer) (index : Nat) : Char :=
  if index < buffer.text.length then buffer.text.getD index NUL
  else if index = buffer.text.length then NUL
  else sys.fresh index

/-- The `length` bytes of the buffer that start at `start`. -/
def Buffer.bytes (sys : System) (buffer : Buffer) (start length : Nat) : List Char :=
  (List.range length).map (fun k => buffer.byte sys (start + k))

/-- The C string that starts at `&buffer[ start ]`. -/
def Buffer.string_at (sys : System) (buffer : Buffer) (start : Nat) : List Char :=
  if start ≤ buffer.text.length then buffer.text.drop start
  else c_string (buffer.bytes sys start (buffer.size - start))

/-- What a call of `libbfio_path_get_current_working_directory` leaves behind. -/
structure DirectoryResult where
  value : Int
  current_working_directory : Option (Option Buffer)
  current_working_directory_size : Option Nat
  error : List ErrorEntry
  deriving DecidableEq, Repr

/-- The function `libbfio_path_get_current_working_directory` (lines 65-269). -/
def libbfio_path_get_current_working_directory (sys : System) (build : Build)
    (current_working_directory : Option (Option Buffer))
    (current_working_directory_size : Option Nat) : DirectoryResult :=
  match current_working_directory with
  | none =>
    ⟨-1, current_working_directory, current_working_directory_size,
      [⟨.ARGUMENTS, .INVALID_VALUE⟩]⟩
  | some (some _) =>
    ⟨-1, current_working_directory, current_working_directory_size,
      [⟨.RUNTIME, .VALUE_ALREADY_SET⟩]⟩
  | some none =>
    match current_working_directory_size with
    | none =>
      ⟨-1, current_working_directory, current_working_directory_size,
        [⟨.ARGUMENTS, .INVALID_VALUE⟩]⟩
    | some _ =>
      let directory := sys.working_directory
      -- on_error: the slot is reset to NULL and the size to 0
      let on_error (error : List ErrorEntry) : DirectoryResult :=
        ⟨-1, some none, some 0, error⟩
      match build with
      | .WINAPI =>
        -- GetCurrentDirectoryA( 0, NULL ) gives the size with the terminator, 0 on failure
        if sys.lookup_fails directory = true then on_error [⟨.RUNTIME, .GET_FAILED⟩]
        else if directory.length + 1 > SSIZE_MAX then
          on_error [⟨.RUNTIME, .VALUE_OUT_OF_BOUNDS⟩]
        else if sys.allocate (directory.length + 1) = false then
          on_error [⟨.MEMORY, .INSUFFICIENT⟩]
        else
          ⟨1, some (some ⟨directory, directory.length + 1⟩), some (directory.length + 1), []⟩
      | _ =>
        -- the size is PATH_MAX (_MAX_PATH), getcwd fills the buffer or fails
        if sys.allocate sys.PATH_MAX = false then on_error [⟨.MEMORY, .INSUFFICIENT⟩]
        else if sys.lookup_fails directory = true ∨ sys.PATH_MAX < directory.length + 1 then
          on_error [⟨.RUNTIME, .GET_FAILED⟩]
        else
          ⟨1, some (some ⟨directory, sys.PATH_MAX⟩), some sys.PATH_MAX, []⟩

/-- The call of `libbfio_path_get_current_working_directory` on a NULL slot as
`libbfio_path_get_full_path` makes it (lines 495, 606 and 1504): the buffer, or the
errors of the call followed by the error the caller sets. -/
def read_current_directory (sys : System) (build : Build) : Except (List ErrorEntry) Buffer :=
  match libbfio_path_get_current_working_directory sys build (some none) (some 0) with
  | ⟨1, some (some buffer), _, _⟩ => .ok buffer
  | r => .error (r.error ++ [⟨.RUNTIME, .GET_FAILED⟩])

/-- One entry of a split string: the segment pointer with its size. `none` is the pair
(NULL, 0); `some s` is a pointer to the string `s` with size `s.length + 1`, the size
counting the end of string character. -/
abbrev Segment := Option (List Char)

/-- The size stored with a segment. -/
def segment_size : Segment → Nat
  | none => 0
  | some s => s.length + 1

/-- The entries of a `libbfio_narrow_split_string_t`. -/
abbrev SplitString := List Segment

/-- Modelled from the spec: `libbfio_narrow_string_split`, whose file
(libbfio_narrow_split_string.c) is not among the sources. The spec has it split a
string "into separator-delimited segments"; every piece between two delimiters is a
segment, an empty piece included, which is what lets the leading separator of an
absolute path come back out of the rebuild. `string` is the C string at the pointer
passed and `string_size` the size passed, of which the last byte is the terminator.
For an empty string no split string is made and the call still succeeds: the callers
test the split string of a non-NULL working directory against NULL after a successful
split (lines 859, 1206, 1572, 1853). -/
def libbfio_narrow_string_split (string : List Char) (string_size : Nat) (delimiter : Char) :
    Option SplitString :=
  if string_size = 0 ∨ string = [] then none
  else some (((string.take (string_size - 1)).splitOn delimiter).map some)

/-- Modelled from the spec: `libbfio_narrow_split_string_get_number_of_segments`
(not among the sources); it fails on a NULL split string. -/
def get_number_of_segments (split_string : Option SplitString) : Option Nat :=
  split_string.map List.length

/-- Modelled from the spec: `libbfio_narrow_split_string_get_segment_by_index`
(not among the sources): the entry at the index; it fails on a NULL split string and on
an index that is negative or not below the number of segments. -/
def get_segment_by_index (split_string : Option SplitString) (segment_index : Int) :
    Option Segment :=
  match split_string with
  | none => none
  | some segments => if 0 ≤ segment_index then segments.get? segment_index.toNat else none

/-- Modelled from the spec: `libbfio_narrow_split_string_set_segment_by_index`
(not among the sources): replaces the entry at the index; it fails where
`get_segment_by_index` fails. -/
def set_segment_by_index (split_string : Option SplitString) (segment_index : Int)
    (segment : Segment) : Option SplitString :=
  match split_string with
  | none => none
  | some segments =>
    if 0 ≤ segment_index ∧ segment_index.toNat < segments.length then
      some (segments.set segment_index.toNat segment)
    else none

/-- The variables the segment loop of `libbfio_path_get_full_path` reads and writes. -/
structure Resolution where
  current_directory_split_string : Option SplitString
  path_split_string : Option SplitString
  full_path_size : Nat
  current_directory_segment_index : Int
  last_used_path_segment_index : Nat
  deriving DecidableEq, Repr

/-- The inner loop "find the previous path split value that contains a name"
(lines 1040-1065 and 1753-1778): `while( last_used_path_segment_index > 0 )`, decrement,
fetch the segment, leave the loop when its size is not 0. -/
def previous_used_segment (path_split_string : Option SplitString) :
    Nat → Except ErrorEntry Nat
  | 0 => .ok 0
  | last_used_path_segment_index + 1 =>
    match get_segment_by_index path_split_string last_used_path_segment_index with
    | none => .error ⟨.RUNTIME, .GET_FAILED⟩
    | some segment =>
      if segment_size segment ≠ 0 then .ok last_used_path_segment_index
      else previous_used_segment path_split_string last_used_path_segment_index

/-- The body of the segment loop (lines 895-1116 and 1608-1829, the same text in both
variants) for one `path_segment_index`. -/
def resolve_segment (st : Resolution) (path_segment_index : Nat) :
    Except ErrorEntry Resolution :=
  match get_segment_by_index st.path_split_string path_segment_index with
  | none => .error ⟨.RUNTIME, .GET_FAILED⟩
  | some none => .error ⟨.RUNTIME, .VALUE_MISSING⟩
  | some (some path_string_segment) =>
    if path_string_segment.length + 1 = 3 ∧ path_string_segment.get? 0 = some '.'
        ∧ path_string_segment.get? 1 = some '.' then
      if st.last_used_path_segment_index = 0 then
        match get_segment_by_index st.current_directory_split_string
            st.current_directory_segment_index with
        | none => .error ⟨.RUNTIME, .GET_FAILED⟩
        | some none => .error ⟨.RUNTIME, .VALUE_MISSING⟩
        | some (some current_directory_string_segment) =>
          match set_segment_by_index st.current_directory_split_string
              st.current_directory_segment_index none with
          | none => .error ⟨.RUNTIME, .SET_FAILED⟩
          | some current_directory_split_string =>
            match set_segment_by_index st.path_split_string path_segment_index none with
            | none => .error ⟨.RUNTIME, .SET_FAILED⟩
            | some path_split_string =>
              .ok { st with
                full_path_size :=
                  size_sub st.full_path_size (current_directory_string_segment.length + 1)
                current_directory_split_string := some current_directory_split_string
                current_directory_segment_index := st.current_directory_segment_index - 1
                path_split_string := some path_split_string }
      else
        match get_segment_by_index st.path_split_string st.last_used_path_segment_index with
        | none => .error ⟨.RUNTIME, .GET_FAILED⟩
        | some none => .error ⟨.RUNTIME, .VALUE_MISSING⟩
        | some (some last_used_path_string_segment) =>
          -- the entry set to NULL here is the one at path_segment_index (lines 1021, 1734)
          match set_segment_by_index st.path_split_string path_segment_index none with
          | none => .error ⟨.RUNTIME, .SET_FAILED⟩
          | some path_split_string =>
            match previous_used_segment (some path_split_string)
                st.last_used_path_segment_index with
            | .error e => .error e
            | .ok last_used_path_segment_index =>
              match set_segment_by_index (some path_split_string) path_segment_index none with
              | none => .error ⟨.RUNTIME, .SET_FAILED⟩
              | some path_split_string =>
                .ok { st with
                  full_path_size :=
                    size_sub st.full_path_size (last_used_path_string_segment.length + 1)
                  path_split_string := some path_split_string
                  last_used_path_segment_index := last_used_path_segment_index }
    else if path_string_segment.length + 1 = 2 ∧ path_string_segment.get? 0 = some '.' then
      match set_segment_by_index st.path_split_string path_segment_index none with
      | none => .error ⟨.RUNTIME, .SET_FAILED⟩
      | some path_split_string => .ok { st with path_split_string := some path_split_string }
    else
      .ok { st with
        full_path_size := size_add st.full_path_size (path_string_segment.length + 1)
        last_used_path_segment_index := path_segment_index }

/-- The segment loop: `resolve_segment` for `path_segment_index` from 0 up to
`path_number_of_segments - 1`, left at the first failure. -/
def resolve_segments (st : Resolution) (path_number_of_segments : Nat) :
    Except ErrorEntry Resolution :=
  (List.range path_number_of_segments).foldlM resolve_segment st

/-- The two copy loops of the rebuild (lines 1208-1264, 1266-1322, 1855-1911,
1913-1969): every entry whose size is not 0 is copied without its terminator and
followed by one separator. The loops visit every index below the number of segments,
so `get_segment_by_index` cannot fail in them, and an entry of size other than 0 is
not NULL. -/
def append_segments (separator : Char) (full_path : List Char) (split_string : SplitString) :
    List Char :=
  split_string.foldl
    (fun stored segment =>
      match segment with
      | none => stored
      | some s => stored ++ s ++ [separator])
    full_path

/-- The last store, `( *full_path )[ full_path_index - 1 ] = 0`: the last byte stored
becomes the terminator. With `full_path_index` 0 the store lands before the buffer and
the list of stored bytes stays empty. -/
def terminate (stored : List Char) : List Char :=
  match stored with
  | [] => []
  | _ :: _ => stored.dropLast ++ [NUL]

/-- The rebuild of the POSIX variant (lines 1833-1970, after the allocation): the
entries of the current directory when the path is relative and there is a split string
for the directory, then the entries of the path, then the terminator. -/
def posix_rebuild (absolute : Bool) (st : Resolution) : List Char :=
  let stored : List Char :=
    match absolute, st.current_directory_split_string with
    | false, some segments => append_segments '/' [] segments
    | _, _ => []
  terminate (append_segments '/' stored (st.path_split_string.getD []))

/-- What a call of `libbfio_path_get_full_path` leaves behind: the return value, the two
output slots, the errors set (in the order of the `liberror_error_set` calls of this
file) and the working directory of the process. -/
structure FullPathResult where
  value : Int
  full_path : Option (Option (List Char))
  full_path_size : Option Nat
  error : List ErrorEntry
  working_directory : List Char
  deriving DecidableEq, Repr

/-- The part of the POSIX `libbfio_path_get_full_path` after the argument checks
(lines 1498-2006): the stored bytes and `*full_path_size`, or the errors set before
`goto on_error`. -/
def posix_full_path_body (sys : System) (path : List Char) :
    Except (List ErrorEntry) (List Char × Nat) :=
  let absolute : Bool := path.head? = some '/'
  let lookup : Except (List ErrorEntry) (Option Buffer) :=
    if absolute then .ok none
    else
      match read_current_directory sys .POSIX with
      | .ok buffer => .ok (some buffer)
      | .error e => .error e
  match lookup with
  | .error e => .error e
  | .ok current_directory =>
    let current_directory_split_string : Option SplitString :=
      match current_directory with
      | none => none
      | some buffer => libbfio_narrow_string_split (buffer.string_at sys 0) buffer.size '/'
    let path_split_string := libbfio_narrow_string_split path (path.length + 1) '/'
    let full_path_size : Nat :=
      match current_directory with
      | none => 0
      | some buffer =>
        let size := size_add 0 (size_sub buffer.size 1)
        if 2 ≤ buffer.size ∧ buffer.byte sys (buffer.size - 2) ≠ '/' then size_add size 1
        else size
    let current_directory_number_of_segments : Nat :=
      (get_number_of_segments current_directory_split_string).getD 0
    match get_number_of_segments path_split_string with
    | none => .error [⟨.RUNTIME, .GET_FAILED⟩]
    | some path_number_of_segments =>
      match resolve_segments
          { current_directory_split_string := current_directory_split_string
            path_split_string := path_split_string
            full_path_size := full_path_size
            current_directory_segment_index :=
              match current_directory_split_string with
              | none => 0
              | some _ => (current_directory_number_of_segments : Int) - 1
            last_used_path_segment_index := 0 }
          path_number_of_segments with
      | .error e => .error [e]
      | .ok st =>
        if sys.allocate st.full_path_size = false then .error [⟨.MEMORY, .INSUFFICIENT⟩]
        else .ok (posix_rebuild absolute st, st.full_path_size)

/-- The POSIX `libbfio_path_get_full_path` (lines 1406-2036). -/
def posix_libbfio_path_get_full_path (sys : System) (path : Option (List Char))
    (full_path : Option (Option (List Char))) (full_path_size : Option Nat) :
    FullPathResult :=
  let refuse (e : ErrorEntry) : FullPathResult :=
    ⟨-1, full_path, full_path_size, [e], sys.working_directory⟩
  match path with
  | none => refuse ⟨.ARGUMENTS, .INVALID_VALUE⟩
  | some path =>
    if path.length = 0 then refuse ⟨.ARGUMENTS, .VALUE_ZERO_OR_LESS⟩
    else if path.length ≥ SSIZE_MAX then refuse ⟨.ARGUMENTS, .VALUE_EXCEEDS_MAXIMUM⟩
    else
      match full_path with
      | none => refuse ⟨.ARGUMENTS, .INVALID_VALUE⟩
      | some (some _) => refuse ⟨.RUNTIME, .VALUE_ALREADY_SET⟩
      | some none =>
        match full_path_size with
        | none => refuse ⟨.ARGUMENTS, .INVALID_VALUE⟩
        | some _ =>
          match posix_full_path_body sys path with
          | .ok (stored, size) => ⟨1, some (some stored), some size, [], sys.working_directory⟩
          | .error e => ⟨-1, some none, some 0, e, sys.working_directory⟩

/-- The directory separator of the WINAPI variant. -/
abbrev BACKSLASH : Char := Char.ofNat 92

/-- The path types of the WINAPI variant (`enum LIBBFIO_PATH_TYPES`). -/
inductive PathType where
  | ABSOLUTE
  | DEVICE
  | EXTENDED_LENGTH
  | RELATIVE
  | UNC
  deriving DecidableEq, Repr

/-- The byte `string[ index ]` of a C string, for an index up to its length: one of its
characters or the terminator. -/
def string_byte (string : List Char) (index : Nat) : Char := string.getD index NUL

/-- The test "starts with a volume letter" on the first byte (lines 403-406, 703-706). -/
def is_volume_letter (c : Char) : Bool :=
  ('A' ≤ c && c ≤ 'Z') || ('a' ≤ c && c ≤ 'z')

/-- The scanning loops `for( index = start; ...; index++ ) if( byte == backslash ) break;`
(lines 448, 468, 747, 767): the first index at or after `start` that holds a backslash,
`start + count` when none of the `count` indexes does. -/
def find_backslash (byte : Nat → Char) (start : Nat) : Nat → Nat
  | 0 => start
  | count + 1 =>
    if byte start = BACKSLASH then start else find_backslash byte (start + 1) count

/-- The variables set while the path and the current directory are inspected
(lines 398-482 and 698-783). `volume_name` holds the `volume_name_length` bytes the
pointer of that name points to. -/
structure PathClass where
  path_type : PathType
  volume_name : Option (List Char)
  volume_name_length : Nat
  path_directory_name_index : Nat
  share_name_index : Nat
  current_directory_name_index : Nat
  deriving DecidableEq, Repr

/-- The inspection of the path (lines 398-482); an error is followed by
`goto on_error`. -/
def windows_inspect_path (path : List Char) : Except ErrorEntry PathClass :=
  let initial : PathClass := ⟨.RELATIVE, none, 0, 0, 0, 0⟩
  if 2 ≤ path.length then
    if string_byte path 1 = ':' ∧ is_volume_letter (string_byte path 0) = true then
      if 3 ≤ path.length ∧ string_byte path 2 = BACKSLASH then
        .ok { initial with
          path_type := .ABSOLUTE
          volume_name := some (path.take 2)
          volume_name_length := 2
          path_directory_name_index := 3 }
      else
        .ok { initial with
          volume_name := some (path.take 2)
          volume_name_length := 2
          path_directory_name_index := 2 }
    else if string_byte path 0 = BACKSLASH ∧ string_byte path 1 = BACKSLASH then
      if 4 ≤ path.length ∧ (string_byte path 2 = '.' ∨ string_byte path 2 = '?')
          ∧ string_byte path 3 = BACKSLASH then
        if string_byte path 2 = '.' then .ok { initial with path_type := .DEVICE }
        else .ok { initial with path_type := .EXTENDED_LENGTH }
      else
        let share_name_index := find_backslash (string_byte path) 2 (path.length + 1 - 2)
        if share_name_index > path.length then .error ⟨.RUNTIME, .VALUE_MISSING⟩
        else
          let path_directory_name_index :=
            find_backslash (string_byte path) (share_name_index + 1)
              (path.length + 1 - (share_name_index + 1))
          .ok { initial with
            path_type := .UNC
            volume_name :=
              some ((List.range (path_directory_name_index - 2)).map
                (fun k => string_byte path (2 + k)))
            volume_name_length := path_directory_name_index - 2
            path_directory_name_index := path_directory_name_index
            share_name_index := share_name_index }
    else .ok initial
  else .ok initial

/-- How the WINAPI variant leaves its body: `return( 1 )` with the stored bytes and
`*full_path_size`, `goto on_error`, or the `return( -1 )` of line 740 that does not pass
through on_error. -/
inductive Exit where
  | done (stored : List Char) (size : Nat)
  | on_error (error : List ErrorEntry)
  | bare (error : List ErrorEntry)
  deriving DecidableEq, Repr

/-- The inspection of the current directory (lines 698-783). -/
def windows_inspect_current_directory (sys : System) (current_directory : Buffer)
    (c : PathClass) : Except Exit PathClass :=
  let byte := current_directory.byte sys
  let size := current_directory.size
  if 3 ≤ size then
    if byte 1 = ':' ∧ is_volume_letter (byte 0) = true then
      let c :=
        match c.volume_name with
        | none =>
          { c with volume_name := some (current_directory.bytes sys 0 2), volume_name_length := 2 }
        | some _ => c
      .ok { c with current_directory_name_index := if byte 2 = BACKSLASH then 3 else 2 }
    else if byte 0 = BACKSLASH ∧ byte 1 = BACKSLASH then
      if 4 ≤ size ∧ byte 2 = '.' ∧ byte 3 = BACKSLASH then
        .error (.bare [⟨.ARGUMENTS, .UNSUPPORTED_VALUE⟩])
      else
        let share_name_index := find_backslash byte 2 (size - 2)
        if share_name_index ≥ size then .error (.on_error [⟨.RUNTIME, .VALUE_MISSING⟩])
        else
          let current_directory_name_index :=
            find_backslash byte (share_name_index + 1) (size - (share_name_index + 1))
          let c :=
            match c.volume_name with
            | none =>
              { c with
                volume_name :=
                  some (current_directory.bytes sys 2 (current_directory_name_index - 2))
                volume_name_length := current_directory_name_index - 2 }
            | some _ => c
          .ok { c with
            share_name_index := share_name_index
            current_directory_name_index := current_directory_name_index }
    else .ok c
  else .ok c

/-- The lookup of the current directory in the WINAPI variant (lines 486-695): for a
path with a volume letter the working directory is saved, the process is switched to
the volume, the directory is read and the saved directory is restored. The result is
the directory read, or the errors to leave with, and the working directory of the
process afterwards. -/
def windows_lookup (sys : System) (build : Build) (c : PathClass) :
    Except (List ErrorEntry) Buffer × List Char :=
  match c.volume_name with
  | none =>
    match read_current_directory sys build with
    | .ok current_directory => (.ok current_directory, sys.working_directory)
    | .error e => (.error e, sys.working_directory)
  | some volume_name =>
    match read_current_directory sys build with
    | .error e => (.error e, sys.working_directory)
    | .ok current_working_directory =>
      if sys.allocate (c.volume_name_length + 1) = false then
        (.error [⟨.MEMORY, .INSUFFICIENT⟩], sys.working_directory)
      else
        match sys.change_directory (c_string (volume_name ++ [NUL])) with
        | none => (.error [⟨.RUNTIME, .SET_FAILED⟩], sys.working_directory)
        | some volume_directory =>
          let current_directory :=
            read_current_directory { sys with working_directory := volume_directory } build
          match sys.change_directory current_working_directory.text with
          | none =>
            match current_directory with
            | .ok _ => (.error [⟨.RUNTIME, .SET_FAILED⟩], volume_directory)
            | .error e => (.error (e ++ [⟨.RUNTIME, .SET_FAILED⟩]), volume_directory)
          | some restored => (current_directory, restored)

/-- The rebuild of the WINAPI variant (lines 1136-1323, after the allocation): the
lead, "UNC" and a backslash when there is a share name, the volume name and a
backslash, the entries of the current directory when the path is relative and there is
a split string for the directory, the entries of the path, then the terminator. -/
def windows_rebuild (c : PathClass) (volume_name : List Char) (st : Resolution) : List Char :=
  let stored : List Char :=
    if c.path_type = .DEVICE then [BACKSLASH, BACKSLASH, '.', BACKSLASH]
    else [BACKSLASH, BACKSLASH, '?', BACKSLASH]
  let stored :=
    if 0 < c.share_name_index then stored ++ ['U', 'N', 'C', BACKSLASH] else stored
  let stored := stored ++ volume_name ++ [BACKSLASH]
  let stored :=
    match c.path_type, st.current_directory_split_string with
    | .RELATIVE, some segments => append_segments BACKSLASH stored segments
    | _, _ => stored
  terminate (append_segments BACKSLASH stored (st.path_split_string.getD []))

/-- The part of the WINAPI `libbfio_path_get_full_path` that follows the lookup and the
inspection of the current directory (lines 785-1359): the test of the volume name, the
two splits, the size, the segment loop, the allocation and the rebuild.
`current_directory` is NULL when the directory was not looked up. -/
def windows_resolve (sys : System) (path : List Char) (current_directory : Option Buffer)
    (c : PathClass) : Exit :=
  match c.volume_name with
  | none => .on_error [⟨.RUNTIME, .VALUE_MISSING⟩]
  | some volume_name =>
    let current_directory_split_string : Option SplitString :=
      match current_directory with
      | none => none
      | some buffer =>
        libbfio_narrow_string_split (buffer.string_at sys c.current_directory_name_index)
          (size_add (size_sub buffer.size (c.current_directory_name_index + 1)) 1)
          BACKSLASH
    let path_split_string :=
      libbfio_narrow_string_split (path.drop c.path_directory_name_index)
        (size_add (size_sub path.length c.path_directory_name_index) 1) BACKSLASH
    let size := size_add 5 c.volume_name_length
    let size := if 0 < c.share_name_index then size_add size 4 else size
    let size :=
      match c.path_type, current_directory with
      | .RELATIVE, some buffer =>
        let size :=
          size_add size (size_sub buffer.size (c.current_directory_name_index + 1))
        if 2 ≤ buffer.size ∧ buffer.byte sys (buffer.size - 2) ≠ BACKSLASH then
          size_add size 1
        else size
      | _, _ => size
    let current_directory_number_of_segments : Nat :=
      (get_number_of_segments current_directory_split_string).getD 0
    match get_number_of_segments path_split_string with
    | none => .on_error [⟨.RUNTIME, .GET_FAILED⟩]
    | some path_number_of_segments =>
      match resolve_segments
          { current_directory_split_string := current_directory_split_string
            path_split_string := path_split_string
            full_path_size := size
            current_directory_segment_index :=
              match current_directory_split_string with
              | none => 0
              | some _ => (current_directory_number_of_segments : Int) - 1
            last_used_path_segment_index := 0 }
          path_number_of_segments with
      | .error e => .on_error [e]
      | .ok st =>
        if sys.allocate st.full_path_size = false then .on_error [⟨.MEMORY, .INSUFFICIENT⟩]
        else .done (windows_rebuild c volume_name st) st.full_path_size

/-- The part of the WINAPI `libbfio_path_get_full_path` after the argument checks
(lines 398-1359), with the working directory of the process at the return. -/
def windows_full_path_body (sys : System) (build : Build) (path : List Char) :
    Exit × List Char :=
  match windows_inspect_path path with
  | .error e => (.on_error [e], sys.working_directory)
  | .ok c =>
    if c.path_type ≠ .DEVICE ∧ c.path_type ≠ .EXTENDED_LENGTH ∧ c.path_type ≠ .UNC then
      match windows_lookup sys build c with
      | (.error e, directory) => (.on_error e, directory)
      | (.ok current_directory, directory) =>
        match windows_inspect_current_directory sys current_directory c with
        | .error exit => (exit, directory)
        | .ok c => (windows_resolve sys path (some current_directory) c, directory)
    else (windows_resolve sys path none c, sys.working_directory)

/-- The WINAPI `libbfio_path_get_full_path` (lines 295-1399), for the build with or
without USE_CRT_FUNCTIONS. -/
def windows_libbfio_path_get_full_path (sys : System) (build : Build)
    (path : Option (List Char)) (full_path : Option (Option (List Char)))
    (full_path_size : Option Nat) : FullPathResult :=
  let refuse (e : ErrorEntry) : FullPathResult :=
    ⟨-1, full_path, full_path_size, [e], sys.working_directory⟩
  match path with
  | none => refuse ⟨.ARGUMENTS, .INVALID_VALUE⟩
  | some path =>
    if path.length = 0 then refuse ⟨.ARGUMENTS, .VALUE_ZERO_OR_LESS⟩
    else if path.length ≥ SSIZE_MAX then refuse ⟨.ARGUMENTS, .VALUE_EXCEEDS_MAXIMUM⟩
    else
      match full_path with
      | none => refuse ⟨.ARGUMENTS, .INVALID_VALUE⟩
      | some (some _) => refuse ⟨.RUNTIME, .VALUE_ALREADY_SET⟩
      | some none =>
        match full_path_size with
        | none => refuse ⟨.ARGUMENTS, .INVALID_VALUE⟩
        | some _ =>
          match windows_full_path_body sys build path with
          | (.done stored size, directory) => ⟨1, some (some stored), some size, [], directory⟩
          | (.on_error e, directory) => ⟨-1, some none, some 0, e, directory⟩
          | (.bare e, directory) => ⟨-1, full_path, full_path_size, e, directory⟩

/-- What the segment loop leaves of an entry of the path split string. -/
def kept (s : List Char) : Segment :=
  if s = ['.', '.'] ∨ s = ['.'] then none else some s

/-- The size the segment loop adds for a path without ".." segments. -/
def plain_size (size : Nat) (segments : List (List Char)) : Nat :=
  segments.foldl (fun a s => if s = ['.'] then a else size_add a (s.length + 1)) size

/-- The value of `*full_path_size` when the segment loop of the POSIX variant starts on
a relative path (lines 1556-1571). -/
def posix_relative_size (sys : System) : Nat :=
  let size := size_add 0 (size_sub sys.PATH_MAX 1)
  if 2 ≤ sys.PATH_MAX
      ∧ Buffer.byte sys ⟨sys.working_directory, sys.PATH_MAX⟩ (sys.PATH_MAX - 2) ≠ '/' then
    size_add size 1
  else size

/-- The entries of a split string that are not NULL, in order. -/
def retained (split_string : SplitString) : List (List Char) :=
  split_string.filterMap id

/-- The string a caller reads in `*full_path` after the call: the bytes before the
terminator, when the function stored a terminator and every byte it stored lies inside
the `*full_path_size` bytes that were allocated. Otherwise the function does not
determine what the buffer holds as a string. -/
def FullPathResult.string (r : FullPathResult) : Option (List Char) :=
  match r.full_path, r.full_path_size with
  | some (some bytes), some size =>
    if NUL ∈ bytes ∧ bytes.length ≤ size then some (c_string bytes) else none
  | _, _ => none

/-- The calls the POSIX variant makes outside this file succeed: the working directory
can be read, it fits a buffer of `PATH_MAX` bytes with its terminator, `PATH_MAX` is a
value of `ssize_t`, and every allocation returns memory. -/
def posix_calls_succeed (sys : System) : Prop :=
  sys.lookup_fails sys.working_directory = false
    ∧ sys.working_directory.length < sys.PATH_MAX
    ∧ sys.PATH_MAX ≤ SSIZE_MAX
    ∧ ∀ n, sys.allocate n = true

/-- A POSIX system in the given working directory in which every call succeeds:
`PATH_MAX` is 4096 and unused memory holds the letter Z. -/
def unix_system (working_directory : List Char) : System :=
  { PATH_MAX := 4096
    working_directory := working_directory
    lookup_fails := fun _ => false
    change_directory := fun directory => some directory
    allocate := fun _ => true
    fresh := fun _ => 'Z' }

/-- The shape of the split string of the current directory during the segment loop, for
the segments `directory` the split gave: there is no split string, or the entries of a
front part of `directory` are untouched, the entries after it are NULL, and
`current_directory_segment_index` is the index of the last untouched entry. -/
def directory_popped (directory : List (List Char)) (st : Resolution) : Prop :=
  st.current_directory_split_string = none
    ∨ ∃ front back : List (List Char), directory = front ++ back
      ∧ st.current_directory_split_string
          = some (front.map some ++ back.map (fun _ => none))
      ∧ st.current_directory_segment_index = (front.length : Int) - 1

/-- A working directory on a drive, `L:\d1\...\dk` (`L:\` when there are no segments),
whose segments hold no separator and no NUL and are neither "." nor "..". -/
def is_drive_directory (directory : List Char) : Prop :=
  ∃ (letter : Char) (segments : List (List Char)),
    is_volume_letter letter = true
    ∧ directory = letter :: ':' :: BACKSLASH :: [BACKSLASH].intercalate segments
    ∧ ∀ s ∈ segments, BACKSLASH ∉ s ∧ NUL ∉ s ∧ s ≠ ['.'] ∧ s ≠ ['.', '.']

/-- The volume name the WINAPI variant takes from a UNC path: its server and share
names with the separator between them. -/
def unc_volume_name (path : List Char) : Option (List Char) :=
  match windows_inspect_path path with
  | .ok c => if c.path_type = .UNC then c.volume_name else none
  | .error _ => none

/-- The segments the WINAPI variant splits the current directory into. -/
def windows_directory_segments (sys : System) (current_directory : Option Buffer)
    (c : PathClass) : List (List Char) :=
  match current_directory with
  | none => []
  | some buffer =>
    ((buffer.string_at sys c.current_directory_name_index).take
      (size_add (size_sub buffer.size (c.current_directory_name_index + 1)) 1 - 1)).splitOn
      BACKSLASH

/-- The segments the WINAPI variant splits the path into. -/
def windows_path_segments (path : List Char) (c : PathClass) : List (List Char) :=
  ((path.drop c.path_directory_name_index).take
    (size_add (size_sub path.length c.path_directory_name_index) 1 - 1)).splitOn BACKSLASH

/-- The bytes the rebuild of the WINAPI variant stores before the volume name. -/
def windows_lead (c : PathClass) : List Char :=
  (if c.path_type = .DEVICE then [BACKSLASH, BACKSLASH, '.', BACKSLASH]
    else [BACKSLASH, BACKSLASH, '?', BACKSLASH])
  ++ (if 0 < c.share_name_index then ['U', 'N', 'C', BACKSLASH] else [])

/-- A Windows system (WINAPI build values: `_MAX_PATH` is 260) in the given working
directory in which every call succeeds: a change to `volume` leads to
`volume_directory`, a change to the working directory leads back to it, and unused
memory holds the letter Z. -/
def windows_system (working_directory volume volume_directory : List Char) : System :=
  { PATH_MAX := 260
    working_directory := working_directory
    lookup_fails := fun _ => false
    change_directory := fun name =>
      if name = volume then some volume_directory
      else if name = working_directory then some working_directory
      else none
    allocate := fun _ => true
    fresh := fun _ => 'Z' }

/-- A system in which the call that reports the working directory fails in every
directory; everything else is as in `unix_system`. -/
def lost_system (working_directory : List Char) : System :=
  { unix_system working_directory with lookup_fails := fun _ => true }

/-- The calls that change the working directory of the process which the lookup of the
WINAPI variant makes (lines 541 and 624, lines 572 and 655 with USE_CRT_FUNCTIONS), in
order, each given by the name passed to it. The change to the volume is made when the
path has a volume name, once the working directory was read and the copy of the volume
name was allocated; the change back to the directory saved is made when the first change
succeeded, whether or not the directory of the volume could be read. -/
def windows_lookup_changes (sys : System) (build : Build) (c : PathClass) :
    List (List Char) :=
  match c.volume_name with
  | none => []
  | some volume_name =>
    match read_current_directory sys build with
    | .error _ => []
    | .ok current_working_directory =>
      if sys.allocate (c.volume_name_length + 1) = false then []
      else
        match sys.change_directory (c_string (volume_name ++ [NUL])) with
        | none => [c_string (volume_name ++ [NUL])]
        | some _ => [c_string (volume_name ++ [NUL]), current_working_directory.text]

/-- The calls that change the working directory of the process made during one call of
the WINAPI `libbfio_path_get_full_path`: the ones of the lookup, which is reached when
the arguments are accepted, the inspection of the path succeeds and the path is not a
device, extended-length or UNC path (line 486). No other statement of the function
changes the directory. -/
def windows_directory_changes (sys : System) (build : Build) (path : Option (List Char))
    (full_path : Option (Option (List Char))) (full_path_size : Option Nat) :
    List (List Char) :=
  match path with
  | none => []
  | some path =>
    if path.length = 0 then []
    else if path.length ≥ SSIZE_MAX then []
    else
      match full_path with
      | none => []
      | some (some _) => []
      | some none =>
        match full_path_size with
        | none => []
        | some _ =>
          match windows_inspect_path path with
          | .error _ => []
          | .ok c =>
            if c.path_type ≠ .DEVICE ∧ c.path_type ≠ .EXTENDED_LENGTH ∧ c.path_type ≠ .UNC then
              windows_lookup_changes sys build c
            else []

/-- The test of lines 398-406: the path has at least two bytes and starts with a volume
letter and a colon. -/
def starts_with_volume_letter (path : List Char) : Bool :=
  decide (2 ≤ path.length) && (string_byte path 1 == ':')
    && is_volume_letter (string_byte path 0)

/-- A Windows system as `windows_system` in which the working directory cannot be read
while the process is in `volume_directory`. -/
def unreadable_volume_system (working_directory volume volume_directory : List Char) :
    System :=
  { windows_system working_directory volume volume_directory with
    lookup_fails := fun directory => directory == volume_directory }

/-- The calls the WINAPI variant makes outside this file succeed for a path with the
volume name `volume_name`: the working directory can be read in the directory of the
process and in `volume_directory`, both fit a buffer of `PATH_MAX` bytes with their
terminator, `PATH_MAX` is at most 32767 (the longest path of the extended-length
format), every allocation returns memory, the change to `volume_name` puts the process
in `volume_directory` and the change back to the working directory succeeds. -/
def windows_calls_succeed (sys : System) (volume_name volume_directory : List Char) : Prop :=
  sys.lookup_fails sys.working_directory = false
    ∧ sys.lookup_fails volume_directory = false
    ∧ sys.working_directory.length < sys.PATH_MAX
    ∧ volume_directory.length < sys.PATH_MAX
    ∧ sys.PATH_MAX ≤ 32767
    ∧ (∀ n, sys.allocate n = true)
    ∧ sys.change_directory volume_name = some volume_directory
    ∧ sys.change_directory sys.working_directory = some sys.working_directory

/-- The values of the variables of the segment loop of the WINAPI variant when the loop
starts (lines 796-876): the two split strings, `*full_path_size` as computed from the
volume name and the current directory, the index of the last segment of the current
directory and 0 for the last used segment of the path. -/
def windows_start (sys : System) (path : List Char) (current_directory : Option Buffer)
    (c : PathClass) : Resolution :=
  let current_directory_split_string : Option SplitString :=
    match current_directory with
    | none => none
    | some buffer =>
      libbfio_narrow_string_split (buffer.string_at sys c.current_directory_name_index)
        (size_add (size_sub buffer.size (c.current_directory_name_index + 1)) 1)
        BACKSLASH
  let size := size_add 5 c.volume_name_length
  let size := if 0 < c.share_name_index then size_add size 4 else size
  let size :=
    match c.path_type, current_directory with
    | .RELATIVE, some buffer =>
      let size :=
        size_add size (size_sub buffer.size (c.current_directory_name_index + 1))
      if 2 ≤ buffer.size ∧ buffer.byte sys (buffer.size - 2) ≠ BACKSLASH then
        size_add size 1
      else size
    | _, _ => size
  { current_directory_split_string := current_directory_split_string
    path_split_string :=
      libbfio_narrow_string_split (path.drop c.path_directory_name_index)
        (size_add (size_sub path.length c.path_directory_name_index) 1) BACKSLASH
    full_path_size := size
    current_directory_segment_index :=
      match current_directory_split_string with
      | none => 0
      | some _ => (((get_number_of_segments current_directory_split_string).getD 0 : Nat) : Int) - 1
    last_used_path_segment_index := 0 }

/-- The error classes of the handle and pool operations (spec, section 7). -/
inductive ErrorClass where
  | ArgumentError
  | InvalidState
  | IoError
  | BoundsError
  | ResourceError
  | MemoryError
  | RuntimeError
  deriving DecidableEq, Repr

/-- The state of a handle (spec, section 3). -/
inductive HandleState where
  | Closed
  | Open
  deriving DecidableEq, Repr

/-- The access mode of a handle (spec, section 3). -/
inductive AccessMode where
  | Read
  | Write
  | ReadWrite
  deriving DecidableEq, Repr

/-- The access mode flags passed to `open`: the mode with the Create, Truncate and Append
sub-flags (spec, sections 3 and 6). -/
structure OpenFlags where
  mode : AccessMode
  create : Bool
  truncate : Bool
  append : Bool
  deriving DecidableEq, Repr

/-- The flags `LIBBFIO_OPEN_READ` of the tests. -/
def LIBBFIO_OPEN_READ : OpenFlags := ⟨.Read, false, false, false⟩

/-- Modelled from the spec: the file handle of libbfio_file_io_handle.c, which is not
among the sources (the spec's Handle of the File variant, section 3). `name` is the path
string, NULL until a name is set; `state` tells whether there is a live descriptor;
`offset` is the current logical position; `data` is the byte store behind the handle, its
length the size; `opens` tells whether the open of the operating system succeeds for this
store. -/
structure Handle where
  name : Option (List Char)
  state : HandleState
  access_mode : OpenFlags
  offset : Nat
  data : List Nat
  opens : Bool
  deriving DecidableEq, Repr

/-- The reference point of a seek (spec, section 4.1). -/
inductive Whence where
  | Start
  | Current
  | End
  deriving DecidableEq, Repr

/-- Modelled from the spec: `open(mode)` of section 4.1 (libbfio_file_io_handle.c is not
among the sources). It "fails with InvalidState if already Open", performs the open of
the operating system and "fails with IoError on OS failure"; a handle without a name
has nothing the operating system could open. "On success sets state=Open, offset=0". -/
def handle_open (handle : Handle) (mode : OpenFlags) : Except ErrorClass Handle :=
  if handle.state = .Open then .error .InvalidState
  else if handle.name = none ∨ handle.opens = false then .error .IoError
  else .ok { handle with state := .Open, offset := 0, access_mode := mode }

/-- Modelled from the spec: `close()` of section 4.1. It "fails with InvalidState if
already Closed" and "releases the OS descriptor". -/
def handle_close (handle : Handle) : Except ErrorClass Handle :=
  if handle.state = .Closed then .error .InvalidState
  else .ok { handle with state := .Closed }

/-- Whether the mode allows reading. -/
def read_capable (flags : OpenFlags) : Bool :=
  flags.mode = .Read ∨ flags.mode = .ReadWrite

/-- Whether the mode allows writing. -/
def write_capable (flags : OpenFlags) : Bool :=
  flags.mode = .Write ∨ flags.mode = .ReadWrite

/-- Modelled from the spec: `read(buffer, length)` of section 4.1. It "requires Open and
read-capable mode", "returns bytes actually read (0 at end-of-data)" and "never reads
past" the size: the bytes from the offset on, at most `length` of them, and the offset
moves past them. The result carries the bytes in place of the buffer. -/
def handle_read (handle : Handle) (length : Nat) : Except ErrorClass (List Nat × Handle) :=
  if handle.state = .Closed then .error .InvalidState
  else if read_capable handle.access_mode = false then .error .InvalidState
  else
    let bytes := (handle.data.drop handle.offset).take length
    .ok (bytes, { handle with offset := handle.offset + bytes.length })

/-- Modelled from the spec: `write(buffer, length)` of section 4.1. It "requires Open
and write-capable mode", "returns bytes actually written" and "may grow size for File":
the bytes replace the store from the offset on, a gap before the offset is filled with
zero bytes, and the offset moves past them. -/
def handle_write (handle : Handle) (bytes : List Nat) : Except ErrorClass (Nat × Handle) :=
  if handle.state = .Closed then .error .InvalidState
  else if write_capable handle.access_mode = false then .error .InvalidState
  else
    let front := handle.data.take handle.offset
      ++ List.replicate (handle.offset - handle.data.length) 0
    .ok (bytes.length,
      { handle with
        data := front ++ bytes ++ handle.data.drop (handle.offset + bytes.length)
        offset := handle.offset + bytes.length })

/-- Modelled from the spec: `seek(offset, whence)` of section 4.1. The handle has to be
Open; the "resulting absolute offset must be >= 0", "seeking beyond size is permitted"
and "seeking to a negative absolute position fails with ArgumentError". -/
def handle_seek (handle : Handle) (offset : Int) (whence : Whence) :
    Except ErrorClass (Nat × Handle) :=
  if handle.state = .Closed then .error .InvalidState
  else
    let base : Int :=
      match whence with
      | .Start => 0
      | .Current => handle.offset
      | .End => handle.data.length
    if base + offset < 0 then .error .ArgumentError
    else .ok ((base + offset).toNat, { handle with offset := (base + offset).toNat })

/-- Modelled from the spec: `get_size()` of sections 4.1 and 6: the size of the store,
"InvalidState where open is required". -/
def handle_get_size (handle : Handle) : Except ErrorClass Nat :=
  if handle.state = .Closed then .error .InvalidState
  else .ok handle.data.length

/-- Modelled from the spec: `clone()` of section 4.1: "a new Closed handle with
identical configuration"; "cloning an Open handle is permitted and does not clone its
open state". -/
def handle_clone (handle : Handle) : Handle :=
  { handle with state := .Closed, offset := 0 }

/-- What a call of a function of libbfio_file_io_handle.c leaves behind: the return
value, the handle or handle slot after the call, and the class of the error set, if one
was set. -/
structure HandleResult (α : Type) where
  value : Int
  handle : α
  error : Option ErrorClass
  deriving DecidableEq, Repr

/-- The handle a successful `libbfio_file_io_handle_initialize` creates: Closed, without
a name and so without a store, at offset 0. -/
def new_handle : Handle :=
  { name := none
    state := .Closed
    access_mode := LIBBFIO_OPEN_READ
    offset := 0
    data := []
    opens := false }

/-- Modelled from the spec: `libbfio_file_io_handle_initialize` of
libbfio_file_io_handle.c, which is not among the sources; its test
(bfio_test_file_io_handle.c, lines 57-231) and section 7 of the spec give the cases. A
NULL handle pointer is an ArgumentError; a handle that is already set is "a value
already set where set once is required", an InvalidState, and is left as it is; a failing
allocation is a MemoryError and leaves the handle NULL; otherwise the handle is created
Closed. `allocates` tells whether the allocation succeeds. -/
def libbfio_file_io_handle_initialize (allocates : Bool)
    (file_io_handle : Option (Option Handle)) : HandleResult (Option (Option Handle)) :=
  match file_io_handle with
  | none => ⟨-1, none, some .ArgumentError⟩
  | some (some handle) => ⟨-1, some (some handle), some .InvalidState⟩
  | some none =>
    if allocates = true then ⟨1, some (some new_handle), none⟩
    else ⟨-1, some none, some .MemoryError⟩

/-- Modelled from the spec: `libbfio_file_io_handle_free` of libbfio_file_io_handle.c
(not among the sources; test at lines 236-269 and 83-98). A NULL handle pointer is an
ArgumentError. Otherwise the handle, which "requires it be Closed" to be destroyed, is
closed "defensively before releasing", released, and the pointer is reset to NULL; a
pointer to a NULL handle has nothing to release. -/
def libbfio_file_io_handle_free (file_io_handle : Option (Option Handle)) :
    HandleResult (Option (Option Handle)) :=
  match file_io_handle with
  | none => ⟨-1, none, some .ArgumentError⟩
  | some none => ⟨1, some none, none⟩
  | some (some handle) =>
    match (if handle.state = .Open then handle_close handle else .ok handle) with
    | .ok _ => ⟨1, some none, none⟩
    | .error e => ⟨-1, some (some handle), some e⟩

/-- Modelled from the spec: `libbfio_file_io_handle_open` of libbfio_file_io_handle.c
(not among the sources; test at lines 274-399): `open(mode)` of section 4.1 on the
handle, 1 on success and -1 with the error on failure; a NULL handle is an
ArgumentError. -/
def libbfio_file_io_handle_open (file_io_handle : Option Handle) (access_flags : OpenFlags) :
    HandleResult (Option Handle) :=
  match file_io_handle with
  | none => ⟨-1, none, some .ArgumentError⟩
  | some handle =>
    match handle_open handle access_flags with
    | .ok opened => ⟨1, some opened, none⟩
    | .error e => ⟨-1, some handle, some e⟩

/-- Modelled from the spec: `libbfio_file_io_handle_close` of libbfio_file_io_handle.c
(not among the sources; tests at lines 404-437 and 520-560): `close()` of section 4.1
on the handle, 0 on success and -1 with the error on failure; a NULL handle is an
ArgumentError. -/
def libbfio_file_io_handle_close (file_io_handle : Option Handle) :
    HandleResult (Option Handle) :=
  match file_io_handle with
  | none => ⟨-1, none, some .ArgumentError⟩
  | some handle =>
    match handle_close handle with
    | .ok closed => ⟨0, some closed, none⟩
    | .error e => ⟨-1, some handle, some e⟩

/-- The test sequence "open and close" of bfio_test_file_io_handle_open_close (lines
504-560), repeated: `cycles` times an open with the flags followed by a close. The
result lists the return values and errors of the calls in order and the handle after
them. -/
def open_close_cycles (access_flags : OpenFlags) :
    Nat → Option Handle → List (Int × Option ErrorClass) × Option Handle
  | 0, file_io_handle => ([], file_io_handle)
  | cycles + 1, file_io_handle =>
    let opened := libbfio_file_io_handle_open file_io_handle access_flags
    let closed := libbfio_file_io_handle_close opened.handle
    let rest := open_close_cycles access_flags cycles closed.handle
    ((opened.value, opened.error) :: (closed.value, closed.error) :: rest.1, rest.2)

/-- Modelled from the spec: the handle of the FileRange variant (section 3; its source
file is not among the sources): the backing handle with `range_start` and `range_size`,
the state of the wrapper and its logical offset, which is "relative to the range, not
the backing store". -/
structure FileRange where
  backing : Handle
  range_start : Nat
  range_size : Nat
  state : HandleState
  offset : Nat
  deriving DecidableEq, Repr

/-- Modelled from the spec: `read(buffer, length)` on a FileRange (sections 4.1 and
4.2). It "requires Open"; the call is "translated and forwarded to the backing handle,
which must itself already be Open", with "backend_offset = range_start +
logical_offset": the backing handle is put at that offset and read. The read "never
reads past range_size": at most the bytes left in the range are asked for, none at or
after its end. The logical offset moves past the bytes read. -/
def file_range_read (range : FileRange) (length : Nat) :
    Except ErrorClass (List Nat × FileRange) :=
  if range.state = .Closed then .error .InvalidState
  else
    match handle_seek range.backing ((range.range_start + range.offset : Nat) : Int) .Start with
    | .error e => .error e
    | .ok (_, positioned) =>
      match handle_read positioned (min length (range.range_size - range.offset)) with
      | .error e => .error e
      | .ok (bytes, backing) =>
        .ok (bytes, { range with backing := backing, offset := range.offset + bytes.length })

/-- A FileRange over the bytes 2, 3, 4, 5 of an Open handle that holds the bytes
0, 1, ..., 9, at the logical offset 1. -/
def sample_range : FileRange :=
  { backing :=
      { name := some ['a']
        state := .Open
        access_mode := LIBBFIO_OPEN_READ
        offset := 0
        data := [0, 1, 2, 3, 4, 5, 6, 7, 8, 9]
        opens := true }
    range_start := 2
    range_size := 4
    state := .Open
    offset := 1 }

/-- Modelled from the spec: one entry of the pool (PoolSlot of section 3;
libbfio_pool.c is not among the sources): the handle, whether it is physically open, the
recency marker, the access mode the handle is opened with, and the offset recorded "into
slot metadata for later reopening" when the slot was last closed. -/
structure PoolSlot where
  handle : Handle
  is_physically_open : Bool
  last_used : Nat
  access_mode : OpenFlags
  offset : Nat
  deriving DecidableEq, Repr

/-- Modelled from the spec: the pool (section 3; libbfio_pool.c is not among the
sources): "an ordered collection of PoolSlots plus max_open_handles and
current_open_count". A removed slot leaves an empty entry, so that "slot indices are
stable" and an index is "never reused after remove". `clock` is "the current logical
clock" the recency markers are taken from. -/
structure Pool where
  slots : List (Option PoolSlot)
  max_open_handles : Nat
  current_open_count : Nat
  clock : Nat
  deriving DecidableEq, Repr

/-- Modelled from the spec: a pool without slots for the given capacity. -/
def pool_initialize (max_open_handles : Nat) : Pool :=
  { slots := [], max_open_handles := max_open_handles, current_open_count := 0, clock := 0 }

/-- The slot registered at an index, none for an index that was never handed out or was
removed. -/
def pool_slot (pool : Pool) (index : Nat) : Option PoolSlot :=
  match pool.slots.get? index with
  | some (some slot) => some slot
  | _ => none

/-- The pool with the entry at the index replaced. -/
def pool_set (pool : Pool) (index : Nat) (entry : Option PoolSlot) : Pool :=
  { pool with slots := pool.slots.set index entry }

/-- Modelled from the spec: the refresh of the recency marker: the marker of the slot
is set "to the current logical clock", which then advances. -/
def pool_touch (pool : Pool) (index : Nat) (slot : PoolSlot) : Pool :=
  { pool_set pool index (some { slot with last_used := pool.clock }) with
    clock := pool.clock + 1 }

/-- Modelled from the spec: `append(handle, access_mode) -> index` of section 4.3:
"registers a new Closed slot; O(1); never opens anything". A NULL handle is an
ArgumentError. -/
def pool_append (pool : Pool) (handle : Option Handle) (access_mode : OpenFlags) :
    Except ErrorClass Nat × Pool :=
  match handle with
  | none => (.error .ArgumentError, pool)
  | some handle =>
    (.ok pool.slots.length,
      { pool with slots := pool.slots ++ [some ⟨handle, false, 0, access_mode, 0⟩] })

/-- Modelled from the spec: one step of the choice of the slot to evict: an entry that
is physically open and is not the target replaces the candidate when there is none yet
or when its recency marker is smaller than the candidate's. The candidate is kept with
its recency marker. -/
def victim_step (target : Nat) (best : Option (Nat × Nat)) (index : Nat)
    (entry : Option PoolSlot) : Option (Nat × Nat) :=
  match entry with
  | none => best
  | some slot =>
    if slot.is_physically_open = true ∧ index ≠ target then
      match best with
      | none => some (index, slot.last_used)
      | some (_, marker) =>
        if slot.last_used < marker then some (index, slot.last_used) else best
    else best

/-- The scan of the entries from the index `index` on, in index order. -/
def victim_scan (target : Nat) : Nat → List (Option PoolSlot) → Option (Nat × Nat) →
    Option (Nat × Nat)
  | _, [], best => best
  | index, entry :: rest, best =>
    victim_scan target (index + 1) rest (victim_step target best index entry)

/-- Modelled from the spec: the choice of the slot to evict in `ensure_open` (section
4.3): "the slot with the smallest recency marker among all other physically-open slots
(ties broken by lowest index)", none when "no evictable slot exists". -/
def select_victim (slots : List (Option PoolSlot)) (target : Nat) : Option Nat :=
  (victim_scan target 0 slots none).map Prod.fst

/-- Modelled from the spec: the closing of a physically open slot, by `close(index)`
and by an eviction, which "must be indistinguishable" from it (section 4.3): it "closes
the OS resource and records the handle's current offset into slot metadata for later
reopening; decrements current_open_count; the slot itself remains registered". A failing
close of the handle changes nothing. -/
def close_slot (pool : Pool) (index : Nat) (slot : PoolSlot) : Except ErrorClass Pool :=
  match handle_close slot.handle with
  | .error e => .error e
  | .ok closed =>
    .ok { pool_set pool index
            (some { slot with
              handle := closed, is_physically_open := false, offset := slot.handle.offset }) with
          current_open_count := pool.current_open_count - 1 }

/-- Modelled from the spec: the step of `ensure_open` that makes room: "if
current_open_count == max_open_handles" the chosen slot is closed; it "fails with
ResourceError" when "no evictable slot exists". -/
def pool_make_room (pool : Pool) (target : Nat) : Except ErrorClass Pool :=
  if pool.current_open_count = pool.max_open_handles then
    match select_victim pool.slots target with
    | none => .error .ResourceError
    | some victim_index =>
      match pool_slot pool victim_index with
      | none => .error .ResourceError
      | some victim => close_slot pool victim_index victim
  else .ok pool

/-- Modelled from the spec: `ensure_open(index)` of section 4.3. A slot that is
"already physically open, succeeds immediately and updates its recency marker".
Otherwise it "fails with ResourceError if max_open_handles <= 0", makes room, "then
opens the target slot's handle, seeks it to its previously recorded offset, marks it
physically open, sets its recency marker to the current logical clock, and increments
current_open_count". A bad index is an ArgumentError; a failing open leaves the pool as
it is after the eviction. -/
def pool_ensure_open (pool : Pool) (index : Nat) : Except ErrorClass Unit × Pool :=
  match pool_slot pool index with
  | none => (.error .ArgumentError, pool)
  | some slot =>
    if slot.is_physically_open = true then (.ok (), pool_touch pool index slot)
    else if pool.max_open_handles = 0 then (.error .ResourceError, pool)
    else
      match pool_make_room pool index with
      | .error e => (.error e, pool)
      | .ok pool =>
        match handle_open slot.handle slot.access_mode with
        | .error e => (.error e, pool)
        | .ok opened =>
          match handle_seek opened slot.offset .Start with
          | .error e => (.error e, pool)
          | .ok (_, positioned) =>
            (.ok (),
              { pool_touch pool index
                  { slot with handle := positioned, is_physically_open := true } with
                current_open_count := pool.current_open_count + 1 })

/-- Modelled from the spec: the common shape of `read`, `write`, `seek` and `get_size`
by index (section 4.3): they "call ensure_open(index) first, then delegate to the slot's
Handle, then refresh the recency marker". `operation` is the operation on the handle; a
failure of it leaves the pool as it is after `ensure_open`. -/
def pool_delegate {α : Type} (pool : Pool) (index : Nat)
    (operation : Handle → Except ErrorClass (α × Handle)) : Except ErrorClass α × Pool :=
  match pool_ensure_open pool index with
  | (.error e, pool) => (.error e, pool)
  | (.ok _, pool) =>
    match pool_slot pool index with
    | none => (.error .ArgumentError, pool)
    | some slot =>
      match operation slot.handle with
      | .error e => (.error e, pool)
      | .ok (result, handle) => (.ok result, pool_touch pool index { slot with handle := handle })

/-- Modelled from the spec: `read(index, length)` of section 4.3. -/
def pool_read (pool : Pool) (index : Nat) (length : Nat) : Except ErrorClass (List Nat) × Pool :=
  pool_delegate pool index (fun handle => handle_read handle length)

/-- Modelled from the spec: `write(index, bytes)` of section 4.3. -/
def pool_write (pool : Pool) (index : Nat) (bytes : List Nat) : Except ErrorClass Nat × Pool :=
  pool_delegate pool index (fun handle => handle_write handle bytes)

/-- Modelled from the spec: `seek(index, offset, whence)` of section 4.3. -/
def pool_seek (pool : Pool) (index : Nat) (offset : Int) (whence : Whence) :
    Except ErrorClass Nat × Pool :=
  pool_delegate pool index (fun handle => handle_seek handle offset whence)

/-- Modelled from the spec: `get_size(index)` of section 4.3. -/
def pool_get_size (pool : Pool) (index : Nat) : Except ErrorClass Nat × Pool :=
  pool_delegate pool index
    (fun handle => (handle_get_size handle).map (fun size => (size, handle)))

/-- Modelled from the spec: `close(index)` of section 4.3: "if physically open, closes
the OS resource and records the handle's current offset"; a slot that is not physically
open is left as it is. A bad index is an ArgumentError. -/
def pool_close (pool : Pool) (index : Nat) : Except ErrorClass Unit × Pool :=
  match pool_slot pool index with
  | none => (.error .ArgumentError, pool)
  | some slot =>
    if slot.is_physically_open = true then
      match close_slot pool index slot with
      | .error e => (.error e, pool)
      | .ok pool => (.ok (), pool)
    else (.ok (), pool)

/-- Modelled from the spec: `remove(index)` of section 4.3: "closes if open, then
discards the slot entirely; the index must not be reused for the pool's lifetime". A bad
index is an ArgumentError. -/
def pool_remove (pool : Pool) (index : Nat) : Except ErrorClass Unit × Pool :=
  match pool_close pool index with
  | (.error e, pool) => (.error e, pool)
  | (.ok _, pool) => (.ok (), pool_set pool index none)

/-- Modelled from the spec: `clone()` of section 4.3: "a new Pool with identical
max_open_handles and a deep, fully-Closed copy of every slot's Handle configuration (no
OS descriptors are duplicated)". -/
def pool_clone (pool : Pool) : Pool :=
  { slots := pool.slots.map (Option.map (fun slot =>
      { handle := handle_clone slot.handle
        is_physically_open := false
        last_used := 0
        access_mode := slot.access_mode
        offset := 0 }))
    max_open_handles := pool.max_open_handles
    current_open_count := 0
    clock := 0 }

/-- The operations of the pool (section 4.3), with their arguments. -/
inductive PoolOperation where
  | append (handle : Option Handle) (access_mode : OpenFlags)
  | ensure_open (index : Nat)
  | read (index : Nat) (length : Nat)
  | write (index : Nat) (bytes : List Nat)
  | seek (index : Nat) (offset : Int) (whence : Whence)
  | get_size (index : Nat)
  | close (index : Nat)
  | remove (index : Nat)
  | clone
  deriving DecidableEq, Repr

/-- What a pool operation returns on success. -/
inductive PoolOutput where
  | index (value : Nat)
  | done
  | bytes (value : List Nat)
  | number (value : Nat)
  | pool (value : Pool)
  deriving DecidableEq, Repr

/-- One pool operation: its outcome and the pool after it. `clone` returns the new pool
and leaves the pool it was called on as it is. -/
def pool_step (pool : Pool) (operation : PoolOperation) : Except ErrorClass PoolOutput × Pool :=
  match operation with
  | .append handle access_mode =>
    ((pool_append pool handle access_mode).1.map .index, (pool_append pool handle access_mode).2)
  | .ensure_open index =>
    ((pool_ensure_open pool index).1.map (fun _ => .done), (pool_ensure_open pool index).2)
  | .read index length =>
    ((pool_read pool index length).1.map .bytes, (pool_read pool index length).2)
  | .write index bytes =>
    ((pool_write pool index bytes).1.map .number, (pool_write pool index bytes).2)
  | .seek index offset whence =>
    ((pool_seek pool index offset whence).1.map .number, (pool_seek pool index offset whence).2)
  | .get_size index =>
    ((pool_get_size pool index).1.map .number, (pool_get_size pool index).2)
  | .close index =>
    ((pool_close pool index).1.map (fun _ => .done), (pool_close pool index).2)
  | .remove index =>
    ((pool_remove pool index).1.map (fun _ => .done), (pool_remove pool index).2)
  | .clone => (.ok (.pool (pool_clone pool)), pool)

/-- The pool after a sequence of operations, whatever their outcomes. -/
def pool_run (pool : Pool) (operations : List PoolOperation) : Pool :=
  operations.foldl (fun pool operation => (pool_step pool operation).2) pool

/-- The index an operation is addressed to, none for `append` and `clone`. -/
def pool_target : PoolOperation → Option Nat
  | .append _ _ => none
  | .ensure_open index => some index
  | .read index _ => some index
  | .write index _ => some index
  | .seek index _ _ => some index
  | .get_size index => some index
  | .close index => some index
  | .remove index => some index
  | .clone => none

/-- The number of entries marked physically open. -/
def open_slots (slots : List (Option PoolSlot)) : Nat :=
  slots.countP (fun entry =>
    match entry with
    | some slot => slot.is_physically_open
    | none => false)

/-- The invariant of section 3: "current_open_count == count(slot.is_physically_open)
and current_open_count <= max_open_handles". -/
def capacity_invariant (pool : Pool) : Prop :=
  pool.current_open_count = open_slots pool.slots
    ∧ pool.current_open_count ≤ pool.max_open_handles

/-- The logical position of a slot and the bytes of its store: the offset of the handle
while the slot is physically open, the recorded offset while it is not. -/
def slot_position (pool : Pool) (index : Nat) : Option (Nat × List Nat) :=
  (pool_slot pool index).map (fun slot =>
    (if slot.is_physically_open = true then slot.handle.offset else slot.offset,
      slot.handle.data))

/-- What the scan for the slot to evict knows after the entries below `bound`: there is
no candidate when no entry below `bound` is physically open and other than the target;
otherwise the candidate is such an entry, kept with its recency marker, and no such
entry below `bound` has a smaller marker, or the same marker and a lower index. -/
def victim_invariant (slots : List (Option PoolSlot)) (target bound : Nat)
    (best : Option (Nat × Nat)) : Prop :=
  match best with
  | none =>
    ∀ index slot, index < bound → slots.get? index = some (some slot) →
      ¬ (slot.is_physically_open = true ∧ index ≠ target)
  | some (victim, marker) =>
    victim < bound ∧ victim ≠ target
      ∧ (∃ slot, slots.get? victim = some (some slot) ∧ slot.is_physically_open = true
          ∧ slot.last_used = marker)
      ∧ ∀ index slot, index < bound → slots.get? index = some (some slot) →
          slot.is_physically_open = true → index ≠ target →
          marker < slot.last_used ∨ (marker = slot.last_used ∧ victim ≤ index)

/-- The entry of a slot after its closing by `close_slot`: the handle is Closed, the slot
is marked not physically open and holds the offset the handle had. -/
def evicted_slot (slot : PoolSlot) : PoolSlot :=
  { slot with
    handle := { slot.handle with state := .Closed }
    is_physically_open := false
    offset := slot.handle.offset }

/-- The entry of a slot after `ensure_open` opened it at the logical clock `clock`: the
handle is Open with the access mode of the slot, at the recorded offset, and the slot is
marked physically open. -/
def reopened_slot (slot : PoolSlot) (clock : Nat) : PoolSlot :=
  { slot with
    handle :=
      { slot.handle with state := .Open, offset := slot.offset, access_mode := slot.access_mode }
    is_physically_open := true
    last_used := clock }

/-- The pool after the closing of the slot at `index`. -/
def pool_evict (pool : Pool) (index : Nat) (slot : PoolSlot) : Pool :=
  { pool_set pool index (some (evicted_slot slot)) with
    current_open_count := pool.current_open_count - 1 }

/-- The pool after `ensure_open` opened the slot at `index`, from the pool `room` the
step that makes room left. -/
def pool_reopen (room : Pool) (index : Nat) (slot : PoolSlot) : Pool :=
  { pool_set room index (some (reopened_slot slot room.clock)) with
    clock := room.clock + 1
    current_open_count := room.current_open_count + 1 }

/-- What the step of `ensure_open` that makes room leaves when it succeeds: the pool as
it was when it was below its capacity, and otherwise the pool after the closing of the
slot `select_victim` chose, which was physically open with an Open handle. -/
def made_room (pool : Pool) (target : Nat) (room : Pool) : Prop :=
  (pool.current_open_count ≠ pool.max_open_handles ∧ room = pool)
    ∨ (pool.current_open_count = pool.max_open_handles
      ∧ ∃ victim chosen, select_victim pool.slots target = some victim
          ∧ victim ≠ target
          ∧ pool.slots.get? victim = some (some chosen)
          ∧ chosen.is_physically_open = true
          ∧ chosen.handle.state = .Open
          ∧ room = pool_evict pool victim chosen)

/-- An entry of the pool before and after the closing of its slot by an eviction. -/
def slot_evicted (before after : Option (Option PoolSlot)) : Prop :=
  ∃ chosen, before = some (some chosen) ∧ chosen.is_physically_open = true
    ∧ chosen.handle.state = .Open ∧ after = some (some (evicted_slot chosen))

/-- An operation that does not set the position of the slot at `index` or discard the
slot: every operation addressed to another slot, and `append`, `ensure_open`,
`get_size`, `close` and `clone`. -/
def keeps_position (operation : PoolOperation) (index : Nat) : Prop :=
  match operation with
  | .read target _ => target ≠ index
  | .write target _ => target ≠ index
  | .seek target _ _ => target ≠ index
  | .remove target => target ≠ index
  | _ => True

/-- Two states of a handle that differ at most in the offset and the bytes of the
store, as before and after a `read`, `write`, `seek` or `get_size`. -/
def handle_moved (before after : Handle) : Prop :=
  after.name = before.name ∧ after.state = before.state
    ∧ after.access_mode = before.access_mode ∧ after.opens = before.opens

/-- Every registered slot of the pool has the property `P` at its index. -/
def slots_satisfy (P : Nat → PoolSlot → Prop) (pool : Pool) : Prop :=
  ∀ index slot, pool.slots.get? index = some (some slot) → P index slot

/-- A property of the slots that the changes the pool operations make to a registered
slot keep: the closing of a physically open slot, the refresh of the recency marker,
the opening of a slot that is not physically open, and an operation on the handle that
leaves its name, state and access mode. -/
def slot_property_stable (P : Nat → PoolSlot → Prop) : Prop :=
  (∀ index slot, P index slot → slot.is_physically_open = true → P index (evicted_slot slot))
    ∧ (∀ index slot clock, P index slot → P index { slot with last_used := clock })
    ∧ (∀ index slot clock, P index slot → slot.is_physically_open = false →
        P index (reopened_slot slot clock))
    ∧ (∀ index slot handle, P index slot → handle_moved slot.handle handle →
        P index { slot with handle := handle })

/-- The slot `append` registers for a handle. -/
def appended_slot (handle : Handle) (access_mode : OpenFlags) : PoolSlot :=
  ⟨handle, false, 0, access_mode, 0⟩

/-- The slots the operation registers have the property `P`: for an `append` of a
handle to a pool with `length` entries, the new slot has it at the index `length`. -/
def appends_satisfy (P : Nat → PoolSlot → Prop) (length : Nat) (operation : PoolOperation) :
    Prop :=
  match operation with
  | .append (some handle) access_mode => P length (appended_slot handle access_mode)
  | _ => True

/-- The slot is coherent, and reads are served from the slot at `reader`: every slot is
marked physically open exactly when its handle is Open; the handle of the slot at
`reader` has a name the operating system opens, the access mode of the slot allows
reading, and so does the mode of the handle while the slot is physically open. -/
def slot_serves_reads (reader : Nat) (index : Nat) (slot : PoolSlot) : Prop :=
  (slot.is_physically_open = true ↔ slot.handle.state = .Open)
    ∧ (index = reader →
        slot.handle.name ≠ none ∧ slot.handle.opens = true
          ∧ read_capable slot.access_mode = true
          ∧ (slot.is_physically_open = true → read_capable slot.handle.access_mode = true))

/-- A Closed handle with the name "a" over the given bytes, which the operating system
opens, with read access. -/
def stored_handle (data : List Nat) : Handle :=
  { name := some ['a']
    state := .Closed
    access_mode := LIBBFIO_OPEN_READ
    offset := 0
    data := data
    opens := true }

/-- A pool for one open handle with two slots registered for reading, over the bytes
1, 2, 3, 4 and 10, 20, 30. -/
def two_slot_pool : Pool :=
  (pool_append
    (pool_append ( pool_initialize 1) (some (stored_handle [1, 2, 3, 4])) LIBBFIO_OPEN_READ).2
    (some (stored_handle [10, 20, 30])) LIBBFIO_OPEN_READ).2

/-- A pool for two open handles at its capacity: the slots 0 and 1 are physically open
with the same recency marker, the slot 2 is not open. -/
def tied_pool : Pool :=
  { slots :=
      [some ⟨{ stored_handle [1] with state := .Open }, true, 5, LIBBFIO_OPEN_READ, 0⟩,
        some ⟨{ stored_handle [2] with state := .Open }, true, 5, LIBBFIO_OPEN_READ, 0⟩,
        some (appended_slot (stored_handle [3]) LIBBFIO_OPEN_READ)]
    max_open_handles := 2
    current_open_count := 2
    clock := 6 }

theorem parent_segment_iff (s : List Char) :
    (s.length + 1 = 3 ∧ s.get? 0 = some '.' ∧ s.get? 1 = some '.') ↔ s = ['.', '.'] := by
  constructor
  · rintro ⟨h1, h2, h3⟩
    match s, h1, h2, h3 with
    | [a, b], _, h2, h3 =>
      simp at h2 h3
      simp [h2, h3]
  · rintro rfl
    simp

theorem self_segment_iff (s : List Char) :
    (s.length + 1 = 2 ∧ s.get? 0 = some '.') ↔ s = ['.'] := by
  constructor
  · rintro ⟨h1, h2⟩
    match s, h1, h2 with
    | [a], _, h2 =>
      simp at h2
      simp [h2]
  · rintro rfl
    simp

theorem get_segment_at (pre tail : SplitString) (x : Segment) :
    get_segment_by_index (some (pre ++ x :: tail)) (pre.length : Int) = some x := by
  simp only [get_segment_by_index, Int.toNat_ofNat, Nat.cast_nonneg, if_true,
    List.get?_eq_getElem?]
  rw [List.getElem?_append_right (le_refl _)]
  simp

theorem set_segment_at (pre tail : SplitString) (x y : Segment) :
    set_segment_by_index (some (pre ++ x :: tail)) (pre.length : Int) y
      = some (pre ++ y :: tail) := by
  simp [set_segment_by_index, List.set_append_right]

theorem foldlM_ok_cons (f : Resolution → Nat → Except ErrorEntry Resolution)
    (st st1 : Resolution) (i : Nat) (l : List Nat) (h : f st i = .ok st1) :
    (i :: l).foldlM f st = l.foldlM f st1 := by
  simp only [List.foldlM_cons, h]
  rfl

theorem foldlM_error_cons (f : Resolution → Nat → Except ErrorEntry Resolution)
    (st : Resolution) (e : ErrorEntry) (i : Nat) (l : List Nat) (h : f st i = .error e) :
    (i :: l).foldlM f st = .error e := by
  simp only [List.foldlM_cons, h]
  rfl

theorem resolve_segment_plain (st : Resolution) (pre tail : SplitString) (x : List Char)
    (hx : x ≠ ['.', '.']) (hp : st.path_split_string = some (pre ++ some x :: tail)) :
    resolve_segment st pre.length = .ok
      (if x = ['.'] then { st with path_split_string := some (pre ++ none :: tail) }
       else { st with
          full_path_size := size_add st.full_path_size (x.length + 1)
          last_used_path_segment_index := pre.length }) := by
  unfold resolve_segment
  rw [hp, get_segment_at]
  simp only [parent_segment_iff, self_segment_iff, hx, if_false, set_segment_at]
  split <;> rfl

theorem resolve_range_plain (rest : List (List Char)) (hrest : ∀ s ∈ rest, s ≠ ['.', '.']) :
    ∀ (pre : SplitString) (st : Resolution),
      st.path_split_string = some (pre ++ rest.map some) →
      ∃ st1, (List.range' pre.length rest.length).foldlM resolve_segment st = .ok st1
        ∧ st1.path_split_string = some (pre ++ rest.map kept)
        ∧ st1.current_directory_split_string = st.current_directory_split_string
        ∧ st1.full_path_size = plain_size st.full_path_size rest := by
  induction rest with
  | nil =>
    intro pre st hp
    exact ⟨st, rfl, by simpa using hp, rfl, rfl⟩
  | cons x xs ih =>
    intro pre st hp
    have hx : x ≠ ['.', '.'] := hrest x (List.mem_cons_self _ _)
    have hxs : ∀ s ∈ xs, s ≠ ['.', '.'] := fun s hs => hrest s (List.mem_cons_of_mem _ hs)
    have hstep := resolve_segment_plain st pre (xs.map some) x hx (by simpa using hp)
    rw [List.length_cons, List.range'_succ, foldlM_ok_cons _ _ _ _ _ hstep]
    by_cases hd : x = ['.']
    · simp only [hd, if_true] at hstep ⊢
      obtain ⟨st1, h1, h2, h3, h4⟩ := ih hxs (pre ++ [none])
        { st with path_split_string := some (pre ++ none :: xs.map some) } (by simp)
      refine ⟨st1, ?_, ?_, ?_, ?_⟩
      · simpa using h1
      · simpa [kept] using h2
      · simpa using h3
      · simpa [plain_size] using h4
    · simp only [hd, if_false] at hstep ⊢
      obtain ⟨st1, h1, h2, h3, h4⟩ := ih hxs (pre ++ [some x])
        { st with
          full_path_size := size_add st.full_path_size (x.length + 1)
          last_used_path_segment_index := pre.length } (by simpa using hp)
      refine ⟨st1, ?_, ?_, ?_, ?_⟩
      · simpa using h1
      · simpa [kept, hx, hd] using h2
      · simpa using h3
      · simpa [plain_size, hd] using h4

theorem append_segments_eq (separator : Char) (split_string : SplitString) :
    ∀ stored : List Char, append_segments separator stored split_string
      = stored ++ ((retained split_string).map (fun s => s ++ [separator])).flatten := by
  induction split_string with
  | nil => intro stored; simp [append_segments, retained]
  | cons x xs ih =>
    intro stored
    cases x with
    | none =>
      have := ih stored
      simpa [append_segments, retained] using this
    | some s =>
      have := ih (stored ++ s ++ [separator])
      simpa [append_segments, retained] using this

theorem join_separated (separator : Char) (l : List (List Char)) (hl : l ≠ []) :
    (l.map (fun s => s ++ [separator])).flatten = [separator].intercalate l ++ [separator] := by
  induction l with
  | nil => exact absurd rfl hl
  | cons x xs ih =>
    cases xs with
    | nil => simp [List.intercalate]
    | cons y ys =>
      have := ih (by simp)
      simp only [List.map_cons, List.flatten_cons] at this ⊢
      rw [this]
      simp [List.intercalate, List.intersperse]

theorem terminate_concat (stored : List Char) (c : Char) :
    terminate (stored ++ [c]) = stored ++ [NUL] := by
  cases stored with
  | nil => rfl
  | cons x xs =>
    show (x :: xs ++ [c]).dropLast ++ [NUL] = x :: xs ++ [NUL]
    rw [List.dropLast_concat]

theorem c_string_concat (s : List Char) (hs : NUL ∉ s) (rest : List Char) :
    c_string (s ++ NUL :: rest) = s := by
  induction s with
  | nil => simp [c_string]
  | cons x xs ih =>
    have hx : x ≠ NUL := fun h => hs (by simp [h])
    have hxs : NUL ∉ xs := fun h => hs (List.mem_cons_of_mem _ h)
    have := ih hxs
    have hb : (x != NUL) = true := by simp [hx]
    simp only [c_string] at this ⊢
    simp only [List.cons_append, List.takeWhile_cons, hb, if_true, this]

theorem retained_map_some (l : List (List Char)) : retained (l.map some) = l := by
  induction l with
  | nil => rfl
  | cons x xs ih => simp [retained] at ih ⊢

theorem retained_map_kept (l : List (List Char)) :
    retained (l.map kept) = l.filter (fun s => s ≠ ['.', '.'] ∧ s ≠ ['.']) := by
  induction l with
  | nil => rfl
  | cons x xs ih =>
    simp only [retained] at ih
    by_cases h : x = ['.', '.'] ∨ x = ['.']
    · have h2 : ¬ (x ≠ ['.', '.'] ∧ x ≠ ['.']) := by tauto
      simp [retained, kept, h, h2, ih]
    · have h2 : (x ≠ ['.', '.'] ∧ x ≠ ['.']) := by tauto
      simp [retained, kept, h, h2, ih]

theorem posix_lookup_ok (sys : System) (ha : sys.allocate sys.PATH_MAX = true)
    (hl : sys.lookup_fails sys.working_directory = false)
    (hlen : sys.working_directory.length < sys.PATH_MAX) :
    read_current_directory sys .POSIX = .ok ⟨sys.working_directory, sys.PATH_MAX⟩ := by
  have h2 : ¬ sys.PATH_MAX < sys.working_directory.length + 1 := by omega
  simp [read_current_directory, libbfio_path_get_current_working_directory, ha, hl, h2]

theorem split_whole (string : List Char) (size : Nat) (delimiter : Char)
    (h0 : string ≠ []) (hsize : string.length < size) :
    libbfio_narrow_string_split string size delimiter
      = some ((string.splitOn delimiter).map some) := by
  have h1 : size ≠ 0 := by omega
  have h2 : string.take (size - 1) = string := List.take_of_length_le (by omega)
  simp [libbfio_narrow_string_split, h0, h1, h2]

theorem posix_body_relative (sys : System) (path : List Char)
    (hrel : path.head? ≠ some '/') (hp : path ≠ [])
    (ha : sys.allocate sys.PATH_MAX = true)
    (hl : sys.lookup_fails sys.working_directory = false)
    (hlen : sys.working_directory.length < sys.PATH_MAX)
    (hwd : sys.working_directory ≠ []) :
    posix_full_path_body sys path =
      match resolve_segments
          { current_directory_split_string := some ((sys.working_directory.splitOn '/').map some)
            path_split_string := some ((path.splitOn '/').map some)
            full_path_size := posix_relative_size sys
            current_directory_segment_index :=
              ((sys.working_directory.splitOn '/').length : Int) - 1
            last_used_path_segment_index := 0 }
          (path.splitOn '/').length with
      | .error e => .error [e]
      | .ok st =>
        if sys.allocate st.full_path_size = false then .error [⟨.MEMORY, .INSUFFICIENT⟩]
        else
          .ok (posix_rebuild false st, st.full_path_size) := by
  unfold posix_full_path_body
  simp only [posix_lookup_ok sys ha hl hlen, hrel, decide_False, Bool.false_eq_true, if_false]
  simp only [Buffer.string_at, List.drop_zero, Nat.zero_le, if_true,
    split_whole _ _ _ hwd hlen, split_whole path (path.length + 1) '/' hp (Nat.lt_succ_self _),
    get_number_of_segments, Option.map_some', List.length_map, Option.getD_some,
    posix_relative_size]

theorem posix_body_absolute (sys : System) (path : List Char)
    (habs : path.head? = some '/') :
    posix_full_path_body sys path =
      match resolve_segments
          { current_directory_split_string := none
            path_split_string := some ((path.splitOn '/').map some)
            full_path_size := 0
            current_directory_segment_index := 0
            last_used_path_segment_index := 0 }
          (path.splitOn '/').length with
      | .error e => .error [e]
      | .ok st =>
        if sys.allocate st.full_path_size = false then .error [⟨.MEMORY, .INSUFFICIENT⟩]
        else .ok (posix_rebuild true st, st.full_path_size) := by
  have hp : path ≠ [] := by
    intro h
    simp [h] at habs
  unfold posix_full_path_body
  simp only [habs, decide_True, if_true]
  simp only [split_whole path (path.length + 1) '/' hp (Nat.lt_succ_self _),
    get_number_of_segments, Option.map_some', List.length_map, Option.getD_some,
    Option.map_none', Option.getD_none]

theorem posix_full_path_of_body (sys : System) (path : List Char) (size0 : Nat)
    (h0 : path ≠ []) (hmax : path.length < SSIZE_MAX) :
    posix_libbfio_path_get_full_path sys (some path) (some none) (some size0) =
      match posix_full_path_body sys path with
      | .ok (stored, size) => ⟨1, some (some stored), some size, [], sys.working_directory⟩
      | .error e => ⟨-1, some none, some 0, e, sys.working_directory⟩ := by
  have h1 : path.length ≠ 0 := by simpa using h0
  have h2 : ¬ path.length ≥ SSIZE_MAX := by omega
  simp only [posix_libbfio_path_get_full_path, h1, h2, if_false]

theorem shift_separator (separator : Char) (l : List (List Char)) :
    ∀ stored : List Char,
      stored ++ [separator] ++ (l.map (fun s => s ++ [separator])).flatten
        = (stored ++ (l.map (fun s => separator :: s)).flatten) ++ [separator] := by
  induction l with
  | nil => intro stored; simp
  | cons x xs ih =>
    intro stored
    have := ih (stored ++ separator :: x)
    simp only [List.map_cons, List.flatten_cons, List.append_assoc, List.singleton_append,
      List.cons_append] at this ⊢
    exact this

theorem flatten_led (separator : Char) (l : List (List Char)) (hl : l ≠ []) :
    (l.map (fun s => separator :: s)).flatten = separator :: [separator].intercalate l := by
  induction l with
  | nil => exact absurd rfl hl
  | cons x xs ih =>
    cases xs with
    | nil => simp [List.intercalate]
    | cons y ys =>
      have := ih (by simp)
      simp only [List.map_cons, List.flatten_cons] at this ⊢
      rw [this]
      simp [List.intercalate, List.intersperse]

theorem mem_intercalate (separator c : Char) (s : List Char) (hc : c ∈ s) :
    ∀ l : List (List Char), s ∈ l → c ∈ [separator].intercalate l := by
  intro l
  induction l with
  | nil => intro h; simp at h
  | cons x xs ih =>
    intro h
    cases xs with
    | nil =>
      have : s = x := by simpa using h
      simpa [List.intercalate, this] using (this ▸ hc)
    | cons y ys =>
      have hint : [separator].intercalate (x :: y :: ys)
          = x ++ separator :: [separator].intercalate (y :: ys) := by
        simp [List.intercalate, List.intersperse]
      rw [hint]
      rcases List.mem_cons.mp h with h1 | h1
      · simp [← h1, hc]
      · have := ih h1
        simp [this]

theorem mem_of_mem_splitOn (separator c : Char) (l s : List Char)
    (hs : s ∈ l.splitOn separator) (hc : c ∈ s) : c ∈ l := by
  have := mem_intercalate separator c s hc (l.splitOn separator) hs
  rwa [List.intercalate_splitOn] at this

theorem splitOn_ne_nil (separator : Char) (l : List Char) : l.splitOn separator ≠ [] :=
  List.splitOnP_ne_nil _ _

theorem flatten_splitOn (separator : Char) (l : List Char) :
    ((l.splitOn separator).map (fun s => s ++ [separator])).flatten = l ++ [separator] := by
  rw [join_separated separator _ (splitOn_ne_nil separator l), List.intercalate_splitOn]

theorem head_of_splitOn (separator : Char) (l : List Char)
    (h : ∀ s ∈ l.splitOn separator, s ≠ []) : l.head? ≠ some separator := by
  cases l with
  | nil => simp
  | cons x xs =>
    intro hx
    have hx2 : x = separator := by simpa using hx
    have hmem : ([] : List Char) ∈ (x :: xs).splitOn separator := by
      simp [List.splitOn, List.splitOnP_cons, hx2]
    exact h [] hmem rfl

theorem posix_relative_without_parent (sys : System) (path : List Char) (size0 : Nat)
    (hsys : posix_calls_succeed sys) (hwd : sys.working_directory ≠ [])
    (hmax : path.length < SSIZE_MAX)
    (hseg : ∀ s ∈ path.splitOn '/', s ≠ [] ∧ s ≠ ['.', '.']) :
    posix_libbfio_path_get_full_path sys (some path) (some none) (some size0)
      = ⟨1,
        some (some (sys.working_directory
          ++ (((path.splitOn '/').filter (fun s => s ≠ ['.'])).map (fun s => '/' :: s)).flatten
          ++ [NUL])),
        some (plain_size (posix_relative_size sys) (path.splitOn '/')),
        [], sys.working_directory⟩ := by
  obtain ⟨hl, hlen, _, ha⟩ := hsys
  have hrel : path.head? ≠ some '/' := head_of_splitOn '/' path (fun s hs => (hseg s hs).1)
  have hp : path ≠ [] := by
    intro h
    have := (hseg [] (by simp [h])).1
    exact this rfl
  rw [posix_full_path_of_body sys path size0 hp hmax,
    posix_body_relative sys path hrel hp (ha _) hl hlen hwd]
  obtain ⟨st1, h1, h2, h3, h4⟩ := resolve_range_plain (path.splitOn '/')
    (fun s hs => (hseg s hs).2) []
    { current_directory_split_string := some ((sys.working_directory.splitOn '/').map some)
      path_split_string := some ((path.splitOn '/').map some)
      full_path_size := posix_relative_size sys
      current_directory_segment_index :=
        ((sys.working_directory.splitOn '/').length : Int) - 1
      last_used_path_segment_index := 0 } (by simp)
  have hfold : resolve_segments
      { current_directory_split_string := some ((sys.working_directory.splitOn '/').map some)
        path_split_string := some ((path.splitOn '/').map some)
        full_path_size := posix_relative_size sys
        current_directory_segment_index :=
          ((sys.working_directory.splitOn '/').length : Int) - 1
        last_used_path_segment_index := 0 } (path.splitOn '/').length = .ok st1 := by
    simpa [resolve_segments, List.range_eq_range'] using h1
  simp only [hfold, ha, Bool.true_eq_false, if_false]
  have hfilter : (path.splitOn '/').filter (fun s => s ≠ ['.', '.'] ∧ s ≠ ['.'])
      = (path.splitOn '/').filter (fun s => s ≠ ['.']) := by
    apply List.filter_congr
    intro s hs
    simp [(hseg s hs).2]
  have hstored : posix_rebuild false st1 = sys.working_directory
      ++ (((path.splitOn '/').filter (fun s => s ≠ ['.'])).map (fun s => '/' :: s)).flatten
      ++ [NUL] := by
    simp only [posix_rebuild, h2, h3, Option.getD_some, List.nil_append]
    rw [append_segments_eq, append_segments_eq, retained_map_some, List.nil_append,
      flatten_splitOn, retained_map_kept, hfilter]
    have := shift_separator '/' ((path.splitOn '/').filter (fun s => s ≠ ['.']))
      sys.working_directory
    simp only [List.append_assoc] at this ⊢
    rw [this, ← List.append_assoc, terminate_concat]
    simp
  rw [hstored, h4]

theorem string_stored (value : Int) (text : List Char) (size : Nat) (error : List ErrorEntry)
    (directory : List Char) (hn : NUL ∉ text) (hsize : text.length + 1 ≤ size) :
    (FullPathResult.mk value (some (some (text ++ [NUL]))) (some size) error directory).string
      = some text := by
  have h1 : NUL ∈ text ++ [NUL] := by simp
  have h2 : (text ++ [NUL]).length ≤ size := by simpa using hsize
  simp only [FullPathResult.string, h1, h2, and_self, if_true, c_string_concat text hn []]

theorem string_read (r : FullPathResult) (str : List Char) (h : r.string = some str) :
    ∃ bytes, r.full_path = some (some bytes) ∧ NUL ∈ bytes ∧ str = c_string bytes := by
  unfold FullPathResult.string at h
  split at h
  · rename_i bytes size hb hs
    by_cases hc : NUL ∈ bytes ∧ bytes.length ≤ size
    · rw [if_pos hc] at h
      exact ⟨bytes, hb, hc.1, (Option.some.inj h).symm⟩
    · rw [if_neg hc] at h
      cases h
  · cases h

theorem length_flatten_led (separator : Char) (l : List (List Char)) :
    ((l.map (fun s => separator :: s)).flatten).length
      = (l.map (fun s => s.length + 1)).sum := by
  induction l with
  | nil => rfl
  | cons x xs ih =>
    simp only [List.map_cons, List.flatten_cons, List.length_append, List.length_cons,
      List.sum_cons, ih]

theorem sum_filter_le (p : List Char → Bool) (l : List (List Char)) :
    ((l.filter p).map (fun s => s.length + 1)).sum ≤ (l.map (fun s => s.length + 1)).sum := by
  induction l with
  | nil => simp
  | cons x xs ih =>
    by_cases hx : p x = true
    · simp only [List.filter_cons, hx, if_true, List.map_cons, List.sum_cons]
      omega
    · simp only [List.filter_cons, hx, List.map_cons, List.sum_cons]
      simp only [Bool.false_eq_true, if_false]
      omega

theorem plain_size_sum (segments : List (List Char)) :
    ∀ size : Nat, size < SIZE_MODULUS →
      plain_size size segments
        = (size + ((segments.filter (fun s => s ≠ ['.'])).map
            (fun s => s.length + 1)).sum) % SIZE_MODULUS := by
  induction segments with
  | nil =>
    intro size hsize
    simp [plain_size, Nat.mod_eq_of_lt hsize]
  | cons x xs ih =>
    intro size hsize
    have hpos : 0 < SIZE_MODULUS := by decide
    by_cases hx : x = ['.']
    · have := ih size hsize
      simp only [plain_size, List.foldl_cons, hx, if_true] at this ⊢
      rw [this]
      simp
    · have := ih (size_add size (x.length + 1)) (Nat.mod_lt _ hpos)
      simp only [plain_size, List.foldl_cons, hx, if_false] at this ⊢
      rw [this, size_add, Nat.mod_add_mod]
      simp [hx, Nat.add_assoc]

theorem length_flatten_separated (separator : Char) (l : List (List Char)) :
    ((l.map (fun s => s ++ [separator])).flatten).length
      = (l.map (fun s => s.length + 1)).sum := by
  induction l with
  | nil => rfl
  | cons x xs ih =>
    simp only [List.map_cons, List.flatten_cons, List.length_append, List.length_singleton,
      List.sum_cons, ih]


theorem unix_system_calls_succeed (working_directory : List Char)
    (h : working_directory.length < 4096) : posix_calls_succeed (unix_system working_directory) :=
  ⟨rfl, h, (by decide : 4096 ≤ SSIZE_MAX), fun _ => rfl⟩

theorem not_mem_flatten_led (c separator : Char) (hc : c ≠ separator) (l : List (List Char))
    (hl : ∀ s ∈ l, c ∉ s) : c ∉ (l.map (fun s => separator :: s)).flatten := by
  intro h
  rw [List.mem_flatten] at h
  obtain ⟨t, ht, hct⟩ := h
  rw [List.mem_map] at ht
  obtain ⟨s, hs, rfl⟩ := ht
  rcases List.mem_cons.mp hct with h1 | h1
  · exact hc h1
  · exact hl s hs h1

theorem NUL_ne_slash : NUL ≠ '/' := by decide

theorem sum_segments (separator : Char) (l : List Char) :
    ((l.splitOn separator).map (fun s => s.length + 1)).sum = l.length + 1 := by
  rw [← length_flatten_separated separator, flatten_splitOn]
  simp

theorem posix_relative_size_bounds (sys : System) (hwd : sys.working_directory ≠ [])
    (hlast : sys.working_directory.getLast? ≠ some '/')
    (hlen : sys.working_directory.length < sys.PATH_MAX) (hpm : sys.PATH_MAX ≤ SSIZE_MAX) :
    sys.working_directory.length + 1 ≤ posix_relative_size sys
      ∧ posix_relative_size sys ≤ sys.PATH_MAX := by
  have hm : SIZE_MODULUS = 18446744073709551616 := rfl
  have hs : SSIZE_MAX = 9223372036854775807 := rfl
  have hpos : 0 < sys.working_directory.length := List.length_pos.mpr hwd
  have hbase : size_add 0 (size_sub sys.PATH_MAX 1) = sys.PATH_MAX - 1 := by
    simp only [size_add, size_sub, hm]
    omega
  unfold posix_relative_size
  simp only [hbase]
  by_cases hc : 2 ≤ sys.PATH_MAX
      ∧ Buffer.byte sys ⟨sys.working_directory, sys.PATH_MAX⟩ (sys.PATH_MAX - 2) ≠ '/'
  · rw [if_pos hc]
    simp only [size_add, hm]
    omega
  · rw [if_neg hc]
    by_cases hroom : sys.working_directory.length + 2 ≤ sys.PATH_MAX
    · omega
    · exfalso
      apply hc
      refine ⟨by omega, ?_⟩
      have hidx : sys.PATH_MAX - 2 = sys.working_directory.length - 1 := by omega
      have hlt : sys.working_directory.length - 1 < sys.working_directory.length := by omega
      intro hb
      apply hlast
      rw [List.getLast?_eq_getElem?, List.getElem?_eq_getElem hlt]
      simp only [Buffer.byte, hidx, hlt, if_true, List.getD_eq_getElem?_getD,
        List.getElem?_eq_getElem hlt, Option.getD_some] at hb
      rw [hb]

theorem posix_relative_without_parent_string (sys : System) (path : List Char) (size0 : Nat)
    (hsys : posix_calls_succeed sys) (hwd : sys.working_directory ≠ [])
    (hlast : sys.working_directory.getLast? ≠ some '/')
    (hwdn : NUL ∉ sys.working_directory)
    (hmax : path.length < SSIZE_MAX) (hn : NUL ∉ path)
    (hseg : ∀ s ∈ path.splitOn '/', s ≠ [] ∧ s ≠ ['.', '.']) :
    (posix_libbfio_path_get_full_path sys (some path) (some none) (some size0)).value = 1
    ∧ (posix_libbfio_path_get_full_path sys (some path) (some none) (some size0)).string
        = some (sys.working_directory
            ++ (((path.splitOn '/').filter (fun s => s ≠ ['.'])).map
                (fun s => '/' :: s)).flatten) := by
  rw [posix_relative_without_parent sys path size0 hsys hwd hmax hseg]
  refine ⟨rfl, ?_⟩
  obtain ⟨_, hlen, hpm, _⟩ := hsys
  obtain ⟨hb1, hb2⟩ := posix_relative_size_bounds sys hwd hlast hlen hpm
  apply string_stored
  · intro h
    rcases List.mem_append.mp h with h1 | h1
    · exact hwdn h1
    · refine not_mem_flatten_led NUL '/' NUL_ne_slash _ ?_ h1
      intro s hs hc
      exact hn (mem_of_mem_splitOn '/' NUL path s (List.mem_of_mem_filter hs) hc)
  · have hm : SIZE_MODULUS = 18446744073709551616 := rfl
    have hs : SSIZE_MAX = 9223372036854775807 := rfl
    have hle := sum_filter_le (fun s => decide (s ≠ ['.'])) (path.splitOn '/')
    rw [sum_segments] at hle
    rw [plain_size_sum _ _ (by omega), List.length_append, length_flatten_led]
    rw [Nat.mod_eq_of_lt (by omega)]
    omega

/-- C4: a relative path whose segments are all non-empty and none of them "." or ".."
resolves to the working directory, a separator, and the path: the POSIX variant returns
1 and the string is the working directory followed by '/' and the path. -/
theorem posix_plain_relative_path (sys : System) (path : List Char) (size0 : Nat)
    (hsys : posix_calls_succeed sys) (hwd : sys.working_directory ≠ [])
    (hlast : sys.working_directory.getLast? ≠ some '/')
    (hwdn : NUL ∉ sys.working_directory)
    (hmax : path.length < SSIZE_MAX) (hn : NUL ∉ path)
    (hseg : ∀ s ∈ path.splitOn '/', s ≠ [] ∧ s ≠ ['.'] ∧ s ≠ ['.', '.']) :
    (posix_libbfio_path_get_full_path sys (some path) (some none) (some size0)).value = 1
    ∧ (posix_libbfio_path_get_full_path sys (some path) (some none) (some size0)).string
        = some (sys.working_directory ++ '/' :: path) := by
  obtain ⟨h1, h2⟩ := posix_relative_without_parent_string sys path size0 hsys hwd hlast hwdn
    hmax hn (fun s hs => ⟨(hseg s hs).1, (hseg s hs).2.2⟩)
  refine ⟨h1, ?_⟩
  have hfilter : (path.splitOn '/').filter (fun s => s ≠ ['.']) = path.splitOn '/' := by
    rw [List.filter_eq_self]
    intro s hs
    simp [(hseg s hs).2.1]
  rw [h2, hfilter, flatten_led '/' _ (splitOn_ne_nil '/' path), List.intercalate_splitOn]

theorem posix_plain_relative_path_witness :
    posix_calls_succeed (unix_system "/a/b".toList)
    ∧ (posix_libbfio_path_get_full_path (unix_system "/a/b".toList) (some "x/y".toList)
        (some none) (some 0)).string = some "/a/b/x/y".toList :=
  ⟨unix_system_calls_succeed _ (by decide),
    (posix_plain_relative_path (unix_system "/a/b".toList) "x/y".toList 0
      (unix_system_calls_succeed _ (by decide)) (by decide) (by decide) (by decide) (by decide)
      (by decide) (by decide)).2⟩

/-- C5: in a relative path with no ".." segment and no empty segment every "." segment
is dropped and every other segment is kept in order: the POSIX variant returns 1 and the
string is the working directory followed by a separator and a segment for each segment
of the path that is not "."; when every segment is "." it is the working directory. -/
theorem posix_self_segments_dropped (sys : System) (path : List Char) (size0 : Nat)
    (hsys : posix_calls_succeed sys) (hwd : sys.working_directory ≠ [])
    (hlast : sys.working_directory.getLast? ≠ some '/')
    (hwdn : NUL ∉ sys.working_directory)
    (hmax : path.length < SSIZE_MAX) (hn : NUL ∉ path)
    (hseg : ∀ s ∈ path.splitOn '/', s ≠ [] ∧ s ≠ ['.', '.']) :
    (posix_libbfio_path_get_full_path sys (some path) (some none) (some size0)).value = 1
    ∧ (posix_libbfio_path_get_full_path sys (some path) (some none) (some size0)).string
        = some (sys.working_directory
            ++ (((path.splitOn '/').filter (fun s => s ≠ ['.'])).map
                (fun s => '/' :: s)).flatten)
    ∧ ((∀ s ∈ path.splitOn '/', s = ['.']) →
        (posix_libbfio_path_get_full_path sys (some path) (some none) (some size0)).string
          = some sys.working_directory) := by
  obtain ⟨h1, h2⟩ := posix_relative_without_parent_string sys path size0 hsys hwd hlast hwdn
    hmax hn hseg
  refine ⟨h1, h2, ?_⟩
  intro hall
  have hnil : (path.splitOn '/').filter (fun s => s ≠ ['.']) = [] := by
    rw [List.filter_eq_nil_iff]
    intro s hs
    simp [hall s hs]
  rw [h2, hnil]
  simp

theorem posix_self_segments_dropped_witness :
    posix_calls_succeed (unix_system "/a/b".toList)
    ∧ (posix_libbfio_path_get_full_path (unix_system "/a/b".toList) (some "./x/./y/.".toList)
        (some none) (some 0)).string = some "/a/b/x/y".toList :=
  ⟨unix_system_calls_succeed _ (by decide),
    (posix_self_segments_dropped (unix_system "/a/b".toList) "./x/./y/.".toList 0
      (unix_system_calls_succeed _ (by decide)) (by decide) (by decide) (by decide) (by decide)
      (by decide) (by decide)).2.1⟩

theorem plain_size_eq (segments : List (List Char)) (hs : ∀ s ∈ segments, s ≠ ['.']) :
    ∀ size : Nat, size < SIZE_MODULUS →
      plain_size size segments
        = (size + (segments.map (fun s => s.length + 1)).sum) % SIZE_MODULUS := by
  induction segments with
  | nil =>
    intro size hsize
    simp [plain_size, Nat.mod_eq_of_lt hsize]
  | cons x xs ih =>
    intro size hsize
    have hx : x ≠ ['.'] := hs x (List.mem_cons_self _ _)
    have hpos : 0 < SIZE_MODULUS := by decide
    have := ih (fun s h => hs s (List.mem_cons_of_mem _ h)) (size_add size (x.length + 1))
      (Nat.mod_lt _ hpos)
    simp only [plain_size, List.foldl_cons, hx, if_false, List.map_cons, List.sum_cons] at this ⊢
    rw [this, size_add, Nat.mod_add_mod, Nat.add_assoc]

/-- C10: an absolute path without "." and ".." segments is a fixed point of the POSIX
variant: the call returns 1, the string equals the path and `*full_path_size` is
`path_length + 1`. -/
theorem posix_canonical_absolute_fixed (sys : System) (path : List Char) (size0 : Nat)
    (habs : path.head? = some '/') (hmax : path.length < SSIZE_MAX) (hn : NUL ∉ path)
    (hseg : ∀ s ∈ path.splitOn '/', s ≠ ['.'] ∧ s ≠ ['.', '.'])
    (ha : sys.allocate (path.length + 1) = true) :
    (posix_libbfio_path_get_full_path sys (some path) (some none) (some size0)).value = 1
    ∧ (posix_libbfio_path_get_full_path sys (some path) (some none) (some size0)).string
        = some path
    ∧ (posix_libbfio_path_get_full_path sys (some path) (some none) (some size0)).full_path_size
        = some (path.length + 1) := by
  have hp : path ≠ [] := by
    intro h
    simp [h] at habs
  rw [posix_full_path_of_body sys path size0 hp hmax, posix_body_absolute sys path habs]
  obtain ⟨st1, h1, h2, h3, h4⟩ := resolve_range_plain (path.splitOn '/')
    (fun s hs => (hseg s hs).2) []
    { current_directory_split_string := none
      path_split_string := some ((path.splitOn '/').map some)
      full_path_size := 0
      current_directory_segment_index := 0
      last_used_path_segment_index := 0 } (by simp)
  have hfold : resolve_segments
      { current_directory_split_string := none
        path_split_string := some ((path.splitOn '/').map some)
        full_path_size := 0
        current_directory_segment_index := 0
        last_used_path_segment_index := 0 } (path.splitOn '/').length = .ok st1 := by
    simpa [resolve_segments, List.range_eq_range'] using h1
  have hsize : st1.full_path_size = path.length + 1 := by
    rw [h4, plain_size_eq _ (fun s hs => (hseg s hs).1) 0 (by decide),
      ← length_flatten_separated '/', flatten_splitOn]
    simp only [Nat.zero_add, List.length_append, List.length_singleton]
    apply Nat.mod_eq_of_lt
    have : SSIZE_MAX < SIZE_MODULUS - 1 := by decide
    omega
  have hfilter : (path.splitOn '/').filter (fun s => s ≠ ['.', '.'] ∧ s ≠ ['.'])
      = path.splitOn '/' := by
    rw [List.filter_eq_self]
    intro s hs
    simp [(hseg s hs).1, (hseg s hs).2]
  have hstored : posix_rebuild true st1 = path ++ [NUL] := by
    simp only [posix_rebuild, h2, h3, Option.getD_some, List.nil_append]
    rw [append_segments_eq, retained_map_kept, hfilter, flatten_splitOn, List.nil_append,
      terminate_concat]
  simp only [hfold, hsize, ha, Bool.true_eq_false, if_false, hstored]
  exact ⟨trivial, string_stored _ _ _ _ _ hn (Nat.le_refl _), trivial⟩

theorem posix_canonical_absolute_fixed_witness :
    (posix_libbfio_path_get_full_path (unix_system "/w".toList) (some "/usr/lib/x.so".toList)
        (some none) (some 0)).string = some "/usr/lib/x.so".toList
    ∧ (posix_libbfio_path_get_full_path (unix_system "/w".toList) (some "/usr/lib/x.so".toList)
        (some none) (some 0)).full_path_size = some 14 :=
  (posix_canonical_absolute_fixed (unix_system "/w".toList) "/usr/lib/x.so".toList 0
    (by decide) (by decide) (by decide) (by decide) rfl).2

theorem splitOn_rooted (segments : List (List Char)) (hne : segments ≠ [])
    (hseg : ∀ s ∈ segments, '/' ∉ s) :
    ('/' :: ['/'].intercalate segments).splitOn '/' = [] :: segments := by
  have h : (['/'].intercalate ([] :: segments)).splitOn '/' = [] :: segments :=
    List.splitOn_intercalate ([] :: segments) '/'
    (by
      intro l hl
      rcases List.mem_cons.mp hl with h1 | h1
      · simp [h1]
      · exact hseg l h1)
    (by simp)
  have hint : ['/'].intercalate ([] :: segments) = '/' :: ['/'].intercalate segments := by
    cases segments with
    | nil => exact absurd rfl hne
    | cons x xs => simp [List.intercalate, List.intersperse]
  rw [hint] at h
  exact h

theorem resolve_segments_one (st : Resolution) :
    resolve_segments st 1 = resolve_segment st 0 := by
  simp only [resolve_segments, List.range_succ, List.range_zero, List.nil_append,
    List.foldlM_cons, List.foldlM_nil]
  cases resolve_segment st 0 <;> rfl

theorem not_mem_intercalate (c separator : Char) (hc : c ≠ separator) (l : List (List Char))
    (hl : ∀ s ∈ l, c ∉ s) : c ∉ [separator].intercalate l := by
  induction l with
  | nil => simp [List.intercalate]
  | cons x xs ih =>
    cases xs with
    | nil => simpa [List.intercalate] using hl x (List.mem_cons_self _ _)
    | cons y ys =>
      have hint : [separator].intercalate (x :: y :: ys)
          = x ++ separator :: [separator].intercalate (y :: ys) := by
        simp [List.intercalate, List.intersperse]
      rw [hint]
      intro h
      rcases List.mem_append.mp h with h1 | h1
      · exact hl x (List.mem_cons_self _ _) h1
      · rcases List.mem_cons.mp h1 with h2 | h2
        · exact hc h2
        · exact ih (fun s hs => hl s (List.mem_cons_of_mem _ hs)) h2

theorem intercalate_concat (separator : Char) (l : List (List Char)) (x : List Char)
    (hl : l ≠ []) :
    [separator].intercalate (l ++ [x]) = [separator].intercalate l ++ separator :: x := by
  induction l with
  | nil => exact absurd rfl hl
  | cons a as ih =>
    cases as with
    | nil => simp [List.intercalate, List.intersperse]
    | cons b bs =>
      have h1 := ih (by simp)
      have h2 : ∀ t : List (List Char), [separator].intercalate (a :: b :: t)
          = a ++ separator :: [separator].intercalate (b :: t) := by
        intro t
        simp [List.intercalate, List.intersperse]
      have h3 : a :: b :: bs ++ [x] = a :: b :: (bs ++ [x]) := rfl
      rw [h3, h2, h2]
      have h4 : b :: (bs ++ [x]) = b :: bs ++ [x] := rfl
      rw [h4, h1]
      simp

/-- C1: with a working directory of at least two non-empty segments the relative path
".." resolves to the working directory without its last segment and the separator
before it: the POSIX variant returns 1 and the string is the separator followed by the
segments but the last, joined by separators. -/
theorem posix_parent_of_working_directory (sys : System) (segments : List (List Char))
    (size0 : Nat) (hsys : posix_calls_succeed sys)
    (hwd : sys.working_directory = '/' :: ['/'].intercalate segments)
    (hlen : 2 ≤ segments.length)
    (hseg : ∀ s ∈ segments, s ≠ [] ∧ '/' ∉ s ∧ NUL ∉ s) :
    (posix_libbfio_path_get_full_path sys (some ['.', '.']) (some none) (some size0)).value = 1
    ∧ (posix_libbfio_path_get_full_path sys (some ['.', '.']) (some none) (some size0)).string
        = some ('/' :: ['/'].intercalate segments.dropLast) := by
  obtain ⟨hl, hlenw, hpm, ha⟩ := hsys
  have hne : segments ≠ [] := by
    intro h
    simp [h] at hlen
  have hdne : segments.dropLast ≠ [] := by
    intro h
    have := congrArg List.length h
    simp at this
    omega
  have hsplit : sys.working_directory.splitOn '/'
      = ([] :: segments.dropLast) ++ [segments.getLast hne] := by
    rw [hwd, splitOn_rooted segments hne (fun s hs => (hseg s hs).2.1), List.cons_append,
      List.dropLast_append_getLast]
  rw [posix_full_path_of_body sys _ size0 (by simp) (by decide),
    posix_body_relative sys _ (by simp) (by simp) (ha _) hl hlenw (by simp [hwd])]
  have hpath : (['.', '.'] : List Char).splitOn '/' = [['.', '.']] := by decide
  simp only [hpath, List.length_singleton, resolve_segments_one, List.map_cons, List.map_nil]
  have hstep : resolve_segment
      { current_directory_split_string := some ((sys.working_directory.splitOn '/').map some)
        path_split_string := some [some ['.', '.']]
        full_path_size := posix_relative_size sys
        current_directory_segment_index :=
          ((sys.working_directory.splitOn '/').length : Int) - 1
        last_used_path_segment_index := 0 } 0
      = .ok
      { current_directory_split_string :=
          some (([] :: segments.dropLast).map some ++ [none])
        path_split_string := some [none]
        full_path_size :=
          size_sub (posix_relative_size sys) ((segments.getLast hne).length + 1)
        current_directory_segment_index :=
          ((sys.working_directory.splitOn '/').length : Int) - 1 - 1
        last_used_path_segment_index := 0 } := by
    have hidx : ((sys.working_directory.splitOn '/').length : Int) - 1
        = ((([] :: segments.dropLast).map some).length : Int) := by
      rw [hsplit]
      simp
    have hcds : (sys.working_directory.splitOn '/').map some
        = ([] :: segments.dropLast).map some ++ some (segments.getLast hne) :: [] := by
      rw [hsplit]
      simp
    have hget := get_segment_at [] [] (some ['.', '.'])
    have hset := set_segment_at [] [] (some ['.', '.']) none
    simp only [List.nil_append, List.length_nil, Nat.cast_zero] at hget hset
    unfold resolve_segment
    simp only [Nat.cast_zero, hget, hset]
    simp only [parent_segment_iff, if_true, hidx, hcds, get_segment_at, set_segment_at]
  rw [hstep]
  have hret1 : retained (([] :: segments.dropLast).map some ++ [none])
      = [] :: segments.dropLast := by
    have := retained_map_some ([] :: segments.dropLast)
    simp only [retained, List.filterMap_append] at this ⊢
    rw [this]
    simp
  have hret2 : retained [none] = [] := rfl
  have hjoin := join_separated '/' segments.dropLast hdne
  have hstored : posix_rebuild false
      { current_directory_split_string :=
          some (([] :: segments.dropLast).map some ++ [none])
        path_split_string := some [none]
        full_path_size :=
          size_sub (posix_relative_size sys) ((segments.getLast hne).length + 1)
        current_directory_segment_index :=
          ((sys.working_directory.splitOn '/').length : Int) - 1 - 1
        last_used_path_segment_index := 0 }
      = ('/' :: ['/'].intercalate segments.dropLast) ++ [NUL] := by
    simp only [posix_rebuild, Option.getD_some]
    rw [append_segments_eq, append_segments_eq, hret1, hret2]
    simp only [List.map_cons, List.flatten_cons, List.nil_append, List.map_nil,
      List.flatten_nil, List.append_nil, hjoin]
    have hrw : ['/'] ++ (['/'].intercalate segments.dropLast ++ ['/'])
        = ('/' :: ['/'].intercalate segments.dropLast) ++ ['/'] := by simp
    rw [hrw, terminate_concat]
  simp only [ha, Bool.true_eq_false, if_false, hstored]
  refine ⟨trivial, ?_⟩
  have hcat : ['/'].intercalate segments
      = ['/'].intercalate segments.dropLast ++ '/' :: segments.getLast hne := by
    conv_lhs => rw [← List.dropLast_append_getLast hne]
    exact intercalate_concat '/' _ _ hdne
  have hlne : segments.getLast hne ≠ [] := (hseg _ (List.getLast_mem hne)).1
  have hlast : sys.working_directory.getLast? ≠ some '/' := by
    rw [hwd, hcat]
    have happ : '/' :: (['/'].intercalate segments.dropLast ++ '/' :: segments.getLast hne)
        = ('/' :: (['/'].intercalate segments.dropLast ++ ['/'])) ++ segments.getLast hne := by
      simp
    rw [happ, List.getLast?_append_of_ne_nil _ hlne, List.getLast?_eq_getLast _ hlne]
    intro hc
    have hmem := List.getLast_mem hlne
    rw [Option.some.inj hc] at hmem
    exact (hseg _ (List.getLast_mem hne)).2.1 hmem
  obtain ⟨hb1, hb2⟩ := posix_relative_size_bounds sys (by simp [hwd]) hlast hlenw hpm
  apply string_stored
  · intro h
    rcases List.mem_cons.mp h with h1 | h1
    · exact NUL_ne_slash h1
    · exact not_mem_intercalate NUL '/' NUL_ne_slash _
        (fun s hs => (hseg s (List.dropLast_subset _ hs)).2.2) h1
  · have hm : SIZE_MODULUS = 18446744073709551616 := rfl
    have hs : SSIZE_MAX = 9223372036854775807 := rfl
    have hwl : sys.working_directory.length
        = (['/'].intercalate segments.dropLast).length + (segments.getLast hne).length + 2 := by
      rw [hwd, hcat]
      simp only [List.length_cons, List.length_append]
      omega
    simp only [size_sub, hm, List.length_cons]
    omega

theorem posix_parent_of_working_directory_witness :
    posix_calls_succeed (unix_system "/a/b/c".toList)
    ∧ (posix_libbfio_path_get_full_path (unix_system "/a/b/c".toList) (some "..".toList)
        (some none) (some 0)).string = some "/a/b".toList :=
  ⟨unix_system_calls_succeed _ (by decide),
    (posix_parent_of_working_directory (unix_system "/a/b/c".toList)
      ["a".toList, "b".toList, "c".toList] 0
      (unix_system_calls_succeed _ (by decide)) (by decide) (by decide) (by decide)).2⟩

theorem kept_parent : kept ['.', '.'] = none := by decide

theorem resolve_segment_step (directory : List (List Char)) (st st1 : Resolution)
    (pre tail : SplitString) (x : List Char)
    (hp : st.path_split_string = some (pre ++ some x :: tail))
    (hc : directory_popped directory st)
    (h : resolve_segment st pre.length = .ok st1) :
    st1.path_split_string = some (pre ++ kept x :: tail) ∧ directory_popped directory st1 := by
  by_cases hx : x = ['.', '.']
  · subst hx
    unfold resolve_segment at h
    rw [hp, get_segment_at] at h
    simp only [parent_segment_iff, if_true, set_segment_at] at h
    by_cases hl : st.last_used_path_segment_index = 0
    · simp only [hl, if_true] at h
      rcases hc with hc | ⟨front, back, hd, hcds, hidx⟩
      · rw [hc] at h
        simp [get_segment_by_index] at h
      · rcases List.eq_nil_or_concat front with hf | ⟨f, c, hf⟩
        · subst hf
          rw [hcds, hidx] at h
          simp [get_segment_by_index] at h
        · rw [List.concat_eq_append] at hf
          subst hf
          have hi : st.current_directory_segment_index = ((f.map some).length : Int) := by
            rw [hidx]
            simp
          have hl2 : (f ++ [c]).map some ++ back.map (fun _ => (none : Segment))
              = f.map some ++ some c :: back.map (fun _ => none) := by simp
          rw [hcds, hi, hl2, get_segment_at] at h
          simp only [set_segment_at] at h
          injection h with h
          subst h
          refine ⟨by simp [kept_parent], Or.inr ⟨f, c :: back, by simp [hd], by simp, ?_⟩⟩
          simp
    · simp only [hl, if_false] at h
      cases hg : get_segment_by_index (some (pre ++ some ['.', '.'] :: tail))
          st.last_used_path_segment_index with
      | none => simp [hg] at h
      | some seg =>
        cases seg with
        | none => simp [hg] at h
        | some last =>
          simp only [hg] at h
          cases hpr : previous_used_segment (some (pre ++ none :: tail))
              st.last_used_path_segment_index with
          | error e => simp [hpr] at h
          | ok k =>
            simp only [hpr, set_segment_at] at h
            injection h with h
            subst h
            exact ⟨by simp [kept_parent], hc⟩
  · rw [resolve_segment_plain st pre tail x hx hp] at h
    injection h with h
    subst h
    by_cases hd : x = ['.']
    · simp only [hd, if_true]
      exact ⟨by simp [kept], hc⟩
    · simp only [hd, if_false]
      exact ⟨by simp [kept, hx, hd, hp], hc⟩

theorem resolve_range_shape (directory : List (List Char)) (rest : List (List Char)) :
    ∀ (pre : SplitString) (st st1 : Resolution),
      st.path_split_string = some (pre ++ rest.map some) →
      directory_popped directory st →
      (List.range' pre.length rest.length).foldlM resolve_segment st = .ok st1 →
      st1.path_split_string = some (pre ++ rest.map kept) ∧ directory_popped directory st1 := by
  induction rest with
  | nil =>
    intro pre st st1 hp hc h
    have : st = st1 := by
      simp only [List.length_nil, List.range'_zero, List.foldlM_nil] at h
      exact Except.ok.inj h
    subst this
    exact ⟨by simpa using hp, hc⟩
  | cons x xs ih =>
    intro pre st st1 hp hc h
    rw [List.length_cons, List.range'_succ] at h
    cases hstep : resolve_segment st pre.length with
    | error e =>
      rw [foldlM_error_cons _ _ _ _ _ hstep] at h
      cases h
    | ok st2 =>
      rw [foldlM_ok_cons _ _ _ _ _ hstep] at h
      obtain ⟨h1, h2⟩ := resolve_segment_step directory st st2 pre (xs.map some) x
        (by simpa using hp) hc hstep
      have := ih (pre ++ [kept x]) st2 st1 (by simpa using h1) h2 (by simpa using h)
      simpa using this

theorem resolve_segments_shape (directory segments : List (List Char)) (st st1 : Resolution)
    (hp : st.path_split_string = some (segments.map some))
    (hc : directory_popped directory st)
    (h : resolve_segments st segments.length = .ok st1) :
    st1.path_split_string = some (segments.map kept) ∧ directory_popped directory st1 := by
  have := resolve_range_shape directory segments [] st st1 (by simpa using hp) hc
    (by simpa [resolve_segments, List.range_eq_range'] using h)
  simpa using this

theorem splitOn_cons_separator (separator : Char) (l : List Char) :
    (separator :: l).splitOn separator = [] :: l.splitOn separator := by
  simp [List.splitOn, List.splitOnP_cons]

theorem splitOn_cons_other (separator x : Char) (hx : x ≠ separator) (l : List Char) :
    ∃ s t, l.splitOn separator = s :: t ∧ (x :: l).splitOn separator = (x :: s) :: t := by
  have hne := splitOn_ne_nil separator l
  cases hl : l.splitOn separator with
  | nil => exact absurd hl hne
  | cons s t =>
    refine ⟨s, t, rfl, ?_⟩
    simp only [List.splitOn] at hl ⊢
    rw [List.splitOnP_cons, hl]
    simp [hx]

theorem splitOn_no_separator (separator : Char) (l : List Char) :
    ∀ s ∈ l.splitOn separator, separator ∉ s := by
  induction l with
  | nil =>
    intro s hs
    have : s = [] := by simpa [List.splitOn, List.splitOnP_nil] using hs
    simp [this]
  | cons x xs ih =>
    intro s hs
    by_cases hx : x = separator
    · subst hx
      rw [splitOn_cons_separator] at hs
      rcases List.mem_cons.mp hs with h1 | h1
      · simp [h1]
      · exact ih s h1
    · obtain ⟨a, t, h1, h2⟩ := splitOn_cons_other separator x hx xs
      rw [h2] at hs
      rw [h1] at ih
      rcases List.mem_cons.mp hs with h3 | h3
      · subst h3
        intro hm
        rcases List.mem_cons.mp hm with h4 | h4
        · exact hx h4.symm
        · exact ih a (List.mem_cons_self _ _) h4
      · exact ih s (List.mem_cons_of_mem _ h3)

theorem splitOn_append_separator (separator : Char) (a b : List Char) :
    (a ++ separator :: b).splitOn separator = a.splitOn separator ++ b.splitOn separator := by
  induction a with
  | nil =>
    have h1 : ([] : List Char).splitOn separator = [[]] := by
      simp [List.splitOn, List.splitOnP_nil]
    rw [List.nil_append, splitOn_cons_separator, h1]
    rfl
  | cons x xs ih =>
    by_cases hx : x = separator
    · subst hx
      rw [List.cons_append, splitOn_cons_separator, splitOn_cons_separator, ih]
      rfl
    · obtain ⟨s, t, h1, h2⟩ := splitOn_cons_other separator x hx xs
      obtain ⟨s2, t2, h3, h4⟩ := splitOn_cons_other separator x hx (xs ++ separator :: b)
      rw [List.cons_append, h4, h2]
      rw [ih, h1] at h3
      simp only [List.cons_append, List.cons.injEq] at h3
      rw [← h3.1, ← h3.2]
      rfl

theorem posix_lookup_failed (sys : System)
    (h : ¬ (sys.allocate sys.PATH_MAX = true
      ∧ sys.lookup_fails sys.working_directory = false
      ∧ sys.working_directory.length < sys.PATH_MAX)) :
    ∃ e, read_current_directory sys .POSIX = .error e := by
  simp only [read_current_directory, libbfio_path_get_current_working_directory]
  by_cases ha : sys.allocate sys.PATH_MAX = true
  · by_cases hl : sys.lookup_fails sys.working_directory = false
    · have hlen : sys.PATH_MAX < sys.working_directory.length + 1 := by
        by_contra hc
        exact h ⟨ha, hl, by omega⟩
      simp [ha, hl, hlen]
    · simp [ha, hl]
  · simp [ha]

theorem posix_body_lookup_failed (sys : System) (path : List Char)
    (hrel : path.head? ≠ some '/')
    (h : ¬ (sys.allocate sys.PATH_MAX = true
      ∧ sys.lookup_fails sys.working_directory = false
      ∧ sys.working_directory.length < sys.PATH_MAX)) :
    ∃ e, posix_full_path_body sys path = .error e := by
  obtain ⟨e, he⟩ := posix_lookup_failed sys h
  unfold posix_full_path_body
  simp only [hrel, decide_False, Bool.false_eq_true, if_false, he]
  exact ⟨_, rfl⟩

theorem posix_body_relative_empty (sys : System) (path : List Char)
    (hrel : path.head? ≠ some '/') (hp : path ≠ [])
    (ha : sys.allocate sys.PATH_MAX = true)
    (hl : sys.lookup_fails sys.working_directory = false)
    (hlen : sys.working_directory.length < sys.PATH_MAX)
    (hwd : sys.working_directory = []) :
    posix_full_path_body sys path =
      match resolve_segments
          { current_directory_split_string := none
            path_split_string := some ((path.splitOn '/').map some)
            full_path_size := posix_relative_size sys
            current_directory_segment_index := 0
            last_used_path_segment_index := 0 }
          (path.splitOn '/').length with
      | .error e => .error [e]
      | .ok st =>
        if sys.allocate st.full_path_size = false then .error [⟨.MEMORY, .INSUFFICIENT⟩]
        else .ok (posix_rebuild false st, st.full_path_size) := by
  unfold posix_full_path_body
  simp only [posix_lookup_ok sys ha hl hlen, hrel, decide_False, Bool.false_eq_true, if_false]
  have hsplit0 : libbfio_narrow_string_split [] sys.PATH_MAX '/' = none := by
    simp [libbfio_narrow_string_split]
  simp only [Buffer.string_at, List.drop_zero, Nat.zero_le, if_true, hwd, hsplit0,
    split_whole path (path.length + 1) '/' hp (Nat.lt_succ_self _),
    get_number_of_segments, Option.map_some', List.length_map, Option.getD_some,
    Option.map_none', Option.getD_none, posix_relative_size]

/-- The segments a successful call of the POSIX variant stores: a front part of the
segments of the working directory (none of them for an absolute path), then the
segments of the path that are neither "." nor "..", each followed by a separator. -/
theorem posix_success_shape (sys : System) (path : List Char) (size0 : Nat)
    (h : (posix_libbfio_path_get_full_path sys (some path) (some none) (some size0)).value = 1) :
    ∃ front : List (List Char),
      front <+: sys.working_directory.splitOn '/'
      ∧ (path.head? = some '/' → front = [])
      ∧ (posix_libbfio_path_get_full_path sys (some path) (some none) (some size0)).full_path
        = some (some (terminate
            (((front ++ (path.splitOn '/').filter (fun s => s ≠ ['.', '.'] ∧ s ≠ ['.'])).map
              (fun s => s ++ ['/'])).flatten))) := by
  by_cases hp : path = []
  · simp [posix_libbfio_path_get_full_path, hp] at h
  by_cases hmax : path.length < SSIZE_MAX
  swap
  · have h1 : path.length ≠ 0 := by simpa using hp
    have h2 : path.length ≥ SSIZE_MAX := by omega
    simp [posix_libbfio_path_get_full_path, h1, h2] at h
  rw [posix_full_path_of_body sys path size0 hp hmax] at h ⊢
  -- the state before the loop and the shape of its directory entries
  have key : ∀ (st : Resolution) (absolute : Bool),
      st.path_split_string = some ((path.splitOn '/').map some) →
      directory_popped (sys.working_directory.splitOn '/') st →
      posix_full_path_body sys path =
        (match resolve_segments st (path.splitOn '/').length with
        | .error e => .error [e]
        | .ok st =>
          if sys.allocate st.full_path_size = false then .error [⟨.MEMORY, .INSUFFICIENT⟩]
          else .ok (posix_rebuild absolute st, st.full_path_size)) →
      (path.head? = some '/' → absolute = true) →
      ∃ front : List (List Char),
        front <+: sys.working_directory.splitOn '/'
        ∧ (path.head? = some '/' → front = [])
        ∧ (match posix_full_path_body sys path with
          | .ok (stored, size) =>
            (⟨1, some (some stored), some size, [], sys.working_directory⟩ : FullPathResult)
          | .error e => ⟨-1, some none, some 0, e, sys.working_directory⟩).full_path
          = some (some (terminate
              (((front ++ (path.splitOn '/').filter (fun s => s ≠ ['.', '.'] ∧ s ≠ ['.'])).map
                (fun s => s ++ ['/'])).flatten))) := by
    intro st absolute hps hdp hbody habs
    rw [hbody] at h ⊢
    cases hres : resolve_segments st (path.splitOn '/').length with
    | error e => simp [hres] at h
    | ok st1 =>
      simp only [hres] at h ⊢
      by_cases hal : sys.allocate st1.full_path_size = false
      · simp [hal] at h
      have hal1 : sys.allocate st1.full_path_size = true := by simpa using hal
      simp only [hal1, Bool.true_eq_false, if_false]
      obtain ⟨hp1, hd1⟩ := resolve_segments_shape _ _ st st1 hps hdp hres
      have hret : ∀ front : List (List Char),
          append_segments '/' ((front.map (fun s => s ++ ['/'])).flatten)
            (st1.path_split_string.getD [])
          = ((front ++ (path.splitOn '/').filter (fun s => s ≠ ['.', '.'] ∧ s ≠ ['.'])).map
              (fun s => s ++ ['/'])).flatten := by
        intro front
        rw [hp1, Option.getD_some, append_segments_eq, retained_map_kept]
        simp
      cases absolute with
      | true =>
        refine ⟨[], List.nil_prefix, fun _ => rfl, ?_⟩
        have := hret []
        simp only [List.map_nil, List.flatten_nil, List.nil_append] at this
        simp only [posix_rebuild, this, List.nil_append]
      | false =>
        rcases hd1 with hd1 | ⟨f, b, hd, hcds, _⟩
        · refine ⟨[], List.nil_prefix, fun _ => rfl, ?_⟩
          have := hret []
          simp only [List.map_nil, List.flatten_nil, List.nil_append] at this
          simp only [posix_rebuild, hd1, this, List.nil_append]
        · refine ⟨f, ⟨b, hd.symm⟩, fun hh => absurd (habs hh) (by simp), ?_⟩
          have hf : append_segments '/' [] (f.map some ++ b.map (fun _ => (none : Segment)))
              = (f.map (fun s => s ++ ['/'])).flatten := by
            rw [append_segments_eq]
            have hr : retained (f.map some ++ b.map (fun _ => (none : Segment))) = f := by
              have := retained_map_some f
              simp only [retained, List.filterMap_append] at this ⊢
              rw [this]
              simp
            rw [hr, List.nil_append]
          simp only [posix_rebuild, hcds, hf, hret f]
  by_cases habs : path.head? = some '/'
  · exact key _ true rfl (Or.inl rfl) (posix_body_absolute sys path habs) (fun _ => rfl)
  · by_cases hok : sys.allocate sys.PATH_MAX = true
        ∧ sys.lookup_fails sys.working_directory = false
        ∧ sys.working_directory.length < sys.PATH_MAX
    · obtain ⟨ha, hl, hlen⟩ := hok
      by_cases hwd : sys.working_directory = []
      · exact key _ false rfl (Or.inl rfl)
          (posix_body_relative_empty sys path habs hp ha hl hlen hwd)
          (fun hh => absurd hh habs)
      · exact key _ false rfl
          (Or.inr ⟨sys.working_directory.splitOn '/', [], by simp, by simp, by simp⟩)
          (posix_body_relative sys path habs hp ha hl hlen hwd)
          (fun hh => absurd hh habs)
    · obtain ⟨e, he⟩ := posix_body_lookup_failed sys path habs hok
      simp [he] at h

theorem string_of_segments (separator : Char) (hsep : NUL ≠ separator)
    (l : List (List Char)) (hn : ∀ s ∈ l, NUL ∉ s) :
    c_string (terminate ((l.map (fun s => s ++ [separator])).flatten))
      = [separator].intercalate l := by
  by_cases hl : l = []
  · subst hl
    rfl
  · rw [join_separated separator l hl, terminate_concat, c_string_concat]
    exact not_mem_intercalate NUL separator hsep l hn

theorem posix_success_string (sys : System) (path : List Char) (size0 : Nat)
    (h : (posix_libbfio_path_get_full_path sys (some path) (some none) (some size0)).value = 1)
    (hn : NUL ∉ path) (hwn : NUL ∉ sys.working_directory) :
    ∃ front : List (List Char),
      front <+: sys.working_directory.splitOn '/'
      ∧ (path.head? = some '/' → front = [])
      ∧ ∀ str,
        (posix_libbfio_path_get_full_path sys (some path) (some none) (some size0)).string
          = some str →
        str = ['/'].intercalate
            (front ++ (path.splitOn '/').filter (fun s => s ≠ ['.', '.'] ∧ s ≠ ['.'])) := by
  obtain ⟨front, h1, h2, h3⟩ := posix_success_shape sys path size0 h
  refine ⟨front, h1, h2, ?_⟩
  intro str hstr
  obtain ⟨bytes, hb1, _, hb3⟩ := string_read _ str hstr
  rw [h3] at hb1
  have hb := Option.some.inj (Option.some.inj hb1)
  rw [hb3, ← hb, string_of_segments '/' NUL_ne_slash]
  intro s hs hc
  rcases List.mem_append.mp hs with h4 | h4
  · exact hwn (mem_of_mem_splitOn '/' NUL _ s (h1.subset h4) hc)
  · exact hn (mem_of_mem_splitOn '/' NUL _ s (List.mem_of_mem_filter h4) hc)

theorem posix_segments_of_result (sys : System) (path : List Char) (size0 : Nat)
    (h : (posix_libbfio_path_get_full_path sys (some path) (some none) (some size0)).value = 1)
    (hn : NUL ∉ path) (hwn : NUL ∉ sys.working_directory)
    (str : List Char)
    (hstr : (posix_libbfio_path_get_full_path sys (some path) (some none) (some size0)).string
      = some str) :
    ∀ s ∈ str.splitOn '/',
      s = [] ∨ s ∈ sys.working_directory.splitOn '/'
        ∨ (s ∈ path.splitOn '/' ∧ s ≠ ['.', '.'] ∧ s ≠ ['.']) := by
  obtain ⟨front, h1, _, h3⟩ := posix_success_string sys path size0 h hn hwn
  have hstr := h3 str hstr
  subst hstr
  intro s hs
  by_cases hl : front ++ (path.splitOn '/').filter (fun s => s ≠ ['.', '.'] ∧ s ≠ ['.']) = []
  · rw [hl] at hs
    left
    simpa [List.intercalate, List.splitOn, List.splitOnP_nil] using hs
  · rw [List.splitOn_intercalate _ '/' ?_ hl] at hs
    · rcases List.mem_append.mp hs with h4 | h4
      · exact Or.inr (Or.inl (h1.subset h4))
      · have := List.mem_filter.mp h4
        refine Or.inr (Or.inr ⟨this.1, ?_⟩)
        simpa using this.2
    · intro l hl2
      rcases List.mem_append.mp hl2 with h4 | h4
      · exact splitOn_no_separator '/' _ l (h1.subset h4)
      · exact splitOn_no_separator '/' _ l (List.mem_of_mem_filter h4)

theorem splitOn_nil_eq (separator : Char) : ([] : List Char).splitOn separator = [[]] := by
  simp [List.splitOn, List.splitOnP_nil]

theorem intercalate_single_separators (l : List (List Char))
    (hsep : ∀ s ∈ l, '/' ∉ s) (htail : ∀ s ∈ l.tail, s ≠ []) :
    ¬ (['/', '/'] <:+: ['/'].intercalate l) ∧ (['/'].intercalate l).getLast? ≠ some '/' := by
  by_cases hl : l = []
  · subst hl
    constructor
    · intro h
      have := h.length_le
      simp [List.intercalate] at this
    · simp [List.intercalate]
  have hsplit := List.splitOn_intercalate l '/' hsep hl
  constructor
  · rintro ⟨a, b, hab⟩
    have h2 : a ++ ['/', '/'] ++ b = a ++ '/' :: ('/' :: b) := by simp
    rw [← hab, h2, splitOn_append_separator, splitOn_cons_separator] at hsplit
    have hne := splitOn_ne_nil '/' a
    cases ha : a.splitOn '/' with
    | nil => exact hne ha
    | cons x xs =>
      rw [ha] at hsplit
      have hmem : ([] : List Char) ∈ l.tail := by
        rw [← hsplit]
        simp
      exact htail [] hmem rfl
  · intro hlast
    obtain ⟨a, ha⟩ : ∃ a, ['/'].intercalate l = a ++ ['/'] := by
      rcases List.eq_nil_or_concat (['/'].intercalate l) with h0 | ⟨a, c, h0⟩
      · rw [h0] at hlast
        simp at hlast
      · rw [List.concat_eq_append] at h0
        rw [h0] at hlast
        simp at hlast
        exact ⟨a, by rw [h0, hlast]⟩
    rw [ha, splitOn_append_separator, splitOn_nil_eq] at hsplit
    have hne := splitOn_ne_nil '/' a
    cases hsa : a.splitOn '/' with
    | nil => exact hne hsa
    | cons x xs =>
      rw [hsa] at hsplit
      have hmem : ([] : List Char) ∈ l.tail := by
        rw [← hsplit]
        simp
      exact htail [] hmem rfl

theorem tail_append_filter (front segments : List (List Char)) (p : List Char → Bool)
    (hfront : ∀ s ∈ front.tail, s ≠ [])
    (hseg : ∀ s ∈ segments.tail, s ≠ [])
    (hjoin : front ≠ [] → ∀ s ∈ segments, s ≠ []) :
    ∀ s ∈ (front ++ segments.filter p).tail, s ≠ [] := by
  intro s hs
  cases front with
  | nil =>
    cases segments with
    | nil => simp at hs
    | cons x xs =>
      simp only [List.nil_append, List.filter_cons] at hs
      by_cases hx : p x = true
      · simp only [hx, if_true, List.tail_cons] at hs
        exact hseg s (List.mem_of_mem_filter hs)
      · simp only [hx] at hs
        have hs2 : s ∈ xs.filter p := List.mem_of_mem_tail hs
        exact hseg s (List.mem_of_mem_filter hs2)
  | cons f fs =>
    simp only [List.cons_append, List.tail_cons] at hs
    rcases List.mem_append.mp hs with h1 | h1
    · exact hfront s h1
    · exact hjoin (by simp) s (List.mem_of_mem_filter h1)

theorem first_segment_of_relative (path : List Char) (hp : path ≠ [])
    (hrel : path.head? ≠ some '/') (htail : ∀ s ∈ (path.splitOn '/').tail, s ≠ []) :
    ∀ s ∈ path.splitOn '/', s ≠ [] := by
  cases path with
  | nil => exact absurd rfl hp
  | cons x xs =>
    have hx : x ≠ '/' := by
      intro hx
      exact hrel (by simp [hx])
    obtain ⟨a, t, h1, h2⟩ := splitOn_cons_other '/' x hx xs
    rw [h2] at htail ⊢
    intro s hs
    rcases List.mem_cons.mp hs with h3 | h3
    · simp [h3]
    · exact htail s (by simpa using h3)

/-- C8, as amended: when the working directory is an absolute path of one or more
non-empty segments and the path has no empty segment other than the leading one of an
absolute path (no doubled and no trailing separator), the string of a successful call of
the POSIX variant has no two consecutive separators and does not end in a separator. -/
theorem posix_single_separators (sys : System) (segments : List (List Char))
    (path : List Char) (size0 : Nat) (str : List Char)
    (hwd : sys.working_directory = '/' :: ['/'].intercalate segments)
    (hdne : segments ≠ [])
    (hdseg : ∀ s ∈ segments, s ≠ [] ∧ '/' ∉ s ∧ NUL ∉ s)
    (hn : NUL ∉ path)
    (hpath : ∀ s ∈ (path.splitOn '/').tail, s ≠ [])
    (h : (posix_libbfio_path_get_full_path sys (some path) (some none) (some size0)).value = 1)
    (hstr : (posix_libbfio_path_get_full_path sys (some path) (some none) (some size0)).string
      = some str) :
    ¬ (['/', '/'] <:+: str) ∧ str.getLast? ≠ some '/' := by
  have hwn : NUL ∉ sys.working_directory := by
    rw [hwd]
    intro hc
    rcases List.mem_cons.mp hc with h1 | h1
    · exact NUL_ne_slash h1
    · exact not_mem_intercalate NUL '/' NUL_ne_slash _ (fun s hs => (hdseg s hs).2.2) h1
  have hsplit : sys.working_directory.splitOn '/' = [] :: segments := by
    rw [hwd]
    exact splitOn_rooted segments hdne (fun s hs => (hdseg s hs).2.1)
  have hp : path ≠ [] := by
    intro hp
    simp [posix_libbfio_path_get_full_path, hp] at h
  obtain ⟨front, h1, h2, h3⟩ := posix_success_string sys path size0 h hn hwn
  have hstr := h3 str hstr
  subst hstr
  apply intercalate_single_separators
  · intro l hl
    rcases List.mem_append.mp hl with h4 | h4
    · exact splitOn_no_separator '/' _ l (h1.subset h4)
    · exact splitOn_no_separator '/' _ l (List.mem_of_mem_filter h4)
  · apply tail_append_filter
    · intro s hs
      rw [hsplit] at h1
      cases front with
      | nil => simp at hs
      | cons f fs =>
        obtain ⟨t, ht⟩ := h1
        simp only [List.cons_append, List.cons.injEq] at ht
        have hmem : s ∈ segments := by
          rw [← ht.2]
          exact List.mem_append_left _ (by simpa using hs)
        exact (hdseg s hmem).1
    · exact hpath
    · intro hfront
      have hrel : path.head? ≠ some '/' := fun hh => hfront (h2 hh)
      exact first_segment_of_relative path hp hrel hpath

theorem posix_single_separators_witness :
    (posix_libbfio_path_get_full_path (unix_system "/a/b".toList) (some "x/../y".toList)
      (some none) (some 0)).string = some "/a/x/y".toList
    ∧ ¬ (['/', '/'] <:+: "/a/x/y".toList) ∧ "/a/x/y".toList.getLast? ≠ some '/' :=
  ⟨by decide,
    posix_single_separators (unix_system "/a/b".toList) ["a".toList, "b".toList]
      "x/../y".toList 0 "/a/x/y".toList (by decide) (by decide) (by decide) (by decide)
      (by decide) (by decide) (by decide)⟩

/-- C8, the claim as stated fails: for the absolute path "/x//y/" the POSIX variant
returns 1 and the string is the path itself, with its doubled and its trailing
separator. -/
theorem posix_doubled_separator_kept :
    (posix_libbfio_path_get_full_path (unix_system "/a/b".toList) (some "/x//y/".toList)
      (some none) (some 0)).value = 1
    ∧ (posix_libbfio_path_get_full_path (unix_system "/a/b".toList) (some "/x//y/".toList)
      (some none) (some 0)).string = some "/x//y/".toList
    ∧ ['/', '/'] <:+: "/x//y/".toList
    ∧ "/x//y/".toList.getLast? = some '/'
    ∧ "/x//y/".toList ≠ ['/'] := by
  refine ⟨by decide, by decide, ⟨"/x".toList, "y/".toList, by decide⟩, by decide, by decide⟩

/-- C2, the code at the failing input: in the working directory "/a/b" the POSIX
variant resolves "./x/../y" to "/a/b/x/y"; the segment "x" before the ".." stays in the
string. -/
theorem posix_parent_leaves_path_segment :
    (posix_libbfio_path_get_full_path (unix_system "/a/b".toList) (some "./x/../y".toList)
      (some none) (some 0)).value = 1
    ∧ (posix_libbfio_path_get_full_path (unix_system "/a/b".toList) (some "./x/../y".toList)
      (some none) (some 0)).string = some "/a/b/x/y".toList := by
  decide

/-- C3, the code at the failing input: in the working directory "/a/b" the POSIX
variant resolves "x/../y" to "/a/x/y"; the ".." after the first segment of the path
removes the last segment of the working directory and leaves "x" in place. -/
theorem posix_parent_after_first_segment :
    (posix_libbfio_path_get_full_path (unix_system "/a/b".toList) (some "x/../y".toList)
      (some none) (some 0)).value = 1
    ∧ (posix_libbfio_path_get_full_path (unix_system "/a/b".toList) (some "x/../y".toList)
      (some none) (some 0)).string = some "/a/x/y".toList := by
  decide

/-- C7, the code at the failing input: in the working directory "/a/b" the POSIX
variant resolves "x" to "/a/b/x", of length 6, and sets `*full_path_size` to 4098, which
is `PATH_MAX - 1 + 1 + 2`. -/
theorem posix_relative_size_from_buffer :
    (posix_libbfio_path_get_full_path (unix_system "/a/b".toList) (some "x".toList)
      (some none) (some 0)).value = 1
    ∧ (posix_libbfio_path_get_full_path (unix_system "/a/b".toList) (some "x".toList)
      (some none) (some 0)).string = some "/a/b/x".toList
    ∧ (posix_libbfio_path_get_full_path (unix_system "/a/b".toList) (some "x".toList)
      (some none) (some 0)).full_path_size = some 4098 := by
  decide

/-- C9, the code at the failing inputs: in the working directory "/a" the POSIX variant
returns 1 for ".." with the empty string, and 1 for "../../x" with the string "x". -/
theorem posix_root_popped :
    (posix_libbfio_path_get_full_path (unix_system "/a".toList) (some "..".toList)
      (some none) (some 0)).value = 1
    ∧ (posix_libbfio_path_get_full_path (unix_system "/a".toList) (some "..".toList)
      (some none) (some 0)).string = some []
    ∧ (posix_libbfio_path_get_full_path (unix_system "/a".toList) (some "../../x".toList)
      (some none) (some 0)).value = 1
    ∧ (posix_libbfio_path_get_full_path (unix_system "/a".toList) (some "../../x".toList)
      (some none) (some 0)).string = some "x".toList := by
  decide

theorem read_current_directory_ok (sys : System) (build : Build) (buffer : Buffer)
    (h : read_current_directory sys build = .ok buffer) :
    buffer.text = sys.working_directory ∧ buffer.text.length < buffer.size
      ∧ (buffer.size ≤ SSIZE_MAX ∨ buffer.size = sys.PATH_MAX) := by
  simp only [read_current_directory, libbfio_path_get_current_working_directory] at h
  cases build with
  | WINAPI =>
    by_cases h1 : sys.lookup_fails sys.working_directory = true
    · simp [h1] at h
    by_cases h2 : sys.working_directory.length + 1 > SSIZE_MAX
    · simp [h1, h2] at h
    by_cases h3 : sys.allocate (sys.working_directory.length + 1) = false
    · simp [h1, h2, h3] at h
    simp only [h1, h2, h3, if_false] at h
    have := Except.ok.inj h
    subst this
    exact ⟨rfl, Nat.lt_succ_self _, Or.inl (by simp at h2 ⊢; omega)⟩
  | POSIX =>
    by_cases h1 : sys.allocate sys.PATH_MAX = false
    · simp [h1] at h
    by_cases h2 : sys.lookup_fails sys.working_directory = true
        ∨ sys.PATH_MAX < sys.working_directory.length + 1
    · simp [h1, h2] at h
    simp only [h1, h2, if_false] at h
    have := Except.ok.inj h
    subst this
    exact ⟨rfl, by simp at h2 ⊢; omega, Or.inr rfl⟩
  | WINAPI_CRT =>
    by_cases h1 : sys.allocate sys.PATH_MAX = false
    · simp [h1] at h
    by_cases h2 : sys.lookup_fails sys.working_directory = true
        ∨ sys.PATH_MAX < sys.working_directory.length + 1
    · simp [h1, h2] at h
    simp only [h1, h2, if_false] at h
    have := Except.ok.inj h
    subst this
    exact ⟨rfl, by simp at h2 ⊢; omega, Or.inr rfl⟩

theorem windows_lookup_ok (sys : System) (build : Build) (c : PathClass) (buffer : Buffer)
    (directory : List Char) (h : windows_lookup sys build c = (.ok buffer, directory)) :
    (buffer.text = sys.working_directory
        ∨ ∃ v, c.volume_name = some v
          ∧ sys.change_directory (c_string (v ++ [NUL])) = some buffer.text)
      ∧ buffer.text.length < buffer.size
      ∧ (buffer.size ≤ SSIZE_MAX ∨ buffer.size = sys.PATH_MAX) := by
  unfold windows_lookup at h
  cases hv : c.volume_name with
  | none =>
    simp only [hv] at h
    cases hr : read_current_directory sys build with
    | error e => simp [hr] at h
    | ok b =>
      simp only [hr, Prod.mk.injEq, Except.ok.injEq] at h
      obtain ⟨h1, h2, h3⟩ := read_current_directory_ok sys build b hr
      rw [← h.1]
      exact ⟨Or.inl h1, h2, h3⟩
  | some v =>
    simp only [hv] at h
    cases hr : read_current_directory sys build with
    | error e => simp [hr] at h
    | ok b =>
      simp only [hr] at h
      by_cases ha : sys.allocate (c.volume_name_length + 1) = false
      · simp [ha] at h
      have ha1 : sys.allocate (c.volume_name_length + 1) = true := by simpa using ha
      simp only [ha1, Bool.true_eq_false, if_false] at h
      cases hc : sys.change_directory (c_string (v ++ [NUL])) with
      | none => simp [hc] at h
      | some vd =>
        simp only [hc] at h
        cases hc2 : sys.change_directory b.text with
        | none =>
          simp only [hc2] at h
          cases hr2 : read_current_directory { sys with working_directory := vd } build with
          | error e => simp [hr2] at h
          | ok b2 => simp [hr2] at h
        | some restored =>
          simp only [hc2, Prod.mk.injEq] at h
          obtain ⟨h1, h2, h3⟩ :=
            read_current_directory_ok { sys with working_directory := vd } build buffer h.1
          exact ⟨Or.inr ⟨v, rfl, by rw [h1]; exact hc⟩, h2, h3⟩

theorem inspect_drive_directory (sys : System) (letter : Char) (rest : List Char) (size : Nat)
    (c : PathClass) (hl : is_volume_letter letter = true)
    (hsize : (letter :: ':' :: BACKSLASH :: rest).length < size) :
    windows_inspect_current_directory sys ⟨letter :: ':' :: BACKSLASH :: rest, size⟩ c
      = .ok { (match c.volume_name with
          | none => { c with volume_name := some [letter, ':'], volume_name_length := 2 }
          | some _ => c) with current_directory_name_index := 3 } := by
  have h3 : 3 ≤ size := by
    simp only [List.length_cons] at hsize
    omega
  have hb0 : Buffer.byte sys ⟨letter :: ':' :: BACKSLASH :: rest, size⟩ 0 = letter := by
    simp [Buffer.byte]
  have hb1 : Buffer.byte sys ⟨letter :: ':' :: BACKSLASH :: rest, size⟩ 1 = ':' := by
    simp [Buffer.byte]
  have hb2 : Buffer.byte sys ⟨letter :: ':' :: BACKSLASH :: rest, size⟩ 2 = BACKSLASH := by
    simp [Buffer.byte]
  have hbytes : Buffer.bytes sys ⟨letter :: ':' :: BACKSLASH :: rest, size⟩ 0 2
      = [letter, ':'] := by
    simp [Buffer.bytes, List.range_succ, hb0, hb1]
  unfold windows_inspect_current_directory
  simp only [h3, if_true, hb0, hb1, hb2, hl, and_self, hbytes]

/-- What the inspection of the path can leave: no volume name, the volume name of a
path with a volume letter, or the volume name of a UNC path. -/
theorem windows_inspect_path_cases (path : List Char) (c : PathClass)
    (h : windows_inspect_path path = .ok c) :
    (c.volume_name = none ∧ c.path_type ≠ .ABSOLUTE ∧ c.path_type ≠ .UNC)
    ∨ (c.path_type ≠ .UNC ∧ c.path_type ≠ .DEVICE ∧ c.path_type ≠ .EXTENDED_LENGTH
        ∧ c.volume_name = some (path.take 2) ∧ 2 ≤ path.length
        ∧ string_byte path 1 = ':' ∧ is_volume_letter (string_byte path 0) = true)
    ∨ (c.path_type = .UNC
        ∧ c.volume_name = some ((List.range (c.path_directory_name_index - 2)).map
            (fun k => string_byte path (2 + k)))) := by
  unfold windows_inspect_path at h
  by_cases h2 : 2 ≤ path.length
  · simp only [h2, if_true] at h
    by_cases hv : string_byte path 1 = ':' ∧ is_volume_letter (string_byte path 0) = true
    · simp only [hv, and_self, if_true] at h
      by_cases h3 : 3 ≤ path.length ∧ string_byte path 2 = BACKSLASH
      · simp only [h3, and_self, if_true] at h
        have := Except.ok.inj h
        subst this
        exact Or.inr (Or.inl ⟨by simp, by simp, by simp, rfl, h2, hv.1, hv.2⟩)
      · simp only [h3, if_false] at h
        have := Except.ok.inj h
        subst this
        exact Or.inr (Or.inl ⟨by simp, by simp, by simp, rfl, h2, hv.1, hv.2⟩)
    · simp only [hv, if_false] at h
      by_cases hs : string_byte path 0 = BACKSLASH ∧ string_byte path 1 = BACKSLASH
      · simp only [hs, and_self, if_true] at h
        by_cases h4 : 4 ≤ path.length ∧ (string_byte path 2 = '.' ∨ string_byte path 2 = '?')
            ∧ string_byte path 3 = BACKSLASH
        · simp only [h4, and_self, if_true] at h
          by_cases hd : string_byte path 2 = '.'
          · simp only [hd, if_true] at h
            have := Except.ok.inj h
            subst this
            exact Or.inl ⟨rfl, by simp, by simp⟩
          · simp only [hd, if_false] at h
            have := Except.ok.inj h
            subst this
            exact Or.inl ⟨rfl, by simp, by simp⟩
        · simp only [h4, if_false] at h
          split at h
          · cases h
          · have := Except.ok.inj h
            subst this
            exact Or.inr (Or.inr ⟨rfl, rfl⟩)
      · simp only [hs, if_false] at h
        have := Except.ok.inj h
        subst this
        exact Or.inl ⟨rfl, by simp, by simp⟩
  · simp only [h2, if_false] at h
    have := Except.ok.inj h
    subst this
    exact Or.inl ⟨rfl, by simp, by simp⟩

theorem split_some (string : List Char) (size : Nat) (delimiter : Char) (x : SplitString)
    (h : libbfio_narrow_string_split string size delimiter = some x) :
    x = ((string.take (size - 1)).splitOn delimiter).map some ∧ string ≠ [] := by
  unfold libbfio_narrow_string_split at h
  by_cases hc : size = 0 ∨ string = []
  · simp [hc] at h
  · simp only [hc, if_false] at h
    exact ⟨(Option.some.inj h).symm, fun h0 => hc (Or.inr h0)⟩

theorem retained_front (front back : List (List Char)) :
    retained (front.map some ++ back.map (fun _ => (none : Segment))) = front := by
  have := retained_map_some front
  simp only [retained, List.filterMap_append] at this ⊢
  rw [this]
  simp

theorem windows_rebuild_shape (sys : System) (c : PathClass) (volume : List Char)
    (directory segments : List (List Char)) (st0 : Resolution) (stored : List Char) (size : Nat)
    (hp : st0.path_split_string = some (segments.map some))
    (hd : directory_popped directory st0)
    (h : (match resolve_segments st0 segments.length with
      | .error e => Exit.on_error [e]
      | .ok st =>
        if sys.allocate st.full_path_size = false then .on_error [⟨.MEMORY, .INSUFFICIENT⟩]
        else .done (windows_rebuild c volume st) st.full_path_size) = .done stored size) :
    ∃ front : List (List Char), front <+: directory
      ∧ stored = terminate (windows_lead c ++ volume ++ [BACKSLASH]
          ++ (((front ++ segments.filter (fun s => s ≠ ['.', '.'] ∧ s ≠ ['.'])).map
              (fun s => s ++ [BACKSLASH])).flatten)) := by
  cases hres : resolve_segments st0 segments.length with
  | error e => simp [hres] at h
  | ok st1 =>
    simp only [hres] at h
    by_cases hal : sys.allocate st1.full_path_size = false
    · simp [hal] at h
    have hal1 : sys.allocate st1.full_path_size = true := by simpa using hal
    simp only [hal1, Bool.true_eq_false, if_false, Exit.done.injEq] at h
    obtain ⟨hp1, hd1⟩ := resolve_segments_shape _ _ st0 st1 hp hd hres
    have hlead : (if 0 < c.share_name_index then
          (if c.path_type = .DEVICE then [BACKSLASH, BACKSLASH, '.', BACKSLASH]
            else [BACKSLASH, BACKSLASH, '?', BACKSLASH]) ++ ['U', 'N', 'C', BACKSLASH]
        else (if c.path_type = .DEVICE then [BACKSLASH, BACKSLASH, '.', BACKSLASH]
            else [BACKSLASH, BACKSLASH, '?', BACKSLASH])) = windows_lead c := by
      unfold windows_lead
      split <;> simp
    have hret : ∀ (front : List (List Char)) (acc : List Char),
        append_segments BACKSLASH (acc ++ (front.map (fun s => s ++ [BACKSLASH])).flatten)
          (st1.path_split_string.getD [])
        = acc ++ ((front ++ segments.filter (fun s => s ≠ ['.', '.'] ∧ s ≠ ['.'])).map
            (fun s => s ++ [BACKSLASH])).flatten := by
      intro front acc
      rw [hp1, Option.getD_some, append_segments_eq, retained_map_kept]
      simp
    have hnil : ∃ front : List (List Char), front <+: directory
        ∧ (match c.path_type, st1.current_directory_split_string with
          | .RELATIVE, some segs =>
            append_segments BACKSLASH (windows_lead c ++ volume ++ [BACKSLASH]) segs
          | _, _ => windows_lead c ++ volume ++ [BACKSLASH])
          = windows_lead c ++ volume ++ [BACKSLASH]
            ++ (front.map (fun s => s ++ [BACKSLASH])).flatten := by
      rcases hd1 with hd1 | ⟨f, b, hdir, hcds, _⟩
      · refine ⟨[], List.nil_prefix, ?_⟩
        rw [hd1]
        cases c.path_type <;> simp
      · cases hty : c.path_type
        case RELATIVE =>
          refine ⟨f, ⟨b, hdir.symm⟩, ?_⟩
          rw [hcds]
          simp only [append_segments_eq, retained_front]
        all_goals
          refine ⟨[], List.nil_prefix, ?_⟩
          simp
    obtain ⟨front, hf1, hf2⟩ := hnil
    refine ⟨front, hf1, ?_⟩
    rw [← h.1]
    simp only [windows_rebuild, hlead, hf2, hret]

theorem windows_resolve_done (sys : System) (path : List Char)
    (current_directory : Option Buffer) (c : PathClass) (stored : List Char) (size : Nat)
    (h : windows_resolve sys path current_directory c = .done stored size) :
    ∃ (volume : List Char) (front : List (List Char)),
      c.volume_name = some volume
      ∧ path.drop c.path_directory_name_index ≠ []
      ∧ front <+: windows_directory_segments sys current_directory c
      ∧ stored = terminate (windows_lead c ++ volume ++ [BACKSLASH]
          ++ (((front ++ (windows_path_segments path c).filter
                (fun s => s ≠ ['.', '.'] ∧ s ≠ ['.'])).map
              (fun s => s ++ [BACKSLASH])).flatten)) := by
  unfold windows_resolve at h
  cases hv : c.volume_name with
  | none => simp [hv] at h
  | some volume =>
    simp only [hv] at h
    cases hps : libbfio_narrow_string_split (path.drop c.path_directory_name_index)
        (size_add (size_sub path.length c.path_directory_name_index) 1) BACKSLASH with
    | none => simp [hps, get_number_of_segments] at h
    | some ps =>
      obtain ⟨hps1, hps2⟩ := split_some _ _ _ _ hps
      have hps3 : ps = (windows_path_segments path c).map some := hps1
      subst hps3
      simp only [hps, get_number_of_segments, Option.map_some', List.length_map] at h
      have key := fun hd => windows_rebuild_shape sys c volume
        (windows_directory_segments sys current_directory c) (windows_path_segments path c)
        _ stored size rfl hd h
      suffices hd : _ by
        obtain ⟨front, hf1, hf2⟩ := key hd
        exact ⟨volume, front, rfl, hps2, hf1, hf2⟩
      · cases current_directory with
        | none => exact Or.inl rfl
        | some buffer =>
          cases hcs : libbfio_narrow_string_split
              (buffer.string_at sys c.current_directory_name_index)
              (size_add (size_sub buffer.size (c.current_directory_name_index + 1)) 1)
              BACKSLASH with
          | none =>
            left
            simp only [hcs]
          | some cs =>
            obtain ⟨hcs1, _⟩ := split_some _ _ _ _ hcs
            right
            refine ⟨windows_directory_segments sys (some buffer) c, [], by simp, ?_, ?_⟩
            · simp only [hcs, hcs1, windows_directory_segments, List.map_nil, List.append_nil]
            · simp only [hcs, hcs1, windows_directory_segments, Option.map_some',
                Option.getD_some, List.length_map]

theorem splitOn_single (separator : Char) (l : List Char) (h : separator ∉ l) :
    l.splitOn separator = [l] := by
  apply List.splitOnP_eq_single
  intro x hx
  simp only [beq_iff_eq]
  intro hxs
  exact h (hxs ▸ hx)

theorem splitOn_append_led (separator : Char) (l : List (List Char))
    (hl : ∀ s ∈ l, separator ∉ s) :
    ∀ x : List Char, (x ++ (l.map (fun s => separator :: s)).flatten).splitOn separator
      = x.splitOn separator ++ l := by
  induction l with
  | nil => intro x; simp
  | cons a as ih =>
    intro x
    have h1 := ih (fun s hs => hl s (List.mem_cons_of_mem _ hs)) (x ++ separator :: a)
    have h2 : x ++ ((a :: as).map (fun s => separator :: s)).flatten
        = (x ++ separator :: a) ++ (as.map (fun s => separator :: s)).flatten := by simp
    rw [h2, h1, splitOn_append_separator, splitOn_single separator a (hl a (List.mem_cons_self _ _))]
    simp

theorem volume_letter_ne (letter c : Char) (h : is_volume_letter letter = true)
    (hc : is_volume_letter c = false) : letter ≠ c := by
  intro h2
  rw [h2, hc] at h
  cases h

theorem drive_name_segments (letter : Char) (h : is_volume_letter letter = true) :
    NUL ∉ [letter, ':'] ∧ ∀ s ∈ [letter, ':'].splitOn BACKSLASH, s ≠ ['.'] ∧ s ≠ ['.', '.'] := by
  have h1 : letter ≠ NUL := volume_letter_ne letter NUL h (by decide)
  have h2 : letter ≠ BACKSLASH := volume_letter_ne letter BACKSLASH h (by decide)
  have h3 : BACKSLASH ∉ [letter, ':'] := by
    intro hm
    rcases List.mem_cons.mp hm with h4 | h4
    · exact h2 h4.symm
    · have h5 : BACKSLASH = ':' := by simpa using h4
      exact absurd h5 (by decide)
  constructor
  · intro hm
    rcases List.mem_cons.mp hm with h4 | h4
    · exact h1 h4.symm
    · have h5 : NUL = ':' := by simpa using h4
      exact absurd h5 (by decide)
  · intro s hs
    rw [splitOn_single BACKSLASH _ h3] at hs
    have hs2 : s = [letter, ':'] := by simpa using hs
    subst hs2
    constructor
    · simp
    · intro h6
      simp at h6

theorem path_segments_plain (path : List Char) (c : PathClass) (hn : NUL ∉ path) :
    ∀ s ∈ (windows_path_segments path c).filter (fun s => s ≠ ['.', '.'] ∧ s ≠ ['.']),
      BACKSLASH ∉ s ∧ NUL ∉ s ∧ s ≠ ['.'] ∧ s ≠ ['.', '.'] := by
  intro s hs
  have h1 := List.mem_filter.mp hs
  have h2 : s ≠ ['.', '.'] ∧ s ≠ ['.'] := by simpa using h1.2
  refine ⟨splitOn_no_separator BACKSLASH _ s h1.1, ?_, h2.2, h2.1⟩
  intro hc
  have h3 := mem_of_mem_splitOn BACKSLASH NUL _ s h1.1 hc
  exact hn (List.mem_of_mem_drop (List.mem_of_mem_take h3))

theorem directory_segments_plain (sys : System) (buffer : Buffer) (c : PathClass)
    (letter : Char) (segments : List (List Char))
    (htext : buffer.text = letter :: ':' :: BACKSLASH :: [BACKSLASH].intercalate segments)
    (hseg : ∀ s ∈ segments, BACKSLASH ∉ s ∧ NUL ∉ s ∧ s ≠ ['.'] ∧ s ≠ ['.', '.'])
    (hlen : buffer.text.length < buffer.size) (hsize : buffer.size < SIZE_MODULUS)
    (hc : c.current_directory_name_index = 3) :
    ∀ s ∈ windows_directory_segments sys (some buffer) c,
      BACKSLASH ∉ s ∧ NUL ∉ s ∧ s ≠ ['.'] ∧ s ≠ ['.', '.'] := by
  have h3 : 3 ≤ buffer.text.length := by
    rw [htext]
    simp only [List.length_cons]
    omega
  have hstring : buffer.string_at sys 3 = [BACKSLASH].intercalate segments := by
    unfold Buffer.string_at
    rw [if_pos h3, htext]
    rfl
  have hcount : ([BACKSLASH].intercalate segments).length
      ≤ size_add (size_sub buffer.size (3 + 1)) 1 - 1 := by
    have hl : ([BACKSLASH].intercalate segments).length = buffer.text.length - 3 := by
      rw [htext]
      simp
    have hm : SIZE_MODULUS = 18446744073709551616 := rfl
    simp only [size_add, size_sub, hm] at hsize ⊢
    rw [hl]
    omega
  intro s hs
  simp only [windows_directory_segments, hc, hstring, List.take_of_length_le hcount] at hs
  by_cases hnil : segments = []
  · subst hnil
    have : s = [] := by simpa [List.intercalate, splitOn_nil_eq] using hs
    subst this
    simp
  · rw [List.splitOn_intercalate _ BACKSLASH (fun l hl => (hseg l hl).1) hnil] at hs
    exact hseg s hs

theorem unc_volume_plain (path : List Char) (index : Nat) (hn : NUL ∉ path)
    (hd : path.drop index ≠ []) :
    NUL ∉ (List.range (index - 2)).map (fun k => string_byte path (2 + k)) := by
  have hlt : index < path.length := by
    by_contra hc
    exact hd (List.drop_eq_nil_of_le (by omega))
  intro hm
  rw [List.mem_map] at hm
  obtain ⟨k, hk, hx⟩ := hm
  have hk2 : 2 + k < path.length := by
    have := List.mem_range.mp hk
    omega
  have hmem : string_byte path (2 + k) ∈ path := by
    simp only [string_byte, List.getD_eq_getElem?_getD, List.getElem?_eq_getElem hk2,
      Option.getD_some]
    exact List.getElem_mem _
  rw [hx] at hmem
  exact hn hmem

theorem windows_lead_cases (c : PathClass) (h : c.path_type ≠ .DEVICE) :
    windows_lead c = [BACKSLASH, BACKSLASH, '?', BACKSLASH]
      ++ (if 0 < c.share_name_index then ['U', 'N', 'C', BACKSLASH] else []) := by
  simp [windows_lead, h]

theorem inspect_drive_directory_fields (sys : System) (letter : Char) (rest : List Char)
    (size : Nat) (c : PathClass) (hl : is_volume_letter letter = true)
    (hsize : (letter :: ':' :: BACKSLASH :: rest).length < size) :
    ∃ c1, windows_inspect_current_directory sys ⟨letter :: ':' :: BACKSLASH :: rest, size⟩ c
        = .ok c1
      ∧ c1.path_type = c.path_type
      ∧ c1.share_name_index = c.share_name_index
      ∧ c1.current_directory_name_index = 3
      ∧ c1.volume_name = some ((c.volume_name).getD [letter, ':']) := by
  refine ⟨_, inspect_drive_directory sys letter rest size c hl hsize, ?_, ?_, ?_, ?_⟩
  all_goals (cases hv : c.volume_name <;> simp [hv])

theorem windows_body_done (sys : System) (build : Build) (path stored : List Char)
    (size : Nat) (directory : List Char)
    (hdir : ∀ d, (d = sys.working_directory ∨ sys.change_directory (path.take 2) = some d) →
      is_drive_directory d)
    (hmaxp : sys.PATH_MAX < SIZE_MODULUS) (hn : NUL ∉ path)
    (hvol : ∀ v, unc_volume_name path = some v →
      ∀ s ∈ v.splitOn BACKSLASH, s ≠ ['.'] ∧ s ≠ ['.', '.'])
    (h : windows_full_path_body sys build path = (.done stored size, directory)) :
    ∃ (unc : Bool) (volume : List Char) (l : List (List Char)),
      stored = terminate ([BACKSLASH, BACKSLASH, '?', BACKSLASH]
          ++ (if unc = true then ['U', 'N', 'C', BACKSLASH] else []) ++ volume ++ [BACKSLASH]
          ++ ((l.map (fun s => s ++ [BACKSLASH])).flatten))
      ∧ NUL ∉ volume
      ∧ (∀ s ∈ volume.splitOn BACKSLASH, s ≠ ['.'] ∧ s ≠ ['.', '.'])
      ∧ ∀ s ∈ l, BACKSLASH ∉ s ∧ NUL ∉ s ∧ s ≠ ['.'] ∧ s ≠ ['.', '.'] := by
  unfold windows_full_path_body at h
  cases hc0 : windows_inspect_path path with
  | error e => simp [hc0] at h
  | ok c0 =>
    simp only [hc0] at h
    have hcases := windows_inspect_path_cases path c0 hc0
    by_cases hty : c0.path_type ≠ .DEVICE ∧ c0.path_type ≠ .EXTENDED_LENGTH
        ∧ c0.path_type ≠ .UNC
    · rw [if_pos hty] at h
      cases hlk : windows_lookup sys build c0 with
      | mk res d =>
        cases res with
        | error e => simp [hlk] at h
        | ok cd =>
          simp only [hlk] at h
          obtain ⟨hcd1, hcd2, hcd3⟩ := windows_lookup_ok sys build c0 cd d hlk
          obtain ⟨letter, segments, hletter, htext, hseg⟩ := hdir cd.text (by
            rcases hcd1 with h1 | ⟨v, hv1, hv2⟩
            · exact Or.inl h1
            · right
              rcases hcases with ⟨h1, _⟩ | ⟨_, _, _, h1, _⟩ | ⟨h1, _⟩
              · rw [h1] at hv1
                cases hv1
              · rw [h1] at hv1
                have hv3 := Option.some.inj hv1
                rw [← hv3, c_string_concat _ (fun hm => hn (List.mem_of_mem_take hm))] at hv2
                exact hv2
              · exact absurd h1 hty.2.2)
          have hcdsize : cd.size < SIZE_MODULUS := by
            rcases hcd3 with h1 | h1
            · have : SSIZE_MAX < SIZE_MODULUS := by decide
              omega
            · rw [h1]
              exact hmaxp
          have hcdeq : cd = ⟨letter :: ':' :: BACKSLASH :: [BACKSLASH].intercalate segments,
              cd.size⟩ := by
            cases cd
            simp only at htext
            simp [htext]
          obtain ⟨c1, hinsp, hc1t, hc1s, hc1d, hc1v⟩ :=
            inspect_drive_directory_fields sys letter ([BACKSLASH].intercalate segments)
              cd.size c0 hletter (by rw [← htext]; exact hcd2)
          rw [← hcdeq] at hinsp
          simp only [hinsp, Prod.mk.injEq] at h
          obtain ⟨volume, front, hv, _, hfront, hstored⟩ :=
            windows_resolve_done sys path (some cd) c1 stored size h.1
          rw [hc1v] at hv
          have hveq := Option.some.inj hv
          refine ⟨decide (0 < c1.share_name_index), volume,
            front ++ (windows_path_segments path c1).filter
              (fun s => s ≠ ['.', '.'] ∧ s ≠ ['.']), ?_, ?_, ?_, ?_⟩
          · rw [hstored, windows_lead_cases c1 (by rw [hc1t]; exact hty.1)]
            simp
          · rw [← hveq]
            rcases hcases with ⟨h1, _⟩ | ⟨_, _, _, h1, h2, h3, h4⟩ | ⟨h1, _⟩
            · rw [h1]
              exact (drive_name_segments letter hletter).1
            · rw [h1]
              intro hm
              exact hn (List.mem_of_mem_take hm)
            · exact absurd h1 hty.2.2
          · rw [← hveq]
            rcases hcases with ⟨h1, _⟩ | ⟨_, _, _, h1, h2, h3, h4⟩ | ⟨h1, _⟩
            · rw [h1]
              exact (drive_name_segments letter hletter).2
            · rw [h1]
              have htake : path.take 2 = [string_byte path 0, ':'] := by
                match path, h2, h3 with
                | a :: b :: rest, _, h3 =>
                  simp only [string_byte, List.getD_cons_succ, List.getD_cons_zero] at h3
                  simp [string_byte, h3]
              simp only [Option.getD_some, htake]
              exact (drive_name_segments _ h4).2
            · exact absurd h1 hty.2.2
          · intro s hs
            rcases List.mem_append.mp hs with h1 | h1
            · exact directory_segments_plain sys cd c1 letter segments htext hseg hcd2 hcdsize
                hc1d s (hfront.subset h1)
            · exact path_segments_plain path c1 hn s h1
    · rw [if_neg hty] at h
      simp only [Prod.mk.injEq] at h
      obtain ⟨volume, front, hv, hdrop, hfront, hstored⟩ :=
        windows_resolve_done sys path none c0 stored size h.1
      have hfront2 : front = [] := by
        simpa [windows_directory_segments] using hfront
      subst hfront2
      rcases hcases with ⟨h1, _⟩ | ⟨h1, h2, h3, _⟩ | ⟨h1, h2⟩
      · rw [h1] at hv
        cases hv
      · exact absurd ⟨h2, h3, h1⟩ hty
      · have hunc : unc_volume_name path = some volume := by
          simp [unc_volume_name, hc0, h1, hv]
        rw [h2] at hv
        have hveq := Option.some.inj hv
        refine ⟨decide (0 < c0.share_name_index), volume,
          (windows_path_segments path c0).filter (fun s => s ≠ ['.', '.'] ∧ s ≠ ['.']),
          ?_, ?_, hvol volume hunc, path_segments_plain path c0 hn⟩
        · rw [hstored, windows_lead_cases c0 (by rw [h1]; simp)]
          simp
        · rw [← hveq]
          exact unc_volume_plain path _ hn hdrop

theorem windows_success_body (sys : System) (build : Build) (path : List Char) (size0 : Nat)
    (h : (windows_libbfio_path_get_full_path sys build (some path) (some none)
      (some size0)).value = 1) :
    ∃ stored size directory,
      windows_full_path_body sys build path = (.done stored size, directory)
      ∧ (windows_libbfio_path_get_full_path sys build (some path) (some none)
          (some size0)).full_path = some (some stored) := by
  unfold windows_libbfio_path_get_full_path at h ⊢
  by_cases h0 : path.length = 0
  · simp [h0] at h
  by_cases h1 : path.length ≥ SSIZE_MAX
  · simp [h0, h1] at h
  simp only [h0, h1, if_false] at h ⊢
  cases hb : windows_full_path_body sys build path with
  | mk exit directory =>
    cases exit with
    | done stored size => exact ⟨stored, size, directory, rfl, rfl⟩
    | on_error e => simp [hb] at h
    | bare e => simp [hb] at h

theorem windows_segments_of_result (sys : System) (build : Build) (path : List Char)
    (size0 : Nat) (str : List Char)
    (hdir : ∀ d, (d = sys.working_directory ∨ sys.change_directory (path.take 2) = some d) →
      is_drive_directory d)
    (hmaxp : sys.PATH_MAX < SIZE_MODULUS) (hn : NUL ∉ path)
    (hvol : ∀ v, unc_volume_name path = some v →
      ∀ s ∈ v.splitOn BACKSLASH, s ≠ ['.'] ∧ s ≠ ['.', '.'])
    (h : (windows_libbfio_path_get_full_path sys build (some path) (some none)
      (some size0)).value = 1)
    (hstr : (windows_libbfio_path_get_full_path sys build (some path) (some none)
      (some size0)).string = some str) :
    ∀ s ∈ str.splitOn BACKSLASH, s ≠ ['.'] ∧ s ≠ ['.', '.'] := by
  obtain ⟨stored, size, directory, hbody, hfull⟩ := windows_success_body sys build path size0 h
  obtain ⟨unc, volume, l, hstored, hvn, hvs, hl⟩ :=
    windows_body_done sys build path stored size directory hdir hmaxp hn hvol hbody
  obtain ⟨bytes, hb1, _, hb3⟩ := string_read _ str hstr
  rw [hfull] at hb1
  have hb := Option.some.inj (Option.some.inj hb1)
  have hstr : c_string stored = str := by rw [hb3, hb]
  have hshift := shift_separator BACKSLASH l
    ([BACKSLASH, BACKSLASH, '?', BACKSLASH]
      ++ (if unc = true then ['U', 'N', 'C', BACKSLASH] else []) ++ volume)
  rw [hstored, hshift, terminate_concat, c_string_concat] at hstr
  · rw [← hstr, splitOn_append_led BACKSLASH l (fun s hs => (hl s hs).1)]
    intro s hs
    rcases List.mem_append.mp hs with h1 | h1
    · cases unc with
      | false =>
        have hx : [BACKSLASH, BACKSLASH, '?', BACKSLASH] ++ (if false = true then
            ['U', 'N', 'C', BACKSLASH] else []) ++ volume
            = [] ++ BACKSLASH :: ([] ++ BACKSLASH :: (['?'] ++ BACKSLASH :: volume)) := by
          simp
        rw [hx, splitOn_append_separator, splitOn_append_separator, splitOn_append_separator,
          splitOn_nil_eq, splitOn_single BACKSLASH ['?'] (by decide)] at h1
        simp only [List.cons_append, List.nil_append, List.mem_cons] at h1
        rcases h1 with h2 | h2 | h2 | h2
        · subst h2; simp
        · subst h2; simp
        · subst h2; simp
        · exact hvs s h2
      | true =>
        have hx : [BACKSLASH, BACKSLASH, '?', BACKSLASH] ++ (if true = true then
            ['U', 'N', 'C', BACKSLASH] else []) ++ volume
            = [] ++ BACKSLASH :: ([] ++ BACKSLASH :: (['?'] ++ BACKSLASH
              :: (['U', 'N', 'C'] ++ BACKSLASH :: volume))) := by
          simp
        rw [hx, splitOn_append_separator, splitOn_append_separator, splitOn_append_separator,
          splitOn_append_separator, splitOn_nil_eq, splitOn_single BACKSLASH ['?'] (by decide),
          splitOn_single BACKSLASH ['U', 'N', 'C'] (by decide)] at h1
        simp only [List.cons_append, List.nil_append, List.mem_cons] at h1
        rcases h1 with h2 | h2 | h2 | h2 | h2
        · subst h2; simp
        · subst h2; simp
        · subst h2; simp
        · subst h2; simp
        · exact hvs s h2
    · exact ⟨(hl s h1).2.2.1, (hl s h1).2.2.2⟩
  · intro hm
    rcases List.mem_append.mp hm with h1 | h1
    · rcases List.mem_append.mp h1 with h2 | h2
      · cases unc
        · revert h2
          decide
        · revert h2
          decide
      · exact hvn h2
    · exact not_mem_flatten_led NUL BACKSLASH (by decide) l (fun s hs => (hl s hs).2.1) h1

/-- C6, as amended: a successful call returns a path without "." and ".." segments.
POSIX variant: for every path, when the working directory has no such segment.
WINAPI variant: for every path whose volume name, when it is a UNC path, has no such
segment (the server and share names are copied unchanged), when the working directory
and the directory of the volume of the path are drive directories without such
segments. -/
theorem full_path_segments_canonical (posix windows : System) (build : Build)
    (posix_path windows_path : List Char) (size0 : Nat)
    (hpn : NUL ∉ posix_path) (hpwn : NUL ∉ posix.working_directory)
    (hpwd : ∀ s ∈ posix.working_directory.splitOn '/', s ≠ ['.'] ∧ s ≠ ['.', '.'])
    (hdir : ∀ d, (d = windows.working_directory
        ∨ windows.change_directory (windows_path.take 2) = some d) → is_drive_directory d)
    (hmaxp : windows.PATH_MAX < SIZE_MODULUS) (hwn : NUL ∉ windows_path)
    (hvol : ∀ v, unc_volume_name windows_path = some v →
      ∀ s ∈ v.splitOn BACKSLASH, s ≠ ['.'] ∧ s ≠ ['.', '.']) :
    ((posix_libbfio_path_get_full_path posix (some posix_path) (some none)
        (some size0)).value = 1 →
      ∀ str, (posix_libbfio_path_get_full_path posix (some posix_path) (some none)
        (some size0)).string = some str →
      ∀ s ∈ str.splitOn '/', s ≠ ['.'] ∧ s ≠ ['.', '.'])
    ∧ ((windows_libbfio_path_get_full_path windows build (some windows_path) (some none)
        (some size0)).value = 1 →
      ∀ str, (windows_libbfio_path_get_full_path windows build (some windows_path) (some none)
        (some size0)).string = some str →
      ∀ s ∈ str.splitOn BACKSLASH, s ≠ ['.'] ∧ s ≠ ['.', '.']) := by
  constructor
  · intro h str hstr s hs
    rcases posix_segments_of_result posix posix_path size0 h hpn hpwn str hstr s hs
      with h1 | h1 | h1
    · subst h1
      simp
    · exact hpwd s h1
    · exact ⟨h1.2.2, h1.2.1⟩
  · intro h str hstr
    exact windows_segments_of_result windows build windows_path size0 str hdir hmaxp hwn hvol
      h hstr

theorem full_path_segments_canonical_witness :
    ((posix_libbfio_path_get_full_path (unix_system "/a/b".toList) (some "./x/../y".toList)
        (some none) (some 0)).string = some "/a/b/x/y".toList
      ∧ ∀ s ∈ "/a/b/x/y".toList.splitOn '/', s ≠ ['.'] ∧ s ≠ ['.', '.'])
    ∧ ((windows_libbfio_path_get_full_path
        (windows_system "C:\\a\\b".toList "D:".toList "D:\\w".toList) .WINAPI
        (some ".\\x\\.\\y".toList) (some none) (some 0)).string
          = some "\\\\?\\C:\\a\\b\\x\\y".toList
      ∧ ∀ s ∈ "\\\\?\\C:\\a\\b\\x\\y".toList.splitOn BACKSLASH,
          s ≠ ['.'] ∧ s ≠ ['.', '.']) :=
  have h := full_path_segments_canonical (unix_system "/a/b".toList)
    (windows_system "C:\\a\\b".toList "D:".toList "D:\\w".toList) .WINAPI
    "./x/../y".toList ".\\x\\.\\y".toList 0
    (by decide) (by decide) (by decide)
    (by
      intro d hd
      rcases hd with hd | hd
      · subst hd
        exact ⟨'C', ["a".toList, "b".toList], by decide, by decide, by decide⟩
      · exact absurd hd (by simp [windows_system]))
    (by decide) (by decide)
    (by
      intro v hv
      have hnone : unc_volume_name ".\\x\\.\\y".toList = none := by decide
      rw [hnone] at hv
      cases hv)
  ⟨⟨by decide, h.1 (by decide) _ (by decide)⟩, ⟨by decide, h.2 (by decide) _ (by decide)⟩⟩

/-- C6, the claim as stated fails: in the working directory `C:\a\b` the WINAPI variant
returns 1 for the UNC path `\\..\share\x` and the returned string,
`\\?\UNC\..\share\\x`, has a ".." segment. -/
theorem windows_unc_volume_kept :
    (windows_libbfio_path_get_full_path
      (windows_system "C:\\a\\b".toList "D:".toList "D:\\w".toList) .WINAPI
      (some "\\\\..\\share\\x".toList) (some none) (some 0)).value = 1
    ∧ (windows_libbfio_path_get_full_path
      (windows_system "C:\\a\\b".toList "D:".toList "D:\\w".toList) .WINAPI
      (some "\\\\..\\share\\x".toList) (some none) (some 0)).string
        = some "\\\\?\\UNC\\..\\share\\\\x".toList
    ∧ ['.', '.'] ∈ "\\\\?\\UNC\\..\\share\\\\x".toList.splitOn BACKSLASH
    ∧ (∀ s ∈ "C:\\a\\b".toList.splitOn BACKSLASH, s ≠ ['.'] ∧ s ≠ ['.', '.']) := by
  decide

theorem find_backslash_none (byte : Nat → Char) :
    ∀ (count start : Nat), (∀ k, k < count → byte (start + k) ≠ BACKSLASH) →
      find_backslash byte start count = start + count := by
  intro count
  induction count with
  | zero => intro start _; rfl
  | succ n ih =>
    intro start h
    have h0 : byte start ≠ BACKSLASH := by simpa using h 0 (Nat.succ_pos n)
    have hrest : ∀ k, k < n → byte (start + 1 + k) ≠ BACKSLASH := by
      intro k hk
      have := h (k + 1) (by omega)
      rwa [show start + (k + 1) = start + 1 + k by omega] at this
    rw [find_backslash, if_neg h0, ih (start + 1) hrest]
    omega

theorem string_byte_ne_backslash (string : List Char) (h : BACKSLASH ∉ string) (index : Nat) :
    string_byte string index ≠ BACKSLASH := by
  unfold string_byte
  by_cases hi : index < string.length
  · rw [List.getD_eq_getElem string NUL hi]
    intro he
    exact h (he ▸ List.getElem_mem hi)
  · rw [List.getD_eq_default string NUL (by omega)]
    decide

theorem windows_full_path_of_body (sys : System) (build : Build) (path : List Char)
    (size0 : Nat) (h0 : path ≠ []) (hmax : path.length < SSIZE_MAX) :
    windows_libbfio_path_get_full_path sys build (some path) (some none) (some size0) =
      match windows_full_path_body sys build path with
      | (.done stored size, directory) => ⟨1, some (some stored), some size, [], directory⟩
      | (.on_error e, directory) => ⟨-1, some none, some 0, e, directory⟩
      | (.bare e, directory) => ⟨-1, some none, some size0, e, directory⟩ := by
  have h1 : ¬ path.length = 0 := by
    intro h; exact h0 (List.length_eq_zero.mp h)
  have h2 : ¬ path.length ≥ SSIZE_MAX := by omega
  simp only [windows_libbfio_path_get_full_path, h1, h2, if_false]

/-- C18: both variants reject an empty or oversized path before anything else is done:
when `path_length` is 0 or at least `SSIZE_MAX` the call returns -1, the one error set is
of the arguments domain, `*full_path` and `*full_path_size` are what the caller passed
and the working directory of the process is untouched. -/
theorem empty_or_oversized_path_rejected (sys : System) (build : Build) (path : List Char)
    (full_path : Option (Option (List Char))) (full_path_size : Option Nat)
    (h : path.length = 0 ∨ path.length ≥ SSIZE_MAX) :
    posix_libbfio_path_get_full_path sys (some path) full_path full_path_size
        = ⟨-1, full_path, full_path_size,
            [⟨.ARGUMENTS,
              if path.length = 0 then .VALUE_ZERO_OR_LESS else .VALUE_EXCEEDS_MAXIMUM⟩],
            sys.working_directory⟩
    ∧ windows_libbfio_path_get_full_path sys build (some path) full_path full_path_size
        = ⟨-1, full_path, full_path_size,
            [⟨.ARGUMENTS,
              if path.length = 0 then .VALUE_ZERO_OR_LESS else .VALUE_EXCEEDS_MAXIMUM⟩],
            sys.working_directory⟩ := by
  by_cases h0 : path.length = 0
  · simp [posix_libbfio_path_get_full_path, windows_libbfio_path_get_full_path, h0]
  · have h1 : path.length ≥ SSIZE_MAX := h.resolve_left h0
    simp [posix_libbfio_path_get_full_path, windows_libbfio_path_get_full_path, h0, h1]

theorem empty_or_oversized_path_rejected_witness :
    (posix_libbfio_path_get_full_path (unix_system "/a/b".toList) (some []) (some none) (some 7)
        = ⟨-1, some none, some 7, [⟨.ARGUMENTS, .VALUE_ZERO_OR_LESS⟩], "/a/b".toList⟩
      ∧ windows_libbfio_path_get_full_path (unix_system "/a/b".toList) .WINAPI (some [])
          (some none) (some 7)
        = ⟨-1, some none, some 7, [⟨.ARGUMENTS, .VALUE_ZERO_OR_LESS⟩], "/a/b".toList⟩)
    ∧ (posix_libbfio_path_get_full_path (unix_system "/a/b".toList)
          (some (List.replicate SSIZE_MAX 'x')) (some none) (some 7)
        = ⟨-1, some none, some 7, [⟨.ARGUMENTS, .VALUE_EXCEEDS_MAXIMUM⟩], "/a/b".toList⟩
      ∧ windows_libbfio_path_get_full_path (unix_system "/a/b".toList) .WINAPI
          (some (List.replicate SSIZE_MAX 'x')) (some none) (some 7)
        = ⟨-1, some none, some 7, [⟨.ARGUMENTS, .VALUE_EXCEEDS_MAXIMUM⟩], "/a/b".toList⟩) := by
  have hlen : (List.replicate SSIZE_MAX 'x').length = SSIZE_MAX := List.length_replicate _ _
  have hne : ¬ (List.replicate SSIZE_MAX 'x').length = 0 := by
    rw [hlen]; decide
  have h1 := empty_or_oversized_path_rejected (unix_system "/a/b".toList) .WINAPI []
    (some none) (some 7) (Or.inl rfl)
  have h2 := empty_or_oversized_path_rejected (unix_system "/a/b".toList) .WINAPI
    (List.replicate SSIZE_MAX 'x') (some none) (some 7) (Or.inr (le_of_eq hlen.symm))
  rw [if_neg hne] at h2
  exact ⟨h1, h2⟩

theorem posix_body_absolute_allocator (a b : System) (path : List Char)
    (halloc : a.allocate = b.allocate) (habs : path.head? = some '/') :
    posix_full_path_body a path = posix_full_path_body b path := by
  rw [posix_body_absolute a path habs, posix_body_absolute b path habs, halloc]

theorem windows_resolve_allocator (a b : System) (path : List Char) (c : PathClass)
    (halloc : a.allocate = b.allocate) :
    windows_resolve a path none c = windows_resolve b path none c := by
  obtain ⟨path_type, volume_name, _, _, _, _⟩ := c
  cases path_type <;> simp only [windows_resolve, halloc]

theorem take_two_eq (path : List Char) (x y : Char) (h : path.take 2 = [x, y]) :
    ∃ rest, path = x :: y :: rest := by
  match path, h with
  | a :: b :: rest, h =>
    simp only [List.take_succ_cons, List.take_zero, List.cons.injEq, and_true] at h
    exact ⟨rest, by rw [h.1, h.2]⟩

theorem windows_inspect_special (path : List Char)
    (h : path.take 2 = [BACKSLASH, BACKSLASH]) :
    (∃ e, windows_inspect_path path = .error e)
    ∨ ∃ c, windows_inspect_path path = .ok c
      ∧ (c.path_type = .DEVICE ∨ c.path_type = .EXTENDED_LENGTH ∨ c.path_type = .UNC) := by
  obtain ⟨rest, rfl⟩ := take_two_eq path _ _ h
  have h2 : 2 ≤ (BACKSLASH :: BACKSLASH :: rest).length := by simp
  have hb0 : string_byte (BACKSLASH :: BACKSLASH :: rest) 0 = BACKSLASH := rfl
  have hb1 : string_byte (BACKSLASH :: BACKSLASH :: rest) 1 = BACKSLASH := rfl
  have hne : ¬ (BACKSLASH = ':') := by decide
  unfold windows_inspect_path
  simp only [h2, if_true, hb0, hb1, hne, false_and, if_false, and_self]
  split
  · split
    · exact Or.inr ⟨_, rfl, Or.inl rfl⟩
    · exact Or.inr ⟨_, rfl, Or.inr (Or.inl rfl)⟩
  · split
    · exact Or.inl ⟨_, rfl⟩
    · exact Or.inr ⟨_, rfl, Or.inr (Or.inr rfl)⟩

theorem windows_body_special (sys : System) (build : Build) (path : List Char)
    (h : path.take 2 = [BACKSLASH, BACKSLASH]) :
    windows_full_path_body sys build path
      = match windows_inspect_path path with
        | .error e => (.on_error [e], sys.working_directory)
        | .ok c => (windows_resolve sys path none c, sys.working_directory) := by
  unfold windows_full_path_body
  rcases windows_inspect_special path h with ⟨e, he⟩ | ⟨c, hc, ht⟩
  · rw [he]
  · rw [hc]
    have hty : ¬ (c.path_type ≠ .DEVICE ∧ c.path_type ≠ .EXTENDED_LENGTH
        ∧ c.path_type ≠ .UNC) := by
      rcases ht with ht | ht | ht <;> simp [ht]
    simp only [if_neg hty]

/-- C11: a path that is not relative is resolved without the working directory. For every
POSIX path that begins with '/' and every Windows path that begins with two backslashes
(the device, extended-length and UNC paths) two runs on the same arguments in two states
of the process that agree on the allocator, whatever their working directories and
whether or not the lookup of the working directory fails in them, give the same return
value, the same `*full_path`, the same `*full_path_size` and the same errors. -/
theorem absolute_path_ignores_working_directory (a b : System) (build : Build)
    (posix_path windows_path : List Char)
    (full_path : Option (Option (List Char))) (full_path_size : Option Nat)
    (halloc : a.allocate = b.allocate)
    (hposix : posix_path.head? = some '/')
    (hwindows : windows_path.take 2 = [BACKSLASH, BACKSLASH]) :
    ((posix_libbfio_path_get_full_path a (some posix_path) full_path full_path_size).value
        = (posix_libbfio_path_get_full_path b (some posix_path) full_path full_path_size).value
      ∧ (posix_libbfio_path_get_full_path a (some posix_path) full_path full_path_size).full_path
        = (posix_libbfio_path_get_full_path b (some posix_path) full_path
            full_path_size).full_path
      ∧ (posix_libbfio_path_get_full_path a (some posix_path) full_path
            full_path_size).full_path_size
        = (posix_libbfio_path_get_full_path b (some posix_path) full_path
            full_path_size).full_path_size
      ∧ (posix_libbfio_path_get_full_path a (some posix_path) full_path full_path_size).error
        = (posix_libbfio_path_get_full_path b (some posix_path) full_path full_path_size).error)
    ∧ ((windows_libbfio_path_get_full_path a build (some windows_path) full_path
            full_path_size).value
        = (windows_libbfio_path_get_full_path b build (some windows_path) full_path
            full_path_size).value
      ∧ (windows_libbfio_path_get_full_path a build (some windows_path) full_path
            full_path_size).full_path
        = (windows_libbfio_path_get_full_path b build (some windows_path) full_path
            full_path_size).full_path
      ∧ (windows_libbfio_path_get_full_path a build (some windows_path) full_path
            full_path_size).full_path_size
        = (windows_libbfio_path_get_full_path b build (some windows_path) full_path
            full_path_size).full_path_size
      ∧ (windows_libbfio_path_get_full_path a build (some windows_path) full_path
            full_path_size).error
        = (windows_libbfio_path_get_full_path b build (some windows_path) full_path
            full_path_size).error) := by
  constructor
  · simp only [posix_libbfio_path_get_full_path,
      posix_body_absolute_allocator a b posix_path halloc hposix]
    repeat' split
    all_goals exact ⟨rfl, rfl, rfl, rfl⟩
  · have hbody : (windows_full_path_body a build windows_path).1
        = (windows_full_path_body b build windows_path).1 := by
      rw [windows_body_special a build windows_path hwindows,
        windows_body_special b build windows_path hwindows]
      cases windows_inspect_path windows_path with
      | error e => rfl
      | ok c => exact windows_resolve_allocator a b windows_path c halloc
    simp only [windows_libbfio_path_get_full_path]
    repeat' split
    all_goals simp_all

theorem absolute_path_ignores_working_directory_witness :
    (posix_libbfio_path_get_full_path (unix_system "/a/b".toList) (some "/x/./y".toList)
        (some none) (some 0)).full_path
      = (posix_libbfio_path_get_full_path (lost_system "/q".toList) (some "/x/./y".toList)
        (some none) (some 0)).full_path
    ∧ (windows_libbfio_path_get_full_path (unix_system "/a/b".toList) .WINAPI
        (some "\\\\server\\share\\x".toList) (some none) (some 0)).full_path
      = (windows_libbfio_path_get_full_path (lost_system "/q".toList) .WINAPI
        (some "\\\\server\\share\\x".toList) (some none) (some 0)).full_path :=
  ⟨(absolute_path_ignores_working_directory (unix_system "/a/b".toList)
      (lost_system "/q".toList) .WINAPI "/x/./y".toList "\\\\server\\share\\x".toList
      (some none) (some 0) rfl (by decide) (by decide)).1.2.1,
    (absolute_path_ignores_working_directory (unix_system "/a/b".toList)
      (lost_system "/q".toList) .WINAPI "/x/./y".toList "\\\\server\\share\\x".toList
      (some none) (some 0) rfl (by decide) (by decide)).2.2.1⟩

/-- C20: a path of two backslashes followed by a server name without a further
backslash (a UNC path with no share name) is refused by the WINAPI variant: the call
returns -1, the error set is the runtime error "value missing", `*full_path` stays NULL,
`*full_path_size` is 0 and the working directory of the process is untouched. -/
theorem windows_share_name_missing (sys : System) (build : Build) (server : List Char)
    (size0 : Nat) (hserver : BACKSLASH ∉ server) (hmax : server.length + 2 < SSIZE_MAX) :
    windows_libbfio_path_get_full_path sys build (some (BACKSLASH :: BACKSLASH :: server))
        (some none) (some size0)
      = ⟨-1, some none, some 0, [⟨.RUNTIME, .VALUE_MISSING⟩], sys.working_directory⟩ := by
  have hpath : BACKSLASH :: BACKSLASH :: server ≠ [] := by simp
  have hlen : (BACKSLASH :: BACKSLASH :: server).length = server.length + 2 := rfl
  have hinspect : windows_inspect_path (BACKSLASH :: BACKSLASH :: server)
      = .error ⟨.RUNTIME, .VALUE_MISSING⟩ := by
    have h2 : 2 ≤ (BACKSLASH :: BACKSLASH :: server).length := by simp
    have hb0 : string_byte (BACKSLASH :: BACKSLASH :: server) 0 = BACKSLASH := rfl
    have hb1 : string_byte (BACKSLASH :: BACKSLASH :: server) 1 = BACKSLASH := rfl
    have hb3 : string_byte (BACKSLASH :: BACKSLASH :: server) 3 ≠ BACKSLASH := by
      have := string_byte_ne_backslash server hserver 1
      simpa [string_byte] using this
    have hne : ¬ (BACKSLASH = ':') := by decide
    have hfind : find_backslash (string_byte (BACKSLASH :: BACKSLASH :: server)) 2
        ((BACKSLASH :: BACKSLASH :: server).length + 1 - 2)
        = 2 + ((BACKSLASH :: BACKSLASH :: server).length + 1 - 2) := by
      apply find_backslash_none
      intro k _
      have := string_byte_ne_backslash server hserver k
      simpa [string_byte, Nat.add_comm] using this
    unfold windows_inspect_path
    simp only [h2, if_true, hb0, hb1, hne, false_and, if_false, and_self, hb3, and_false,
      hfind]
    rw [if_pos (by rw [hlen]; omega)]
  rw [windows_full_path_of_body sys build _ size0 hpath (by rw [hlen]; exact hmax)]
  simp only [windows_full_path_body, hinspect]

theorem windows_share_name_missing_witness :
    BACKSLASH ∉ "server".toList
    ∧ windows_libbfio_path_get_full_path
        (windows_system "C:\\a\\b".toList "D:".toList "D:\\w".toList) .WINAPI
        (some "\\\\server".toList) (some none) (some 7)
      = ⟨-1, some none, some 0, [⟨.RUNTIME, .VALUE_MISSING⟩], "C:\\a\\b".toList⟩ :=
  ⟨by decide,
    windows_share_name_missing (windows_system "C:\\a\\b".toList "D:".toList "D:\\w".toList)
      .WINAPI "server".toList 7 (by decide) (by decide)⟩

/-- C15, what the code does with device and extended-length paths: for every path that
begins with `\\.\` or `\\?\` the WINAPI variant returns -1 with the runtime error "value
missing" (no volume name was set for the path), `*full_path` stays NULL and
`*full_path_size` is 0; the path is not returned. -/
theorem windows_special_path_refused (sys : System) (build : Build) (mark : Char)
    (rest : List Char) (size0 : Nat) (hmark : mark = '.' ∨ mark = '?')
    (hmax : rest.length + 4 < SSIZE_MAX) :
    windows_libbfio_path_get_full_path sys build
        (some (BACKSLASH :: BACKSLASH :: mark :: BACKSLASH :: rest)) (some none) (some size0)
      = ⟨-1, some none, some 0, [⟨.RUNTIME, .VALUE_MISSING⟩], sys.working_directory⟩ := by
  have hpath : BACKSLASH :: BACKSLASH :: mark :: BACKSLASH :: rest ≠ [] := by simp
  have hlen : (BACKSLASH :: BACKSLASH :: mark :: BACKSLASH :: rest).length
      = rest.length + 4 := rfl
  have h2 : 2 ≤ (BACKSLASH :: BACKSLASH :: mark :: BACKSLASH :: rest).length := by simp
  have h4 : 4 ≤ (BACKSLASH :: BACKSLASH :: mark :: BACKSLASH :: rest).length := by simp
  have hb0 : string_byte (BACKSLASH :: BACKSLASH :: mark :: BACKSLASH :: rest) 0
      = BACKSLASH := rfl
  have hb1 : string_byte (BACKSLASH :: BACKSLASH :: mark :: BACKSLASH :: rest) 1
      = BACKSLASH := rfl
  have hb2 : string_byte (BACKSLASH :: BACKSLASH :: mark :: BACKSLASH :: rest) 2 = mark := rfl
  have hb3 : string_byte (BACKSLASH :: BACKSLASH :: mark :: BACKSLASH :: rest) 3
      = BACKSLASH := rfl
  have hne : ¬ (BACKSLASH = ':') := by decide
  rw [windows_full_path_of_body sys build _ size0 hpath (by rw [hlen]; exact hmax)]
  rcases hmark with rfl | rfl
  · simp [windows_full_path_body, windows_inspect_path, h2, h4, hb0, hb1, hb2, hb3, hne,
      windows_resolve]
  · simp [windows_full_path_body, windows_inspect_path, h2, h4, hb0, hb1, hb2, hb3, hne,
      windows_resolve]

theorem windows_special_path_refused_witness :
    windows_libbfio_path_get_full_path
        (windows_system "C:\\a\\b".toList "D:".toList "D:\\w".toList) .WINAPI
        (some "\\\\.\\PhysicalDrive0".toList) (some none) (some 0)
      = ⟨-1, some none, some 0, [⟨.RUNTIME, .VALUE_MISSING⟩], "C:\\a\\b".toList⟩
    ∧ windows_libbfio_path_get_full_path
        (windows_system "C:\\a\\b".toList "D:".toList "D:\\w".toList) .WINAPI
        (some "\\\\?\\C:\\directory\\file.txt".toList) (some none) (some 0)
      = ⟨-1, some none, some 0, [⟨.RUNTIME, .VALUE_MISSING⟩], "C:\\a\\b".toList⟩ :=
  ⟨windows_special_path_refused (windows_system "C:\\a\\b".toList "D:".toList "D:\\w".toList)
      .WINAPI '.' "PhysicalDrive0".toList 0 (Or.inl rfl) (by decide),
    windows_special_path_refused (windows_system "C:\\a\\b".toList "D:".toList "D:\\w".toList)
      .WINAPI '?' "C:\\directory\\file.txt".toList 0 (Or.inr rfl) (by decide)⟩

theorem read_current_directory_failed (sys : System) (build : Build)
    (hfail : sys.lookup_fails sys.working_directory = true)
    (halloc : sys.allocate sys.PATH_MAX = true) :
    read_current_directory sys build
      = .error [⟨.RUNTIME, .GET_FAILED⟩, ⟨.RUNTIME, .GET_FAILED⟩] := by
  cases build <;>
    simp [read_current_directory, libbfio_path_get_current_working_directory, hfail, halloc]

/-- C19, as amended: when the lookup of the working directory fails while a relative
path is resolved, the call returns -1 and the two errors it reports, the one set by
`libbfio_path_get_current_working_directory` and the one set by its caller, are runtime
errors "get failed"; `*full_path` stays NULL and `*full_path_size` is 0. This holds for
the POSIX variant and for the WINAPI variant on every path of the relative type. -/
theorem lookup_failure_reported (sys : System) (build : Build)
    (posix_path windows_path : List Char) (c : PathClass) (size0 : Nat)
    (hfail : sys.lookup_fails sys.working_directory = true)
    (halloc : sys.allocate sys.PATH_MAX = true)
    (hp0 : posix_path ≠ []) (hpmax : posix_path.length < SSIZE_MAX)
    (hprel : posix_path.head? ≠ some '/')
    (hw0 : windows_path ≠ []) (hwmax : windows_path.length < SSIZE_MAX)
    (hwc : windows_inspect_path windows_path = .ok c) (hwrel : c.path_type = .RELATIVE) :
    posix_libbfio_path_get_full_path sys (some posix_path) (some none) (some size0)
        = ⟨-1, some none, some 0, [⟨.RUNTIME, .GET_FAILED⟩, ⟨.RUNTIME, .GET_FAILED⟩],
            sys.working_directory⟩
    ∧ windows_libbfio_path_get_full_path sys build (some windows_path) (some none) (some size0)
        = ⟨-1, some none, some 0, [⟨.RUNTIME, .GET_FAILED⟩, ⟨.RUNTIME, .GET_FAILED⟩],
            sys.working_directory⟩ := by
  constructor
  · rw [posix_full_path_of_body sys posix_path size0 hp0 hpmax]
    have hrel : ¬ (posix_path.head? = some '/') := hprel
    simp [posix_full_path_body, hrel, read_current_directory_failed sys .POSIX hfail halloc]
  · rw [windows_full_path_of_body sys build windows_path size0 hw0 hwmax]
    have hlookup : windows_lookup sys build c
        = (.error [⟨.RUNTIME, .GET_FAILED⟩, ⟨.RUNTIME, .GET_FAILED⟩],
            sys.working_directory) := by
      unfold windows_lookup
      rw [read_current_directory_failed sys build hfail halloc]
      cases c.volume_name <;> rfl
    simp [windows_full_path_body, hwc, hwrel, hlookup]

theorem lookup_failure_reported_witness :
    posix_libbfio_path_get_full_path (lost_system "/a/b".toList) (some "x/y".toList)
        (some none) (some 7)
      = ⟨-1, some none, some 0, [⟨.RUNTIME, .GET_FAILED⟩, ⟨.RUNTIME, .GET_FAILED⟩],
          "/a/b".toList⟩
    ∧ windows_libbfio_path_get_full_path (lost_system "C:\\a".toList) .WINAPI
        (some "x\\y".toList) (some none) (some 7)
      = ⟨-1, some none, some 0, [⟨.RUNTIME, .GET_FAILED⟩, ⟨.RUNTIME, .GET_FAILED⟩],
          "C:\\a".toList⟩ :=
  ⟨(lookup_failure_reported (lost_system "/a/b".toList) .WINAPI "x/y".toList "x\\y".toList
      ⟨.RELATIVE, none, 0, 0, 0, 0⟩ 7 rfl rfl (by decide) (by decide) (by decide) (by decide)
      (by decide) rfl rfl).1,
    (lookup_failure_reported (lost_system "C:\\a".toList) .WINAPI "x/y".toList "x\\y".toList
      ⟨.RELATIVE, none, 0, 0, 0, 0⟩ 7 rfl rfl (by decide) (by decide) (by decide) (by decide)
      (by decide) rfl rfl).2⟩

/-- C19, the claim as stated fails: in a process whose working directory cannot be looked
up the POSIX variant returns -1 for the relative path "x" and both errors it sets have
the runtime domain (LIBERROR_ERROR_DOMAIN_RUNTIME), the domain the spec calls
RuntimeError; no error of an input/output domain is set. -/
theorem lookup_failure_not_io_error :
    (posix_libbfio_path_get_full_path (lost_system "/a/b".toList) (some "x".toList)
        (some none) (some 0)).value = -1
    ∧ (posix_libbfio_path_get_full_path (lost_system "/a/b".toList) (some "x".toList)
        (some none) (some 0)).error
      = [⟨.RUNTIME, .GET_FAILED⟩, ⟨.RUNTIME, .GET_FAILED⟩]
    ∧ ∀ e ∈ (posix_libbfio_path_get_full_path (lost_system "/a/b".toList) (some "x".toList)
        (some none) (some 0)).error, e.domain = .RUNTIME := by
  decide

theorem windows_inspect_without_volume (path : List Char) (c : PathClass)
    (hv : starts_with_volume_letter path = false)
    (h : windows_inspect_path path = .ok c) :
    c.volume_name = none ∨ c.path_type = .UNC := by
  rcases windows_inspect_path_cases path c h with h1 | h2 | h3
  · exact Or.inl h1.1
  · exfalso
    obtain ⟨_, _, _, _, h2len, hcolon, hletter⟩ := h2
    simp [starts_with_volume_letter, h2len, hcolon, hletter] at hv
  · exact Or.inr h3.1

theorem windows_lookup_without_volume (sys : System) (build : Build) (c : PathClass)
    (h : c.volume_name = none) :
    (windows_lookup sys build c).2 = sys.working_directory := by
  unfold windows_lookup
  rw [h]
  cases read_current_directory sys build <;> rfl

theorem windows_body_directory (sys : System) (build : Build) (path : List Char)
    (hlookup : ∀ c, windows_inspect_path path = .ok c → c.path_type ≠ .UNC →
      (windows_lookup sys build c).2 = sys.working_directory) :
    (windows_full_path_body sys build path).2 = sys.working_directory := by
  unfold windows_full_path_body
  cases hc : windows_inspect_path path with
  | error e => rfl
  | ok c =>
    simp only
    split
    · rename_i hty
      have := hlookup c hc hty.2.2
      rcases hl : windows_lookup sys build c with ⟨r, directory⟩
      rw [hl] at this
      simp only at this
      subst this
      cases r with
      | error e => rfl
      | ok current_directory =>
        simp only
        cases windows_inspect_current_directory sys current_directory c <;> rfl
    · rfl

theorem windows_result_directory (sys : System) (build : Build) (path : Option (List Char))
    (full_path : Option (Option (List Char))) (full_path_size : Option Nat)
    (h : ∀ p, path = some p → (windows_full_path_body sys build p).2 = sys.working_directory) :
    (windows_libbfio_path_get_full_path sys build path full_path full_path_size).working_directory
      = sys.working_directory := by
  unfold windows_libbfio_path_get_full_path
  cases path with
  | none => rfl
  | some p =>
    have hp := h p rfl
    simp only
    repeat' split
    all_goals first | rfl | (rename_i heq; rw [heq] at hp; exact hp)

/-- C16, as amended: the WINAPI variant changes the working directory of the process
for the paths that start with a volume letter and a colon, and for no other path. For
every path without a volume letter no call that changes the working directory is made
and the process is in the directory it was in. For every path with a volume letter,
drive-relative or drive-absolute, of a length below `SSIZE_MAX`, the first such call
changes to the volume of the path, once the working directory was read and the copy of
the volume name was allocated. -/
theorem windows_directory_switch (sys : System) (build : Build) (path : List Char)
    (size0 : Nat) (buffer : Buffer) (hmax : path.length < SSIZE_MAX) :
    (starts_with_volume_letter path = false →
      windows_directory_changes sys build (some path) (some none) (some size0) = []
      ∧ (windows_libbfio_path_get_full_path sys build (some path) (some none)
          (some size0)).working_directory = sys.working_directory)
    ∧ (starts_with_volume_letter path = true →
      read_current_directory sys build = .ok buffer →
      sys.allocate 3 = true →
      (windows_directory_changes sys build (some path) (some none) (some size0)).head?
        = some (path.take 2)) := by
  constructor
  · intro hv
    constructor
    · unfold windows_directory_changes
      simp only
      repeat' split
      all_goals first | rfl | skip
      rename_i c hc hty
      rcases windows_inspect_without_volume path c hv hc with h1 | h1
      · simp only [windows_lookup_changes, h1]
      · exact absurd h1 hty.2.2
    · apply windows_result_directory
      intro p hp
      cases hp
      apply windows_body_directory
      intro c hc hty
      rcases windows_inspect_without_volume path c hv hc with h1 | h1
      · exact windows_lookup_without_volume sys build c h1
      · exact absurd h1 hty
  · intro hv hread halloc
    simp only [starts_with_volume_letter, Bool.and_eq_true, decide_eq_true_eq,
      beq_iff_eq] at hv
    obtain ⟨⟨h2, hcolon⟩, hletter⟩ := hv
    have h0 : ¬ path.length = 0 := by omega
    have h1 : ¬ path.length ≥ SSIZE_MAX := by omega
    have hnul : NUL ∉ path.take 2 := by
      match path, h2, hcolon, hletter with
      | a :: b :: rest, _, hcolon, hletter =>
        simp only [string_byte, List.getD_cons_succ, List.getD_cons_zero] at hcolon hletter
        subst hcolon
        simp only [List.take_succ_cons, List.take_zero, List.mem_cons, List.mem_singleton,
          List.not_mem_nil, or_false, not_or]
        refine ⟨?_, by decide⟩
        intro he
        rw [← he] at hletter
        exact absurd hletter (by decide)
    have hname : c_string (path.take 2 ++ [NUL]) = path.take 2 := by
      have := c_string_concat (path.take 2) hnul []
      simpa using this
    have hinspect : ∃ c, windows_inspect_path path = .ok c
        ∧ c.path_type ≠ .DEVICE ∧ c.path_type ≠ .EXTENDED_LENGTH ∧ c.path_type ≠ .UNC
        ∧ c.volume_name = some (path.take 2) ∧ c.volume_name_length = 2 := by
      unfold windows_inspect_path
      simp only [h2, if_true, hcolon, hletter, and_self]
      split
      · exact ⟨_, rfl, by simp, by simp, by simp, rfl, rfl⟩
      · exact ⟨_, rfl, by simp, by simp, by simp, rfl, rfl⟩
    obtain ⟨c, hc, ht1, ht2, ht3, hvol, hvlen⟩ := hinspect
    simp only [windows_directory_changes, h0, h1, if_false, hc, ht1, ht2, ht3, ne_eq,
      not_false_eq_true, and_self, if_true, windows_lookup_changes, hvol, hread, hvlen,
      halloc, Bool.true_eq_false, hname]
    cases sys.change_directory (path.take 2) <;> rfl

theorem windows_directory_switch_witness :
    (windows_directory_changes (windows_system "D:\\a\\b".toList "C:".toList "C:\\w".toList)
        .WINAPI (some "x\\y".toList) (some none) (some 0) = []
      ∧ (windows_libbfio_path_get_full_path
          (windows_system "D:\\a\\b".toList "C:".toList "C:\\w".toList) .WINAPI
          (some "x\\y".toList) (some none) (some 0)).working_directory = "D:\\a\\b".toList)
    ∧ (windows_directory_changes (windows_system "D:\\a\\b".toList "C:".toList "C:\\w".toList)
        .WINAPI (some "C:file.txt".toList) (some none) (some 0)).head? = some "C:".toList :=
  ⟨(windows_directory_switch (windows_system "D:\\a\\b".toList "C:".toList "C:\\w".toList)
      .WINAPI "x\\y".toList 0 ⟨"D:\\a\\b".toList, 7⟩ (by decide)).1 (by decide),
    (windows_directory_switch (windows_system "D:\\a\\b".toList "C:".toList "C:\\w".toList)
      .WINAPI "C:file.txt".toList 0 ⟨"D:\\a\\b".toList, 7⟩ (by decide)).2 (by decide) rfl rfl⟩

/-- C16, the claim as stated fails: for the drive-absolute path `C:\x`, resolved in the
working directory `D:\a\b`, the WINAPI variant makes two calls that change the working
directory of the process, one to `C:` and one back to `D:\a\b`. -/
theorem windows_absolute_path_switches :
    windows_directory_changes (windows_system "D:\\a\\b".toList "C:".toList "C:\\w".toList)
        .WINAPI (some "C:\\x".toList) (some none) (some 0)
      = ["C:".toList, "D:\\a\\b".toList]
    ∧ (windows_libbfio_path_get_full_path
        (windows_system "D:\\a\\b".toList "C:".toList "C:\\w".toList) .WINAPI
        (some "C:\\x".toList) (some none) (some 0)).value = 1 := by
  decide

theorem windows_lookup_restored (sys : System) (build : Build) (c : PathClass)
    (hrestore : sys.change_directory sys.working_directory = some sys.working_directory) :
    (windows_lookup sys build c).2 = sys.working_directory := by
  unfold windows_lookup
  cases c.volume_name with
  | none => cases read_current_directory sys build <;> rfl
  | some volume_name =>
    simp only
    cases hr : read_current_directory sys build with
    | error e => rfl
    | ok current_working_directory =>
      simp only
      have htext := (read_current_directory_ok sys build current_working_directory hr).1
      split
      · rfl
      · cases sys.change_directory (c_string (volume_name ++ [NUL])) with
        | none => rfl
        | some volume_directory =>
          simp only [htext, hrestore]

/-- C17: the change of the working directory made by the WINAPI variant is undone before
the function returns. When the call that changes back to the directory saved at entry
succeeds, and puts the process in that directory, the working directory of the process
after the call is the one at entry, for every path and on every return, the failing ones
included. -/
theorem windows_switch_restored (sys : System) (build : Build) (path : Option (List Char))
    (full_path : Option (Option (List Char))) (full_path_size : Option Nat)
    (hrestore : sys.change_directory sys.working_directory = some sys.working_directory) :
    (windows_libbfio_path_get_full_path sys build path full_path full_path_size).working_directory
      = sys.working_directory := by
  apply windows_result_directory
  intro p _
  apply windows_body_directory
  intro c _ _
  exact windows_lookup_restored sys build c hrestore

theorem windows_switch_restored_witness :
    windows_directory_changes
        (unreadable_volume_system "D:\\a\\b".toList "C:".toList "C:\\w".toList) .WINAPI
        (some "C:file.txt".toList) (some none) (some 0) = ["C:".toList, "D:\\a\\b".toList]
    ∧ (windows_libbfio_path_get_full_path
        (unreadable_volume_system "D:\\a\\b".toList "C:".toList "C:\\w".toList) .WINAPI
        (some "C:file.txt".toList) (some none) (some 0)).value = -1
    ∧ (windows_libbfio_path_get_full_path
        (unreadable_volume_system "D:\\a\\b".toList "C:".toList "C:\\w".toList) .WINAPI
        (some "C:file.txt".toList) (some none) (some 0)).working_directory
      = "D:\\a\\b".toList :=
  ⟨by decide, by decide,
    windows_switch_restored
      (unreadable_volume_system "D:\\a\\b".toList "C:".toList "C:\\w".toList) .WINAPI
      (some "C:file.txt".toList) (some none) (some 0) (by decide)⟩

theorem windows_system_calls_succeed (working_directory volume volume_directory : List Char)
    (hw : working_directory.length < 260) (hv : volume_directory.length < 260)
    (hne : working_directory ≠ volume) :
    windows_calls_succeed (windows_system working_directory volume volume_directory)
      volume volume_directory := by
  refine ⟨rfl, rfl, hw, hv, (by decide : (260 : Nat) ≤ 32767), fun _ => rfl, ?_, ?_⟩
  · simp [windows_system]
  · simp [windows_system, hne]

theorem windows_read_ok (sys : System) (build : Build)
    (hl : sys.lookup_fails sys.working_directory = false)
    (hlen : sys.working_directory.length < sys.PATH_MAX) (hpm : sys.PATH_MAX ≤ 32767)
    (ha : ∀ n, sys.allocate n = true) :
    ∃ size, read_current_directory sys build = .ok ⟨sys.working_directory, size⟩
      ∧ sys.working_directory.length < size ∧ size ≤ 32767 := by
  have hs : ¬ (sys.working_directory.length + 1 > SSIZE_MAX) := by
    have : (32767 : Nat) < SSIZE_MAX := by decide
    omega
  have hp : ¬ (sys.PATH_MAX < sys.working_directory.length + 1) := by omega
  cases build with
  | WINAPI =>
    refine ⟨sys.working_directory.length + 1, ?_, Nat.lt_succ_self _, by omega⟩
    simp [read_current_directory, libbfio_path_get_current_working_directory, hl, hs, ha]
  | POSIX =>
    refine ⟨sys.PATH_MAX, ?_, hlen, hpm⟩
    simp [read_current_directory, libbfio_path_get_current_working_directory, hl, hp, ha]
  | WINAPI_CRT =>
    refine ⟨sys.PATH_MAX, ?_, hlen, hpm⟩
    simp [read_current_directory, libbfio_path_get_current_working_directory, hl, hp, ha]

theorem windows_lookup_volume (sys : System) (build : Build) (c : PathClass)
    (volume_name volume_directory : List Char)
    (hsys : windows_calls_succeed sys volume_name volume_directory)
    (hvol : c.volume_name = some volume_name) (hn : NUL ∉ volume_name) :
    ∃ size, windows_lookup sys build c = (.ok ⟨volume_directory, size⟩, sys.working_directory)
      ∧ volume_directory.length < size ∧ size ≤ 32767 := by
  obtain ⟨hl, hlv, hlen, hlenv, hpm, ha, hchange, hback⟩ := hsys
  obtain ⟨size0, hr0, _, _⟩ := windows_read_ok sys build hl hlen hpm ha
  obtain ⟨size, hr, h1, h2⟩ := windows_read_ok { sys with working_directory := volume_directory }
    build hlv hlenv hpm ha
  have hname : c_string (volume_name ++ [NUL]) = volume_name := by
    have := c_string_concat volume_name hn []
    simpa using this
  refine ⟨size, ?_, h1, h2⟩
  simp only [windows_lookup, hvol, hr0, ha, Bool.true_eq_false, if_false, hname, hchange,
    hback, hr]

theorem size_sub_eq (a b : Nat) (hb : b ≤ a) (ha : a < SIZE_MODULUS) :
    size_sub a b = a - b := by
  have hm : SIZE_MODULUS = 18446744073709551616 := rfl
  unfold size_sub
  rw [Nat.mod_eq_of_lt ha, Nat.mod_eq_of_lt (by omega : b < SIZE_MODULUS)]
  rw [show a + SIZE_MODULUS - b = (a - b) + SIZE_MODULUS by omega, Nat.add_mod_right]
  exact Nat.mod_eq_of_lt (by omega)

theorem size_add_eq (a b : Nat) (h : a + b < SIZE_MODULUS) : size_add a b = a + b :=
  Nat.mod_eq_of_lt h

theorem windows_resolve_start (sys : System) (path : List Char)
    (current_directory : Option Buffer) (c : PathClass) :
    windows_resolve sys path current_directory c
      = match c.volume_name with
        | none => .on_error [⟨.RUNTIME, .VALUE_MISSING⟩]
        | some volume_name =>
          match get_number_of_segments
              (windows_start sys path current_directory c).path_split_string with
          | none => .on_error [⟨.RUNTIME, .GET_FAILED⟩]
          | some path_number_of_segments =>
            match resolve_segments (windows_start sys path current_directory c)
                path_number_of_segments with
            | .error e => .on_error [e]
            | .ok st =>
              if sys.allocate st.full_path_size = false then
                .on_error [⟨.MEMORY, .INSUFFICIENT⟩]
              else .done (windows_rebuild c volume_name st) st.full_path_size := by
  unfold windows_resolve windows_start
  cases c.volume_name <;> rfl

theorem windows_resolve_plain (sys : System) (path : List Char)
    (current_directory : Option Buffer) (c : PathClass) (volume : List Char)
    (hvol : c.volume_name = some volume)
    (hidx : c.path_directory_name_index < path.length)
    (hmax : path.length < SSIZE_MAX)
    (hseg : ∀ s ∈ (path.drop c.path_directory_name_index).splitOn BACKSLASH, s ≠ ['.', '.'])
    (halloc : ∀ n, sys.allocate n = true) :
    ∃ st1, windows_resolve sys path current_directory c
        = .done (windows_rebuild c volume st1) st1.full_path_size
      ∧ st1.path_split_string
        = some (((path.drop c.path_directory_name_index).splitOn BACKSLASH).map kept)
      ∧ st1.current_directory_split_string
        = (windows_start sys path current_directory c).current_directory_split_string
      ∧ st1.full_path_size
        = plain_size (windows_start sys path current_directory c).full_path_size
          ((path.drop c.path_directory_name_index).splitOn BACKSLASH) := by
  have hm : SIZE_MODULUS = 18446744073709551616 := rfl
  have hs : SSIZE_MAX = 9223372036854775807 := rfl
  have hne : path.drop c.path_directory_name_index ≠ [] := by
    intro h
    have := congrArg List.length h
    simp only [List.length_drop, List.length_nil] at this
    omega
  have hsize : size_add (size_sub path.length c.path_directory_name_index) 1
      = path.length - c.path_directory_name_index + 1 := by
    rw [size_sub_eq _ _ (by omega) (by omega), size_add_eq _ _ (by omega)]
  have hsplit : (windows_start sys path current_directory c).path_split_string
      = some (((path.drop c.path_directory_name_index).splitOn BACKSLASH).map some) := by
    simp only [windows_start]
    apply split_whole _ _ _ hne
    rw [hsize, List.length_drop]
    omega
  obtain ⟨st1, h1, h2, h3, h4⟩ := resolve_range_plain
    ((path.drop c.path_directory_name_index).splitOn BACKSLASH) hseg []
    (windows_start sys path current_directory c) (by simpa using hsplit)
  have hfold : resolve_segments (windows_start sys path current_directory c)
      ((path.drop c.path_directory_name_index).splitOn BACKSLASH).length = .ok st1 := by
    simpa [resolve_segments, List.range_eq_range'] using h1
  refine ⟨st1, ?_, by simpa using h2, h3, h4⟩
  rw [windows_resolve_start, hvol]
  simp only [hsplit, get_number_of_segments, Option.map_some', List.length_map, hfold, halloc,
    Bool.true_eq_false, if_false]

theorem windows_inspect_absolute (letter : Char) (rest : List Char)
    (hletter : is_volume_letter letter = true) :
    windows_inspect_path (letter :: ':' :: BACKSLASH :: rest)
      = .ok ⟨.ABSOLUTE, some [letter, ':'], 2, 3, 0, 0⟩ := by
  have h2 : 2 ≤ (letter :: ':' :: BACKSLASH :: rest).length := by simp
  have h3 : 3 ≤ (letter :: ':' :: BACKSLASH :: rest).length := by simp
  have hb0 : string_byte (letter :: ':' :: BACKSLASH :: rest) 0 = letter := rfl
  have hb1 : string_byte (letter :: ':' :: BACKSLASH :: rest) 1 = ':' := rfl
  have hb2 : string_byte (letter :: ':' :: BACKSLASH :: rest) 2 = BACKSLASH := rfl
  unfold windows_inspect_path
  simp only [h2, h3, if_true, hb0, hb1, hb2, hletter, and_self]
  rfl

theorem volume_name_plain (letter : Char) (hletter : is_volume_letter letter = true) :
    NUL ∉ [letter, ':'] := (drive_name_segments letter hletter).1

theorem windows_body_volume (sys : System) (build : Build) (path : List Char)
    (c : PathClass) (letter vletter : Char) (vrest : List Char)
    (hletter : is_volume_letter letter = true) (hvletter : is_volume_letter vletter = true)
    (hsys : windows_calls_succeed sys [letter, ':'] (vletter :: ':' :: BACKSLASH :: vrest))
    (hc : windows_inspect_path path = .ok c)
    (hty : c.path_type = .ABSOLUTE ∨ c.path_type = .RELATIVE)
    (hvol : c.volume_name = some [letter, ':']) :
    ∃ size, windows_full_path_body sys build path
        = (windows_resolve sys path (some ⟨vletter :: ':' :: BACKSLASH :: vrest, size⟩)
            { c with current_directory_name_index := 3 }, sys.working_directory)
      ∧ vrest.length + 3 < size ∧ size ≤ 32767 := by
  obtain ⟨size, hlookup, h1, h2⟩ := windows_lookup_volume sys build c [letter, ':']
    (vletter :: ':' :: BACKSLASH :: vrest) hsys hvol (volume_name_plain letter hletter)
  refine ⟨size, ?_, by simpa using h1, h2⟩
  have hcond : c.path_type ≠ .DEVICE ∧ c.path_type ≠ .EXTENDED_LENGTH ∧ c.path_type ≠ .UNC := by
    rcases hty with h | h <;> simp [h]
  have hinspect := inspect_drive_directory sys vletter vrest size c hvletter h1
  rw [hvol] at hinspect
  simp only [windows_full_path_body, hc, hlookup, hinspect]
  rw [if_pos hcond]

/-- C13: the WINAPI variant returns a path on a volume in the extended-length format.
For every drive-absolute path `L:\s1\...\sn` with at least one segment and no "." or ".."
segment, when the calls that read and change the working directory succeed and the
directory of the volume is a drive directory, the call returns 1, the string is `\\?\`
followed by the path, and `*full_path_size` is the length of that string plus one. -/
theorem windows_volume_path_extended (sys : System) (build : Build) (letter vletter : Char)
    (rest vrest : List Char) (size0 : Nat)
    (hletter : is_volume_letter letter = true) (hvletter : is_volume_letter vletter = true)
    (hrest : rest ≠ []) (hmax : rest.length + 3 < SSIZE_MAX) (hn : NUL ∉ rest)
    (hseg : ∀ s ∈ rest.splitOn BACKSLASH, s ≠ ['.'] ∧ s ≠ ['.', '.'])
    (hsys : windows_calls_succeed sys [letter, ':'] (vletter :: ':' :: BACKSLASH :: vrest)) :
    (windows_libbfio_path_get_full_path sys build (some (letter :: ':' :: BACKSLASH :: rest))
        (some none) (some size0)).value = 1
    ∧ (windows_libbfio_path_get_full_path sys build (some (letter :: ':' :: BACKSLASH :: rest))
        (some none) (some size0)).string
      = some ([BACKSLASH, BACKSLASH, '?', BACKSLASH] ++ letter :: ':' :: BACKSLASH :: rest)
    ∧ (windows_libbfio_path_get_full_path sys build (some (letter :: ':' :: BACKSLASH :: rest))
        (some none) (some size0)).full_path_size
      = some (([BACKSLASH, BACKSLASH, '?', BACKSLASH]
          ++ letter :: ':' :: BACKSLASH :: rest).length + 1) := by
  have hm : SIZE_MODULUS = 18446744073709551616 := rfl
  have hs : SSIZE_MAX = 9223372036854775807 := rfl
  have hpath : letter :: ':' :: BACKSLASH :: rest ≠ [] := by simp
  have hlen : (letter :: ':' :: BACKSLASH :: rest).length = rest.length + 3 := rfl
  have hrlen : 0 < rest.length := List.length_pos.mpr hrest
  obtain ⟨size, hbody, _, _⟩ := windows_body_volume sys build _ _ letter vletter vrest
    hletter hvletter hsys (windows_inspect_absolute letter rest hletter) (Or.inl rfl) rfl
  simp only at hbody
  obtain ⟨st1, hres, hpss, _, hsize⟩ := windows_resolve_plain sys
    (letter :: ':' :: BACKSLASH :: rest)
    (some ⟨vletter :: ':' :: BACKSLASH :: vrest, size⟩)
    ⟨.ABSOLUTE, some [letter, ':'], 2, 3, 0, 3⟩ [letter, ':'] rfl
    (by rw [hlen]; simp only; omega) (by rw [hlen]; exact hmax)
    (fun s hs => (hseg s hs).2) hsys.2.2.2.2.2.1
  simp only [List.drop_succ_cons, List.drop_zero] at hpss hsize
  have hstart : (windows_start sys (letter :: ':' :: BACKSLASH :: rest)
      (some ⟨vletter :: ':' :: BACKSLASH :: vrest, size⟩)
      ⟨.ABSOLUTE, some [letter, ':'], 2, 3, 0, 3⟩).full_path_size = 7 := rfl
  have hsize1 : st1.full_path_size = rest.length + 8 := by
    rw [hsize, hstart, plain_size_eq _ (fun s hs => (hseg s hs).1) 7 (by decide),
      sum_segments, Nat.mod_eq_of_lt (by omega)]
    omega
  have hfilter : (rest.splitOn BACKSLASH).filter (fun s => s ≠ ['.', '.'] ∧ s ≠ ['.'])
      = rest.splitOn BACKSLASH := by
    rw [List.filter_eq_self]
    intro s hs
    simp [(hseg s hs).1, (hseg s hs).2]
  have hstored : windows_rebuild ⟨.ABSOLUTE, some [letter, ':'], 2, 3, 0, 3⟩ [letter, ':'] st1
      = ([BACKSLASH, BACKSLASH, '?', BACKSLASH] ++ letter :: ':' :: BACKSLASH :: rest)
        ++ [NUL] := by
    simp only [windows_rebuild, hpss, Option.getD_some]
    rw [append_segments_eq, retained_map_kept, hfilter, flatten_splitOn]
    simp only [reduceCtorEq, if_false, Nat.lt_irrefl]
    rw [← List.append_assoc, terminate_concat]
    simp
  have hnul : NUL ∉ [BACKSLASH, BACKSLASH, '?', BACKSLASH]
      ++ letter :: ':' :: BACKSLASH :: rest := by
    have h1 := volume_name_plain letter hletter
    simp only [List.mem_append, List.mem_cons, List.not_mem_nil, or_false, not_or] at h1 ⊢
    exact ⟨by decide, h1.1, by decide, by decide, hn⟩
  have hlen2 : ([BACKSLASH, BACKSLASH, '?', BACKSLASH]
      ++ letter :: ':' :: BACKSLASH :: rest).length + 1 = rest.length + 8 := by
    simp only [List.length_append, List.length_cons, List.length_nil]
    omega
  rw [windows_full_path_of_body sys build _ size0 hpath (by rw [hlen]; exact hmax), hbody,
    hres, hstored, hsize1, hlen2]
  simp only
  refine ⟨trivial, ?_, trivial⟩
  apply string_stored _ _ _ _ _ hnul
  omega

theorem windows_volume_path_extended_witness :
    windows_calls_succeed (windows_system "D:\\a\\b".toList "C:".toList "C:\\w".toList)
      "C:".toList "C:\\w".toList
    ∧ (windows_libbfio_path_get_full_path
        (windows_system "D:\\a\\b".toList "C:".toList "C:\\w".toList) .WINAPI
        (some "C:\\x\\y".toList) (some none) (some 0)).string
      = some "\\\\?\\C:\\x\\y".toList
    ∧ (windows_libbfio_path_get_full_path
        (windows_system "D:\\a\\b".toList "C:".toList "C:\\w".toList) .WINAPI
        (some "C:\\x\\y".toList) (some none) (some 0)).full_path_size = some 11 :=
  ⟨windows_system_calls_succeed _ _ _ (by decide) (by decide) (by decide),
    (windows_volume_path_extended
      (windows_system "D:\\a\\b".toList "C:".toList "C:\\w".toList) .WINAPI 'C' 'C'
      "x\\y".toList "w".toList 0 (by decide) (by decide) (by decide) (by decide) (by decide)
      (by decide)
      (windows_system_calls_succeed _ _ _ (by decide) (by decide) (by decide))).2⟩

theorem windows_inspect_relative (letter : Char) (name : List Char)
    (hletter : is_volume_letter letter = true) (hname : BACKSLASH ∉ name) :
    windows_inspect_path (letter :: ':' :: name)
      = .ok ⟨.RELATIVE, some [letter, ':'], 2, 2, 0, 0⟩ := by
  have h2 : 2 ≤ (letter :: ':' :: name).length := by simp
  have hb0 : string_byte (letter :: ':' :: name) 0 = letter := rfl
  have hb1 : string_byte (letter :: ':' :: name) 1 = ':' := rfl
  have hb2 : string_byte (letter :: ':' :: name) 2 ≠ BACKSLASH := by
    have := string_byte_ne_backslash name hname 0
    simpa [string_byte] using this
  unfold windows_inspect_path
  simp only [h2, if_true, hb0, hb1, hb2, hletter, and_self, and_false, if_false]
  rfl

theorem last_byte_of_directory (sys : System) (a b c : Char) (vrest : List Char) (size : Nat)
    (hne : vrest ≠ []) (hlast : vrest.getLast? ≠ some BACKSLASH) :
    Buffer.byte sys ⟨a :: b :: c :: vrest, size⟩ (vrest.length + 2) ≠ BACKSLASH := by
  rcases List.eq_nil_or_concat vrest with h | ⟨front, x, h⟩
  · exact absurd h hne
  · rw [List.concat_eq_append] at h
    subst h
    have hx : x ≠ BACKSLASH := by
      intro he
      apply hlast
      simp [he]
    have hidx : (front ++ [x]).length + 2 < (a :: b :: c :: (front ++ [x])).length := by
      simp
    simp only [Buffer.byte, hidx, if_true]
    have : (a :: b :: c :: (front ++ [x])).getD ((front ++ [x]).length + 2) NUL = x := by
      simp [List.getD_cons_succ, List.getD_eq_getElem?_getD]
    rw [this]
    exact hx

/-- C12, as amended: the WINAPI variant resolves a drive-relative path against the
directory of its volume and returns it in the extended-length format. For every volume
letter L and every plain name n (not empty, without separator, neither "." nor ".."),
when the calls that read and change the working directory succeed and the directory of
the volume is `V:\d` (d may be empty), the call on "L:n" returns 1 and the string is
`\\?\` followed by `L:\`, by d and a separator when d is not empty, and by n. -/
theorem windows_drive_relative_path (sys : System) (build : Build) (letter vletter : Char)
    (name vrest : List Char) (size0 : Nat)
    (hletter : is_volume_letter letter = true) (hvletter : is_volume_letter vletter = true)
    (hname : name ≠ [] ∧ BACKSLASH ∉ name ∧ NUL ∉ name ∧ name ≠ ['.'] ∧ name ≠ ['.', '.'])
    (hmax : name.length + 2 < SSIZE_MAX)
    (hvn : NUL ∉ vrest) (hvlast : vrest.getLast? ≠ some BACKSLASH)
    (hsys : windows_calls_succeed sys [letter, ':'] (vletter :: ':' :: BACKSLASH :: vrest)) :
    (windows_libbfio_path_get_full_path sys build (some (letter :: ':' :: name))
        (some none) (some size0)).value = 1
    ∧ (windows_libbfio_path_get_full_path sys build (some (letter :: ':' :: name))
        (some none) (some size0)).string
      = some ([BACKSLASH, BACKSLASH, '?', BACKSLASH] ++ [letter, ':', BACKSLASH] ++ vrest
          ++ (if vrest = [] then [] else [BACKSLASH]) ++ name) := by
  have hm : SIZE_MODULUS = 18446744073709551616 := rfl
  have hs : SSIZE_MAX = 9223372036854775807 := rfl
  obtain ⟨hn0, hnb, hnn, hnd, hndd⟩ := hname
  have hpath : letter :: ':' :: name ≠ [] := by simp
  have hlen : (letter :: ':' :: name).length = name.length + 2 := rfl
  have hnlen : 0 < name.length := List.length_pos.mpr hn0
  obtain ⟨size, hbody, hsz1, hsz2⟩ := windows_body_volume sys build _ _ letter vletter vrest
    hletter hvletter hsys (windows_inspect_relative letter name hletter hnb) (Or.inr rfl) rfl
  simp only at hbody
  have hsegs : name.splitOn BACKSLASH = [name] := splitOn_single BACKSLASH name hnb
  obtain ⟨st1, hres, hpss, hcds, hsize⟩ := windows_resolve_plain sys
    (letter :: ':' :: name)
    (some ⟨vletter :: ':' :: BACKSLASH :: vrest, size⟩)
    ⟨.RELATIVE, some [letter, ':'], 2, 2, 0, 3⟩ [letter, ':'] rfl
    (by rw [hlen]; simp only; omega) (by rw [hlen]; exact hmax)
    (by
      simp only [List.drop_succ_cons, List.drop_zero, hsegs, List.mem_singleton]
      intro s hs
      rw [hs]
      exact hndd)
    hsys.2.2.2.2.2.1
  simp only [List.drop_succ_cons, List.drop_zero, hsegs] at hpss hsize
  have h57 : size_add 5 2 = 7 := rfl
  have hsub : size_sub size (3 + 1) = size - 4 := size_sub_eq _ _ (by omega) (by omega)
  have hadd1 : size_add (size - 4) 1 = size - 3 := by
    rw [size_add_eq _ _ (by omega)]
    omega
  have hadd7 : size_add 7 (size - 4) = size + 3 := by
    rw [size_add_eq _ _ (by omega)]
    omega
  have hadd8 : size_add (size + 3) 1 = size + 4 := size_add_eq _ _ (by omega)
  have hstart_cds : (windows_start sys (letter :: ':' :: name)
      (some ⟨vletter :: ':' :: BACKSLASH :: vrest, size⟩)
      ⟨.RELATIVE, some [letter, ':'], 2, 2, 0, 3⟩).current_directory_split_string
      = libbfio_narrow_string_split vrest (size - 3) BACKSLASH := by
    have h3 : 3 ≤ (vletter :: ':' :: BACKSLASH :: vrest).length := by simp
    simp only [windows_start, Buffer.string_at, h3, if_true, List.drop_succ_cons,
      List.drop_zero, hsub, hadd1]
  have hstart_size : (windows_start sys (letter :: ':' :: name)
      (some ⟨vletter :: ':' :: BACKSLASH :: vrest, size⟩)
      ⟨.RELATIVE, some [letter, ':'], 2, 2, 0, 3⟩).full_path_size
      = if 2 ≤ size ∧ Buffer.byte sys ⟨vletter :: ':' :: BACKSLASH :: vrest, size⟩ (size - 2)
            ≠ BACKSLASH then size + 4 else size + 3 := by
    simp only [windows_start, Nat.lt_irrefl, if_false, h57, hsub, hadd7, hadd8]
  have hbound : vrest.length + 7 + (if vrest = [] then 0 else 1)
      ≤ (windows_start sys (letter :: ':' :: name)
        (some ⟨vletter :: ':' :: BACKSLASH :: vrest, size⟩)
        ⟨.RELATIVE, some [letter, ':'], 2, 2, 0, 3⟩).full_path_size
      ∧ (windows_start sys (letter :: ':' :: name)
        (some ⟨vletter :: ':' :: BACKSLASH :: vrest, size⟩)
        ⟨.RELATIVE, some [letter, ':'], 2, 2, 0, 3⟩).full_path_size ≤ size + 4 := by
    rw [hstart_size]
    by_cases hv : vrest = []
    · simp only [hv, if_true, List.length_nil]
      split <;> omega
    · simp only [hv, if_false]
      by_cases hexact : size = vrest.length + 4
      · have hb := last_byte_of_directory sys vletter ':' BACKSLASH vrest size hv hvlast
        have hidx : size - 2 = vrest.length + 2 := by omega
        rw [hidx, if_pos ⟨by omega, hb⟩]
        omega
      · split <;> omega
  have hsize1 : st1.full_path_size
      = (windows_start sys (letter :: ':' :: name)
        (some ⟨vletter :: ':' :: BACKSLASH :: vrest, size⟩)
        ⟨.RELATIVE, some [letter, ':'], 2, 2, 0, 3⟩).full_path_size + (name.length + 1) := by
    rw [hsize]
    simp only [plain_size, List.foldl_cons, List.foldl_nil, hnd, if_false]
    exact size_add_eq _ _ (by omega)
  have hkept : kept name = some name := by
    simp [kept, hnd, hndd]
  have hstored : windows_rebuild ⟨.RELATIVE, some [letter, ':'], 2, 2, 0, 3⟩ [letter, ':'] st1
      = ([BACKSLASH, BACKSLASH, '?', BACKSLASH] ++ [letter, ':', BACKSLASH] ++ vrest
          ++ (if vrest = [] then [] else [BACKSLASH]) ++ name) ++ [NUL] := by
    simp only [windows_rebuild, hpss, Option.getD_some, hcds, hstart_cds, List.map_cons,
      List.map_nil, hkept, reduceCtorEq, if_false, Nat.lt_irrefl]
    by_cases hv : vrest = []
    · subst hv
      have hsplit0 : libbfio_narrow_string_split [] (size - 3) BACKSLASH = none := by
        simp [libbfio_narrow_string_split]
      simp only [hsplit0, if_true, append_segments, List.foldl_cons, List.foldl_nil]
      rw [terminate_concat]
      simp
    · have hsplit1 : libbfio_narrow_string_split vrest (size - 3) BACKSLASH
          = some ((vrest.splitOn BACKSLASH).map some) :=
        split_whole _ _ _ hv (by omega)
      simp only [hsplit1, hv, if_false]
      rw [append_segments_eq _ ((vrest.splitOn BACKSLASH).map some), retained_map_some,
        flatten_splitOn]
      simp only [append_segments, List.foldl_cons, List.foldl_nil]
      rw [terminate_concat]
      simp
  have hnul : NUL ∉ [BACKSLASH, BACKSLASH, '?', BACKSLASH] ++ [letter, ':', BACKSLASH] ++ vrest
      ++ (if vrest = [] then [] else [BACKSLASH]) ++ name := by
    have h1 := volume_name_plain letter hletter
    have h2 : NUL ∉ (if vrest = [] then [] else [BACKSLASH]) := by
      split
      · simp
      · simp only [List.mem_singleton]
        decide
    simp only [List.mem_append, List.mem_cons, List.not_mem_nil, or_false, not_or] at h1 ⊢
    exact ⟨⟨⟨⟨by decide, ⟨h1.1, by decide, by decide⟩⟩, hvn⟩, h2⟩, hnn⟩
  have hlength : ([BACKSLASH, BACKSLASH, '?', BACKSLASH] ++ [letter, ':', BACKSLASH] ++ vrest
      ++ (if vrest = [] then [] else [BACKSLASH]) ++ name).length + 1
      ≤ st1.full_path_size := by
    rw [hsize1]
    have hif : (if vrest = [] then ([] : List Char) else [BACKSLASH]).length
        = if vrest = [] then 0 else 1 := by
      split <;> rfl
    simp only [List.length_append, List.length_cons, List.length_nil, hif]
    omega
  rw [windows_full_path_of_body sys build _ size0 hpath (by rw [hlen]; exact hmax), hbody,
    hres, hstored]
  simp only
  exact ⟨trivial, string_stored _ _ _ _ _ hnul hlength⟩

theorem windows_drive_relative_path_witness :
    windows_calls_succeed (windows_system "D:\\a\\b".toList "C:".toList "C:\\w".toList)
      "C:".toList "C:\\w".toList
    ∧ (windows_libbfio_path_get_full_path
        (windows_system "D:\\a\\b".toList "C:".toList "C:\\w".toList) .WINAPI
        (some "C:file.txt".toList) (some none) (some 0)).string
      = some "\\\\?\\C:\\w\\file.txt".toList :=
  ⟨windows_system_calls_succeed _ _ _ (by decide) (by decide) (by decide),
    (windows_drive_relative_path
      (windows_system "D:\\a\\b".toList "C:".toList "C:\\w".toList) .WINAPI 'C' 'C'
      "file.txt".toList "w".toList 0 (by decide) (by decide) (by decide) (by decide)
      (by decide) (by decide)
      (windows_system_calls_succeed _ _ _ (by decide) (by decide) (by decide))).2⟩

/-- C12, the claim as stated fails: with `C:\w` as the directory of drive C the WINAPI
variant resolves "C:file.txt" to `\\?\C:\w\file.txt`, which is not the string
`C:\w\file.txt` the claim gives. -/
theorem windows_drive_relative_prefixed :
    (windows_libbfio_path_get_full_path
        (windows_system "D:\\a\\b".toList "C:".toList "C:\\w".toList) .WINAPI
        (some "C:file.txt".toList) (some none) (some 0)).value = 1
    ∧ (windows_libbfio_path_get_full_path
        (windows_system "D:\\a\\b".toList "C:".toList "C:\\w".toList) .WINAPI
        (some "C:file.txt".toList) (some none) (some 0)).string
      = some "\\\\?\\C:\\w\\file.txt".toList
    ∧ (windows_libbfio_path_get_full_path
        (windows_system "D:\\a\\b".toList "C:".toList "C:\\w".toList) .WINAPI
        (some "C:file.txt".toList) (some none) (some 0)).string
      ≠ some "C:\\w\\file.txt".toList := by
  decide

theorem find_backslash_found (byte : Nat → Char) :
    ∀ (k count start : Nat), k < count → byte (start + k) = BACKSLASH →
      (∀ j, j < k → byte (start + j) ≠ BACKSLASH) →
      find_backslash byte start count = start + k := by
  intro k
  induction k with
  | zero =>
    intro count start hk hb _
    obtain ⟨n, rfl⟩ : ∃ n, count = n + 1 := ⟨count - 1, by omega⟩
    rw [find_backslash, if_pos (by simpa using hb)]
    rfl
  | succ k ih =>
    intro count start hk hb hbefore
    obtain ⟨n, rfl⟩ : ∃ n, count = n + 1 := ⟨count - 1, by omega⟩
    have h0 : byte start ≠ BACKSLASH := by simpa using hbefore 0 (Nat.succ_pos k)
    rw [find_backslash, if_neg h0,
      ih n (start + 1) (by omega) (by rwa [show start + 1 + k = start + (k + 1) by omega])
        (fun j hj => by
          have := hbefore (j + 1) (by omega)
          rwa [show start + (j + 1) = start + 1 + j by omega] at this)]
    omega

theorem string_byte_append_left (a b : List Char) (k : Nat) (h : k < a.length) :
    string_byte (a ++ b) k = string_byte a k := by
  unfold string_byte
  rw [List.getD_eq_getElem _ _ (by rw [List.length_append]; omega),
    List.getD_eq_getElem _ _ h, List.getElem_append_left h]

theorem string_byte_append_right (a b : List Char) (k : Nat) :
    string_byte (a ++ b) (a.length + k) = string_byte b k := by
  unfold string_byte
  simp [List.getD_eq_getElem?_getD, List.getElem?_append_right]

theorem range_map_string_byte (l : List Char) (n : Nat) (h : n ≤ l.length) :
    (List.range n).map (fun k => string_byte l k) = l.take n := by
  apply List.ext_getElem
  · simp [h]
  · intro i h1 h2
    simp only [List.length_map, List.length_range] at h1
    simp [string_byte, List.getD_eq_getElem?_getD, List.getElem?_eq_getElem (by omega : i < l.length)]

theorem windows_inspect_unc (server share rest : List Char)
    (hserver : BACKSLASH ∉ server) (hshare : BACKSLASH ∉ share)
    (hplain : server ≠ ['.'] ∧ server ≠ ['?']) :
    ∃ c, windows_inspect_path
          (BACKSLASH :: BACKSLASH :: (server ++ BACKSLASH :: (share ++ BACKSLASH :: rest)))
        = .ok c
      ∧ c.path_type = .UNC
      ∧ c.volume_name = some (server ++ BACKSLASH :: share)
      ∧ c.volume_name_length = server.length + 1 + share.length
      ∧ c.path_directory_name_index = server.length + share.length + 3
      ∧ 0 < c.share_name_index := by
  have h2 : 2 ≤ (BACKSLASH :: BACKSLASH
      :: (server ++ BACKSLASH :: (share ++ BACKSLASH :: rest))).length := by simp
  have hlen : (BACKSLASH :: BACKSLASH
      :: (server ++ BACKSLASH :: (share ++ BACKSLASH :: rest))).length
      = server.length + share.length + rest.length + 4 := by
    simp only [List.length_cons, List.length_append]
    omega
  have hb0 : string_byte (BACKSLASH :: BACKSLASH
      :: (server ++ BACKSLASH :: (share ++ BACKSLASH :: rest))) 0 = BACKSLASH := rfl
  have hb1 : string_byte (BACKSLASH :: BACKSLASH
      :: (server ++ BACKSLASH :: (share ++ BACKSLASH :: rest))) 1 = BACKSLASH := rfl
  have hbyte : ∀ k, string_byte (BACKSLASH :: BACKSLASH
      :: (server ++ BACKSLASH :: (share ++ BACKSLASH :: rest))) (2 + k)
      = string_byte (server ++ BACKSLASH :: (share ++ BACKSLASH :: rest)) k := by
    intro k
    simp [string_byte, Nat.add_comm 2 k]
  have hne : ¬ (BACKSLASH = ':') := by decide
  have hspecial : ¬ (4 ≤ (BACKSLASH :: BACKSLASH
        :: (server ++ BACKSLASH :: (share ++ BACKSLASH :: rest))).length
      ∧ (string_byte (BACKSLASH :: BACKSLASH
          :: (server ++ BACKSLASH :: (share ++ BACKSLASH :: rest))) 2 = '.'
        ∨ string_byte (BACKSLASH :: BACKSLASH
          :: (server ++ BACKSLASH :: (share ++ BACKSLASH :: rest))) 2 = '?')
      ∧ string_byte (BACKSLASH :: BACKSLASH
          :: (server ++ BACKSLASH :: (share ++ BACKSLASH :: rest))) 3 = BACKSLASH) := by
    rintro ⟨_, hmark, hsep⟩
    match server, hserver, hplain, hmark, hsep with
    | [], _, _, hmark, _ =>
      simp only [string_byte, List.nil_append, List.getD_cons_succ, List.getD_cons_zero] at hmark
      rcases hmark with h | h <;> exact absurd h (by decide)
    | [x], _, hplain, hmark, _ =>
      simp only [string_byte, List.singleton_append, List.getD_cons_succ,
        List.getD_cons_zero] at hmark
      rcases hmark with h | h
      · exact hplain.1 (by rw [h])
      · exact hplain.2 (by rw [h])
    | x :: y :: s, hserver, _, _, hsep =>
      simp only [string_byte, List.cons_append, List.getD_cons_succ, List.getD_cons_zero] at hsep
      apply hserver
      rw [hsep]
      simp
  have hshare_index : find_backslash (string_byte (BACKSLASH :: BACKSLASH
        :: (server ++ BACKSLASH :: (share ++ BACKSLASH :: rest)))) 2
      ((BACKSLASH :: BACKSLASH
        :: (server ++ BACKSLASH :: (share ++ BACKSLASH :: rest))).length + 1 - 2)
      = 2 + server.length := by
    apply find_backslash_found _ server.length
    · rw [hlen]; omega
    · rw [hbyte]
      have := string_byte_append_right server (BACKSLASH :: (share ++ BACKSLASH :: rest)) 0
      simpa [string_byte] using this
    · intro j hj
      rw [hbyte, string_byte_append_left _ _ _ hj]
      exact string_byte_ne_backslash server hserver j
  have hdirectory_index : find_backslash (string_byte (BACKSLASH :: BACKSLASH
        :: (server ++ BACKSLASH :: (share ++ BACKSLASH :: rest)))) (2 + server.length + 1)
      ((BACKSLASH :: BACKSLASH
        :: (server ++ BACKSLASH :: (share ++ BACKSLASH :: rest))).length + 1
        - (2 + server.length + 1))
      = 2 + server.length + 1 + share.length := by
    have hshift : ∀ k, string_byte (BACKSLASH :: BACKSLASH
        :: (server ++ BACKSLASH :: (share ++ BACKSLASH :: rest))) (2 + server.length + 1 + k)
        = string_byte (share ++ BACKSLASH :: rest) k := by
      intro k
      rw [show 2 + server.length + 1 + k = 2 + (server.length + (k + 1)) by omega, hbyte,
        string_byte_append_right]
      simp [string_byte]
    apply find_backslash_found _ share.length
    · rw [hlen]; omega
    · rw [hshift]
      have := string_byte_append_right share (BACKSLASH :: rest) 0
      simpa [string_byte] using this
    · intro j hj
      rw [hshift, string_byte_append_left _ _ _ hj]
      exact string_byte_ne_backslash share hshare j
  have hvolume : (List.range (2 + server.length + 1 + share.length - 2)).map
      (fun k => string_byte (BACKSLASH :: BACKSLASH
        :: (server ++ BACKSLASH :: (share ++ BACKSLASH :: rest))) (2 + k))
      = server ++ BACKSLASH :: share := by
    simp only [hbyte]
    rw [range_map_string_byte _ _ (by simp only [List.length_append, List.length_cons]; omega)]
    rw [show 2 + server.length + 1 + share.length - 2
      = (server ++ BACKSLASH :: share).length + 0 by
        simp only [List.length_append, List.length_cons]; omega]
    rw [show server ++ BACKSLASH :: (share ++ BACKSLASH :: rest)
      = (server ++ BACKSLASH :: share) ++ BACKSLASH :: rest by simp]
    rw [List.take_append]
    simp
  have hnot : ¬ (2 + server.length > (BACKSLASH :: BACKSLASH
      :: (server ++ BACKSLASH :: (share ++ BACKSLASH :: rest))).length) := by
    rw [hlen]; omega
  unfold windows_inspect_path
  simp only [h2, if_true, hb0, hb1, hne, false_and, if_false, and_self]
  rw [if_neg hspecial]
  simp only [hshare_index, if_neg hnot, hdirectory_index, hvolume]
  exact ⟨_, rfl, rfl, rfl, by simp only; omega, by simp only; omega, by simp only; omega⟩

/-- C14, what the code does with UNC paths: for every path `\\server\share\rest`, where
the server and share names hold no separator and `rest` has no "." or ".." segment, the
WINAPI variant returns 1 when the allocations succeed, and the string is `\\?\UNC\`
followed by `server\share`, by two separators and by `rest`: the separator that follows
the share name is stored twice. -/
theorem windows_unc_separator_doubled (sys : System) (build : Build)
    (server share rest : List Char) (size0 : Nat)
    (hserver : BACKSLASH ∉ server ∧ NUL ∉ server ∧ server ≠ ['.'] ∧ server ≠ ['?'])
    (hshare : BACKSLASH ∉ share ∧ NUL ∉ share) (hrest : NUL ∉ rest)
    (hseg : ∀ s ∈ rest.splitOn BACKSLASH, s ≠ ['.'] ∧ s ≠ ['.', '.'])
    (hmax : server.length + share.length + rest.length + 4 < SSIZE_MAX)
    (halloc : ∀ n, sys.allocate n = true) :
    (windows_libbfio_path_get_full_path sys build
        (some (BACKSLASH :: BACKSLASH :: (server ++ BACKSLASH :: (share ++ BACKSLASH :: rest))))
        (some none) (some size0)).value = 1
    ∧ (windows_libbfio_path_get_full_path sys build
        (some (BACKSLASH :: BACKSLASH :: (server ++ BACKSLASH :: (share ++ BACKSLASH :: rest))))
        (some none) (some size0)).string
      = some ([BACKSLASH, BACKSLASH, '?', BACKSLASH, 'U', 'N', 'C', BACKSLASH]
          ++ server ++ BACKSLASH :: share ++ [BACKSLASH, BACKSLASH] ++ rest) := by
  have hm : SIZE_MODULUS = 18446744073709551616 := rfl
  have hs : SSIZE_MAX = 9223372036854775807 := rfl
  have hpath : BACKSLASH :: BACKSLASH
      :: (server ++ BACKSLASH :: (share ++ BACKSLASH :: rest)) ≠ [] := by simp
  have hlen : (BACKSLASH :: BACKSLASH
      :: (server ++ BACKSLASH :: (share ++ BACKSLASH :: rest))).length
      = server.length + share.length + rest.length + 4 := by
    simp only [List.length_cons, List.length_append]
    omega
  obtain ⟨c, hc, hty, hvol, hvlen, hidx, hsni⟩ := windows_inspect_unc server share rest
    hserver.1 hshare.1 ⟨hserver.2.2.1, hserver.2.2.2⟩
  have hbody := windows_body_special sys build
    (BACKSLASH :: BACKSLASH :: (server ++ BACKSLASH :: (share ++ BACKSLASH :: rest))) rfl
  rw [hc] at hbody
  simp only at hbody
  have hdrop : (BACKSLASH :: BACKSLASH
      :: (server ++ BACKSLASH :: (share ++ BACKSLASH :: rest))).drop
        c.path_directory_name_index = BACKSLASH :: rest := by
    rw [hidx, show server.length + share.length + 3
      = (BACKSLASH :: BACKSLASH :: (server ++ BACKSLASH :: share)).length by
        simp only [List.length_cons, List.length_append]; omega]
    rw [show BACKSLASH :: BACKSLASH :: (server ++ BACKSLASH :: (share ++ BACKSLASH :: rest))
      = (BACKSLASH :: BACKSLASH :: (server ++ BACKSLASH :: share)) ++ BACKSLASH :: rest by simp]
    exact List.drop_left _ _
  have hsegs : (BACKSLASH :: rest).splitOn BACKSLASH = [] :: rest.splitOn BACKSLASH :=
    splitOn_cons_separator BACKSLASH rest
  have hall : ∀ s ∈ ([] : List Char) :: rest.splitOn BACKSLASH, s ≠ ['.'] ∧ s ≠ ['.', '.'] := by
    intro s hs
    rcases List.mem_cons.mp hs with h | h
    · rw [h]; exact ⟨by simp, by simp⟩
    · exact hseg s h
  obtain ⟨st1, hres, hpss, _, hsize⟩ := windows_resolve_plain sys
    (BACKSLASH :: BACKSLASH :: (server ++ BACKSLASH :: (share ++ BACKSLASH :: rest)))
    none c (server ++ BACKSLASH :: share) hvol (by rw [hlen, hidx]; omega)
    (by rw [hlen]; exact hmax)
    (by rw [hdrop, hsegs]; exact fun s hs => (hall s hs).2) halloc
  rw [hdrop, hsegs] at hpss hsize
  have hstart : (windows_start sys
      (BACKSLASH :: BACKSLASH :: (server ++ BACKSLASH :: (share ++ BACKSLASH :: rest)))
      none c).full_path_size = server.length + share.length + 10 := by
    simp only [windows_start, hty, hsni, if_true, hvlen]
    rw [size_add_eq 5 _ (by omega), size_add_eq _ 4 (by omega)]
    omega
  have hsize1 : st1.full_path_size = server.length + share.length + rest.length + 12 := by
    rw [hsize, hstart, plain_size_eq _ (fun s hs => (hall s hs).1) _ (by omega),
      List.map_cons, List.sum_cons, sum_segments, Nat.mod_eq_of_lt (by
        simp only [List.length_nil]; omega)]
    simp only [List.length_nil]
    omega
  have hfilter : (([] : List Char) :: rest.splitOn BACKSLASH).filter
      (fun s => s ≠ ['.', '.'] ∧ s ≠ ['.']) = [] :: rest.splitOn BACKSLASH := by
    rw [List.filter_eq_self]
    intro s hs
    simp [(hall s hs).1, (hall s hs).2]
  have hdevice : c.path_type ≠ .DEVICE := by rw [hty]; decide
  have hstored : windows_rebuild c (server ++ BACKSLASH :: share) st1
      = ([BACKSLASH, BACKSLASH, '?', BACKSLASH, 'U', 'N', 'C', BACKSLASH]
          ++ server ++ BACKSLASH :: share ++ [BACKSLASH, BACKSLASH] ++ rest) ++ [NUL] := by
    simp only [windows_rebuild, hpss, Option.getD_some, hty, hsni, if_true, reduceCtorEq,
      if_false]
    rw [append_segments_eq, retained_map_kept, hfilter, List.map_cons, List.flatten_cons,
      flatten_splitOn]
    simp only [List.nil_append]
    rw [← List.append_assoc, ← List.append_assoc, terminate_concat]
    simp
  have hnul : NUL ∉ [BACKSLASH, BACKSLASH, '?', BACKSLASH, 'U', 'N', 'C', BACKSLASH]
      ++ server ++ BACKSLASH :: share ++ [BACKSLASH, BACKSLASH] ++ rest := by
    simp only [List.mem_append, List.mem_cons, List.not_mem_nil, or_false, not_or]
    exact ⟨⟨⟨⟨⟨by decide, by decide, by decide, by decide, by decide, by decide, by decide,
      by decide⟩, hserver.2.1⟩, by decide, hshare.2⟩, by decide, by decide⟩, hrest⟩
  rw [windows_full_path_of_body sys build _ size0 hpath (by rw [hlen]; exact hmax), hbody,
    hres, hstored, hsize1]
  simp only
  refine ⟨trivial, string_stored _ _ _ _ _ hnul ?_⟩
  simp only [List.length_append, List.length_cons, List.length_nil]
  omega

theorem windows_unc_separator_doubled_witness :
    (windows_libbfio_path_get_full_path
        (windows_system "D:\\a\\b".toList "C:".toList "C:\\w".toList) .WINAPI
        (some "\\\\server\\share\\x".toList) (some none) (some 0)).string
      = some "\\\\?\\UNC\\server\\share\\\\x".toList
    ∧ (windows_libbfio_path_get_full_path
        (windows_system "D:\\a\\b".toList "C:".toList "C:\\w".toList) .WINAPI
        (some "\\\\server\\share\\x\\y".toList) (some none) (some 0)).string
      = some "\\\\?\\UNC\\server\\share\\\\x\\y".toList :=
  ⟨(windows_unc_separator_doubled
      (windows_system "D:\\a\\b".toList "C:".toList "C:\\w".toList) .WINAPI
      "server".toList "share".toList "x".toList 0 (by decide) (by decide) (by decide)
      (by decide) (by decide) (fun _ => rfl)).2,
    (windows_unc_separator_doubled
      (windows_system "D:\\a\\b".toList "C:".toList "C:\\w".toList) .WINAPI
      "server".toList "share".toList "x\\y".toList 0 (by decide) (by decide) (by decide)
      (by decide) (by decide) (fun _ => rfl)).2⟩

/-- C21, as amended: the output slots are set once. A call of
`libbfio_path_get_current_working_directory` with a slot that is not NULL returns -1 with
the runtime error "value already set", and a call of `libbfio_path_get_full_path` (POSIX
and WINAPI) with a `*full_path` that is not NULL does so when the path is not NULL and its
length is above 0 and below `SSIZE_MAX`. In every call with a slot that is not NULL,
whatever the path, the return value is -1 and the slot and the size are what the caller
passed. -/
theorem output_slot_set_once (sys : System) (build : Build) (buffer : Buffer)
    (stored : List Char) (size : Option Nat) (path : Option (List Char)) :
    libbfio_path_get_current_working_directory sys build (some (some buffer)) size
        = ⟨-1, some (some buffer), size, [⟨.RUNTIME, .VALUE_ALREADY_SET⟩]⟩
    ∧ ((∃ p, path = some p ∧ 0 < p.length ∧ p.length < SSIZE_MAX) →
        posix_libbfio_path_get_full_path sys path (some (some stored)) size
          = ⟨-1, some (some stored), size, [⟨.RUNTIME, .VALUE_ALREADY_SET⟩],
              sys.working_directory⟩
        ∧ windows_libbfio_path_get_full_path sys build path (some (some stored)) size
          = ⟨-1, some (some stored), size, [⟨.RUNTIME, .VALUE_ALREADY_SET⟩],
              sys.working_directory⟩)
    ∧ (posix_libbfio_path_get_full_path sys path (some (some stored)) size).value = -1
    ∧ (posix_libbfio_path_get_full_path sys path (some (some stored)) size).full_path
        = some (some stored)
    ∧ (posix_libbfio_path_get_full_path sys path (some (some stored)) size).full_path_size
        = size
    ∧ (windows_libbfio_path_get_full_path sys build path (some (some stored)) size).value = -1
    ∧ (windows_libbfio_path_get_full_path sys build path (some (some stored)) size).full_path
        = some (some stored)
    ∧ (windows_libbfio_path_get_full_path sys build path (some (some stored))
        size).full_path_size = size := by
  refine ⟨rfl, ?_, ?_⟩
  · rintro ⟨p, rfl, h0, hmax⟩
    have h1 : ¬ p.length = 0 := by omega
    have h2 : ¬ p.length ≥ SSIZE_MAX := by omega
    simp [posix_libbfio_path_get_full_path, windows_libbfio_path_get_full_path, h1, h2]
  · cases path with
    | none => exact ⟨rfl, rfl, rfl, rfl, rfl, rfl⟩
    | some p =>
      by_cases h1 : p.length = 0
      · simp [posix_libbfio_path_get_full_path, windows_libbfio_path_get_full_path, h1]
      · by_cases h2 : p.length ≥ SSIZE_MAX
        · simp [posix_libbfio_path_get_full_path, windows_libbfio_path_get_full_path, h1, h2]
        · simp [posix_libbfio_path_get_full_path, windows_libbfio_path_get_full_path, h1, h2]

theorem output_slot_set_once_witness :
    posix_libbfio_path_get_full_path (unix_system "/a/b".toList) (some "x".toList)
        (some (some "old".toList)) (some 7)
      = ⟨-1, some (some "old".toList), some 7, [⟨.RUNTIME, .VALUE_ALREADY_SET⟩],
          "/a/b".toList⟩
    ∧ windows_libbfio_path_get_full_path (unix_system "/a/b".toList) .WINAPI
        (some "x".toList) (some (some "old".toList)) (some 7)
      = ⟨-1, some (some "old".toList), some 7, [⟨.RUNTIME, .VALUE_ALREADY_SET⟩],
          "/a/b".toList⟩ :=
  (output_slot_set_once (unix_system "/a/b".toList) .WINAPI ⟨"old".toList, 4⟩ "old".toList
    (some 7) (some "x".toList)).2.1 ⟨"x".toList, rfl, by decide, by decide⟩

/-- C21, the claim as stated fails: with a `*full_path` that is not NULL and an empty
path the POSIX variant returns -1 with the arguments error "value zero or less", set by
the check of the path length, which comes before the check of the slot; no error "value
already set" is reported. -/
theorem output_slot_checked_after_path :
    posix_libbfio_path_get_full_path (unix_system "/a/b".toList) (some [])
        (some (some "old".toList)) (some 7)
      = ⟨-1, some (some "old".toList), some 7, [⟨.ARGUMENTS, .VALUE_ZERO_OR_LESS⟩],
          "/a/b".toList⟩
    ∧ (⟨.RUNTIME, .VALUE_ALREADY_SET⟩ : ErrorEntry)
      ∉ (posix_libbfio_path_get_full_path (unix_system "/a/b".toList) (some [])
        (some (some "old".toList)) (some 7)).error := by
  decide

/-- C22, what the code does when the working directory is a device path: for every path
of the relative type without a volume name, resolved by the WINAPI variant in a working
directory that begins with `\\.\` and can be read, the call returns -1 with the arguments
error "unsupported value", `*full_path` is NULL and `*full_path_size` is the value the
caller passed; it is not set to 0. -/
theorem windows_unsupported_directory_keeps_size (sys : System) (build : Build)
    (path rest : List Char) (size0 : Nat)
    (hwd : sys.working_directory = BACKSLASH :: BACKSLASH :: '.' :: BACKSLASH :: rest)
    (hl : sys.lookup_fails sys.working_directory = false)
    (hlen : sys.working_directory.length < sys.PATH_MAX) (hpm : sys.PATH_MAX ≤ 32767)
    (ha : ∀ n, sys.allocate n = true)
    (hp0 : path ≠ []) (hmax : path.length < SSIZE_MAX)
    (hc : windows_inspect_path path = .ok ⟨.RELATIVE, none, 0, 0, 0, 0⟩) :
    windows_libbfio_path_get_full_path sys build (some path) (some none) (some size0)
      = ⟨-1, some none, some size0, [⟨.ARGUMENTS, .UNSUPPORTED_VALUE⟩],
          sys.working_directory⟩ := by
  obtain ⟨size, hread, hsize, _⟩ := windows_read_ok sys build hl hlen hpm ha
  have h3 : 3 ≤ size := by
    rw [hwd] at hsize
    simp only [List.length_cons] at hsize
    omega
  have h4 : 4 ≤ size := by
    rw [hwd] at hsize
    simp only [List.length_cons] at hsize
    omega
  have hb0 : Buffer.byte sys ⟨sys.working_directory, size⟩ 0 = BACKSLASH := by
    rw [hwd]; simp [Buffer.byte]
  have hb1 : Buffer.byte sys ⟨sys.working_directory, size⟩ 1 = BACKSLASH := by
    rw [hwd]; simp [Buffer.byte]
  have hb2 : Buffer.byte sys ⟨sys.working_directory, size⟩ 2 = '.' := by
    rw [hwd]; simp [Buffer.byte]
  have hb3 : Buffer.byte sys ⟨sys.working_directory, size⟩ 3 = BACKSLASH := by
    rw [hwd]; simp [Buffer.byte]
  have hne : ¬ (BACKSLASH = ':') := by decide
  have hinspect : windows_inspect_current_directory sys ⟨sys.working_directory, size⟩
      ⟨.RELATIVE, none, 0, 0, 0, 0⟩ = .error (.bare [⟨.ARGUMENTS, .UNSUPPORTED_VALUE⟩]) := by
    unfold windows_inspect_current_directory
    simp only [h3, h4, if_true, hb0, hb1, hb2, hb3, hne, false_and, if_false, and_self]
  rw [windows_full_path_of_body sys build path size0 hp0 hmax]
  simp [windows_full_path_body, hc, windows_lookup, hread, hinspect]

theorem windows_unsupported_directory_keeps_size_witness :
    windows_libbfio_path_get_full_path
        (windows_system "\\\\.\\C:\\x".toList "D:".toList "D:\\w".toList) .WINAPI
        (some "y".toList) (some none) (some 7)
      = ⟨-1, some none, some 7, [⟨.ARGUMENTS, .UNSUPPORTED_VALUE⟩], "\\\\.\\C:\\x".toList⟩ :=
  windows_unsupported_directory_keeps_size
    (windows_system "\\\\.\\C:\\x".toList "D:".toList "D:\\w".toList) .WINAPI
    "y".toList "C:\\x".toList 7 rfl rfl (by decide) (by decide) (fun _ => rfl) (by decide)
    (by decide) rfl

theorem resolve_segment_parent_directory (st : Resolution) (pre tail : SplitString)
    (front : List (List Char)) (last : List Char)
    (hp : st.path_split_string = some (pre ++ some ['.', '.'] :: tail))
    (hl : st.last_used_path_segment_index = 0)
    (hc : st.current_directory_split_string = some (front.map some ++ [some last]))
    (hi : st.current_directory_segment_index = (front.length : Int)) :
    resolve_segment st pre.length = .ok
      { st with
        full_path_size := size_sub st.full_path_size (last.length + 1)
        current_directory_split_string := some (front.map some ++ [none])
        current_directory_segment_index := (front.length : Int) - 1
        path_split_string := some (pre ++ none :: tail) } := by
  have hget := get_segment_at (front.map some) [] (some last)
  have hset := set_segment_at (front.map some) [] (some last) none
  simp only [List.length_map] at hget hset
  unfold resolve_segment
  simp only [hp, get_segment_at, set_segment_at, parent_segment_iff, if_true, hl, hc, hi,
    hget, hset]

theorem resolve_segment_parent_missing (st : Resolution) (pre tail : SplitString)
    (hp : st.path_split_string = some (pre ++ some ['.', '.'] :: tail))
    (hl : st.last_used_path_segment_index = 0)
    (hc : st.current_directory_split_string = none) :
    resolve_segment st pre.length = .error ⟨.RUNTIME, .GET_FAILED⟩ := by
  unfold resolve_segment
  simp only [hp, get_segment_at, parent_segment_iff, if_true, hl, hc]
  rfl

theorem splitOn_parent_led (separator : Char) (hs : separator ≠ '.') (rest : List Char) :
    ('.' :: '.' :: separator :: rest).splitOn separator
      = ['.', '.'] :: rest.splitOn separator := by
  have h := splitOn_append_separator separator ['.', '.'] rest
  have h1 : (['.', '.'] : List Char).splitOn separator = [['.', '.']] := by
    apply splitOn_single
    simp only [List.mem_cons, List.not_mem_nil, or_false, or_self]
    exact hs
  simpa [h1] using h

theorem posix_parent_of_root (sys : System) (rest : List Char) (size0 : Nat)
    (hmax : rest.length + 4 < SSIZE_MAX) :
    posix_libbfio_path_get_full_path sys (some ('/' :: '.' :: '.' :: '/' :: rest))
        (some none) (some size0)
      = ⟨-1, some none, some 0, [⟨.RUNTIME, .GET_FAILED⟩], sys.working_directory⟩ := by
  have hsplit : ('/' :: '.' :: '.' :: '/' :: rest).splitOn '/'
      = [] :: ['.', '.'] :: rest.splitOn '/' := by
    rw [splitOn_cons_separator, splitOn_parent_led '/' (by decide)]
  rw [posix_full_path_of_body sys _ size0 (by simp) (by simpa using hmax),
    posix_body_absolute sys ('/' :: '.' :: '.' :: '/' :: rest) rfl, hsplit]
  have h0 := resolve_segment_plain
    { current_directory_split_string := none
      path_split_string := some (([] :: ['.', '.'] :: rest.splitOn '/').map some)
      full_path_size := 0
      current_directory_segment_index := 0
      last_used_path_segment_index := 0 } [] ((['.', '.'] :: rest.splitOn '/').map some) []
    (by simp) (by simp)
  rw [if_neg (by simp)] at h0
  have h1 := resolve_segment_parent_missing
    { current_directory_split_string := none
      path_split_string := some (([] :: ['.', '.'] :: rest.splitOn '/').map some)
      full_path_size := size_add 0 (([] : List Char).length + 1)
      current_directory_segment_index := 0
      last_used_path_segment_index := 0 } [some []] ((rest.splitOn '/').map some)
    (by simp) rfl rfl
  have hrange : List.range ([] :: ['.', '.'] :: rest.splitOn '/').length
      = 0 :: 1 :: List.map Nat.succ (List.map Nat.succ (List.range (rest.splitOn '/').length)) := by
    rw [List.length_cons, List.length_cons, List.range_succ_eq_map, List.range_succ_eq_map]
    rfl
  have hfold : resolve_segments
      { current_directory_split_string := none
        path_split_string := some (([] :: ['.', '.'] :: rest.splitOn '/').map some)
        full_path_size := 0
        current_directory_segment_index := 0
        last_used_path_segment_index := 0 }
      ([] :: ['.', '.'] :: rest.splitOn '/').length = .error ⟨.RUNTIME, .GET_FAILED⟩ := by
    have h0' : resolve_segment
        { current_directory_split_string := none
          path_split_string := some (([] :: ['.', '.'] :: rest.splitOn '/').map some)
          full_path_size := 0
          current_directory_segment_index := 0
          last_used_path_segment_index := 0 } 0
        = .ok
        { current_directory_split_string := none
          path_split_string := some (([] :: ['.', '.'] :: rest.splitOn '/').map some)
          full_path_size := size_add 0 (([] : List Char).length + 1)
          current_directory_segment_index := 0
          last_used_path_segment_index := 0 } := h0
    have h1' : resolve_segment
        { current_directory_split_string := none
          path_split_string := some (([] :: ['.', '.'] :: rest.splitOn '/').map some)
          full_path_size := size_add 0 (([] : List Char).length + 1)
          current_directory_segment_index := 0
          last_used_path_segment_index := 0 } 1
        = .error ⟨.RUNTIME, .GET_FAILED⟩ := h1
    rw [resolve_segments, hrange, foldlM_ok_cons _ _ _ _ _ h0']
    exact foldlM_error_cons _ _ _ _ _ h1'
  rw [hfold]

theorem windows_parent_of_drive (sys : System) (build : Build) (letter vletter : Char)
    (rest vrest : List Char) (size0 : Nat)
    (hletter : is_volume_letter letter = true) (hvletter : is_volume_letter vletter = true)
    (hmax : rest.length + 6 < SSIZE_MAX)
    (hseg : ∀ s ∈ rest.splitOn BACKSLASH, s ≠ ['.'] ∧ s ≠ ['.', '.'])
    (hsys : windows_calls_succeed sys [letter, ':'] (vletter :: ':' :: BACKSLASH :: vrest)) :
    (vrest ≠ [] →
      (windows_libbfio_path_get_full_path sys build
          (some (letter :: ':' :: BACKSLASH :: '.' :: '.' :: BACKSLASH :: rest))
          (some none) (some size0)).value = 1
      ∧ (windows_libbfio_path_get_full_path sys build
          (some (letter :: ':' :: BACKSLASH :: '.' :: '.' :: BACKSLASH :: rest))
          (some none) (some size0)).full_path
        = some (some ([BACKSLASH, BACKSLASH, '?', BACKSLASH]
            ++ letter :: ':' :: BACKSLASH :: rest ++ [NUL])))
    ∧ (vrest = [] →
      windows_libbfio_path_get_full_path sys build
          (some (letter :: ':' :: BACKSLASH :: '.' :: '.' :: BACKSLASH :: rest))
          (some none) (some size0)
        = ⟨-1, some none, some 0, [⟨.RUNTIME, .GET_FAILED⟩], sys.working_directory⟩) := by
  have hm : SIZE_MODULUS = 18446744073709551616 := rfl
  have hs : SSIZE_MAX = 9223372036854775807 := rfl
  have hpath : letter :: ':' :: BACKSLASH :: '.' :: '.' :: BACKSLASH :: rest ≠ [] := by simp
  have hlen : (letter :: ':' :: BACKSLASH :: '.' :: '.' :: BACKSLASH :: rest).length
      = rest.length + 6 := rfl
  obtain ⟨size, hbody, hsz1, hsz2⟩ := windows_body_volume sys build _ _ letter vletter vrest
    hletter hvletter hsys
    (windows_inspect_absolute letter ('.' :: '.' :: BACKSLASH :: rest) hletter) (Or.inl rfl) rfl
  simp only at hbody
  have hsub : size_sub size (3 + 1) = size - 4 := size_sub_eq _ _ (by omega) (by omega)
  have hadd1 : size_add (size - 4) 1 = size - 3 := by
    rw [size_add_eq _ _ (by omega)]
    omega
  have hpsize : size_add (size_sub (rest.length + 6) 3) 1 = rest.length + 4 := by
    rw [size_sub_eq _ _ (by omega) (by omega), size_add_eq _ _ (by omega)]
    omega
  have hpss : (windows_start sys (letter :: ':' :: BACKSLASH :: '.' :: '.' :: BACKSLASH :: rest)
      (some ⟨vletter :: ':' :: BACKSLASH :: vrest, size⟩)
      ⟨.ABSOLUTE, some [letter, ':'], 2, 3, 0, 3⟩).path_split_string
      = some ([] ++ some ['.', '.'] :: (rest.splitOn BACKSLASH).map some) := by
    simp only [windows_start, List.drop_succ_cons, List.drop_zero, hlen, hpsize]
    rw [split_whole ('.' :: '.' :: BACKSLASH :: rest) (rest.length + 4) BACKSLASH (by simp)
      (by simp), splitOn_parent_led BACKSLASH (by decide)]
    rfl
  have hcds : (windows_start sys
      (letter :: ':' :: BACKSLASH :: '.' :: '.' :: BACKSLASH :: rest)
      (some ⟨vletter :: ':' :: BACKSLASH :: vrest, size⟩)
      ⟨.ABSOLUTE, some [letter, ':'], 2, 3, 0, 3⟩).current_directory_split_string
      = libbfio_narrow_string_split vrest (size - 3) BACKSLASH := by
    have h3 : 3 ≤ (vletter :: ':' :: BACKSLASH :: vrest).length := by simp
    simp only [windows_start, Buffer.string_at, h3, if_true, List.drop_succ_cons,
      List.drop_zero, hsub, hadd1]
  have hrange : List.range ((rest.splitOn BACKSLASH).length + 1)
      = 0 :: List.range' 1 (rest.splitOn BACKSLASH).length := by
    rw [List.range_eq_range', List.range'_succ]
  have hcount : get_number_of_segments
      (some ([] ++ some ['.', '.'] :: (rest.splitOn BACKSLASH).map some))
      = some ((rest.splitOn BACKSLASH).length + 1) := by
    simp [get_number_of_segments]
  have hroot : vrest = [] →
      windows_resolve sys (letter :: ':' :: BACKSLASH :: '.' :: '.' :: BACKSLASH :: rest)
        (some ⟨vletter :: ':' :: BACKSLASH :: vrest, size⟩)
        ⟨.ABSOLUTE, some [letter, ':'], 2, 3, 0, 3⟩ = .on_error [⟨.RUNTIME, .GET_FAILED⟩] := by
    intro hv
    have hnone : (windows_start sys
        (letter :: ':' :: BACKSLASH :: '.' :: '.' :: BACKSLASH :: rest)
        (some ⟨vletter :: ':' :: BACKSLASH :: vrest, size⟩)
        ⟨.ABSOLUTE, some [letter, ':'], 2, 3, 0, 3⟩).current_directory_split_string = none := by
      rw [hcds, hv]
      simp [libbfio_narrow_string_split]
    have hstep := resolve_segment_parent_missing _ [] _ hpss rfl hnone
    simp only [List.length_nil] at hstep
    rw [windows_resolve_start, hpss, hcount]
    simp only
    rw [resolve_segments, hrange, foldlM_error_cons _ _ _ _ _ hstep]
  have hpop : vrest ≠ [] → ∃ size1,
      windows_resolve sys (letter :: ':' :: BACKSLASH :: '.' :: '.' :: BACKSLASH :: rest)
        (some ⟨vletter :: ':' :: BACKSLASH :: vrest, size⟩)
        ⟨.ABSOLUTE, some [letter, ':'], 2, 3, 0, 3⟩
      = .done ([BACKSLASH, BACKSLASH, '?', BACKSLASH]
          ++ letter :: ':' :: BACKSLASH :: rest ++ [NUL]) size1 := by
    intro hv
    have hsne : vrest.splitOn BACKSLASH ≠ [] := splitOn_ne_nil BACKSLASH vrest
    have hsome : (windows_start sys
        (letter :: ':' :: BACKSLASH :: '.' :: '.' :: BACKSLASH :: rest)
        (some ⟨vletter :: ':' :: BACKSLASH :: vrest, size⟩)
        ⟨.ABSOLUTE, some [letter, ':'], 2, 3, 0, 3⟩).current_directory_split_string
        = some ((vrest.splitOn BACKSLASH).dropLast.map some
            ++ [some ((vrest.splitOn BACKSLASH).getLast hsne)]) := by
      rw [hcds, split_whole vrest (size - 3) BACKSLASH hv (by omega)]
      conv_lhs => rw [← List.dropLast_append_getLast hsne]
      simp
    have hindex : (windows_start sys
        (letter :: ':' :: BACKSLASH :: '.' :: '.' :: BACKSLASH :: rest)
        (some ⟨vletter :: ':' :: BACKSLASH :: vrest, size⟩)
        ⟨.ABSOLUTE, some [letter, ':'], 2, 3, 0, 3⟩).current_directory_segment_index
        = (((vrest.splitOn BACKSLASH).dropLast).length : Int) := by
      have hc2 : libbfio_narrow_string_split vrest (size - 3) BACKSLASH
          = some ((vrest.splitOn BACKSLASH).map some) :=
        split_whole vrest (size - 3) BACKSLASH hv (by omega)
      have hpos : 0 < (vrest.splitOn BACKSLASH).length := List.length_pos.mpr hsne
      have h3 : 3 ≤ (vletter :: ':' :: BACKSLASH :: vrest).length := by simp
      simp only [windows_start, Buffer.string_at, h3, if_true, List.drop_succ_cons,
        List.drop_zero, hsub, hadd1, hc2, get_number_of_segments, Option.map_some',
        Option.getD_some, List.length_map, List.length_dropLast]
      omega
    have hstep := resolve_segment_parent_directory _ [] _ _ _ hpss rfl hsome hindex
    simp only [List.length_nil, List.nil_append] at hstep
    obtain ⟨st1, hst1, hp1⟩ : ∃ st1, resolve_segment (windows_start sys
        (letter :: ':' :: BACKSLASH :: '.' :: '.' :: BACKSLASH :: rest)
        (some ⟨vletter :: ':' :: BACKSLASH :: vrest, size⟩)
        ⟨.ABSOLUTE, some [letter, ':'], 2, 3, 0, 3⟩) 0 = .ok st1
        ∧ st1.path_split_string = some ([none] ++ (rest.splitOn BACKSLASH).map some) :=
      ⟨_, hstep, rfl⟩
    obtain ⟨st2, h1, h2, _, _⟩ := resolve_range_plain (rest.splitOn BACKSLASH)
      (fun s hs => (hseg s hs).2) [none] st1 hp1
    simp only [List.length_singleton] at h1
    refine ⟨st2.full_path_size, ?_⟩
    have hfilter : (rest.splitOn BACKSLASH).filter (fun s => s ≠ ['.', '.'] ∧ s ≠ ['.'])
        = rest.splitOn BACKSLASH := by
      rw [List.filter_eq_self]
      intro s hs
      simp [(hseg s hs).1, (hseg s hs).2]
    have hret : retained ([none] ++ (rest.splitOn BACKSLASH).map kept)
        = rest.splitOn BACKSLASH := by
      have := retained_map_kept (rest.splitOn BACKSLASH)
      rw [hfilter] at this
      simpa [retained] using this
    have hstored : windows_rebuild ⟨.ABSOLUTE, some [letter, ':'], 2, 3, 0, 3⟩ [letter, ':'] st2
        = [BACKSLASH, BACKSLASH, '?', BACKSLASH]
          ++ letter :: ':' :: BACKSLASH :: rest ++ [NUL] := by
      simp only [windows_rebuild, h2, Option.getD_some]
      rw [append_segments_eq, hret, flatten_splitOn]
      simp only [reduceCtorEq, if_false, Nat.lt_irrefl]
      rw [← List.append_assoc, terminate_concat]
      simp
    rw [windows_resolve_start, hpss, hcount]
    simp only
    rw [resolve_segments, hrange, foldlM_ok_cons _ _ _ _ _ hst1, h1]
    simp only [hsys.2.2.2.2.2.1, Bool.true_eq_false, if_false, hstored]
  rw [windows_full_path_of_body sys build _ size0 hpath (by rw [hlen]; exact hmax), hbody]
  constructor
  · intro hv
    obtain ⟨size1, hres⟩ := hpop hv
    rw [hres]
    exact ⟨rfl, rfl⟩
  · intro hv
    rw [hroot hv]

/-- C23, the code at the failing input: a ".." at the start of a drive-absolute path does
not leave the state unchanged. For `C:\..\x` with `C:\w` as the directory of drive C the
WINAPI variant pops the segment `w` of that directory and takes its 2 bytes off a
`*full_path_size` they were never added to: the call returns 1 with a size of 7 and
stores the 9 bytes of `\\?\C:\x` and its terminator, so that no string can be read back
inside the allocation. With `C:\` as that directory there is no segment to pop and the
call returns -1 with the runtime error "get failed", as the POSIX variant does for
"/../x". -/
theorem windows_parent_pops_drive_directory :
    windows_libbfio_path_get_full_path
        (windows_system "D:\\a\\b".toList "C:".toList "C:\\w".toList) .WINAPI
        (some "C:\\..\\x".toList) (some none) (some 0)
      = ⟨1, some (some ("\\\\?\\C:\\x".toList ++ [NUL])), some 7, [], "D:\\a\\b".toList⟩
    ∧ ("\\\\?\\C:\\x".toList ++ [NUL]).length = 9
    ∧ (windows_libbfio_path_get_full_path
        (windows_system "D:\\a\\b".toList "C:".toList "C:\\w".toList) .WINAPI
        (some "C:\\..\\x".toList) (some none) (some 0)).string = none
    ∧ windows_libbfio_path_get_full_path
        (windows_system "D:\\a\\b".toList "C:".toList "C:\\".toList) .WINAPI
        (some "C:\\..\\x".toList) (some none) (some 0)
      = ⟨-1, some none, some 0, [⟨.RUNTIME, .GET_FAILED⟩], "D:\\a\\b".toList⟩
    ∧ posix_libbfio_path_get_full_path (unix_system "/a/b".toList) (some "/../x".toList)
        (some none) (some 0)
      = ⟨-1, some none, some 0, [⟨.RUNTIME, .GET_FAILED⟩], "/a/b".toList⟩ := by
  decide

/-- C24: `libbfio_file_io_handle_initialize` followed by `libbfio_file_io_handle_free`
is a clean round trip. On a handle pointer whose handle is NULL, when the allocation
succeeds, initialize returns 1, sets a handle and sets no error; free on the result
returns 1, resets the handle to NULL and sets no error. Free does so for every handle,
Closed or Open. -/
theorem file_io_handle_round_trip (handle : Handle) :
    ( libbfio_file_io_handle_initialize true (some none)).value = 1
    ∧ (∃ created, ( libbfio_file_io_handle_initialize true (some none)).handle
        = some (some created))
    ∧ ( libbfio_file_io_handle_initialize true (some none)).error = none
    ∧ libbfio_file_io_handle_free ( libbfio_file_io_handle_initialize true (some none)).handle
      = ⟨1, some none, none⟩
    ∧ libbfio_file_io_handle_free (some (some handle)) = ⟨1, some none, none⟩ := by
  refine ⟨rfl, ⟨new_handle, rfl⟩, rfl, rfl, ?_⟩
  unfold libbfio_file_io_handle_free handle_close
  cases hs : handle.state <;> simp [hs]

/-- C25: `libbfio_file_io_handle_initialize` creates nothing when its output slot is
unusable. It returns -1 with an error for a NULL handle pointer, for a handle that is
already set, which it leaves as it is, and when the allocation fails, in which case the
handle stays NULL; `libbfio_file_io_handle_free` of a NULL pointer returns -1 with an
error. -/
theorem file_io_handle_initialize_refused (allocates : Bool) (handle : Handle) :
    ( libbfio_file_io_handle_initialize allocates none).value = -1
    ∧ ( libbfio_file_io_handle_initialize allocates none).error = some .ArgumentError
    ∧ ( libbfio_file_io_handle_initialize allocates none).handle = none
    ∧ libbfio_file_io_handle_initialize allocates (some (some handle))
      = ⟨-1, some (some handle), some .InvalidState⟩
    ∧ libbfio_file_io_handle_initialize false (some none)
      = ⟨-1, some none, some .MemoryError⟩
    ∧ libbfio_file_io_handle_free none = ⟨-1, none, some .ArgumentError⟩ :=
  ⟨rfl, rfl, rfl, rfl, rfl, rfl⟩

theorem open_succeeded (handle opened : Handle) (access_flags : OpenFlags)
    (h : handle_open handle access_flags = .ok opened) :
    handle.state = .Closed ∧ handle.name ≠ none ∧ handle.opens = true
      ∧ opened = { handle with state := .Open, offset := 0, access_mode := access_flags } := by
  unfold handle_open at h
  by_cases h1 : handle.state = .Open
  · simp [h1] at h
  by_cases h2 : handle.name = none ∨ handle.opens = false
  · simp [h1, h2] at h
  simp only [h1, h2, if_false, Except.ok.injEq] at h
  refine ⟨?_, ?_, ?_, h.symm⟩
  · cases hs : handle.state
    · rfl
    · exact absurd hs h1
  · exact fun hn => h2 (Or.inl hn)
  · cases ho : handle.opens
    · exact absurd (Or.inr ho) h2
    · rfl

theorem open_close_cycles_succeed (access_flags : OpenFlags) :
    ∀ (cycles : Nat) (handle : Handle),
      handle.state = .Closed → handle.name ≠ none → handle.opens = true →
      (open_close_cycles access_flags cycles (some handle)).1
        = (List.replicate cycles [((1 : Int), (none : Option ErrorClass)), (0, none)]).flatten := by
  intro cycles
  induction cycles with
  | zero =>
    intro handle _ _ _
    rfl
  | succ n ih =>
    intro handle hs hn ho
    have hopen : handle_open handle access_flags
        = .ok { handle with state := .Open, offset := 0, access_mode := access_flags } := by
      simp [handle_open, hs, hn, ho]
    have hclose : handle_close
        { handle with state := .Open, offset := 0, access_mode := access_flags }
        = .ok { handle with state := .Closed, offset := 0, access_mode := access_flags } := by
      simp [handle_close]
    simp only [open_close_cycles, libbfio_file_io_handle_open, hopen,
      libbfio_file_io_handle_close, hclose, List.replicate_succ, List.flatten_cons]
    rw [ih { handle with state := .Closed, offset := 0, access_mode := access_flags } rfl hn ho]
    rfl

/-- C26: closing a file handle resets it for reuse. For every file handle with a name set
whose open with the given flags succeeded, `libbfio_file_io_handle_close` on the opened
handle returns 0 with no error, and in every number of further cycles of an open with the
same flags and a close each open returns 1 and each close returns 0, all without error;
`libbfio_file_io_handle_close` of a NULL handle returns -1 with an error. -/
theorem file_io_handle_close_resets (handle : Handle) (access_flags : OpenFlags)
    (cycles : Nat) (hname : handle.name ≠ none)
    (hopen : ( libbfio_file_io_handle_open (some handle) access_flags).value = 1) :
    ( libbfio_file_io_handle_close
        ( libbfio_file_io_handle_open (some handle) access_flags).handle).value = 0
    ∧ ( libbfio_file_io_handle_close
        ( libbfio_file_io_handle_open (some handle) access_flags).handle).error = none
    ∧ (open_close_cycles access_flags cycles
        ( libbfio_file_io_handle_close
          ( libbfio_file_io_handle_open (some handle) access_flags).handle).handle).1
      = (List.replicate cycles [((1 : Int), (none : Option ErrorClass)), (0, none)]).flatten
    ∧ libbfio_file_io_handle_close none = ⟨-1, none, some .ArgumentError⟩ := by
  have hok : ∃ opened, handle_open handle access_flags = .ok opened := by
    cases h : handle_open handle access_flags with
    | ok opened => exact ⟨opened, rfl⟩
    | error e => simp [libbfio_file_io_handle_open, h] at hopen
  obtain ⟨opened, hopened⟩ := hok
  obtain ⟨hs, _, ho, rfl⟩ := open_succeeded handle _ access_flags hopened
  have hclose : handle_close
      { handle with state := .Open, offset := 0, access_mode := access_flags }
      = .ok { handle with state := .Closed, offset := 0, access_mode := access_flags } := by
    simp [handle_close]
  simp only [libbfio_file_io_handle_open, hopened, libbfio_file_io_handle_close, hclose]
  exact ⟨trivial, trivial,
    open_close_cycles_succeed access_flags cycles _ rfl hname ho, trivial⟩

theorem file_io_handle_close_resets_witness :
    ( libbfio_file_io_handle_close
        ( libbfio_file_io_handle_open
          (some ⟨some "a.bin".toList, .Closed, LIBBFIO_OPEN_READ, 0, [1, 2, 3], true⟩)
          LIBBFIO_OPEN_READ).handle).value = 0
    ∧ (open_close_cycles LIBBFIO_OPEN_READ 2
        ( libbfio_file_io_handle_close
          ( libbfio_file_io_handle_open
            (some ⟨some "a.bin".toList, .Closed, LIBBFIO_OPEN_READ, 0, [1, 2, 3], true⟩)
            LIBBFIO_OPEN_READ).handle).handle).1
      = [(1, none), (0, none), (1, none), (0, none)] :=
  ⟨(file_io_handle_close_resets
      ⟨some "a.bin".toList, .Closed, LIBBFIO_OPEN_READ, 0, [1, 2, 3], true⟩
      LIBBFIO_OPEN_READ 2 (by decide) (by decide)).1,
    (file_io_handle_close_resets
      ⟨some "a.bin".toList, .Closed, LIBBFIO_OPEN_READ, 0, [1, 2, 3], true⟩
      LIBBFIO_OPEN_READ 2 (by decide) (by decide)).2.2.1⟩

theorem open_slots_cons (entry : Option PoolSlot) (slots : List (Option PoolSlot)) :
    open_slots (entry :: slots)
      = open_slots slots
        + (match entry with
          | some slot => if slot.is_physically_open = true then 1 else 0
          | none => 0) := by
  unfold open_slots
  rw [List.countP_cons]
  cases entry with
  | none => rfl
  | some slot => cases slot.is_physically_open <;> rfl

theorem open_slots_set (slots : List (Option PoolSlot)) :
    ∀ (index : Nat) (old new : Option PoolSlot), slots.get? index = some old →
      open_slots (slots.set index new)
          + (match old with
            | some slot => if slot.is_physically_open = true then 1 else 0
            | none => 0)
        = open_slots slots
          + (match new with
            | some slot => if slot.is_physically_open = true then 1 else 0
            | none => 0) := by
  induction slots with
  | nil => intro index old new h; simp at h
  | cons entry rest ih =>
    intro index old new h
    cases index with
    | zero =>
      simp only [List.get?_cons_zero, Option.some.injEq] at h
      subst h
      rw [List.set_cons_zero, open_slots_cons, open_slots_cons]
      omega
    | succ n =>
      simp only [List.get?_cons_succ] at h
      rw [List.set_cons_succ, open_slots_cons, open_slots_cons]
      have := ih n old new h
      omega

theorem open_slots_append_closed (slots : List (Option PoolSlot)) (slot : PoolSlot)
    (h : slot.is_physically_open = false) :
    open_slots (slots ++ [some slot]) = open_slots slots := by
  unfold open_slots
  rw [List.countP_append]
  simp [h]

theorem pool_slot_get (pool : Pool) (index : Nat) (slot : PoolSlot)
    (h : pool_slot pool index = some slot) : pool.slots.get? index = some (some slot) := by
  unfold pool_slot at h
  split at h
  · rename_i s hs
    rw [hs, Option.some.inj h]
  · exact absurd h (by simp)

theorem pool_slot_set_same (pool : Pool) (index : Nat) (entry : Option PoolSlot)
    (h : index < pool.slots.length) :
    pool_slot (pool_set pool index entry) index = entry := by
  unfold pool_slot pool_set
  simp only [List.get?_eq_getElem?, List.getElem?_set_self h]
  cases entry <;> rfl

theorem pool_slot_set_other (pool : Pool) (index other : Nat) (entry : Option PoolSlot)
    (h : other ≠ index) :
    pool_slot (pool_set pool index entry) other = pool_slot pool other := by
  unfold pool_slot pool_set
  simp only [List.get?_eq_getElem?, List.getElem?_set_ne (Ne.symm h)]

theorem pool_slot_length (pool : Pool) (index : Nat) (slot : PoolSlot)
    (h : pool_slot pool index = some slot) : index < pool.slots.length := by
  have := pool_slot_get pool index slot h
  rw [List.get?_eq_getElem?] at this
  by_contra hc
  rw [List.getElem?_eq_none (by omega)] at this
  exact absurd this (by simp)

theorem victim_step_invariant (slots : List (Option PoolSlot)) (target bound : Nat)
    (best : Option (Nat × Nat)) (entry : Option PoolSlot)
    (hentry : slots.get? bound = some entry)
    (h : victim_invariant slots target bound best) :
    victim_invariant slots target (bound + 1) (victim_step target best bound entry) := by
  cases entry with
  | none =>
    simp only [victim_step]
    cases best with
    | none =>
      intro index slot hlt hget
      rcases Nat.lt_succ_iff_lt_or_eq.mp hlt with hl | he
      · exact h index slot hl hget
      · subst he
        rw [hentry] at hget
        exact absurd hget (by simp)
    | some candidate =>
      obtain ⟨victim, marker⟩ := candidate
      obtain ⟨h1, h2, h3, h4⟩ := h
      refine ⟨Nat.lt_succ_of_lt h1, h2, h3, ?_⟩
      intro index slot hlt hget hopen hne
      rcases Nat.lt_succ_iff_lt_or_eq.mp hlt with hl | he
      · exact h4 index slot hl hget hopen hne
      · subst he
        rw [hentry] at hget
        exact absurd hget (by simp)
  | some current =>
    by_cases hc : current.is_physically_open = true ∧ bound ≠ target
    · cases best with
      | none =>
        rw [show victim_step target none bound (some current) = some (bound, current.last_used) by
          simp only [victim_step]; rw [if_pos hc]]
        refine ⟨Nat.lt_succ_self _, hc.2, ⟨current, hentry, hc.1, rfl⟩, ?_⟩
        intro index slot hlt hget hopen hne
        rcases Nat.lt_succ_iff_lt_or_eq.mp hlt with hl | he
        · exact absurd ⟨hopen, hne⟩ (h index slot hl hget)
        · subst he
          rw [hentry] at hget
          simp only [Option.some.injEq] at hget
          subst hget
          exact Or.inr ⟨rfl, Nat.le_refl _⟩
      | some candidate =>
        obtain ⟨victim, marker⟩ := candidate
        obtain ⟨h1, h2, h3, h4⟩ := h
        by_cases hlt2 : current.last_used < marker
        · rw [show victim_step target (some (victim, marker)) bound (some current)
              = some (bound, current.last_used) by
            simp only [victim_step]; rw [if_pos hc, if_pos hlt2]]
          refine ⟨Nat.lt_succ_self _, hc.2, ⟨current, hentry, hc.1, rfl⟩, ?_⟩
          intro index slot hlt hget hopen hne
          rcases Nat.lt_succ_iff_lt_or_eq.mp hlt with hl | he
          · rcases h4 index slot hl hget hopen hne with h5 | h5
            · exact Or.inl (by omega)
            · exact Or.inl (by omega)
          · subst he
            rw [hentry] at hget
            simp only [Option.some.injEq] at hget
            subst hget
            exact Or.inr ⟨rfl, Nat.le_refl _⟩
        · rw [show victim_step target (some (victim, marker)) bound (some current)
              = some (victim, marker) by
            simp only [victim_step]; rw [if_pos hc, if_neg hlt2]]
          refine ⟨Nat.lt_succ_of_lt h1, h2, h3, ?_⟩
          intro index slot hlt hget hopen hne
          rcases Nat.lt_succ_iff_lt_or_eq.mp hlt with hl | he
          · exact h4 index slot hl hget hopen hne
          · subst he
            rw [hentry] at hget
            simp only [Option.some.injEq] at hget
            subst hget
            rcases Nat.lt_or_ge marker current.last_used with h6 | h6
            · exact Or.inl h6
            · exact Or.inr ⟨by omega, by omega⟩
    · have hbest : victim_step target best bound (some current) = best := by
        simp only [victim_step]; rw [if_neg hc]
      rw [hbest]
      cases best with
      | none =>
        intro index slot hlt hget
        rcases Nat.lt_succ_iff_lt_or_eq.mp hlt with hl | he
        · exact h index slot hl hget
        · subst he
          rw [hentry] at hget
          simp only [Option.some.injEq] at hget
          subst hget
          exact hc
      | some candidate =>
        obtain ⟨victim, marker⟩ := candidate
        obtain ⟨h1, h2, h3, h4⟩ := h
        refine ⟨Nat.lt_succ_of_lt h1, h2, h3, ?_⟩
        intro index slot hlt hget hopen hne
        rcases Nat.lt_succ_iff_lt_or_eq.mp hlt with hl | he
        · exact h4 index slot hl hget hopen hne
        · subst he
          rw [hentry] at hget
          simp only [Option.some.injEq] at hget
          subst hget
          exact absurd ⟨hopen, hne⟩ hc

theorem victim_scan_invariant (slots : List (Option PoolSlot)) (target : Nat) :
    ∀ (rest : List (Option PoolSlot)) (bound : Nat) (best : Option (Nat × Nat)),
      (∀ k, k < rest.length → slots.get? (bound + k) = rest.get? k) →
      victim_invariant slots target bound best →
      victim_invariant slots target (bound + rest.length)
        (victim_scan target bound rest best) := by
  intro rest
  induction rest with
  | nil =>
    intro bound best _ h
    simpa [victim_scan] using h
  | cons entry rest ih =>
    intro bound best hrest h
    have hentry : slots.get? bound = some entry := by
      have := hrest 0 (by simp)
      simpa using this
    have hstep := victim_step_invariant slots target bound best entry hentry h
    have := ih (bound + 1) (victim_step target best bound entry)
      (fun k hk => by
        have := hrest (k + 1) (by simp only [List.length_cons]; omega)
        rw [show bound + 1 + k = bound + (k + 1) by omega, this]
        rfl)
      hstep
    rw [victim_scan, List.length_cons, show bound + (rest.length + 1) = bound + 1 + rest.length
      by omega]
    exact this

theorem select_victim_invariant (slots : List (Option PoolSlot)) (target : Nat) :
    victim_invariant slots target slots.length (victim_scan target 0 slots none) := by
  have := victim_scan_invariant slots target slots 0 none (fun k _ => by simp)
    (fun _ _ h _ => absurd h (Nat.not_lt_zero _))
  simpa using this

theorem close_slot_cases (pool : Pool) (index : Nat) (slot : PoolSlot) :
    (slot.handle.state = .Closed ∧ close_slot pool index slot = .error .InvalidState)
      ∨ (slot.handle.state = .Open
        ∧ close_slot pool index slot = .ok (pool_evict pool index slot)) := by
  cases hs : slot.handle.state with
  | Closed =>
    left
    simp [close_slot, handle_close, hs]
  | Open =>
    right
    simp [close_slot, handle_close, hs, pool_evict, evicted_slot]

theorem select_victim_some (slots : List (Option PoolSlot)) (target victim : Nat)
    (h : select_victim slots target = some victim) :
    victim ≠ target
      ∧ ∃ chosen, slots.get? victim = some (some chosen) ∧ chosen.is_physically_open = true
        ∧ ∀ other slot, slots.get? other = some (some slot) →
            slot.is_physically_open = true → other ≠ target →
            chosen.last_used < slot.last_used
              ∨ (chosen.last_used = slot.last_used ∧ victim ≤ other) := by
  have hinv := select_victim_invariant slots target
  unfold select_victim at h
  cases hscan : victim_scan target 0 slots none with
  | none => rw [hscan] at h; exact absurd h (by simp)
  | some candidate =>
    obtain ⟨index, marker⟩ := candidate
    rw [hscan] at h hinv
    simp only [Option.map_some', Option.some.injEq] at h
    subst h
    obtain ⟨_, h2, ⟨chosen, hget, hopen, hmarker⟩, h4⟩ := hinv
    refine ⟨h2, chosen, hget, hopen, ?_⟩
    intro other slot hother hso hne
    have hlt : other < slots.length := by
      rw [List.get?_eq_getElem?] at hother
      by_contra hc
      rw [List.getElem?_eq_none (by omega)] at hother
      exact absurd hother (by simp)
    rw [hmarker]
    exact h4 other slot hlt hother hso hne

theorem select_victim_none (slots : List (Option PoolSlot)) (target : Nat)
    (h : select_victim slots target = none) (other : Nat) (slot : PoolSlot)
    (hother : slots.get? other = some (some slot)) :
    ¬ (slot.is_physically_open = true ∧ other ≠ target) := by
  have hinv := select_victim_invariant slots target
  unfold select_victim at h
  cases hscan : victim_scan target 0 slots none with
  | some candidate => rw [hscan] at h; exact absurd h (by simp)
  | none =>
    rw [hscan] at hinv
    have hlt : other < slots.length := by
      rw [List.get?_eq_getElem?] at hother
      by_contra hc
      rw [List.getElem?_eq_none (by omega)] at hother
      exact absurd hother (by simp)
    exact hinv other slot hlt hother

theorem pool_make_room_cases (pool : Pool) (target : Nat) :
    (pool.current_open_count ≠ pool.max_open_handles ∧ pool_make_room pool target = .ok pool)
      ∨ (pool.current_open_count = pool.max_open_handles
        ∧ ((∃ e, pool_make_room pool target = .error e)
          ∨ ∃ victim chosen, select_victim pool.slots target = some victim
              ∧ pool.slots.get? victim = some (some chosen)
              ∧ chosen.handle.state = .Open
              ∧ pool_make_room pool target = .ok (pool_evict pool victim chosen))) := by
  by_cases hfull : pool.current_open_count = pool.max_open_handles
  · right
    refine ⟨hfull, ?_⟩
    unfold pool_make_room
    rw [if_pos hfull]
    cases hv : select_victim pool.slots target with
    | none => exact Or.inl ⟨_, rfl⟩
    | some victim =>
      obtain ⟨_, chosen, hget, _, _⟩ := select_victim_some pool.slots target victim hv
      have hslot : pool_slot pool victim = some chosen := by
        unfold pool_slot
        rw [hget]
      simp only [hslot]
      rcases close_slot_cases pool victim chosen with ⟨_, hc⟩ | ⟨hs, hc⟩
      · exact Or.inl ⟨_, hc⟩
      · exact Or.inr ⟨victim, chosen, rfl, hget, hs, hc⟩
  · left
    refine ⟨hfull, ?_⟩
    unfold pool_make_room
    rw [if_neg hfull]

theorem pool_ensure_open_cases (pool : Pool) (index : Nat) :
    (pool_slot pool index = none ∧ pool_ensure_open pool index = (.error .ArgumentError, pool))
      ∨ (∃ slot, pool_slot pool index = some slot ∧ slot.is_physically_open = true
          ∧ pool_ensure_open pool index = (.ok (), pool_touch pool index slot))
      ∨ (∃ slot, pool_slot pool index = some slot ∧ slot.is_physically_open = false
          ∧ ((∃ e, pool_ensure_open pool index = (.error e, pool))
            ∨ ∃ room, pool.max_open_handles ≠ 0 ∧ pool_make_room pool index = .ok room
                ∧ ((∃ e, pool_ensure_open pool index = (.error e, room))
                  ∨ (slot.handle.state = .Closed ∧ slot.handle.name ≠ none
                      ∧ slot.handle.opens = true
                      ∧ pool_ensure_open pool index
                        = (.ok (), pool_reopen room index slot))))) := by
  cases hslot : pool_slot pool index with
  | none =>
    left
    simp only [pool_ensure_open, hslot, and_self]
  | some slot =>
    right
    cases hopen : slot.is_physically_open with
    | true =>
      left
      refine ⟨slot, rfl, hopen, ?_⟩
      simp only [pool_ensure_open, hslot, hopen, if_true]
    | false =>
      right
      refine ⟨slot, rfl, hopen, ?_⟩
      by_cases hmax : pool.max_open_handles = 0
      · left
        refine ⟨.ResourceError, ?_⟩
        simp only [pool_ensure_open, hslot, hopen, hmax, if_true]
        rfl
      · cases hroom : pool_make_room pool index with
        | error e =>
          left
          refine ⟨e, ?_⟩
          simp only [pool_ensure_open, hslot, hopen, hmax, if_false, hroom]
          rfl
        | ok room =>
          right
          refine ⟨room, hmax, rfl, ?_⟩
          cases hs : slot.handle.state with
          | Open =>
            left
            refine ⟨.InvalidState, ?_⟩
            simp [pool_ensure_open, hslot, hopen, hmax, hroom, handle_open, hs]
          | Closed =>
            by_cases hname : slot.handle.name = none ∨ slot.handle.opens = false
            · left
              refine ⟨.IoError, ?_⟩
              simp [pool_ensure_open, hslot, hopen, hmax, hroom, handle_open, hs, hname]
            · right
              have hn : slot.handle.name ≠ none := fun h => hname (Or.inl h)
              have ho : slot.handle.opens = true := by
                cases h : slot.handle.opens with
                | true => rfl
                | false => exact absurd (Or.inr h) hname
              refine ⟨rfl, hn, ho, ?_⟩
              have hneg : ¬ ((slot.offset : Int) < 0) := by omega
              simp [pool_ensure_open, hslot, hopen, hmax, hroom, handle_open, hs, hn, ho,
                handle_seek, pool_reopen, reopened_slot, pool_touch, pool_set, hneg]

theorem pool_make_room_ok (pool : Pool) (target : Nat) (room : Pool)
    (h : pool_make_room pool target = .ok room) : made_room pool target room := by
  rcases pool_make_room_cases pool target with ⟨hne, hr⟩ | ⟨hfull, ⟨e, hr⟩ | hr⟩
  · rw [hr] at h
    exact Or.inl ⟨hne, (Except.ok.inj h).symm⟩
  · rw [hr] at h
    exact absurd h (by simp)
  · obtain ⟨victim, chosen, hv, hget, hs, hr⟩ := hr
    rw [hr] at h
    obtain ⟨hne, chosen2, hget2, hopen, _⟩ := select_victim_some pool.slots target victim hv
    rw [hget] at hget2
    simp only [Option.some.injEq] at hget2
    subst hget2
    exact Or.inr ⟨hfull, victim, chosen, hv, hne, hget, hopen, hs, (Except.ok.inj h).symm⟩

theorem made_room_capacity (pool : Pool) (target : Nat) (room : Pool)
    (h : made_room pool target room) (hinv : capacity_invariant pool)
    (hmax : pool.max_open_handles ≠ 0) :
    capacity_invariant room ∧ room.current_open_count < room.max_open_handles
      ∧ room.max_open_handles = pool.max_open_handles := by
  rcases h with ⟨hne, hr⟩ | ⟨hfull, victim, chosen, _, _, hget, hopen, _, hr⟩
  · subst hr
    exact ⟨hinv, Nat.lt_of_le_of_ne hinv.2 hne, rfl⟩
  · subst hr
    have hset := open_slots_set pool.slots victim (some chosen) (some (evicted_slot chosen)) hget
    simp only [hopen, if_true, evicted_slot] at hset
    obtain ⟨h1, h2⟩ := hinv
    refine ⟨⟨?_, ?_⟩, ?_, rfl⟩
    · simp only [pool_evict, pool_set, evicted_slot]
      simp only [Bool.false_eq_true, if_false] at hset
      omega
    · simp only [pool_evict, pool_set]
      omega
    · simp only [pool_evict, pool_set]
      omega

theorem made_room_frame (pool : Pool) (target : Nat) (room : Pool)
    (h : made_room pool target room) (k : Nat) :
    room.slots.get? k = pool.slots.get? k
      ∨ (k ≠ target ∧ slot_evicted (pool.slots.get? k) (room.slots.get? k)) := by
  rcases h with ⟨_, hr⟩ | ⟨_, victim, chosen, _, hne, hget, hopen, hs, hr⟩
  · subst hr
    exact Or.inl rfl
  · subst hr
    by_cases hk : k = victim
    · subst hk
      right
      refine ⟨hne, chosen, hget, hopen, hs, ?_⟩
      have hlt : k < pool.slots.length := by
        rw [List.get?_eq_getElem?] at hget
        by_contra hc
        rw [List.getElem?_eq_none (by omega)] at hget
        exact absurd hget (by simp)
      simp only [pool_evict, pool_set, List.get?_eq_getElem?, List.getElem?_set_self hlt]
    · left
      simp only [pool_evict, pool_set, List.get?_eq_getElem?,
        List.getElem?_set_ne (Ne.symm hk)]

theorem made_room_target (pool : Pool) (target : Nat) (room : Pool)
    (h : made_room pool target room) :
    room.slots.get? target = pool.slots.get? target := by
  rcases made_room_frame pool target room h target with h1 | ⟨h1, _⟩
  · exact h1
  · exact absurd rfl h1

theorem made_room_clock (pool : Pool) (target : Nat) (room : Pool)
    (h : made_room pool target room) :
    room.clock = pool.clock ∧ room.slots.length = pool.slots.length := by
  rcases h with ⟨_, hr⟩ | ⟨_, victim, chosen, _, _, _, _, _, hr⟩
  · subst hr
    exact ⟨rfl, rfl⟩
  · subst hr
    simp [pool_evict, pool_set]

theorem pool_ensure_open_shape (pool : Pool) (index : Nat) :
    (∃ e, pool_ensure_open pool index = (.error e, pool))
      ∨ (∃ slot, pool_slot pool index = some slot ∧ slot.is_physically_open = true
          ∧ pool_ensure_open pool index = (.ok (), pool_touch pool index slot))
      ∨ (∃ slot room, pool_slot pool index = some slot ∧ slot.is_physically_open = false
          ∧ pool.max_open_handles ≠ 0 ∧ made_room pool index room
          ∧ ((∃ e, pool_ensure_open pool index = (.error e, room))
            ∨ (slot.handle.state = .Closed ∧ slot.handle.name ≠ none
                ∧ slot.handle.opens = true
                ∧ pool_ensure_open pool index = (.ok (), pool_reopen room index slot)))) := by
  rcases pool_ensure_open_cases pool index with ⟨_, h⟩ | h | ⟨slot, hslot, hopen, h⟩
  · exact Or.inl ⟨_, h⟩
  · exact Or.inr (Or.inl h)
  · rcases h with h | ⟨room, hmax, hroom, h⟩
    · exact Or.inl h
    · exact Or.inr (Or.inr ⟨slot, room, hslot, hopen, hmax,
        pool_make_room_ok pool index room hroom, h⟩)

theorem pool_touch_capacity (pool : Pool) (index : Nat) (slot updated : PoolSlot)
    (hslot : pool_slot pool index = some slot)
    (hflag : updated.is_physically_open = slot.is_physically_open)
    (hinv : capacity_invariant pool) :
    capacity_invariant (pool_touch pool index updated) := by
  have hget := pool_slot_get pool index slot hslot
  have hset := open_slots_set pool.slots index (some slot)
    (some { updated with last_used := pool.clock }) hget
  simp only [hflag] at hset
  obtain ⟨h1, h2⟩ := hinv
  refine ⟨?_, ?_⟩
  · simp only [pool_touch, pool_set, hflag]
    omega
  · simp only [pool_touch, pool_set]
    exact h2

theorem pool_reopen_capacity (pool : Pool) (index : Nat) (slot : PoolSlot) (room : Pool)
    (hslot : pool_slot pool index = some slot) (hclosed : slot.is_physically_open = false)
    (hmax : pool.max_open_handles ≠ 0) (hroom : made_room pool index room)
    (hinv : capacity_invariant pool) :
    capacity_invariant (pool_reopen room index slot) := by
  obtain ⟨⟨h1, h2⟩, h3, h4⟩ := made_room_capacity pool index room hroom hinv hmax
  have hget : room.slots.get? index = some (some slot) := by
    rw [made_room_target pool index room hroom]
    exact pool_slot_get pool index slot hslot
  have hset := open_slots_set room.slots index (some slot)
    (some (reopened_slot slot room.clock)) hget
  simp only [hclosed, reopened_slot, Bool.false_eq_true, if_false, if_true] at hset
  refine ⟨?_, ?_⟩
  · simp only [pool_reopen, pool_set, reopened_slot]
    omega
  · simp only [pool_reopen, pool_set]
    omega

theorem pool_ensure_open_capacity (pool : Pool) (index : Nat)
    (hinv : capacity_invariant pool) :
    capacity_invariant (pool_ensure_open pool index).2 := by
  rcases pool_ensure_open_shape pool index with ⟨e, h⟩ | ⟨slot, hslot, _, h⟩
    | ⟨slot, room, hslot, hclosed, hmax, hroom, ⟨e, h⟩ | ⟨_, _, _, h⟩⟩
  · rw [h]
    exact hinv
  · rw [h]
    exact pool_touch_capacity pool index slot slot hslot rfl hinv
  · rw [h]
    exact (made_room_capacity pool index room hroom hinv hmax).1
  · rw [h]
    exact pool_reopen_capacity pool index slot room hslot hclosed hmax hroom hinv

theorem pool_evict_capacity (pool : Pool) (index : Nat) (slot : PoolSlot)
    (hget : pool.slots.get? index = some (some slot))
    (hopen : slot.is_physically_open = true) (hinv : capacity_invariant pool) :
    capacity_invariant (pool_evict pool index slot) := by
  have hset := open_slots_set pool.slots index (some slot) (some (evicted_slot slot)) hget
  simp only [hopen, if_true, evicted_slot, Bool.false_eq_true, if_false] at hset
  obtain ⟨h1, h2⟩ := hinv
  refine ⟨?_, ?_⟩
  · simp only [pool_evict, pool_set, evicted_slot]
    omega
  · simp only [pool_evict, pool_set]
    omega

theorem pool_delegate_cases {α : Type} (pool : Pool) (index : Nat)
    (operation : Handle → Except ErrorClass (α × Handle)) :
    (∃ e, pool_delegate pool index operation = (.error e, (pool_ensure_open pool index).2)
        ∧ (pool_slot pool index = none → e = .ArgumentError))
      ∨ (∃ slot result handle, (pool_ensure_open pool index).1 = .ok ()
          ∧ pool_slot (pool_ensure_open pool index).2 index = some slot
          ∧ operation slot.handle = .ok (result, handle)
          ∧ pool_delegate pool index operation
            = (.ok result,
                pool_touch (pool_ensure_open pool index).2 index
                  { slot with handle := handle })) := by
  rcases he : pool_ensure_open pool index with ⟨outcome, opened⟩
  cases outcome with
  | error e =>
    left
    refine ⟨e, by simp only [pool_delegate, he], ?_⟩
    intro hn
    rcases pool_ensure_open_cases pool index with ⟨_, h⟩ | ⟨slot, hslot, _⟩ | ⟨slot, hslot, _⟩
    · rw [h] at he
      simp only [Prod.mk.injEq, Except.error.injEq] at he
      exact he.1.symm
    · rw [hslot] at hn; exact absurd hn (by simp)
    · rw [hslot] at hn; exact absurd hn (by simp)
  | ok _ =>
    have hsome : pool_slot pool index ≠ none := by
      intro hn
      rcases pool_ensure_open_cases pool index with ⟨_, h⟩ | ⟨slot, hslot, _⟩
        | ⟨slot, hslot, _⟩
      · rw [h] at he
        simp at he
      · rw [hslot] at hn; exact absurd hn (by simp)
      · rw [hslot] at hn; exact absurd hn (by simp)
    cases hs : pool_slot opened index with
    | none =>
      left
      exact ⟨.ArgumentError, by simp only [pool_delegate, he, hs], fun h => absurd h hsome⟩
    | some slot =>
      cases ho : operation slot.handle with
      | error e =>
        left
        exact ⟨e, by simp only [pool_delegate, he, hs, ho], fun h => absurd h hsome⟩
      | ok result =>
        right
        obtain ⟨value, handle⟩ := result
        exact ⟨slot, value, handle, rfl, rfl, ho, by simp only [pool_delegate, he, hs, ho]⟩

theorem pool_delegate_capacity {α : Type} (pool : Pool) (index : Nat)
    (operation : Handle → Except ErrorClass (α × Handle)) (hinv : capacity_invariant pool) :
    capacity_invariant (pool_delegate pool index operation).2 := by
  have h1 := pool_ensure_open_capacity pool index hinv
  rcases pool_delegate_cases pool index operation with ⟨e, h, _⟩
    | ⟨slot, result, handle, _, hs, _, h⟩
  · rw [h]
    exact h1
  · rw [h]
    exact pool_touch_capacity _ index slot _ hs rfl h1

theorem pool_close_cases (pool : Pool) (index : Nat) :
    (pool_slot pool index = none ∧ pool_close pool index = (.error .ArgumentError, pool))
      ∨ (∃ slot, pool_slot pool index = some slot ∧ slot.is_physically_open = false
          ∧ pool_close pool index = (.ok (), pool))
      ∨ (∃ slot, pool_slot pool index = some slot ∧ slot.is_physically_open = true
          ∧ slot.handle.state = .Closed
          ∧ pool_close pool index = (.error .InvalidState, pool))
      ∨ (∃ slot, pool_slot pool index = some slot ∧ slot.is_physically_open = true
          ∧ slot.handle.state = .Open
          ∧ pool_close pool index = (.ok (), pool_evict pool index slot)) := by
  cases hslot : pool_slot pool index with
  | none =>
    left
    simp only [pool_close, hslot, and_self]
  | some slot =>
    right
    cases hopen : slot.is_physically_open with
    | false =>
      left
      refine ⟨slot, rfl, hopen, ?_⟩
      simp [pool_close, hslot, hopen]
    | true =>
      right
      rcases close_slot_cases pool index slot with ⟨hs, hc⟩ | ⟨hs, hc⟩
      · left
        refine ⟨slot, rfl, hopen, hs, ?_⟩
        simp [pool_close, hslot, hopen, hc]
      · right
        refine ⟨slot, rfl, hopen, hs, ?_⟩
        simp [pool_close, hslot, hopen, hc]

theorem pool_close_capacity (pool : Pool) (index : Nat) (hinv : capacity_invariant pool) :
    capacity_invariant (pool_close pool index).2 := by
  rcases pool_close_cases pool index with ⟨_, h⟩ | ⟨_, _, _, h⟩ | ⟨_, _, _, _, h⟩
    | ⟨slot, hslot, hopen, _, h⟩
  · rw [h]; exact hinv
  · rw [h]; exact hinv
  · rw [h]; exact hinv
  · rw [h]
    exact pool_evict_capacity pool index slot (pool_slot_get pool index slot hslot) hopen hinv

theorem pool_remove_cases (pool : Pool) (index : Nat) :
    (∃ e, pool_remove pool index = (.error e, pool)
        ∧ (pool_slot pool index = none → e = .ArgumentError))
      ∨ (∃ slot, pool_slot pool index = some slot ∧ slot.is_physically_open = false
          ∧ pool_remove pool index = (.ok (), pool_set pool index none))
      ∨ (∃ slot, pool_slot pool index = some slot ∧ slot.is_physically_open = true
          ∧ slot.handle.state = .Open
          ∧ pool_remove pool index
            = (.ok (), pool_set (pool_evict pool index slot) index none)) := by
  rcases pool_close_cases pool index with ⟨_, h⟩ | ⟨slot, hslot, hopen, h⟩
    | ⟨slot, hslot, _, _, h⟩ | ⟨slot, hslot, hopen, hs, h⟩
  · left
    exact ⟨.ArgumentError, by simp only [pool_remove, h], fun _ => rfl⟩
  · right; left
    exact ⟨slot, hslot, hopen, by simp only [pool_remove, h]⟩
  · left
    exact ⟨.InvalidState, by simp only [pool_remove, h],
      fun hn => by rw [hslot] at hn; exact absurd hn (by simp)⟩
  · right; right
    exact ⟨slot, hslot, hopen, hs, by simp only [pool_remove, h]⟩

theorem pool_discard_capacity (pool : Pool) (index : Nat) (slot : PoolSlot)
    (hget : pool.slots.get? index = some (some slot))
    (hclosed : slot.is_physically_open = false) (hinv : capacity_invariant pool) :
    capacity_invariant (pool_set pool index none) := by
  have hset := open_slots_set pool.slots index (some slot) none hget
  simp only [hclosed, Bool.false_eq_true, if_false] at hset
  obtain ⟨h1, h2⟩ := hinv
  refine ⟨?_, ?_⟩
  · simp only [pool_set]
    omega
  · simp only [pool_set]
    exact h2

theorem pool_remove_capacity (pool : Pool) (index : Nat) (hinv : capacity_invariant pool) :
    capacity_invariant (pool_remove pool index).2 := by
  rcases pool_remove_cases pool index with ⟨_, h, _⟩ | ⟨slot, hslot, hclosed, h⟩
    | ⟨slot, hslot, hopen, _, h⟩
  · rw [h]; exact hinv
  · rw [h]
    exact pool_discard_capacity pool index slot (pool_slot_get pool index slot hslot)
      hclosed hinv
  · rw [h]
    have hget := pool_slot_get pool index slot hslot
    have hlt := pool_slot_length pool index slot hslot
    refine pool_discard_capacity (pool_evict pool index slot) index (evicted_slot slot) ?_ rfl
      (pool_evict_capacity pool index slot hget hopen hinv)
    simp only [pool_evict, pool_set, List.get?_eq_getElem?, List.getElem?_set_self hlt]

theorem pool_clone_capacity (pool : Pool) : capacity_invariant (pool_clone pool) := by
  refine ⟨?_, Nat.zero_le _⟩
  simp only [pool_clone, open_slots]
  symm
  rw [List.countP_eq_zero]
  intro entry hentry
  rw [List.mem_map] at hentry
  obtain ⟨original, _, horiginal⟩ := hentry
  cases original with
  | none => subst horiginal; simp
  | some slot => subst horiginal; simp

theorem pool_step_capacity (pool : Pool) (operation : PoolOperation)
    (hinv : capacity_invariant pool) : capacity_invariant (pool_step pool operation).2 := by
  cases operation with
  | append handle access_mode =>
    cases handle with
    | none => exact hinv
    | some handle =>
      refine ⟨?_, hinv.2⟩
      simp only [pool_step, pool_append]
      rw [open_slots_append_closed _ _ rfl]
      exact hinv.1
  | ensure_open index => exact pool_ensure_open_capacity pool index hinv
  | read index length => exact pool_delegate_capacity pool index _ hinv
  | write index bytes => exact pool_delegate_capacity pool index _ hinv
  | seek index offset whence => exact pool_delegate_capacity pool index _ hinv
  | get_size index => exact pool_delegate_capacity pool index _ hinv
  | close index => exact pool_close_capacity pool index hinv
  | remove index => exact pool_remove_capacity pool index hinv
  | clone => exact hinv

theorem pool_run_capacity (operations : List PoolOperation) :
    ∀ pool, capacity_invariant pool → capacity_invariant (pool_run pool operations) := by
  induction operations with
  | nil => intro pool h; exact h
  | cons operation rest ih =>
    intro pool h
    exact ih _ (pool_step_capacity pool operation h)

theorem slot_position_of_get (before after : Pool) (index : Nat)
    (h : after.slots.get? index = before.slots.get? index) :
    slot_position after index = slot_position before index := by
  unfold slot_position pool_slot
  rw [h]

theorem slot_position_evicted (before after : Pool) (index : Nat)
    (h : slot_evicted (before.slots.get? index) (after.slots.get? index)) :
    slot_position after index = slot_position before index := by
  obtain ⟨chosen, hb, hopen, _, ha⟩ := h
  unfold slot_position pool_slot
  rw [hb, ha]
  simp [evicted_slot, hopen]

theorem get_set_other (slots : List (Option PoolSlot)) (index k : Nat)
    (entry : Option PoolSlot) (hk : k ≠ index) :
    (slots.set index entry).get? k = slots.get? k := by
  simp only [List.get?_eq_getElem?, List.getElem?_set_ne (Ne.symm hk)]

theorem get_set_same (slots : List (Option PoolSlot)) (index : Nat)
    (entry : Option PoolSlot) (h : index < slots.length) :
    (slots.set index entry).get? index = some entry := by
  simp only [List.get?_eq_getElem?, List.getElem?_set_self h]

theorem get_some_length (slots : List (Option PoolSlot)) (index : Nat)
    (entry : Option PoolSlot) (h : slots.get? index = some entry) : index < slots.length := by
  rw [List.get?_eq_getElem?] at h
  by_contra hc
  rw [List.getElem?_eq_none (by omega)] at h
  exact absurd h (by simp)

theorem pool_ensure_open_frame (pool : Pool) (index k : Nat) (hk : k ≠ index) :
    (pool_ensure_open pool index).2.slots.get? k = pool.slots.get? k
      ∨ slot_evicted (pool.slots.get? k) ((pool_ensure_open pool index).2.slots.get? k) := by
  rcases pool_ensure_open_shape pool index with ⟨e, h⟩ | ⟨slot, hslot, _, h⟩
    | ⟨slot, room, hslot, hclosed, hmax, hroom, ⟨e, h⟩ | ⟨_, _, _, h⟩⟩
  · rw [h]
    exact Or.inl rfl
  · rw [h]
    left
    simp only [pool_touch, pool_set]
    exact get_set_other _ _ _ _ hk
  · rw [h]
    rcases made_room_frame pool index room hroom k with h1 | ⟨_, h1⟩
    · exact Or.inl h1
    · exact Or.inr h1
  · rw [h]
    have hsame : (pool_reopen room index slot).slots.get? k = room.slots.get? k := by
      simp only [pool_reopen, pool_set]
      exact get_set_other _ _ _ _ hk
    rw [hsame]
    rcases made_room_frame pool index room hroom k with h1 | ⟨_, h1⟩
    · exact Or.inl h1
    · exact Or.inr h1

theorem pool_ensure_open_position (pool : Pool) (index k : Nat) :
    slot_position (pool_ensure_open pool index).2 k = slot_position pool k := by
  by_cases hk : k = index
  · subst hk
    rcases pool_ensure_open_shape pool k with ⟨e, h⟩ | ⟨slot, hslot, _, h⟩
      | ⟨slot, room, hslot, hclosed, hmax, hroom, ⟨e, h⟩ | ⟨_, _, _, h⟩⟩
    · rw [h]
    · rw [h]
      have hlt := pool_slot_length pool k slot hslot
      unfold slot_position
      rw [hslot]
      simp only [pool_touch]
      rw [pool_slot]
      simp only [pool_set, get_set_same _ _ _ hlt, Option.map_some']
    · rw [h]
      exact slot_position_of_get pool room k (made_room_target pool k room hroom)
    · rw [h]
      have hlt : k < room.slots.length := by
        rw [(made_room_clock pool k room hroom).2]
        exact pool_slot_length pool k slot hslot
      unfold slot_position
      rw [hslot]
      rw [pool_slot]
      simp only [pool_reopen, pool_set, get_set_same _ _ _ hlt, Option.map_some',
        reopened_slot, hclosed, if_true, Bool.false_eq_true, if_false]
  · rcases pool_ensure_open_frame pool index k hk with h | h
    · exact slot_position_of_get _ _ _ h
    · exact slot_position_evicted _ _ _ h

theorem pool_delegate_frame {α : Type} (pool : Pool) (index k : Nat)
    (operation : Handle → Except ErrorClass (α × Handle)) (hk : k ≠ index) :
    (pool_delegate pool index operation).2.slots.get? k
      = (pool_ensure_open pool index).2.slots.get? k := by
  rcases pool_delegate_cases pool index operation with ⟨e, h, _⟩
    | ⟨slot, result, handle, _, hs, _, h⟩
  · rw [h]
  · rw [h]
    simp only [pool_touch, pool_set]
    exact get_set_other _ _ _ _ hk

theorem pool_delegate_position {α : Type} (pool : Pool) (index k : Nat)
    (operation : Handle → Except ErrorClass (α × Handle)) (hk : k ≠ index) :
    slot_position (pool_delegate pool index operation).2 k = slot_position pool k := by
  rw [slot_position_of_get _ _ k (pool_delegate_frame pool index k operation hk)]
  exact pool_ensure_open_position pool index k

theorem pool_get_size_position (pool : Pool) (index k : Nat) :
    slot_position (pool_get_size pool index).2 k = slot_position pool k := by
  by_cases hk : k = index
  · subst hk
    unfold pool_get_size
    rcases pool_delegate_cases pool k
        (fun handle => (handle_get_size handle).map (fun size => (size, handle)))
      with ⟨e, h, _⟩ | ⟨slot, result, handle, _, hs, ho, h⟩
    · rw [h]
      exact pool_ensure_open_position pool k k
    · rw [h, ← pool_ensure_open_position pool k k]
      have hlt := pool_slot_length _ k slot hs
      have hhandle : handle = slot.handle := by
        simp only [handle_get_size] at ho
        split at ho
        · simp [Except.map] at ho
        · simp only [Except.map, Except.ok.injEq, Prod.mk.injEq] at ho
          exact ho.2.symm
      subst hhandle
      unfold slot_position
      rw [hs, pool_slot]
      simp only [pool_touch, pool_set, get_set_same _ _ _ hlt, Option.map_some']
  · exact pool_delegate_position pool index k _ hk

theorem pool_close_position (pool : Pool) (index k : Nat) :
    slot_position (pool_close pool index).2 k = slot_position pool k := by
  rcases pool_close_cases pool index with ⟨_, h⟩ | ⟨_, _, _, h⟩ | ⟨_, _, _, _, h⟩
    | ⟨slot, hslot, hopen, hs, h⟩
  · rw [h]
  · rw [h]
  · rw [h]
  · rw [h]
    have hget := pool_slot_get pool index slot hslot
    have hlt := pool_slot_length pool index slot hslot
    by_cases hk : k = index
    · subst hk
      refine slot_position_evicted pool _ k ⟨slot, hget, hopen, hs, ?_⟩
      simp only [pool_evict, pool_set]
      exact get_set_same _ _ _ hlt
    · refine slot_position_of_get pool _ k ?_
      simp only [pool_evict, pool_set]
      exact get_set_other _ _ _ _ hk

theorem pool_remove_position (pool : Pool) (index k : Nat) (hk : k ≠ index) :
    slot_position (pool_remove pool index).2 k = slot_position pool k := by
  rcases pool_remove_cases pool index with ⟨_, h, _⟩ | ⟨slot, hslot, hclosed, h⟩
    | ⟨slot, hslot, hopen, _, h⟩
  · rw [h]
  · rw [h]
    refine slot_position_of_get pool _ k ?_
    simp only [pool_set]
    exact get_set_other _ _ _ _ hk
  · rw [h]
    refine slot_position_of_get pool _ k ?_
    simp only [pool_evict, pool_set]
    rw [get_set_other _ _ _ _ hk, get_set_other _ _ _ _ hk]

theorem pool_append_position (pool : Pool) (handle : Option Handle) (access_mode : OpenFlags)
    (k : Nat) (hreg : pool_slot pool k ≠ none) :
    slot_position (pool_append pool handle access_mode).2 k = slot_position pool k := by
  cases handle with
  | none => rfl
  | some handle =>
    have hlt : k < pool.slots.length := by
      cases hs : pool_slot pool k with
      | none => exact absurd hs hreg
      | some slot => exact pool_slot_length pool k slot hs
    refine slot_position_of_get pool _ k ?_
    simp only [pool_append, List.get?_eq_getElem?]
    exact List.getElem?_append_left hlt

theorem pool_step_position (pool : Pool) (operation : PoolOperation) (k : Nat)
    (hreg : pool_slot pool k ≠ none) (hkeeps : keeps_position operation k) :
    slot_position (pool_step pool operation).2 k = slot_position pool k := by
  cases operation with
  | append handle access_mode => exact pool_append_position pool handle access_mode k hreg
  | ensure_open index => exact pool_ensure_open_position pool index k
  | read index length => exact pool_delegate_position pool index k _ (Ne.symm hkeeps)
  | write index bytes => exact pool_delegate_position pool index k _ (Ne.symm hkeeps)
  | seek index offset whence => exact pool_delegate_position pool index k _ (Ne.symm hkeeps)
  | get_size index => exact pool_get_size_position pool index k
  | close index => exact pool_close_position pool index k
  | remove index => exact pool_remove_position pool index k (Ne.symm hkeeps)
  | clone => rfl

theorem slot_position_registered (pool : Pool) (k : Nat) (view : Nat × List Nat)
    (h : slot_position pool k = some view) : pool_slot pool k ≠ none := by
  intro hn
  unfold slot_position at h
  rw [hn] at h
  exact absurd h (by simp)

theorem pool_run_position (operations : List PoolOperation) (k : Nat)
    (view : Nat × List Nat) :
    ∀ pool, slot_position pool k = some view →
      (∀ operation ∈ operations, keeps_position operation k) →
      slot_position (pool_run pool operations) k = some view := by
  induction operations with
  | nil => intro pool h _; exact h
  | cons operation rest ih =>
    intro pool h hkeeps
    refine ih (pool_step pool operation).2 ?_ (fun o ho => hkeeps o (List.mem_cons_of_mem _ ho))
    rw [pool_step_position pool operation k (slot_position_registered pool k view h)
      (hkeeps operation (List.mem_cons_self _ _))]
    exact h

theorem pool_ensure_open_ok (pool : Pool) (index : Nat)
    (h : (pool_ensure_open pool index).1 = .ok ()) (slot : PoolSlot)
    (hslot : pool_slot (pool_ensure_open pool index).2 index = some slot) :
    slot.is_physically_open = true := by
  rcases pool_ensure_open_shape pool index with ⟨e, h1⟩ | ⟨old, hold, hopen, h1⟩
    | ⟨old, room, hold, hclosed, hmax, hroom, ⟨e, h1⟩ | ⟨_, _, _, h1⟩⟩
  · rw [h1] at h
    exact absurd h (by simp)
  · rw [h1] at hslot
    have hlt := pool_slot_length pool index old hold
    simp only [pool_touch] at hslot
    rw [pool_slot] at hslot
    simp only [pool_set, get_set_same _ _ _ hlt, Option.some.injEq] at hslot
    rw [← hslot]
    exact hopen
  · rw [h1] at h
    exact absurd h (by simp)
  · rw [h1] at hslot
    have hlt : index < room.slots.length := by
      rw [(made_room_clock pool index room hroom).2]
      exact pool_slot_length pool index old hold
    rw [pool_slot] at hslot
    simp only [pool_reopen, pool_set, get_set_same _ _ _ hlt, Option.some.injEq] at hslot
    rw [← hslot]
    rfl

theorem pool_read_position (pool : Pool) (index length offset : Nat) (data : List Nat)
    (hview : slot_position pool index = some (offset, data)) :
    (∀ e, (pool_read pool index length).1 = .error e →
        slot_position (pool_read pool index length).2 index = some (offset, data))
      ∧ ∀ bytes, (pool_read pool index length).1 = .ok bytes →
          bytes = (data.drop offset).take length
            ∧ slot_position (pool_read pool index length).2 index
              = some (offset + bytes.length, data) := by
  have hopened := pool_ensure_open_position pool index index
  rw [hview] at hopened
  unfold pool_read
  rcases pool_delegate_cases pool index (fun handle => handle_read handle length)
    with ⟨e, h, _⟩ | ⟨slot, result, handle, hok, hs, ho, h⟩
  · rw [h]
    exact ⟨fun _ _ => hopened, fun bytes hb => absurd hb (by simp)⟩
  · rw [h]
    refine ⟨fun e he => absurd he (by simp), ?_⟩
    intro bytes hb
    simp only [Except.ok.injEq] at hb
    subst hb
    have hopen := pool_ensure_open_ok pool index hok slot hs
    have hlt := pool_slot_length _ index slot hs
    unfold slot_position at hopened
    rw [hs] at hopened
    simp only [Option.map_some', hopen, if_true, Option.some.injEq, Prod.mk.injEq] at hopened
    obtain ⟨hoff, hdata⟩ := hopened
    simp only [handle_read] at ho
    split at ho
    · exact absurd ho (by simp)
    · split at ho
      · exact absurd ho (by simp)
      · simp only [Except.ok.injEq, Prod.mk.injEq] at ho
        obtain ⟨hr, hh⟩ := ho
        subst hh
        rw [hoff, hdata] at hr
        refine ⟨hr.symm, ?_⟩
        unfold slot_position
        rw [pool_slot]
        simp only [pool_touch, pool_set, get_set_same _ _ _ hlt, Option.map_some', hopen, if_true,
          hoff, hdata, hr]

theorem slots_satisfy_set (P : Nat → PoolSlot → Prop) (before after : Pool) (index : Nat)
    (entry : Option PoolSlot) (hslots : after.slots = before.slots.set index entry)
    (h : slots_satisfy P before) (hentry : ∀ slot, entry = some slot → P index slot) :
    slots_satisfy P after := by
  intro k slot hget
  rw [hslots] at hget
  by_cases hk : k = index
  · subst hk
    have hlt : k < before.slots.length := by
      have := get_some_length _ _ _ hget
      simpa using this
    rw [get_set_same _ _ _ hlt] at hget
    exact hentry slot (Option.some.inj hget)
  · rw [get_set_other _ _ _ _ hk] at hget
    exact h k slot hget

theorem made_room_satisfy (P : Nat → PoolSlot → Prop) (hP : slot_property_stable P)
    (pool : Pool) (target : Nat) (room : Pool) (hroom : made_room pool target room)
    (h : slots_satisfy P pool) : slots_satisfy P room := by
  rcases hroom with ⟨_, hr⟩ | ⟨_, victim, chosen, _, _, hget, hopen, _, hr⟩
  · subst hr
    exact h
  · subst hr
    refine slots_satisfy_set P pool _ victim (some (evicted_slot chosen)) rfl h ?_
    intro slot hslot
    rw [← Option.some.inj hslot]
    exact hP.1 victim chosen (h victim chosen hget) hopen

theorem pool_ensure_open_satisfy (P : Nat → PoolSlot → Prop) (hP : slot_property_stable P)
    (pool : Pool) (index : Nat) (h : slots_satisfy P pool) :
    slots_satisfy P (pool_ensure_open pool index).2 := by
  rcases pool_ensure_open_shape pool index with ⟨e, h1⟩ | ⟨slot, hslot, _, h1⟩
    | ⟨slot, room, hslot, hclosed, hmax, hroom, ⟨e, h1⟩ | ⟨_, _, _, h1⟩⟩
  · rw [h1]
    exact h
  · rw [h1]
    refine slots_satisfy_set P pool _ index (some { slot with last_used := pool.clock }) rfl h ?_
    intro updated hupdated
    rw [← Option.some.inj hupdated]
    exact hP.2.1 index slot pool.clock (h index slot (pool_slot_get pool index slot hslot))
  · rw [h1]
    exact made_room_satisfy P hP pool index room hroom h
  · rw [h1]
    refine slots_satisfy_set P room _ index (some (reopened_slot slot room.clock)) rfl
      (made_room_satisfy P hP pool index room hroom h) ?_
    intro updated hupdated
    rw [← Option.some.inj hupdated]
    exact hP.2.2.1 index slot room.clock (h index slot (pool_slot_get pool index slot hslot))
      hclosed

theorem pool_delegate_satisfy {α : Type} (P : Nat → PoolSlot → Prop)
    (hP : slot_property_stable P) (pool : Pool) (index : Nat)
    (operation : Handle → Except ErrorClass (α × Handle))
    (hoperation : ∀ before result after, operation before = .ok (result, after) →
      handle_moved before after)
    (h : slots_satisfy P pool) :
    slots_satisfy P (pool_delegate pool index operation).2 := by
  have hopened := pool_ensure_open_satisfy P hP pool index h
  rcases pool_delegate_cases pool index operation with ⟨e, h1, _⟩
    | ⟨slot, result, handle, _, hs, ho, h1⟩
  · rw [h1]
    exact hopened
  · rw [h1]
    refine slots_satisfy_set P (pool_ensure_open pool index).2 _ index
      (some { slot with handle := handle, last_used := (pool_ensure_open pool index).2.clock })
      rfl hopened ?_
    intro updated hupdated
    rw [← Option.some.inj hupdated]
    exact hP.2.1 index { slot with handle := handle } _
      (hP.2.2.2 index slot handle (hopened index slot (pool_slot_get _ index slot hs))
        (hoperation slot.handle result handle ho))

theorem handle_read_moved (before : Handle) (length : Nat) (result : List Nat)
    (after : Handle) (h : handle_read before length = .ok (result, after)) :
    handle_moved before after := by
  simp only [handle_read] at h
  split at h
  · exact absurd h (by simp)
  · split at h
    · exact absurd h (by simp)
    · simp only [Except.ok.injEq, Prod.mk.injEq] at h
      rw [← h.2]
      exact ⟨rfl, rfl, rfl, rfl⟩

theorem handle_write_moved (before : Handle) (bytes : List Nat) (result : Nat)
    (after : Handle) (h : handle_write before bytes = .ok (result, after)) :
    handle_moved before after := by
  simp only [handle_write] at h
  split at h
  · exact absurd h (by simp)
  · split at h
    · exact absurd h (by simp)
    · simp only [Except.ok.injEq, Prod.mk.injEq] at h
      rw [← h.2]
      exact ⟨rfl, rfl, rfl, rfl⟩

theorem handle_seek_moved (before : Handle) (offset : Int) (whence : Whence) (result : Nat)
    (after : Handle) (h : handle_seek before offset whence = .ok (result, after)) :
    handle_moved before after := by
  simp only [handle_seek] at h
  split at h
  · exact absurd h (by simp)
  · split at h
    · exact absurd h (by simp)
    · simp only [Except.ok.injEq, Prod.mk.injEq] at h
      rw [← h.2]
      exact ⟨rfl, rfl, rfl, rfl⟩

theorem handle_get_size_moved (before : Handle) (result : Nat) (after : Handle)
    (h : (handle_get_size before).map (fun size => (size, before)) = .ok (result, after)) :
    handle_moved before after := by
  simp only [handle_get_size] at h
  split at h
  · simp [Except.map] at h
  · simp only [Except.map, Except.ok.injEq, Prod.mk.injEq] at h
    rw [← h.2]
    exact ⟨rfl, rfl, rfl, rfl⟩

theorem pool_close_satisfy (P : Nat → PoolSlot → Prop) (hP : slot_property_stable P)
    (pool : Pool) (index : Nat) (h : slots_satisfy P pool) :
    slots_satisfy P (pool_close pool index).2 := by
  rcases pool_close_cases pool index with ⟨_, h1⟩ | ⟨_, _, _, h1⟩ | ⟨_, _, _, _, h1⟩
    | ⟨slot, hslot, hopen, _, h1⟩
  · rw [h1]; exact h
  · rw [h1]; exact h
  · rw [h1]; exact h
  · rw [h1]
    refine slots_satisfy_set P pool _ index (some (evicted_slot slot)) rfl h ?_
    intro updated hupdated
    rw [← Option.some.inj hupdated]
    exact hP.1 index slot (h index slot (pool_slot_get pool index slot hslot)) hopen

theorem pool_remove_satisfy (P : Nat → PoolSlot → Prop) (hP : slot_property_stable P)
    (pool : Pool) (index : Nat) (h : slots_satisfy P pool) :
    slots_satisfy P (pool_remove pool index).2 := by
  rcases pool_remove_cases pool index with ⟨_, h1, _⟩ | ⟨slot, hslot, hclosed, h1⟩
    | ⟨slot, hslot, hopen, _, h1⟩
  · rw [h1]; exact h
  · rw [h1]
    exact slots_satisfy_set P pool _ index none rfl h (fun _ hn => absurd hn (by simp))
  · rw [h1]
    refine slots_satisfy_set P (pool_evict pool index slot) _ index none rfl ?_
      (fun _ hn => absurd hn (by simp))
    refine slots_satisfy_set P pool _ index (some (evicted_slot slot)) rfl h ?_
    intro updated hupdated
    rw [← Option.some.inj hupdated]
    exact hP.1 index slot (h index slot (pool_slot_get pool index slot hslot)) hopen

theorem pool_step_satisfy (P : Nat → PoolSlot → Prop) (hP : slot_property_stable P)
    (pool : Pool) (operation : PoolOperation) (h : slots_satisfy P pool)
    (happend : appends_satisfy P pool.slots.length operation) :
    slots_satisfy P (pool_step pool operation).2 := by
  cases operation with
  | append handle access_mode =>
    cases handle with
    | none => exact h
    | some handle =>
      intro k slot hget
      simp only [pool_step, pool_append, List.get?_eq_getElem?] at hget
      by_cases hk : k < pool.slots.length
      · rw [List.getElem?_append_left hk] at hget
        exact h k slot (by rw [List.get?_eq_getElem?]; exact hget)
      · rw [List.getElem?_append_right (by omega)] at hget
        have hzero : k - pool.slots.length = 0 := by
          by_contra hc
          rw [List.getElem?_eq_none (by simp only [List.length_singleton]; omega)] at hget
          exact absurd hget (by simp)
        rw [hzero] at hget
        simp only [List.getElem?_cons_zero, Option.some.injEq] at hget
        have hkl : k = pool.slots.length := by omega
        rw [hkl, ← hget]
        exact happend
  | ensure_open index => exact pool_ensure_open_satisfy P hP pool index h
  | read index length =>
    exact pool_delegate_satisfy P hP pool index _
      (fun before result after => handle_read_moved before length result after) h
  | write index bytes =>
    exact pool_delegate_satisfy P hP pool index _
      (fun before result after => handle_write_moved before bytes result after) h
  | seek index offset whence =>
    exact pool_delegate_satisfy P hP pool index _
      (fun before result after => handle_seek_moved before offset whence result after) h
  | get_size index =>
    exact pool_delegate_satisfy P hP pool index _
      (fun before result after => handle_get_size_moved before result after) h
  | close index => exact pool_close_satisfy P hP pool index h
  | remove index => exact pool_remove_satisfy P hP pool index h
  | clone => exact h

theorem made_room_static (pool : Pool) (target : Nat) (room : Pool)
    (h : made_room pool target room) :
    room.max_open_handles = pool.max_open_handles
      ∧ room.slots.length = pool.slots.length := by
  rcases h with ⟨_, hr⟩ | ⟨_, victim, chosen, _, _, _, _, _, hr⟩
  · subst hr
    exact ⟨rfl, rfl⟩
  · subst hr
    simp [pool_evict, pool_set]

theorem pool_ensure_open_static (pool : Pool) (index : Nat) :
    (pool_ensure_open pool index).2.max_open_handles = pool.max_open_handles
      ∧ (pool_ensure_open pool index).2.slots.length = pool.slots.length := by
  rcases pool_ensure_open_shape pool index with ⟨e, h1⟩ | ⟨slot, hslot, _, h1⟩
    | ⟨slot, room, hslot, hclosed, hmax, hroom, ⟨e, h1⟩ | ⟨_, _, _, h1⟩⟩
  · rw [h1]
    exact ⟨rfl, rfl⟩
  · rw [h1]
    simp [pool_touch, pool_set]
  · rw [h1]
    exact made_room_static pool index room hroom
  · rw [h1]
    have := made_room_static pool index room hroom
    simp [pool_reopen, pool_set, this]

theorem pool_delegate_static {α : Type} (pool : Pool) (index : Nat)
    (operation : Handle → Except ErrorClass (α × Handle)) :
    (pool_delegate pool index operation).2.max_open_handles = pool.max_open_handles
      ∧ (pool_delegate pool index operation).2.slots.length = pool.slots.length := by
  have := pool_ensure_open_static pool index
  rcases pool_delegate_cases pool index operation with ⟨e, h1, _⟩
    | ⟨slot, result, handle, _, hs, ho, h1⟩
  · rw [h1]
    exact this
  · rw [h1]
    simp [pool_touch, pool_set, this]

theorem pool_step_static (pool : Pool) (operation : PoolOperation) :
    (pool_step pool operation).2.max_open_handles = pool.max_open_handles
      ∧ pool.slots.length ≤ (pool_step pool operation).2.slots.length := by
  cases operation with
  | append handle access_mode =>
    cases handle with
    | none => exact ⟨rfl, Nat.le_refl _⟩
    | some handle => simp [pool_step, pool_append]
  | ensure_open index =>
    exact ⟨(pool_ensure_open_static pool index).1,
      Nat.le_of_eq (pool_ensure_open_static pool index).2.symm⟩
  | read index length =>
    exact ⟨(pool_delegate_static pool index _).1,
      Nat.le_of_eq (pool_delegate_static pool index _).2.symm⟩
  | write index bytes =>
    exact ⟨(pool_delegate_static pool index _).1,
      Nat.le_of_eq (pool_delegate_static pool index _).2.symm⟩
  | seek index offset whence =>
    exact ⟨(pool_delegate_static pool index _).1,
      Nat.le_of_eq (pool_delegate_static pool index _).2.symm⟩
  | get_size index =>
    exact ⟨(pool_delegate_static pool index _).1,
      Nat.le_of_eq (pool_delegate_static pool index _).2.symm⟩
  | close index =>
    rcases pool_close_cases pool index with ⟨_, h1⟩ | ⟨_, _, _, h1⟩ | ⟨_, _, _, _, h1⟩
      | ⟨slot, hslot, hopen, _, h1⟩
    · simp [pool_step, h1]
    · simp [pool_step, h1]
    · simp [pool_step, h1]
    · simp [pool_step, h1, pool_evict, pool_set]
  | remove index =>
    rcases pool_remove_cases pool index with ⟨_, h1, _⟩ | ⟨slot, hslot, hclosed, h1⟩
      | ⟨slot, hslot, hopen, _, h1⟩
    · simp [pool_step, h1]
    · simp [pool_step, h1, pool_set]
    · simp [pool_step, h1, pool_evict, pool_set]
  | clone => exact ⟨rfl, Nat.le_refl _⟩

theorem pool_run_static (operations : List PoolOperation) :
    ∀ pool, (pool_run pool operations).max_open_handles = pool.max_open_handles
      ∧ pool.slots.length ≤ (pool_run pool operations).slots.length := by
  induction operations with
  | nil => intro pool; exact ⟨rfl, Nat.le_refl _⟩
  | cons operation rest ih =>
    intro pool
    have h1 := pool_step_static pool operation
    have h2 := ih (pool_step pool operation).2
    exact ⟨h2.1.trans h1.1, Nat.le_trans h1.2 h2.2⟩

theorem pool_run_satisfy (P : Nat → PoolSlot → Prop) (hP : slot_property_stable P)
    (operations : List PoolOperation) :
    ∀ pool, slots_satisfy P pool →
      (∀ operation ∈ operations, ∀ length, pool.slots.length ≤ length →
        appends_satisfy P length operation) →
      slots_satisfy P (pool_run pool operations) := by
  induction operations with
  | nil => intro pool h _; exact h
  | cons operation rest ih =>
    intro pool h happend
    exact ih (pool_step pool operation).2
      (pool_step_satisfy P hP pool operation h
        (happend operation (List.mem_cons_self _ _) _ (Nat.le_refl _)))
      (fun o ho n hn => happend o (List.mem_cons_of_mem _ ho) n
        (Nat.le_trans (pool_step_static pool operation).2 hn))
theorem slot_serves_reads_stable (reader : Nat) :
    slot_property_stable (slot_serves_reads reader) := by
  refine ⟨?_, ?_, ?_, ?_⟩
  · intro index slot h _
    refine ⟨by simp [evicted_slot], fun hi => ?_⟩
    obtain ⟨h1, h2, h3, _⟩ := h.2 hi
    exact ⟨h1, h2, h3, fun hc => absurd hc (by simp [evicted_slot])⟩
  · intro index slot clock h
    exact h
  · intro index slot clock h _
    refine ⟨by simp [reopened_slot], fun hi => ?_⟩
    obtain ⟨h1, h2, h3, _⟩ := h.2 hi
    exact ⟨h1, h2, h3, fun _ => h3⟩
  · intro index slot handle h hmoved
    obtain ⟨m1, m2, m3, m4⟩ := hmoved
    refine ⟨?_, fun hi => ?_⟩
    · show slot.is_physically_open = true ↔ handle.state = .Open
      rw [m2]
      exact h.1
    · obtain ⟨h1, h2, h3, h4⟩ := h.2 hi
      refine ⟨?_, ?_, h3, ?_⟩
      · show handle.name ≠ none
        rw [m1]; exact h1
      · show handle.opens = true
        rw [m4]; exact h2
      · intro ho
        show read_capable handle.access_mode = true
        rw [m3]; exact h4 ho

theorem open_slots_pos (slots : List (Option PoolSlot)) (h : 0 < open_slots slots) :
    ∃ index slot, slots.get? index = some (some slot) ∧ slot.is_physically_open = true := by
  unfold open_slots at h
  rw [List.countP_pos_iff] at h
  obtain ⟨entry, hmem, hentry⟩ := h
  obtain ⟨index, hindex⟩ := List.get?_of_mem hmem
  cases entry with
  | none => exact absurd hentry (by simp)
  | some slot => exact ⟨index, slot, hindex, hentry⟩

theorem pool_make_room_succeeds (reader : Nat) (pool : Pool) (target : Nat) (slot : PoolSlot)
    (hsound : slots_satisfy (slot_serves_reads reader) pool) (hinv : capacity_invariant pool)
    (hmax : pool.max_open_handles ≠ 0) (hslot : pool_slot pool target = some slot)
    (hclosed : slot.is_physically_open = false) :
    ∃ room, pool_make_room pool target = .ok room := by
  by_cases hfull : pool.current_open_count = pool.max_open_handles
  · unfold pool_make_room
    rw [if_pos hfull]
    cases hv : select_victim pool.slots target with
    | none =>
      exfalso
      obtain ⟨index, other, hget, hopen⟩ := open_slots_pos pool.slots (by
        rw [← hinv.1, hfull]
        exact Nat.pos_of_ne_zero hmax)
      have hne : index ≠ target := by
        intro he
        subst he
        rw [pool_slot_get pool index slot hslot] at hget
        simp only [Option.some.injEq] at hget
        rw [hget] at hclosed
        rw [hclosed] at hopen
        exact absurd hopen (by simp)
      exact select_victim_none pool.slots target hv index other hget ⟨hopen, hne⟩
    | some victim =>
      obtain ⟨_, chosen, hget, hopen, _⟩ := select_victim_some pool.slots target victim hv
      have hchosen : pool_slot pool victim = some chosen := by
        unfold pool_slot
        rw [hget]
      simp only [hchosen]
      rcases close_slot_cases pool victim chosen with ⟨hs, _⟩ | ⟨_, hc⟩
      · have := (hsound victim chosen hget).1.mp hopen
        rw [hs] at this
        exact absurd this (by simp)
      · exact ⟨_, hc⟩
  · exact ⟨pool, by unfold pool_make_room; rw [if_neg hfull]⟩

theorem pool_ensure_open_succeeds (pool : Pool) (index : Nat)
    (hsound : slots_satisfy (slot_serves_reads index) pool) (hinv : capacity_invariant pool)
    (hmax : pool.max_open_handles ≠ 0) (hreg : pool_slot pool index ≠ none) :
    (pool_ensure_open pool index).1 = .ok () := by
  cases hslot : pool_slot pool index with
  | none => exact absurd hslot hreg
  | some slot =>
    have hs := hsound index slot (pool_slot_get pool index slot hslot)
    cases hopen : slot.is_physically_open with
    | true => simp only [pool_ensure_open, hslot, hopen, if_true]
    | false =>
      obtain ⟨room, hroom⟩ :=
        pool_make_room_succeeds index pool index slot hsound hinv hmax hslot hopen
      obtain ⟨hn, ho, _, _⟩ := hs.2 rfl
      have hstate : slot.handle.state = .Closed := by
        cases hst : slot.handle.state with
        | Closed => rfl
        | Open =>
          have := hs.1.mpr hst
          rw [hopen] at this
          exact absurd this (by simp)
      have hneg : ¬ ((slot.offset : Int) < 0) := by omega
      simp [pool_ensure_open, hslot, hopen, hmax, hroom, handle_open, hstate, hn, ho,
        handle_seek, hneg]

theorem pool_delegate_ok {α : Type} (pool : Pool) (index : Nat)
    (operation : Handle → Except ErrorClass (α × Handle)) (slot : PoolSlot) (result : α)
    (handle : Handle) (hok : (pool_ensure_open pool index).1 = .ok ())
    (hslot : pool_slot (pool_ensure_open pool index).2 index = some slot)
    (hoperation : operation slot.handle = .ok (result, handle)) :
    (pool_delegate pool index operation).1 = .ok result := by
  rcases he : pool_ensure_open pool index with ⟨outcome, opened⟩
  rw [he] at hok hslot
  simp only at hok hslot
  subst hok
  simp only [pool_delegate, he, hslot, hoperation]

theorem pool_read_succeeds (pool : Pool) (index length : Nat)
    (hsound : slots_satisfy (slot_serves_reads index) pool) (hinv : capacity_invariant pool)
    (hmax : pool.max_open_handles ≠ 0) (hreg : pool_slot pool index ≠ none) :
    ∃ bytes, (pool_read pool index length).1 = .ok bytes := by
  have hok := pool_ensure_open_succeeds pool index hsound hinv hmax hreg
  have hsound2 := pool_ensure_open_satisfy _ (slot_serves_reads_stable index) pool index hsound
  have hposition := pool_ensure_open_position pool index index
  cases hslot : pool_slot (pool_ensure_open pool index).2 index with
  | none =>
    exfalso
    unfold slot_position at hposition
    rw [hslot] at hposition
    cases hs : pool_slot pool index with
    | none => exact hreg hs
    | some slot =>
      rw [hs] at hposition
      exact absurd hposition (by simp)
  | some slot =>
    have hopen := pool_ensure_open_ok pool index hok slot hslot
    obtain ⟨h1, h2⟩ := hsound2 index slot (pool_slot_get _ index slot hslot)
    have hstate := h1.mp hopen
    obtain ⟨_, _, _, hmode⟩ := h2 rfl
    have hread : handle_read slot.handle length
        = .ok ((slot.handle.data.drop slot.handle.offset).take length,
            { slot.handle with
              offset := slot.handle.offset
                + ((slot.handle.data.drop slot.handle.offset).take length).length }) := by
      simp [handle_read, hstate, hmode hopen]
    exact ⟨_, pool_delegate_ok pool index _ slot _ _ hok hslot hread⟩

theorem pool_slot_of_get (before after : Pool) (index : Nat)
    (h : after.slots.get? index = before.slots.get? index) :
    pool_slot after index = pool_slot before index := by
  unfold pool_slot
  rw [h]

theorem pool_slot_of_entry (pool : Pool) (index : Nat) (slot : PoolSlot)
    (h : pool.slots.get? index = some (some slot)) : pool_slot pool index = some slot := by
  unfold pool_slot
  rw [h]

theorem made_room_full (pool : Pool) (target : Nat) (room : Pool)
    (hroom : made_room pool target room)
    (hfull : pool.current_open_count = pool.max_open_handles) :
    ∃ victim chosen, victim ≠ target ∧ pool_slot pool victim = some chosen
      ∧ chosen.is_physically_open = true
      ∧ (∀ other candidate, pool_slot pool other = some candidate →
          candidate.is_physically_open = true → other ≠ target →
          chosen.last_used < candidate.last_used
            ∨ (chosen.last_used = candidate.last_used ∧ victim ≤ other))
      ∧ room.slots.get? victim = some (some (evicted_slot chosen))
      ∧ ∀ other, other ≠ victim → room.slots.get? other = pool.slots.get? other := by
  rcases hroom with ⟨hne, _⟩ | ⟨_, victim, chosen, hv, hne, hget, hopen, _, hr⟩
  · exact absurd hfull hne
  · subst hr
    obtain ⟨_, chosen2, hget2, _, hmin⟩ := select_victim_some pool.slots target victim hv
    rw [hget] at hget2
    simp only [Option.some.injEq] at hget2
    subst hget2
    refine ⟨victim, chosen, hne, pool_slot_of_entry pool victim chosen hget, hopen, ?_, ?_, ?_⟩
    · intro other candidate hc ho hn
      exact hmin other candidate (pool_slot_get pool other candidate hc) ho hn
    · simp only [pool_evict, pool_set]
      exact get_set_same _ _ _ (get_some_length _ _ _ hget)
    · intro other ho
      simp only [pool_evict, pool_set]
      exact get_set_other _ _ _ _ ho

theorem pool_slot_of_tombstone (pool : Pool) (index : Nat)
    (h : pool.slots.get? index = some none) : pool_slot pool index = none := by
  unfold pool_slot
  rw [h]

theorem pool_ensure_open_missing (pool : Pool) (index : Nat)
    (hn : pool_slot pool index = none) :
    pool_ensure_open pool index = (.error .ArgumentError, pool) := by
  simp only [pool_ensure_open, hn]

theorem pool_delegate_missing {α : Type} (pool : Pool) (index : Nat)
    (operation : Handle → Except ErrorClass (α × Handle))
    (hn : pool_slot pool index = none) :
    pool_delegate pool index operation = (.error .ArgumentError, pool) := by
  simp only [pool_delegate, pool_ensure_open_missing pool index hn]

theorem pool_step_missing (pool : Pool) (operation : PoolOperation) (index : Nat)
    (htarget : pool_target operation = some index) (hn : pool_slot pool index = none) :
    pool_step pool operation = (.error .ArgumentError, pool) := by
  cases operation with
  | append handle access_mode => exact absurd htarget (by simp [pool_target])
  | clone => exact absurd htarget (by simp [pool_target])
  | ensure_open target =>
    simp only [pool_target, Option.some.injEq] at htarget
    subst htarget
    simp only [pool_step, pool_ensure_open_missing pool target hn, Except.map]
  | read target length =>
    simp only [pool_target, Option.some.injEq] at htarget
    subst htarget
    simp only [pool_step, pool_read, pool_delegate_missing pool target _ hn, Except.map]
  | write target bytes =>
    simp only [pool_target, Option.some.injEq] at htarget
    subst htarget
    simp only [pool_step, pool_write, pool_delegate_missing pool target _ hn, Except.map]
  | seek target offset whence =>
    simp only [pool_target, Option.some.injEq] at htarget
    subst htarget
    simp only [pool_step, pool_seek, pool_delegate_missing pool target _ hn, Except.map]
  | get_size target =>
    simp only [pool_target, Option.some.injEq] at htarget
    subst htarget
    simp only [pool_step, pool_get_size, pool_delegate_missing pool target _ hn, Except.map]
  | close target =>
    simp only [pool_target, Option.some.injEq] at htarget
    subst htarget
    simp only [pool_step, pool_close, hn, Except.map]
  | remove target =>
    simp only [pool_target, Option.some.injEq] at htarget
    subst htarget
    simp only [pool_step, pool_remove, pool_close, hn, Except.map]

theorem tombstone_ensure_open (pool : Pool) (target index : Nat)
    (h : pool.slots.get? index = some none) :
    (pool_ensure_open pool target).2.slots.get? index = some none := by
  by_cases hk : index = target
  · subst hk
    rw [pool_ensure_open_missing pool index (pool_slot_of_tombstone pool index h)]
    exact h
  · rcases pool_ensure_open_frame pool target index hk with h1 | ⟨chosen, h1, _⟩
    · rw [h1]; exact h
    · rw [h] at h1
      exact absurd h1 (by simp)

theorem tombstone_delegate {α : Type} (pool : Pool) (target index : Nat)
    (operation : Handle → Except ErrorClass (α × Handle))
    (h : pool.slots.get? index = some none) :
    (pool_delegate pool target operation).2.slots.get? index = some none := by
  by_cases hk : index = target
  · subst hk
    rw [pool_delegate_missing pool index _ (pool_slot_of_tombstone pool index h)]
    exact h
  · rw [pool_delegate_frame pool target index operation hk]
    exact tombstone_ensure_open pool target index h

theorem tombstone_step (pool : Pool) (operation : PoolOperation) (index : Nat)
    (h : pool.slots.get? index = some none) :
    (pool_step pool operation).2.slots.get? index = some none := by
  have hn := pool_slot_of_tombstone pool index h
  cases operation with
  | append handle access_mode =>
    cases handle with
    | none => exact h
    | some handle =>
      simp only [pool_step, pool_append, List.get?_eq_getElem?]
      rw [List.getElem?_append_left (get_some_length _ _ _ h)]
      rw [← List.get?_eq_getElem?]
      exact h
  | clone => exact h
  | ensure_open target => exact tombstone_ensure_open pool target index h
  | read target length => exact tombstone_delegate pool target index _ h
  | write target bytes => exact tombstone_delegate pool target index _ h
  | seek target offset whence => exact tombstone_delegate pool target index _ h
  | get_size target => exact tombstone_delegate pool target index _ h
  | close target =>
    rcases pool_close_cases pool target with ⟨_, h1⟩ | ⟨_, _, _, h1⟩ | ⟨_, _, _, _, h1⟩
      | ⟨slot, hslot, _, _, h1⟩
    · simp only [pool_step, h1]; exact h
    · simp only [pool_step, h1]; exact h
    · simp only [pool_step, h1]; exact h
    · have hk : index ≠ target := by
        intro hk
        subst hk
        rw [hn] at hslot
        exact absurd hslot (by simp)
      simp only [pool_step, h1, pool_evict, pool_set]
      rw [get_set_other _ _ _ _ hk]
      exact h
  | remove target =>
    rcases pool_remove_cases pool target with ⟨_, h1, _⟩ | ⟨slot, hslot, _, h1⟩
      | ⟨slot, hslot, _, _, h1⟩
    · simp only [pool_step, h1]; exact h
    · have hk : index ≠ target := by
        intro hk
        subst hk
        rw [hn] at hslot
        exact absurd hslot (by simp)
      simp only [pool_step, h1, pool_set]
      rw [get_set_other _ _ _ _ hk]
      exact h
    · have hk : index ≠ target := by
        intro hk
        subst hk
        rw [hn] at hslot
        exact absurd hslot (by simp)
      simp only [pool_step, h1, pool_evict, pool_set]
      rw [get_set_other _ _ _ _ hk, get_set_other _ _ _ _ hk]
      exact h

theorem tombstone_run (operations : List PoolOperation) (index : Nat) :
    ∀ pool, pool.slots.get? index = some none →
      (pool_run pool operations).slots.get? index = some none := by
  induction operations with
  | nil => intro pool h; exact h
  | cons operation rest ih =>
    intro pool h
    exact ih (pool_step pool operation).2 (tombstone_step pool operation index h)

theorem tombstone_of_remove (pool : Pool) (index : Nat)
    (h : (pool_remove pool index).1 = .ok ()) :
    (pool_remove pool index).2.slots.get? index = some none := by
  rcases pool_remove_cases pool index with ⟨_, h1, _⟩ | ⟨slot, hslot, _, h1⟩
    | ⟨slot, hslot, _, _, h1⟩
  · rw [h1] at h
    exact absurd h (by simp)
  · rw [h1]
    simp only [pool_set]
    exact get_set_same _ _ _ (pool_slot_length pool index slot hslot)
  · rw [h1]
    simp only [pool_evict, pool_set]
    refine get_set_same _ _ _ ?_
    rw [List.length_set]
    exact pool_slot_length pool index slot hslot

/-- C27: the capacity invariant of the pool holds after every operation. A new pool has
it; and for a pool that has it, after any sequence of operations (append, ensure_open,
read, write, seek, get_size, close, remove, clone, successful or not) and one more
operation, `current_open_count` equals the number of slots marked physically open and
is at most `max_open_handles`, in the pool and in the pool a clone returns. -/
theorem pool_capacity_invariant (pool : Pool) (operations : List PoolOperation)
    (operation : PoolOperation) (h : capacity_invariant pool) :
    capacity_invariant (pool_step (pool_run pool operations) operation).2
      ∧ capacity_invariant (pool_clone (pool_run pool operations))
      ∧ ∀ max_open_handles, capacity_invariant ( pool_initialize max_open_handles) :=
  ⟨pool_step_capacity _ operation (pool_run_capacity operations pool h),
    pool_clone_capacity _,
    fun _ => ⟨rfl, Nat.zero_le _⟩⟩

theorem pool_capacity_invariant_witness :
    capacity_invariant two_slot_pool
      ∧ (pool_run two_slot_pool [.read 0 2, .read 1 2]).current_open_count = 1
      ∧ capacity_invariant
          (pool_step (pool_run two_slot_pool [.read 0 2, .read 1 2]) (.read 0 2)).2
      ∧ capacity_invariant (pool_clone (pool_run two_slot_pool [.read 0 2, .read 1 2]))
      ∧ ∀ max_open_handles, capacity_invariant ( pool_initialize max_open_handles) :=
  ⟨⟨rfl, by decide⟩, by decide,
    pool_capacity_invariant two_slot_pool [.read 0 2, .read 1 2] (.read 0 2)
      ⟨rfl, by decide⟩⟩

/-- C28: eviction does not move the position of a slot. Let the slot at `index` be at
the logical offset `offset` over the bytes `data`, as after a read on it. After any
sequence of operations that do not read, write, seek or remove that slot, whatever
they close and open again, the slot is still at that offset; a read of `length` bytes
on it that succeeds returns the bytes from `offset` on and leaves the slot behind them;
and the read succeeds when the pool has room for a handle, holds the capacity invariant,
marks its slots open exactly when their handles are Open, the slot can be opened for
reading, and the handles appended meanwhile are Closed. -/
theorem eviction_transparent (pool : Pool) (operations : List PoolOperation)
    (index length offset : Nat) (data : List Nat)
    (hview : slot_position pool index = some (offset, data))
    (hkeeps : ∀ operation ∈ operations, keeps_position operation index) :
    slot_position (pool_run pool operations) index = some (offset, data)
      ∧ (∀ bytes, (pool_read (pool_run pool operations) index length).1 = .ok bytes →
          bytes = (data.drop offset).take length
            ∧ slot_position (pool_read (pool_run pool operations) index length).2 index
              = some (offset + bytes.length, data))
      ∧ (pool.max_open_handles ≠ 0 → capacity_invariant pool →
          slots_satisfy (slot_serves_reads index) pool →
          (∀ handle access_mode, .append (some handle) access_mode ∈ operations →
            handle.state = .Closed) →
          ∃ bytes, (pool_read (pool_run pool operations) index length).1 = .ok bytes) := by
  have hrun := pool_run_position operations index (offset, data) pool hview hkeeps
  refine ⟨hrun, (pool_read_position _ index length offset data hrun).2, ?_⟩
  intro hmax hinv hsound happend
  have hlt : index < pool.slots.length := by
    cases hs : pool_slot pool index with
    | none => exact absurd hs (slot_position_registered pool index _ hview)
    | some slot => exact pool_slot_length pool index slot hs
  refine pool_read_succeeds _ index length ?_ (pool_run_capacity operations pool hinv) ?_
    (slot_position_registered _ index _ hrun)
  · refine pool_run_satisfy _ (slot_serves_reads_stable index) operations pool hsound ?_
    intro operation hmem n hn
    cases operation with
    | append handle access_mode =>
      cases handle with
      | none => trivial
      | some handle =>
        have hclosed := happend handle access_mode hmem
        refine ⟨?_, fun hi => ?_⟩
        · simp [appended_slot, hclosed]
        · omega
    | ensure_open _ => trivial
    | read _ _ => trivial
    | write _ _ => trivial
    | seek _ _ _ => trivial
    | get_size _ => trivial
    | close _ => trivial
    | remove _ => trivial
    | clone => trivial
  · rw [(pool_run_static operations pool).1]
    exact hmax

theorem eviction_transparent_witness :
    slot_position (pool_read two_slot_pool 0 2).2 0 = some (2, [1, 2, 3, 4])
      ∧ (pool_slot (pool_run (pool_read two_slot_pool 0 2).2 [.read 1 2, .get_size 1]) 0).map
          (fun slot => slot.is_physically_open) = some false
      ∧ (pool_read (pool_run (pool_read two_slot_pool 0 2).2 [.read 1 2, .get_size 1]) 0 2).1
          = .ok [3, 4]
      ∧ slot_position (pool_run (pool_read two_slot_pool 0 2).2 [.read 1 2, .get_size 1]) 0
          = some (2, [1, 2, 3, 4])
      ∧ (∀ bytes,
          (pool_read (pool_run (pool_read two_slot_pool 0 2).2 [.read 1 2, .get_size 1]) 0 2).1
              = .ok bytes →
            bytes = ([1, 2, 3, 4].drop 2).take 2
              ∧ slot_position
                  (pool_read (pool_run (pool_read two_slot_pool 0 2).2
                    [.read 1 2, .get_size 1]) 0 2).2 0
                = some (2 + bytes.length, [1, 2, 3, 4]))
      ∧ ((pool_read two_slot_pool 0 2).2.max_open_handles ≠ 0 →
          capacity_invariant (pool_read two_slot_pool 0 2).2 →
          slots_satisfy (slot_serves_reads 0) (pool_read two_slot_pool 0 2).2 →
          (∀ handle access_mode,
            PoolOperation.append (some handle) access_mode
                ∈ [PoolOperation.read 1 2, PoolOperation.get_size 1] →
              handle.state = .Closed) →
          ∃ bytes,
            (pool_read (pool_run (pool_read two_slot_pool 0 2).2 [.read 1 2, .get_size 1])
              0 2).1 = .ok bytes) :=
  ⟨by decide, by decide, rfl,
    eviction_transparent (pool_read two_slot_pool 0 2).2 [.read 1 2, .get_size 1] 0 2 2
      [1, 2, 3, 4] (by decide)
      (by
        intro operation hmem
        simp only [List.mem_cons, List.mem_singleton, List.not_mem_nil, or_false] at hmem
        rcases hmem with h | h
        · subst h; exact (by decide : (1 : Nat) ≠ 0)
        · subst h; trivial)⟩

/-- C29: eviction is least recently used with the lowest index on ties. When
`ensure_open` is called for a registered slot that is not physically open while the pool
is at its capacity, it either fails and leaves the pool as it is, or it has closed one
slot: a physically open slot other than the target whose recency marker is the
smallest among those slots and whose index is the lowest among the ones with that
marker; the slot closed holds the offset of its handle, and no slot other than it and
the target is changed. The call succeeds when the pool has room for a handle, holds the
capacity invariant, marks its slots open exactly when their handles are Open, and the
target can be opened. -/
theorem eviction_least_recently_used (pool : Pool) (target : Nat) (slot : PoolSlot)
    (hslot : pool_slot pool target = some slot) (hclosed : slot.is_physically_open = false)
    (hfull : pool.current_open_count = pool.max_open_handles) :
    (((∃ e, (pool_ensure_open pool target).1 = .error e)
          ∧ (pool_ensure_open pool target).2 = pool)
        ∨ ∃ victim chosen, victim ≠ target ∧ pool_slot pool victim = some chosen
            ∧ chosen.is_physically_open = true
            ∧ (∀ other candidate, pool_slot pool other = some candidate →
                candidate.is_physically_open = true → other ≠ target →
                chosen.last_used < candidate.last_used
                  ∨ (chosen.last_used = candidate.last_used ∧ victim ≤ other))
            ∧ pool_slot (pool_ensure_open pool target).2 victim = some (evicted_slot chosen)
            ∧ ∀ other, other ≠ victim → other ≠ target →
                pool_slot (pool_ensure_open pool target).2 other = pool_slot pool other)
      ∧ (pool.max_open_handles ≠ 0 → capacity_invariant pool →
          slots_satisfy (slot_serves_reads target) pool →
          (pool_ensure_open pool target).1 = .ok ()) := by
  refine ⟨?_, fun hmax hinv hsound =>
    pool_ensure_open_succeeds pool target hsound hinv hmax (by rw [hslot]; simp)⟩
  rcases pool_ensure_open_shape pool target with ⟨e, h⟩ | ⟨old, hold, hopen, h⟩
    | ⟨old, room, hold, _, _, hroom, h⟩
  · left
    rw [h]
    exact ⟨⟨e, rfl⟩, rfl⟩
  · rw [hslot] at hold
    rw [← Option.some.inj hold, hclosed] at hopen
    exact absurd hopen (by simp)
  · right
    obtain ⟨victim, chosen, hne, hchosen, hopen, hmin, hvictim, hothers⟩ :=
      made_room_full pool target room hroom hfull
    refine ⟨victim, chosen, hne, hchosen, hopen, hmin, ?_, ?_⟩
    · rcases h with ⟨e, h⟩ | ⟨_, _, _, h⟩
      · rw [h]
        exact pool_slot_of_entry room victim _ hvictim
      · rw [h]
        refine pool_slot_of_entry _ victim _ ?_
        simp only [pool_reopen, pool_set]
        rw [get_set_other _ _ _ _ hne]
        exact hvictim
    · intro other hov hot
      rcases h with ⟨e, h⟩ | ⟨_, _, _, h⟩
      · rw [h]
        exact pool_slot_of_get pool room other (hothers other hov)
      · rw [h]
        refine pool_slot_of_get pool _ other ?_
        simp only [pool_reopen, pool_set]
        rw [get_set_other _ _ _ _ hot]
        exact hothers other hov

theorem eviction_least_recently_used_witness :
    pool_slot tied_pool 2 = some (appended_slot (stored_handle [3]) LIBBFIO_OPEN_READ)
      ∧ (pool_slot tied_pool 0).map (fun slot => slot.last_used) = some 5
      ∧ (pool_slot tied_pool 1).map (fun slot => slot.last_used) = some 5
      ∧ (pool_ensure_open tied_pool 2).1 = .ok ()
      ∧ (pool_ensure_open tied_pool 2).2.slots.map
          (Option.map (fun slot => slot.is_physically_open))
          = [some false, some true, some true]
      ∧ (((∃ e, (pool_ensure_open tied_pool 2).1 = .error e)
            ∧ (pool_ensure_open tied_pool 2).2 = tied_pool)
          ∨ ∃ victim chosen, victim ≠ 2 ∧ pool_slot tied_pool victim = some chosen
              ∧ chosen.is_physically_open = true
              ∧ (∀ other candidate, pool_slot tied_pool other = some candidate →
                  candidate.is_physically_open = true → other ≠ 2 →
                  chosen.last_used < candidate.last_used
                    ∨ (chosen.last_used = candidate.last_used ∧ victim ≤ other))
              ∧ pool_slot (pool_ensure_open tied_pool 2).2 victim
                  = some (evicted_slot chosen)
              ∧ ∀ other, other ≠ victim → other ≠ 2 →
                  pool_slot (pool_ensure_open tied_pool 2).2 other
                    = pool_slot tied_pool other)
      ∧ (tied_pool.max_open_handles ≠ 0 → capacity_invariant tied_pool →
          slots_satisfy (slot_serves_reads 2) tied_pool →
          (pool_ensure_open tied_pool 2).1 = .ok ()) :=
  ⟨by decide, by decide, by decide, rfl, by decide,
    eviction_least_recently_used tied_pool 2
      (appended_slot (stored_handle [3]) LIBBFIO_OPEN_READ) (by decide) rfl rfl⟩

/-- C30: an index that was removed stays refused. After a successful `remove(index)` and
any sequence of later operations, every operation addressed to that index (ensure_open,
read, write, seek, get_size, close, remove) fails with ArgumentError and leaves the pool
as it is, and no `append` returns the index. -/
theorem removed_index_rejected (pool : Pool) (index : Nat) (operations : List PoolOperation)
    (operation : PoolOperation) (hremove : (pool_remove pool index).1 = .ok ()) :
    (pool_target operation = some index →
        pool_step (pool_run (pool_remove pool index).2 operations) operation
          = (.error .ArgumentError, pool_run (pool_remove pool index).2 operations))
      ∧ ∀ handle access_mode,
          (pool_append (pool_run (pool_remove pool index).2 operations) handle access_mode).1
            ≠ .ok index := by
  have htomb := tombstone_run operations index _ (tombstone_of_remove pool index hremove)
  refine ⟨fun htarget => pool_step_missing _ operation index htarget
    (pool_slot_of_tombstone _ index htomb), ?_⟩
  intro handle access_mode
  have hlt := get_some_length _ _ _ htomb
  cases handle with
  | none => simp [pool_append]
  | some handle =>
    simp only [pool_append, ne_eq, Except.ok.injEq]
    omega

theorem removed_index_rejected_witness :
    (pool_remove two_slot_pool 0).1 = .ok ()
      ∧ (pool_append
          (pool_run (pool_remove two_slot_pool 0).2
            [.append (some (stored_handle [7])) LIBBFIO_OPEN_READ, .read 1 1])
          (some (stored_handle [8])) LIBBFIO_OPEN_READ).1 = .ok 3
      ∧ (pool_target (.read 0 1) = some 0 →
          pool_step
              (pool_run (pool_remove two_slot_pool 0).2
                [.append (some (stored_handle [7])) LIBBFIO_OPEN_READ, .read 1 1])
              (.read 0 1)
            = (.error .ArgumentError,
                pool_run (pool_remove two_slot_pool 0).2
                  [.append (some (stored_handle [7])) LIBBFIO_OPEN_READ, .read 1 1]))
      ∧ ∀ handle access_mode,
          (pool_append
              (pool_run (pool_remove two_slot_pool 0).2
                [.append (some (stored_handle [7])) LIBBFIO_OPEN_READ, .read 1 1])
              handle access_mode).1
            ≠ .ok 0 :=
  ⟨rfl, rfl,
    removed_index_rejected two_slot_pool 0
      [.append (some (stored_handle [7])) LIBBFIO_OPEN_READ, .read 1 1] (.read 0 1) rfl⟩

theorem file_range_read_value (range : FileRange) (length : Nat)
    (hopen : range.state = .Open) (hbacking : range.backing.state = .Open)
    (hmode : read_capable range.backing.access_mode = true) :
    file_range_read range length
      = .ok (((range.backing.data.drop (range.range_start + range.offset)).take
            (min length (range.range_size - range.offset))),
          { range with
            backing :=
              { range.backing with
                offset := range.range_start + range.offset
                  + ((range.backing.data.drop (range.range_start + range.offset)).take
                      (min length (range.range_size - range.offset))).length }
            offset := range.offset
              + ((range.backing.data.drop (range.range_start + range.offset)).take
                  (min length (range.range_size - range.offset))).length }) := by
  have hneg : ¬ ((0 : Int) + ((range.range_start + range.offset : Nat) : Int) < 0) := by omega
  have hnat : ((0 : Int) + ((range.range_start + range.offset : Nat) : Int)).toNat
      = range.range_start + range.offset := by omega
  simp only [file_range_read, hopen, handle_seek, hbacking, reduceCtorEq, if_false, hneg, hnat,
    handle_read, hmode, Bool.true_eq_false]

theorem backing_read_value (handle : Handle) (offset length : Nat)
    (hstate : handle.state = .Open) (hmode : read_capable handle.access_mode = true) :
    handle_read { handle with offset := offset } length
      = .ok ((handle.data.drop offset).take length,
          { handle with offset := offset + ((handle.data.drop offset).take length).length }) := by
  simp only [handle_read, hstate, reduceCtorEq, if_false, hmode, Bool.true_eq_false]

/-- C31: a FileRange translates offsets. For every Open FileRange with `range_start` r,
`range_size` n and logical offset o over an Open backing handle that can be read, a read
of `length` bytes succeeds and returns what a read of `length` bytes of the backing
handle at the offset r + o returns, cut at the end of the range: all of it when it ends
inside the range, its first n - o bytes otherwise. Every byte returned is the byte of the
backing store at r + o + i for an index r + o + i below r + n, a read at o >= n returns
no bytes, and the logical offset moves past the bytes returned. -/
theorem file_range_offset_translation (range : FileRange) (length : Nat)
    (hopen : range.state = .Open) (hbacking : range.backing.state = .Open)
    (hmode : read_capable range.backing.access_mode = true) :
    ∃ bytes backing_bytes after moved,
      file_range_read range length = .ok (bytes, after)
      ∧ handle_read { range.backing with offset := range.range_start + range.offset } length
          = .ok (backing_bytes, moved)
      ∧ bytes = backing_bytes.take (range.range_size - range.offset)
      ∧ (length ≤ range.range_size - range.offset → bytes = backing_bytes)
      ∧ (∀ i, i < bytes.length →
          bytes.get? i = range.backing.data.get? (range.range_start + range.offset + i)
            ∧ range.range_start + range.offset + i < range.range_start + range.range_size)
      ∧ (range.range_size ≤ range.offset → bytes = [])
      ∧ after.offset = range.offset + bytes.length := by
  refine ⟨_, _, _, _, file_range_read_value range length hopen hbacking hmode,
    backing_read_value range.backing _ length hbacking hmode, ?_, ?_, ?_, ?_, rfl⟩
  · rw [List.take_take, Nat.min_comm]
  · intro hle
    rw [Nat.min_eq_left hle]
  · intro i hi
    have hlt : i < min length (range.range_size - range.offset) := by
      rw [List.length_take] at hi
      omega
    refine ⟨?_, by omega⟩
    rw [List.get?_eq_getElem?, List.get?_eq_getElem?, List.getElem?_take_of_lt hlt,
      List.getElem?_drop]
  · intro hle
    have : range.range_size - range.offset = 0 := by omega
    rw [this, Nat.min_zero, List.take_zero]

theorem file_range_offset_translation_witness :
    (file_range_read sample_range 10).map Prod.fst = .ok [3, 4, 5]
      ∧ ∃ bytes backing_bytes after moved,
        file_range_read sample_range 10 = .ok (bytes, after)
        ∧ handle_read
            { sample_range.backing with
              offset := sample_range.range_start + sample_range.offset } 10
          = .ok (backing_bytes, moved)
        ∧ bytes = backing_bytes.take (sample_range.range_size - sample_range.offset)
        ∧ (10 ≤ sample_range.range_size - sample_range.offset → bytes = backing_bytes)
        ∧ (∀ i, i < bytes.length →
            bytes.get? i
                = sample_range.backing.data.get?
                  (sample_range.range_start + sample_range.offset + i)
              ∧ sample_range.range_start + sample_range.offset + i
                < sample_range.range_start + sample_range.range_size)
        ∧ (sample_range.range_size ≤ sample_range.offset → bytes = [])
        ∧ after.offset = sample_range.offset + bytes.length :=
  ⟨rfl, file_range_offset_translation sample_range 10 rfl rfl rfl⟩

theorem posix_absolute_fixed_point (sys : System) (path : List Char) (size0 : Nat)
    (habs : path.head? = some '/') (hmax : path.length < SSIZE_MAX) (hn : NUL ∉ path)
    (hseg : ∀ s ∈ path.splitOn '/', s ≠ ['.'] ∧ s ≠ ['.', '.'])
    (ha : sys.allocate (path.length + 1) = true) :
    (posix_libbfio_path_get_full_path sys (some path) (some none) (some size0)).value = 1
    ∧ (posix_libbfio_path_get_full_path sys (some path) (some none) (some size0)).string
        = some path
    ∧ (posix_libbfio_path_get_full_path sys (some path) (some none) (some size0)).full_path_size
        = some (path.length + 1) := by
  have hp : path ≠ [] := by
    intro h
    simp [h] at habs
  rw [posix_full_path_of_body sys path size0 hp hmax, posix_body_absolute sys path habs]
  obtain ⟨st1, h1, h2, h3, h4⟩ := resolve_range_plain (path.splitOn '/')
    (fun s hs => (hseg s hs).2) []
    { current_directory_split_string := none
      path_split_string := some ((path.splitOn '/').map some)
      full_path_size := 0
      current_directory_segment_index := 0
      last_used_path_segment_index := 0 } (by simp)
  have hfold : resolve_segments
      { current_directory_split_string := none
        path_split_string := some ((path.splitOn '/').map some)
        full_path_size := 0
        current_directory_segment_index := 0
        last_used_path_segment_index := 0 } (path.splitOn '/').length = .ok st1 := by
    simpa [resolve_segments, List.range_eq_range'] using h1
  have hsize : st1.full_path_size = path.length + 1 := by
    rw [h4, plain_size_eq _ (fun s hs => (hseg s hs).1) 0 (by decide),
      ← length_flatten_separated '/', flatten_splitOn]
    simp only [Nat.zero_add, List.length_append, List.length_singleton]
    apply Nat.mod_eq_of_lt
    have : SSIZE_MAX < SIZE_MODULUS - 1 := by decide
    omega
  have hfilter : (path.splitOn '/').filter (fun s => s ≠ ['.', '.'] ∧ s ≠ ['.'])
      = path.splitOn '/' := by
    rw [List.filter_eq_self]
    intro s hs
    simp [(hseg s hs).1, (hseg s hs).2]
  have hstored : posix_rebuild true st1 = path ++ [NUL] := by
    simp only [posix_rebuild, h2, h3, Option.getD_some, List.nil_append]
    rw [append_segments_eq, retained_map_kept, hfilter, flatten_splitOn, List.nil_append,
      terminate_concat]
  simp only [hfold, hsize, ha, Bool.true_eq_false, if_false, hstored]
  exact ⟨trivial, string_stored _ _ _ _ _ hn (Nat.le_refl _), trivial⟩

theorem c_string_terminated (bytes : List Char) : NUL ∉ c_string bytes := by
  intro h
  have := List.mem_takeWhile_imp h
  simp at this

/-- C34: resolution is idempotent in the POSIX variant. When the call succeeds on a path
in a working directory without "." and ".." segments (as the operating system reports
it) and the string returned, `result`, begins with '/', a second call on `result`, in
any state of the process in which the `result.length + 1` bytes can be allocated,
returns 1 with the string `result` and the size `result.length + 1`. The strings hold no
NUL and `result` is short enough to be passed as a path. -/
theorem posix_resolution_idempotent (first second : System) (path result : List Char)
    (size0 size1 : Nat)
    (hpn : NUL ∉ path) (hwn : NUL ∉ first.working_directory)
    (hwd : ∀ s ∈ first.working_directory.splitOn '/', s ≠ ['.'] ∧ s ≠ ['.', '.'])
    (hvalue : (posix_libbfio_path_get_full_path first (some path) (some none)
      (some size0)).value = 1)
    (hresult : (posix_libbfio_path_get_full_path first (some path) (some none)
      (some size0)).string = some result)
    (hroot : result.head? = some '/')
    (hmax : result.length < SSIZE_MAX)
    (ha : second.allocate (result.length + 1) = true) :
    (posix_libbfio_path_get_full_path second (some result) (some none) (some size1)).value = 1
      ∧ (posix_libbfio_path_get_full_path second (some result) (some none)
          (some size1)).string = some result
      ∧ (posix_libbfio_path_get_full_path second (some result) (some none)
          (some size1)).full_path_size = some (result.length + 1) := by
  obtain ⟨bytes, _, _, hbytes⟩ := string_read _ result hresult
  have hn : NUL ∉ result := by
    rw [hbytes]
    exact c_string_terminated bytes
  refine posix_absolute_fixed_point second result size1 hroot hmax hn ?_ ha
  intro s hs
  rcases posix_segments_of_result first path size0 hvalue hpn hwn result hresult s hs
    with h1 | h1 | h1
  · subst h1
    simp
  · exact hwd s h1
  · exact ⟨h1.2.2, h1.2.1⟩

theorem posix_resolution_idempotent_witness :
    (posix_libbfio_path_get_full_path (unix_system "/a/b".toList) (some "./x/../y".toList)
        (some none) (some 0)).string = some "/a/b/x/y".toList
      ∧ (posix_libbfio_path_get_full_path (unix_system "/tmp".toList)
          (some "/a/b/x/y".toList) (some none) (some 0)).value = 1
      ∧ (posix_libbfio_path_get_full_path (unix_system "/tmp".toList)
          (some "/a/b/x/y".toList) (some none) (some 0)).string = some "/a/b/x/y".toList
      ∧ (posix_libbfio_path_get_full_path (unix_system "/tmp".toList)
          (some "/a/b/x/y".toList) (some none) (some 0)).full_path_size = some 9 :=
  ⟨by decide,
    posix_resolution_idempotent (unix_system "/a/b".toList) (unix_system "/tmp".toList)
      "./x/../y".toList "/a/b/x/y".toList 0 0 (by decide) (by decide) (by decide) (by decide)
      (by decide) (by decide) (by decide) rfl⟩

/-- C32, the code at failing inputs: the rebuild stores bytes outside the buffer. For the
absolute path "/x/../y" the POSIX variant allocates 3 bytes and stores the 5 bytes of
"/x/y" and its terminator, at the indexes 0 to 4; for "C:\x\..\y" with `C:\w` as the
directory of drive C the WINAPI variant allocates 9 bytes and stores 11; and for "../.."
in the working directory "/a" the POSIX variant stores no segment at all, so that
`full_path_index` is 0 when the terminator is written at `full_path_index - 1`, and no
byte of the buffer is set. All three calls return 1. -/
theorem rebuild_overruns_buffer :
    posix_libbfio_path_get_full_path (unix_system "/a/b".toList) (some "/x/../y".toList)
        (some none) (some 0)
      = ⟨1, some (some ("/x/y".toList ++ [NUL])), some 3, [], "/a/b".toList⟩
    ∧ ("/x/y".toList ++ [NUL]).length = 5
    ∧ (windows_libbfio_path_get_full_path
        (windows_system "D:\\a".toList "C:".toList "C:\\w".toList) .WINAPI
        (some "C:\\x\\..\\y".toList) (some none) (some 0))
      = ⟨1, some (some ("\\\\?\\C:\\x\\y".toList ++ [NUL])), some 9, [], "D:\\a".toList⟩
    ∧ ("\\\\?\\C:\\x\\y".toList ++ [NUL]).length = 11
    ∧ posix_libbfio_path_get_full_path (unix_system "/a".toList) (some "../..".toList)
        (some none) (some 0)
      = ⟨1, some (some []), some 4093, [], "/a".toList⟩ := by
  decide

/-- C33, the code at failing inputs: the size wraps at a ".." segment. For the absolute
path "/a/../b/../.." the POSIX variant reaches the last ".." with a `*full_path_size` of
1 and the segment "a" as the last used one, subtracts its size 2, and passes the size
2^64 - 1 to the allocation. For "C:\..\x" with `C:\longdirectory` as the directory of
drive C the WINAPI variant subtracts the 14 bytes of that directory's segment from a
size of 7 and passes 2^64 - 5 to the allocation; for "C:\..\yyyyyyyyyyyyyy" the wrapped
size comes back to 8 and the 22 bytes of the result are stored in 8 allocated bytes. -/
theorem size_wraps_at_parent_segment :
    ((resolve_segments
        ⟨none, libbfio_narrow_string_split "/a/../b/../..".toList 14 '/', 0, 0, 0⟩
        5).toOption.map
      (fun st => (st.full_path_size, st.last_used_path_segment_index,
        get_segment_by_index st.path_split_string st.last_used_path_segment_index)))
      = some (1, 1, some (some ['a']))
    ∧ size_sub 1 2 = 18446744073709551615
    ∧ posix_libbfio_path_get_full_path (unix_system "/w".toList)
        (some "/a/../b/../..".toList) (some none) (some 0)
      = ⟨1, some (some ("/a/b".toList ++ [NUL])), some 18446744073709551615, [],
          "/w".toList⟩
    ∧ (windows_libbfio_path_get_full_path
        (windows_system "D:\\a".toList "C:".toList "C:\\longdirectory".toList) .WINAPI
        (some "C:\\..\\x".toList) (some none) (some 0))
      = ⟨1, some (some ("\\\\?\\C:\\x".toList ++ [NUL])), some 18446744073709551611, [],
          "D:\\a".toList⟩
    ∧ (windows_libbfio_path_get_full_path
        (windows_system "D:\\a".toList "C:".toList "C:\\longdirectory".toList) .WINAPI
        (some "C:\\..\\yyyyyyyyyyyyyy".toList) (some none) (some 0))
      = ⟨1, some (some ("\\\\?\\C:\\yyyyyyyyyyyyyy".toList ++ [NUL])), some 8, [],
          "D:\\a".toList⟩ := by
  decide

/-- C35, the code at failing inputs: a leading "./" changes the result. In the working
directory "/a/b" the POSIX variant returns "/a/x" for "x/.." and "/a/b/x" for "./x/..",
and "/a/x/y" for "x/../y" and "/a/b/x/y" for "./x/../y". -/
theorem leading_self_segment_not_neutral :
    (posix_libbfio_path_get_full_path (unix_system "/a/b".toList) (some "x/..".toList)
        (some none) (some 0)).string = some "/a/x".toList
    ∧ (posix_libbfio_path_get_full_path (unix_system "/a/b".toList) (some "./x/..".toList)
        (some none) (some 0)).string = some "/a/b/x".toList
    ∧ (posix_libbfio_path_get_full_path (unix_system "/a/b".toList) (some "x/../y".toList)
        (some none) (some 0)).string = some "/a/x/y".toList
    ∧ (posix_libbfio_path_get_full_path (unix_system "/a/b".toList)
        (some "./x/../y".toList) (some none) (some 0)).string = some "/a/b/x/y".toList
    ∧ (posix_libbfio_path_get_full_path (unix_system "/a/b".toList) (some "x/..".toList)
        (some none) (some 0)).value = 1
    ∧ (posix_libbfio_path_get_full_path (unix_system "/a/b".toList) (some "./x/..".toList)
        (some none) (some 0)).value = 1 := by
  decide

/-- C37, the code at failing inputs: a rooted path without a volume is resolved like a
relative path. In the working directory `C:\d1\d2` the WINAPI variant returns
`\\?\C:\d1\d2\\s1\s2` for `\s1\s2`: the segments of the working directory are kept, and
the empty segment before the leading separator of the path puts a second separator
after them. In the working directory `C:\` the result for `\x` is `\\?\C:\\x`. -/
theorem windows_rooted_path_resolved_as_relative :
    (windows_libbfio_path_get_full_path
        (windows_system "C:\\d1\\d2".toList "C:".toList "C:\\d1\\d2".toList) .WINAPI
        (some "\\s1\\s2".toList) (some none) (some 0)).value = 1
    ∧ (windows_libbfio_path_get_full_path
        (windows_system "C:\\d1\\d2".toList "C:".toList "C:\\d1\\d2".toList) .WINAPI
        (some "\\s1\\s2".toList) (some none) (some 0)).string
      = some "\\\\?\\C:\\d1\\d2\\\\s1\\s2".toList
    ∧ (windows_libbfio_path_get_full_path
        (windows_system "C:\\".toList "C:".toList "C:\\".toList) .WINAPI
        (some "\\x".toList) (some none) (some 0)).string
      = some "\\\\?\\C:\\\\x".toList
    ∧ windows_inspect_path "\\s1\\s2".toList = .ok ⟨.RELATIVE, none, 0, 0, 0, 0⟩ :=
  ⟨by decide, by decide, by decide, rfl⟩

end Libbfio
